import Mathlib

/-!
# Ice-type classification (CHILL, CHILL+) and the largest ice cluster

A shallow embedding of `src/src/bop.cpp`.

* A C++ `double` is a `Dbl`: NaN, or an exact rational value.  The four ordered
  comparisons are false as soon as one side is NaN.
* The sum and the quotient of `reclassifyWater` are rounded as IEEE 754 binary64 arithmetic
  rounds them (`Dbl.round`: to the nearest double, ties to even); an infinity is held there as
  the value `2 ^ 1024` or `-2 ^ 1024`.
* A `std::vector` is a `List`; reading or writing it at an index that does not exist is
  undefined behaviour in C++ and makes the embedded function return `none`.  The call
  `reserve(n)` leaves the size of a vector as it is; `resize(n)` makes it `n`.
* A report line appended to an output file is returned as the list of its integer columns.
* The correlation passes take the real part `cij iatom jatom` of the normalised correlation as
  a parameter.  Its computation from the averaged vectors is embedded apart, as
  `getCorrel.cij_real`, over complex numbers with rational parts (`Cplx`, no rounding) and with
  `std::sqrt` as a parameter; so is the computation of the averaged vectors, `QlmTotal`, with
  the vector of harmonics of a pair of particles as a parameter.  The same computation over an
  arbitrary field is `getCorrel.cij_realOver`: over the real numbers it is the computation in
  exact arithmetic.
* The closed-form tables of `sph` are embedded over a field, with `std::sqrt(r / pi)`,
  `std::exp(n * i * phi)`, `sin(theta)` and `cos(theta)` as parameters.
* `gen::periodicDist` (not part of the sources) is a parameter as well.
-/

/-- A C++ double: NaN, or a value. -/
inductive Dbl where
  | nan : Dbl
  | val (q : ℚ) : Dbl
deriving DecidableEq

/-- The C++ comparison `a < b` on doubles (false when a side is NaN). -/
def Dbl.lt : Dbl → Dbl → Bool
  | Dbl.val a, Dbl.val b => decide (a < b)
  | _, _ => false

/-- The C++ comparison `a <= b` on doubles (false when a side is NaN). -/
def Dbl.le : Dbl → Dbl → Bool
  | Dbl.val a, Dbl.val b => decide (a ≤ b)
  | _, _ => false

instance : LT Dbl := ⟨fun a b => Dbl.lt a b = true⟩

instance : LE Dbl := ⟨fun a b => Dbl.le a b = true⟩

instance (a b : Dbl) : Decidable (a < b) := inferInstanceAs (Decidable (Dbl.lt a b = true))

instance (a b : Dbl) : Decidable (a ≤ b) := inferInstanceAs (Decidable (Dbl.le a b = true))

namespace molSys

/-- Modelled from the spec: the bond classes of the header `mol_sys.hpp`, which is not part of
the sources (spec §3, BondResult). -/
inductive bond_type where
  | staggered
  | eclipsed
  | out_of_range
deriving DecidableEq

/-- Modelled from the spec: the ice-type tags of the header `mol_sys.hpp`, which is not part of
the sources (spec §3, IceType). -/
inductive atom_state_type where
  | unclassified
  | water
  | hexagonal
  | cubic
  | interfacial
  | clathrate
  | interClathrate
deriving DecidableEq

/-- Modelled from the spec: the per-bond result `molSys::Result` (spec §3, BondResult), with the
two fields `bop.cpp` uses. -/
structure Result where
  classifier : bond_type
  c_value : Dbl
deriving DecidableEq

/-- Modelled from the spec: the particle `molSys::Point` (spec §3, Particle), with the fields
`bop.cpp` uses.  Neighbour-list entries are indices. -/
structure Point where
  atomID : Int
  molID : Int
  x : Dbl
  y : Dbl
  z : Dbl
  neighList : List Nat
  c_ij : List Result
  iceType : atom_state_type
  inSlice : Bool
deriving DecidableEq

/-- Modelled from the spec: the frame `molSys::PointCloud` (spec §3, ParticleCollection).  The
particle count `nop` is a field of its own, next to the particle sequence `pts`. -/
structure PointCloud where
  pts : List Point
  nop : Nat
  box : List Dbl
  boxLow : List Dbl
  currentFrame : Int
deriving DecidableEq

end molSys

namespace sph

/-- The closed-form table `sph::lookupTableQ3` (lines 92-135), over a field `K` of complex
numbers: `sqrtOverPi r` is `std::sqrt(r / pi)`, `expI n` is `std::exp(n * i * phi)`, and
`sinT`, `cosT` are `sin(theta)` and `cos(theta)`. -/
def lookupTableQ3 {K : Type} [Field K] (sqrtOverPi : ℚ → K) (expI : Int → K) (sinT cosT : K)
    (m : Nat) : K :=
  if m = 0 then 0.125 * sqrtOverPi 35 * expI (-3) * sinT ^ 3
  else if m = 1 then 0.25 * sqrtOverPi (105 / 2) * expI (-2) * sinT ^ 2 * cosT
  else if m = 2 then 0.125 * sqrtOverPi 21 * expI (-1) * sinT * (5 * cosT ^ 2 - 1)
  else if m = 3 then 0.25 * sqrtOverPi 7 * (5 * cosT ^ 3 - 3 * cosT)
  else if m = 4 then -0.125 * sqrtOverPi 21 * expI 1 * sinT * (5 * cosT ^ 2 - 1)
  else if m = 5 then 0.25 * sqrtOverPi (105 / 2) * expI 2 * sinT ^ 2 * cosT
  else if m = 6 then -0.125 * sqrtOverPi 35 * expI 3 * sinT ^ 3
  else 0

/-- The vector `sph::lookupTableQ3Vec` (lines 71-86): the 7 components of the table. -/
def lookupTableQ3Vec {K : Type} [Field K] (sqrtOverPi : ℚ → K) (expI : Int → K)
    (sinT cosT : K) : List K :=
  (List.range 7).map (lookupTableQ3 sqrtOverPi expI sinT cosT)

/-- The closed-form table `sph::lookupTableQ6` (lines 159-238). -/
def lookupTableQ6 {K : Type} [Field K] (sqrtOverPi : ℚ → K) (expI : Int → K) (sinT cosT : K)
    (m : Nat) : K :=
  if m = 0 then 0.015625 * sqrtOverPi 3003 * expI (-6) * sinT ^ 6
  else if m = 1 then 0.09375 * sqrtOverPi 1001 * expI (-5) * sinT ^ 5 * cosT
  else if m = 2 then
    0.09375 * sqrtOverPi (91 / 2) * expI (-4) * sinT ^ 4 * (11 * cosT ^ 2 - 1)
  else if m = 3 then
    0.03125 * sqrtOverPi 1365 * expI (-3) * sinT ^ 3 * (11 * cosT ^ 3 - 3 * cosT)
  else if m = 4 then
    0.015625 * sqrtOverPi 1365 * expI (-2) * sinT ^ 2 * (33 * cosT ^ 4 - 18 * cosT ^ 2 + 1)
  else if m = 5 then
    0.0625 * sqrtOverPi (273 / 2) * expI (-1) * sinT *
      (33 * cosT ^ 5 - 30 * cosT ^ 3 + 5 * cosT)
  else if m = 6 then
    0.03125 * sqrtOverPi 13 * (231 * cosT ^ 6 - 315 * cosT ^ 4 + 105 * cosT ^ 2 - 5)
  else if m = 7 then
    -0.0625 * sqrtOverPi (273 / 2) * expI 1 * sinT *
      (33 * cosT ^ 5 - 30 * cosT ^ 3 + 5 * cosT)
  else if m = 8 then
    0.015625 * sqrtOverPi 1365 * expI 2 * sinT ^ 2 * (33 * cosT ^ 4 - 18 * cosT ^ 2 + 1)
  else if m = 9 then
    -0.03125 * sqrtOverPi 1365 * expI 3 * sinT ^ 3 * (11 * cosT ^ 3 - 3 * cosT)
  else if m = 10 then
    0.09375 * sqrtOverPi (91 / 2) * expI 4 * sinT ^ 4 * (11 * cosT ^ 2 - 1)
  else if m = 11 then -0.09375 * sqrtOverPi 1001 * expI 5 * sinT ^ 5 * cosT
  else if m = 12 then 0.015625 * sqrtOverPi 3003 * expI 6 * sinT ^ 6
  else 0

/-- The vector `sph::lookupTableQ6Vec` (lines 140-154): the 13 components of the table. -/
def lookupTableQ6Vec {K : Type} [Field K] (sqrtOverPi : ℚ → K) (expI : Int → K)
    (sinT cosT : K) : List K :=
  (List.range 13).map (lookupTableQ6 sqrtOverPi expI sinT cosT)

/-- The derivative of a polynomial, given by the list of its coefficients from degree `n`
on. -/
def polyDerivFrom : Nat → List ℚ → List ℚ
  | _, [] => []
  | n, a :: rest => ((n : ℚ) * a) :: polyDerivFrom (n + 1) rest

/-- The derivative of a polynomial, given by the list of its coefficients, constant first. -/
def polyDeriv : List ℚ → List ℚ
  | [] => []
  | _ :: rest => polyDerivFrom 1 rest

/-- The sum of two polynomials. -/
def polyAdd : List ℚ → List ℚ → List ℚ
  | [], q => q
  | p, [] => p
  | a :: p, b :: q => (a + b) :: polyAdd p q

/-- The product of two polynomials. -/
def polyMul : List ℚ → List ℚ → List ℚ
  | [], _ => []
  | a :: p, q => polyAdd (q.map (fun b => a * b)) (0 :: polyMul p q)

/-- The power `p ^ n` of a polynomial. -/
def polyPow (p : List ℚ) : Nat → List ℚ
  | 0 => [1]
  | n + 1 => polyMul p (polyPow p n)

/-- The value of a polynomial at `x`. -/
def polyEval {K : Type} [Field K] (p : List ℚ) (x : K) : K :=
  p.foldr (fun a acc => (a : K) + x * acc) 0

/-- The Legendre polynomial `P_l`, by the formula of Rodrigues: the `l`-th derivative of
`(x^2 - 1)^l`, divided by `2^l l!`. -/
def legendre (l : Nat) : List ℚ :=
  (polyDeriv^[l] (polyPow [-1, 0, 1] l)).map (fun a => a / ((2 : ℚ) ^ l * (l.factorial : ℚ)))

/-- Modelled from the spec: the library function `boost::math::spherical_harmonic`, the
spherical harmonic `Y_l^m(theta, phi)` with the Condon-Shortley phase.  For `m >= 0` it is
`sqrt((2l+1)/(4 pi) (l-m)!/(l+m)!) P_l^m(cos theta) exp(i m phi)`, with the associated Legendre
function `P_l^m(x) = (-1)^m (1 - x^2)^(m/2) (d/dx)^m P_l(x)`, where `(1 - x^2)^(1/2)` is
`sin theta`; and `Y_l^(-m)` is `(-1)^m` times the conjugate of `Y_l^m`. -/
def spherical_harmonic {K : Type} [Field K] (sqrtOverPi : ℚ → K) (expI : Int → K)
    (sinT cosT : K) (l : Nat) (m : Int) : K :=
  (if m < 0 then (-1) ^ m.natAbs else 1) *
    (sqrtOverPi ((2 * (l : ℚ) + 1) / 4 *
        (((l - m.natAbs).factorial : ℚ) / ((l + m.natAbs).factorial : ℚ))) *
      ((-1) ^ m.natAbs * sinT ^ m.natAbs * polyEval (polyDeriv^[m.natAbs] (legendre l)) cosT) *
      expI m)

/-- The generic evaluator `sph::spheriHarmo` (lines 34-51): component `k` is the harmonic of
order `m = k - orderL`. -/
def spheriHarmo {K : Type} [Field K] (sqrtOverPi : ℚ → K) (expI : Int → K) (sinT cosT : K)
    (orderL : Nat) : List K :=
  (List.range (2 * orderL + 1)).map (fun k : Nat =>
    spherical_harmonic sqrtOverPi expI sinT cosT orderL ((k : Int) - (orderL : Int)))

end sph

namespace chill

open molSys

/-- The counters `ih, ic, water, unknown, interIce, clath, interClath, total` of the ice-type
passes. -/
structure Tally where
  ih : Nat
  ic : Nat
  water : Nat
  unknown : Nat
  interIce : Nat
  clath : Nat
  interClath : Nat
  total : Nat
deriving DecidableEq

/-- All counters at zero (lines 366 and 571-572). -/
def Tally.zero : Tally := ⟨0, 0, 0, 0, 0, 0, 0, 0⟩

/-- The bond result `temp_cij` that `getCorrel` stores for the correlation value `cij_real`
(lines 343-350). -/
def getCorrel.temp_cij (cij_real : Dbl) : Result :=
  { c_value := cij_real,
    classifier :=
      if cij_real < Dbl.val (-0.8) then bond_type.staggered
      else if Dbl.val (-0.2) < cij_real ∧ cij_real < Dbl.val (-0.05) then bond_type.eclipsed
      else bond_type.out_of_range }

/-- The bond result `temp_cij` that `getCorrelPlus` stores for the correlation value `cij_real`
(lines 545-552). -/
def getCorrelPlus.temp_cij (cij_real : Dbl) : Result :=
  { c_value := cij_real,
    classifier :=
      if cij_real ≤ Dbl.val (-0.8) then bond_type.staggered
      else if Dbl.val (-0.35) ≤ cij_real ∧ cij_real ≤ Dbl.val 0.25 then bond_type.eclipsed
      else bond_type.out_of_range }

/-- The loop over the neighbours of `iatom` in the second half of a correlation pass (lines
324-352, 526-554): one result is pushed onto `c_ij` per neighbour, in neighbour-list order.
`QlmTotal.ptq` has `nop` entries, so a neighbour index `jatom >= nop` is an out-of-range read. -/
def correlBonds (label : Dbl → Result) (cij : Nat → Nat → Dbl) (nop iatom : Nat) :
    List Nat → List Result → Option (List Result)
  | [], c_ij => some c_ij
  | jatom :: rest, c_ij =>
    if jatom < nop then correlBonds label cij nop iatom rest (c_ij ++ [label (cij iatom jatom)])
    else none

/-- One iteration of the loop over `iatom` in the second half of a correlation pass (lines
309-353, 511-555). -/
def correlStep (label : Dbl → Result) (cij : Nat → Nat → Dbl) (isSlice : Bool)
    (yCloud : PointCloud) (iatom : Nat) : Option PointCloud :=
  match yCloud.pts[iatom]? with
  | none => none
  | some p =>
    if isSlice = true ∧ p.inSlice = false then some yCloud
    else
      match correlBonds label cij yCloud.nop iatom p.neighList p.c_ij with
      | none => none
      | some c => some { yCloud with pts := yCloud.pts.set iatom { p with c_ij := c } }

/-- The pass `chill::getCorrel` (lines 244-356); `cij iatom jatom` is the value `cij_real` of
line 342. -/
def getCorrel (cij : Nat → Nat → Dbl) (yCloud : PointCloud) (isSlice : Bool) :
    Option PointCloud :=
  (List.range yCloud.nop).foldlM (correlStep getCorrel.temp_cij cij isSlice) yCloud

/-- The pass `chill::getCorrelPlus` (lines 443-560); `cij iatom jatom` is the value `cij_real`
of line 544. -/
def getCorrelPlus (cij : Nat → Nat → Dbl) (yCloud : PointCloud) (isSlice : Bool) :
    Option PointCloud :=
  (List.range yCloud.nop).foldlM (correlStep getCorrelPlus.temp_cij cij isSlice) yCloud

/-- The assignment `yCloud->pts[iatom].iceType = t`. -/
def setIceType (yCloud : PointCloud) (iatom : Nat) (t : atom_state_type) : PointCloud :=
  { yCloud with pts := yCloud.pts.modify (fun p => { p with iceType := t }) iatom }

/-- The loop `for (i = 0; i < num_bonds; i++)` of `numStaggered` (lines 1085-1091), over the
indices still to visit. -/
def numStaggered.loop (c_ij : List Result) : List Nat → Nat → Option Nat
  | [], num_staggrd => some num_staggrd
  | i :: rest, num_staggrd =>
    match c_ij[i]? with
    | none => none
    | some r =>
      if r.classifier = bond_type.staggered then numStaggered.loop c_ij rest (num_staggrd + 1)
      else numStaggered.loop c_ij rest num_staggrd

/-- The function `chill::numStaggered` (lines 1071-1094). -/
def numStaggered (yCloud : PointCloud) (jatom : Nat) : Option Nat :=
  match yCloud.pts[jatom]? with
  | none => none
  | some p =>
    let num_bonds := if p.neighList.length < 4 then p.neighList.length else 4
    numStaggered.loop p.c_ij (List.range num_bonds) 0

/-- The neighbour loops of `isInterfacial` (lines 1041-1048 and 1054-1061): `some true` as soon
as a neighbour passes `test`, `some false` when the loop ends. -/
def isInterfacial.loop (yCloud : PointCloud) (neighList : List Nat) (test : Nat → Bool) :
    List Nat → Option Bool
  | [] => some false
  | j :: rest =>
    match neighList[j]? with
    | none => none
    | some jatom =>
      match numStaggered yCloud jatom with
      | none => none
      | some neighStaggered =>
        if test neighStaggered = true then some true
        else isInterfacial.loop yCloud neighList test rest

/-- The function `chill::isInterfacial` (lines 1021-1065). -/
def isInterfacial (yCloud : PointCloud) (iatom num_staggrd num_eclipsd : Nat) : Option Bool :=
  match yCloud.pts[iatom]? with
  | none => none
  | some p =>
    let nnumNeighbours := if p.neighList.length < 4 then p.neighList.length else 4
    let condition2 : Option Bool :=
      if num_staggrd = 3 ∧ num_eclipsd = 0 then
        isInterfacial.loop yCloud p.neighList (fun n => decide (n = 2))
          (List.range nnumNeighbours)
      else some false
    if num_staggrd = 2 then
      match isInterfacial.loop yCloud p.neighList (fun n => decide (n > 2))
          (List.range nnumNeighbours) with
      | none => none
      | some true => some true
      | some false => condition2
    else condition2

/-- The loop that counts the staggered, eclipsed and other bonds (lines 383-392, 592-601), over
the indices `j` still to visit; the counters are `(num_staggrd, num_eclipsd, na)`. -/
def countBonds (c_ij : List Result) : List Nat → Nat × Nat × Nat → Option (Nat × Nat × Nat)
  | [], acc => some acc
  | j :: rest, (num_staggrd, num_eclipsd, na) =>
    match c_ij[j]? with
    | none => none
    | some r =>
      if r.classifier = bond_type.eclipsed then
        countBonds c_ij rest (num_staggrd, num_eclipsd + 1, na)
      else if r.classifier = bond_type.staggered then
        countBonds c_ij rest (num_staggrd + 1, num_eclipsd, na)
      else countBonds c_ij rest (num_staggrd, num_eclipsd, na + 1)

/-- One iteration of the loop over `iatom` of `getIceType` (lines 370-419). -/
def getIceType.step (isSlice : Bool) (st : PointCloud × Tally) (iatom : Nat) :
    Option (PointCloud × Tally) :=
  match st.1.pts[iatom]? with
  | none => none
  | some p =>
    if isSlice = true ∧ p.inSlice = false then some st
    else
      let t := { st.2 with total := st.2.total + 1 }
      match countBonds p.c_ij (List.range 4) (0, 0, 0) with
      | none => none
      | some (num_staggrd, num_eclipsd, _) =>
        let y := setIceType st.1 iatom atom_state_type.unclassified
        if num_staggrd ≥ 4 then
          some (setIceType y iatom atom_state_type.cubic, { t with ic := t.ic + 1 })
        else if num_eclipsd = 1 ∧ num_staggrd = 3 then
          some (setIceType y iatom atom_state_type.hexagonal, { t with ih := t.ih + 1 })
        else
          match isInterfacial y iatom num_staggrd num_eclipsd with
          | none => none
          | some true =>
            some (setIceType y iatom atom_state_type.interfacial,
              { t with interIce := t.interIce + 1 })
          | some false =>
            some (setIceType y iatom atom_state_type.water, { t with water := t.water + 1 })

/-- The pass `chill::getIceType` (lines 362-437).  It returns the frame and the line appended
to the report file: frame, ic, ih, interIce, water, total. -/
def getIceType (yCloud : PointCloud) (isSlice : Bool) : Option (PointCloud × List Int) :=
  match (List.range yCloud.nop).foldlM (getIceType.step isSlice) (yCloud, Tally.zero) with
  | none => none
  | some (y, t) => some (y, [y.currentFrame, t.ic, t.ih, t.interIce, t.water, t.total])

/-- One iteration of the loop over `iatom` of `getIceTypePlus` (lines 577-641). -/
def getIceTypePlus.step (isSlice : Bool) (st : PointCloud × Tally) (iatom : Nat) :
    Option (PointCloud × Tally) :=
  match st.1.pts[iatom]? with
  | none => none
  | some p =>
    if isSlice = true ∧ p.inSlice = false then some st
    else
      let t := { st.2 with total := st.2.total + 1 }
      let nnumNeighbours := p.neighList.length
      match countBonds p.c_ij (List.range nnumNeighbours) (0, 0, 0) with
      | none => none
      | some (num_staggrd, num_eclipsd, _) =>
        let y := setIceType st.1 iatom atom_state_type.unclassified
        if nnumNeighbours = 4 then
          if num_eclipsd = 0 ∧ num_staggrd = 4 then
            some (setIceType y iatom atom_state_type.cubic, { t with ic := t.ic + 1 })
          else if num_eclipsd = 1 ∧ num_staggrd = 3 then
            some (setIceType y iatom atom_state_type.hexagonal, { t with ih := t.ih + 1 })
          else
            match isInterfacial y iatom num_staggrd num_eclipsd with
            | none => none
            | some true =>
              some (setIceType y iatom atom_state_type.interfacial,
                { t with interIce := t.interIce + 1 })
            | some false =>
              if num_eclipsd = 4 ∧ num_staggrd = 0 then
                some (setIceType y iatom atom_state_type.clathrate,
                  { t with clath := t.clath + 1 })
              else if num_eclipsd = 3 then
                some (setIceType y iatom atom_state_type.interClathrate,
                  { t with interClath := t.interClath + 1 })
              else
                some (setIceType y iatom atom_state_type.water,
                  { t with water := t.water + 1 })
        else
          some (setIceType y iatom atom_state_type.water, { t with water := t.water + 1 })

/-- The pass `chill::getIceTypePlus` (lines 566-660).  It returns the frame and the line
appended to the report file: frame, ic, ih, interIce, clath, interClath, water, total. -/
def getIceTypePlus (yCloud : PointCloud) (isSlice : Bool) : Option (PointCloud × List Int) :=
  match (List.range yCloud.nop).foldlM (getIceTypePlus.step isSlice) (yCloud, Tally.zero) with
  | none => none
  | some (y, t) =>
    some (y, [y.currentFrame, t.ic, t.ih, t.interIce, t.clath, t.interClath, t.water, t.total])

/-- The call `iter_swap(L.begin() + j, L.begin() + k)`: the entries `j` and `k` of `L` are
exchanged. -/
def iter_swap (L : List Nat) (j k : Nat) : Option (List Nat) :=
  match L[j]?, L[k]? with
  | some a, some b => some ((L.set j b).set k a)
  | _, _ => none

/-- The loop over `k` inside the do-while of `largestIceCluster` (lines 884-893), over the
values of `k` still to visit. -/
def largestIceCluster.scan (periodicDist : PointCloud → Nat → Nat → Dbl) (iceCloud : PointCloud)
    (cutoff : Dbl) (j : Nat) : List Nat → List Nat → Option (List Nat)
  | [], L => some L
  | k :: rest, L =>
    match L[k]? with
    | none => none
    | some Lk =>
      if Lk = k then
        if periodicDist iceCloud j k ≤ cutoff then
          match iter_swap L j k with
          | none => none
          | some L1 => largestIceCluster.scan periodicDist iceCloud cutoff j rest L1
        else largestIceCluster.scan periodicDist iceCloud cutoff j rest L
      else largestIceCluster.scan periodicDist iceCloud cutoff j rest L

/-- The do-while of `largestIceCluster` (lines 883-895), started at `j`.  The first argument
bounds the number of iterations: `none` when it is used up before `j` is back at `i`. -/
def largestIceCluster.ring (periodicDist : PointCloud → Nat → Nat → Dbl) (iceCloud : PointCloud)
    (cutoff : Dbl) (i : Nat) : Nat → Nat → List Nat → Option (List Nat)
  | 0, _, _ => none
  | fuel + 1, j, L =>
    match largestIceCluster.scan periodicDist iceCloud cutoff j
        (List.range' (i + 1) (iceCloud.nop - (i + 1))) L with
    | none => none
    | some L1 =>
      match L1[j]? with
      | none => none
      | some j1 =>
        if j1 ≠ i then largestIceCluster.ring periodicDist iceCloud cutoff i fuel j1 L1
        else some L1

/-- One iteration of the loop over `i` that constructs the linked list (lines 878-897). -/
def largestIceCluster.construct (periodicDist : PointCloud → Nat → Nat → Dbl)
    (iceCloud : PointCloud) (cutoff : Dbl) (fuel : Nat) (L : List Nat) (i : Nat) :
    Option (List Nat) :=
  match L[i]? with
  | none => none
  | some Li =>
    if Li ≠ i then some L
    else largestIceCluster.ring periodicDist iceCloud cutoff i fuel i L

/-- The loop `for (j = 0; j < nop; j++)` that measures one ring (lines 911-919); the first
argument is the number of iterations left.  It returns the flags and `noc`. -/
def largestIceCluster.walk (L : List Nat) (i : Nat) :
    Nat → Nat → Nat → List Nat → Option (List Nat × Nat)
  | 0, _, noc, clusterFlag => some (clusterFlag, noc)
  | n + 1, iatom, noc, clusterFlag =>
    match L[iatom]? with
    | none => none
    | some jatom =>
      if jatom < clusterFlag.length then
        if jatom = i then some (clusterFlag.set jatom 1, noc + 1)
        else largestIceCluster.walk L i n jatom (noc + 1) (clusterFlag.set jatom 1)
      else none

/-- One iteration of the loop over `i` that measures the clusters (lines 903-921); the state is
`(clusterFlag, clusterID, nCluster)`. -/
def largestIceCluster.measure (L : List Nat) (nop : Nat)
    (st : List Nat × List Nat × List Nat) (i : Nat) :
    Option (List Nat × List Nat × List Nat) :=
  match st.1[i]? with
  | none => none
  | some flag =>
    if flag = 1 then some st
    else
      match largestIceCluster.walk L i nop i 0 st.1 with
      | none => none
      | some (clusterFlag, noc) => some (clusterFlag, st.2.1 ++ [i], st.2.2 ++ [noc])

/-- The loop of `std::max_element`: `largest` is the position of the largest value so far,
`idx` the position of the next entry. -/
def max_element.loop : List Nat → Nat → Nat → Nat → Nat
  | [], _, largest, _ => largest
  | x :: rest, idx, largest, largestVal =>
    if largestVal < x then max_element.loop rest (idx + 1) idx x
    else max_element.loop rest (idx + 1) largest largestVal

/-- The position `std::distance(begin, std::max_element(begin, end))`: the first position of
the largest entry; for an empty vector `max_element` returns `end`, at distance 0. -/
def max_element : List Nat → Nat
  | [] => 0
  | x :: rest => max_element.loop rest 1 0 x

/-- The sum `a + b` of two doubles. -/
def Dbl.add : Dbl → Dbl → Dbl
  | Dbl.val a, Dbl.val b => Dbl.val (a + b)
  | _, _ => Dbl.nan

/-- The frame written to `largestCluster.lammpstrj` when `printCluster` is set (lines
934-954). -/
structure ClusterDump where
  timestep : Int
  numberOfAtoms : Nat
  boxBounds : List (Dbl × Dbl)
  atoms : List (Int × Int × atom_state_type × Dbl × Dbl × Dbl)
deriving DecidableEq

/-- The loop that prints the box bounds (lines 939-942), over the values of `k` still to
visit. -/
def largestIceCluster.bounds (iceCloud : PointCloud) : List Nat → Option (List (Dbl × Dbl))
  | [] => some []
  | k :: rest =>
    match iceCloud.boxLow[k]?, iceCloud.box[k]? with
    | some lo, some len =>
      match largestIceCluster.bounds iceCloud rest with
      | none => none
      | some out => some ((lo, Dbl.add lo len) :: out)
    | _, _ => none

/-- The loop that prints the members of the largest cluster (lines 946-954); the first argument
is the number of iterations left. -/
def largestIceCluster.members (iceCloud : PointCloud) (L : List Nat) :
    Nat → Nat → Option (List (Int × Int × atom_state_type × Dbl × Dbl × Dbl))
  | 0, _ => some []
  | n + 1, iatom =>
    match L[iatom]? with
    | none => none
    | some jatom =>
      match iceCloud.pts[jatom]? with
      | none => none
      | some p =>
        match largestIceCluster.members iceCloud L n jatom with
        | none => none
        | some out => some ((p.atomID, p.molID, p.iceType, p.x, p.y, p.z) :: out)

/-- The loop that initialises the linked list (lines 872-874), over the values of `iatom` still
to visit: the assignment `linkedListCluster[iatom] = iatom` writes an entry of the vector, which
has to exist. -/
def largestIceCluster.init : List Nat → List Nat → Option (List Nat)
  | [], L => some L
  | iatom :: rest, L =>
    if iatom < L.length then largestIceCluster.init rest (L.set iatom iatom) else none

/-- The loop that constructs the linked list and the loop that measures the clusters (lines
878-921), run on the linked list `L0` the initialisation loop has left.  They give the linked
list, the cluster start indices and the cluster sizes.  `clusterFlag` holds `nop` zeros (line
866). -/
def largestIceCluster.loops (fuel : Nat) (periodicDist : PointCloud → Nat → Nat → Dbl)
    (iceCloud : PointCloud) (cutoff : Dbl) (L0 : List Nat) :
    Option (List Nat × List Nat × List Nat) :=
  match (List.range (iceCloud.nop - 1)).foldlM
      (largestIceCluster.construct periodicDist iceCloud cutoff fuel) L0 with
  | none => none
  | some L =>
    match (List.range iceCloud.nop).foldlM (largestIceCluster.measure L iceCloud.nop)
        (List.replicate iceCloud.nop 0, [], []) with
    | none => none
    | some (_, clusterID, nCluster) => some (L, clusterID, nCluster)

/-- The function `chill::largestIceCluster` after its initialisation loop (lines 876-959), run
on the linked list `L0` that loop has left.  `fuel` bounds the number of iterations of each
do-while.  It returns `nLargestCluster` and, when `printCluster` is set, the frame written to
the trajectory file. -/
def largestIceCluster.body (fuel : Nat) (periodicDist : PointCloud → Nat → Nat → Dbl)
    (iceCloud : PointCloud) (cutoff : Dbl) (printCluster : Bool) (_isSlice : Bool)
    (L0 : List Nat) : Option (Nat × Option ClusterDump) :=
  match largestIceCluster.loops fuel periodicDist iceCloud cutoff L0 with
  | none => none
  | some (L, clusterID, nCluster) =>
    let indexOfCluster := max_element nCluster
    match nCluster[indexOfCluster]? with
    | none => none
    | some nLargestCluster =>
      if printCluster = true then
        match largestIceCluster.bounds iceCloud (List.range iceCloud.boxLow.length),
            clusterID[indexOfCluster]? with
        | some b, some iatom =>
          match largestIceCluster.members iceCloud L nLargestCluster iatom with
          | none => none
          | some atoms =>
            some (nLargestCluster, some ⟨iceCloud.currentFrame, nLargestCluster, b, atoms⟩)
        | _, _ => none
      else some (nLargestCluster, none)

/-- The linked list, the cluster start indices and the cluster sizes after the loops of
`largestIceCluster` (lines 866-921).  The vector `linkedListCluster` is declared empty (line
856) and line 869 calls `reserve(nop)` on it, so that it still has no entry when the
initialisation loop writes `linkedListCluster[iatom]`; `clusterFlag`, in contrast, is given its
`nop` entries by `resize(nop)` (line 866). -/
def largestIceCluster.clusters (fuel : Nat) (periodicDist : PointCloud → Nat → Nat → Dbl)
    (iceCloud : PointCloud) (cutoff : Dbl) : Option (List Nat × List Nat × List Nat) :=
  match largestIceCluster.init (List.range iceCloud.nop) [] with
  | none => none
  | some L0 => largestIceCluster.loops fuel periodicDist iceCloud cutoff L0

/-- The function `chill::largestIceCluster` (lines 850-960): the initialisation loop on the
vector `linkedListCluster`, which has no entry (lines 856, 869), and then the rest of the
function.  `fuel` bounds the number of iterations of each do-while.  It returns
`nLargestCluster` and, when `printCluster` is set, the frame written to the trajectory file. -/
def largestIceCluster (fuel : Nat) (periodicDist : PointCloud → Nat → Nat → Dbl)
    (iceCloud : PointCloud) (cutoff : Dbl) (printCluster : Bool) (isSlice : Bool) :
    Option (Nat × Option ClusterDump) :=
  match largestIceCluster.init (List.range iceCloud.nop) [] with
  | none => none
  | some L0 =>
    largestIceCluster.body fuel periodicDist iceCloud cutoff printCluster isSlice L0

/-! ### Vocabulary of the statements and example data -/


/-- The number of bond results of `rs` labelled `b`. -/
def numLabel (b : bond_type) (rs : List Result) : Nat :=
  rs.countP (fun r => decide (r.classifier = b))

/-- The point `p` with its tag reset. -/
def noTag (p : Point) : Point := { p with iceType := atom_state_type.unclassified }

/-- The frame `y` with every tag reset: what the ice-type passes read. -/
def noTags (y : PointCloud) : PointCloud := { y with pts := y.pts.map noTag }

/-- The number of staggered labels among the first `min 4 n` bond results of `q`, where `n` is
its neighbour count. -/
def numSt (q : Point) : Nat :=
  numLabel bond_type.staggered (q.c_ij.take (min 4 q.neighList.length))

/-- The tag the CHILL decision tree (lines 401-417) gives for `s` staggered and `e` eclipsed
bonds, `b` being the value of the interfacial test. -/
def chillTag (s e : Nat) (b : Option Bool) : atom_state_type :=
  if 4 ≤ s then atom_state_type.cubic
  else if e = 1 ∧ s = 3 then atom_state_type.hexagonal
  else if b = some true then atom_state_type.interfacial
  else atom_state_type.water

/-- The tag the CHILL+ decision tree (lines 605-639) gives for `n` neighbours, `s` staggered and
`e` eclipsed bonds, `b` being the value of the interfacial test. -/
def chillPlusTag (n s e : Nat) (b : Option Bool) : atom_state_type :=
  if n = 4 then
    if e = 0 ∧ s = 4 then atom_state_type.cubic
    else if e = 1 ∧ s = 3 then atom_state_type.hexagonal
    else if b = some true then atom_state_type.interfacial
    else if e = 4 ∧ s = 0 then atom_state_type.clathrate
    else if e = 3 then atom_state_type.interClathrate
    else atom_state_type.water
  else atom_state_type.water

/-- Example data: a particle with the given neighbours, bond labels and tag. -/
def examplePoint (nl : List Nat) (labels : List bond_type) (t : atom_state_type) : Point :=
  { atomID := 0, molID := 0, x := Dbl.val 0, y := Dbl.val 0, z := Dbl.val 0, neighList := nl,
    c_ij := labels.map (fun b => ⟨b, Dbl.nan⟩), iceType := t, inSlice := true }

/-- Example data: five particles, each with the four others as neighbours, holding the tags
`t0 .. t4`.  Particle 0 has two staggered bonds, particle 1 three staggered bonds and no
eclipsed one, particle 2 four staggered bonds, particle 3 three staggered bonds and an eclipsed
one, particle 4 four eclipsed bonds. -/
def exampleFrame (t0 t1 t2 t3 t4 : atom_state_type) : PointCloud :=
  { pts :=
      [examplePoint [1, 2, 3, 4] [bond_type.staggered, bond_type.staggered,
          bond_type.out_of_range, bond_type.out_of_range] t0,
        examplePoint [0, 2, 3, 4] [bond_type.staggered, bond_type.staggered,
          bond_type.staggered, bond_type.out_of_range] t1,
        examplePoint [0, 1, 3, 4] [bond_type.staggered, bond_type.staggered,
          bond_type.staggered, bond_type.staggered] t2,
        examplePoint [0, 1, 2, 4] [bond_type.eclipsed, bond_type.staggered,
          bond_type.staggered, bond_type.staggered] t3,
        examplePoint [0, 1, 2, 3] [bond_type.eclipsed, bond_type.eclipsed,
          bond_type.eclipsed, bond_type.eclipsed] t4],
    nop := 5, box := [], boxLow := [], currentFrame := 0 }

/-- Example data: four particles, each with the three others as neighbours, holding the tags
`t0 .. t3`.  Particle 0 has two staggered bonds and its neighbour 1 has three. -/
def exampleFrame3 (t0 t1 t2 t3 : atom_state_type) : PointCloud :=
  { pts :=
      [examplePoint [1, 2, 3] [bond_type.staggered, bond_type.staggered,
          bond_type.out_of_range] t0,
        examplePoint [0, 2, 3] [bond_type.staggered, bond_type.staggered,
          bond_type.staggered] t1,
        examplePoint [0, 1, 3] [bond_type.out_of_range, bond_type.out_of_range,
          bond_type.out_of_range] t2,
        examplePoint [0, 1, 2] [bond_type.out_of_range, bond_type.out_of_range,
          bond_type.out_of_range] t3],
    nop := 4, box := [], boxLow := [], currentFrame := 0 }

/-- Example data: five particles without bond results, each with the four others as
neighbours. -/
def exampleFresh : PointCloud :=
  { pts :=
      [examplePoint [1, 2, 3, 4] [] atom_state_type.unclassified,
        examplePoint [0, 2, 3, 4] [] atom_state_type.unclassified,
        examplePoint [0, 1, 3, 4] [] atom_state_type.unclassified,
        examplePoint [0, 1, 2, 4] [] atom_state_type.unclassified,
        examplePoint [0, 1, 2, 3] [] atom_state_type.unclassified],
    nop := 5, box := [], boxLow := [], currentFrame := 0 }

/-- Example data: the five particles of `exampleFresh` after a correlation pass in which every
correlation value is `-0.9`, holding the tag `t`. -/
def exampleCorrelated (t : atom_state_type) : PointCloud :=
  { exampleFresh with pts := exampleFresh.pts.map (fun p =>
      { p with iceType := t,
               c_ij := List.replicate 4 ⟨bond_type.staggered, Dbl.val (-0.9)⟩ }) }


/-- Two particles of the ice cloud are joined: their periodic distance is at most the
cutoff. -/
def joined (periodicDist : PointCloud → Nat → Nat → Dbl) (iceCloud : PointCloud) (cutoff : Dbl)
    (a b : Nat) : Prop :=
  a < iceCloud.nop ∧ b < iceCloud.nop ∧ periodicDist iceCloud a b ≤ cutoff

/-- Two particles are connected: a chain of joined pairs leads from one to the other. -/
def connected (periodicDist : PointCloud → Nat → Nat → Dbl) (iceCloud : PointCloud)
    (cutoff : Dbl) (a b : Nat) : Prop :=
  Relation.ReflTransGen (joined periodicDist iceCloud cutoff) a b

/-- The list `r` is a ring of the linked list `L`: its entries are distinct, `L` leads from each
entry to the next one, and from the last entry to the first. -/
def IsRing (L : List Nat) (r : List Nat) : Prop :=
  r.Nodup ∧ r.map (fun x => L[x]?) = (r.rotate 1).map some

/-- The ring `r` of `L` is a whole cluster: its entries are the particles connected to each of
them. -/
def IsCluster (periodicDist : PointCloud → Nat → Nat → Dbl) (iceCloud : PointCloud)
    (cutoff : Dbl) (L r : List Nat) : Prop :=
  IsRing L r ∧ ∀ x ∈ r, ∀ y, y ∈ r ↔ connected periodicDist iceCloud cutoff x y

/-- The state of the construction loop of `largestIceCluster` before iteration `i`: every
particle is either still on its own, at an index not visited yet, or on a ring that is a whole
cluster. -/
def ConstructInv (periodicDist : PointCloud → Nat → Nat → Dbl) (iceCloud : PointCloud)
    (cutoff : Dbl) (L : List Nat) (i : Nat) : Prop :=
  L.length = iceCloud.nop ∧
  ∀ x, x < iceCloud.nop →
    (L[x]? = some x ∧ i ≤ x) ∨ ∃ r, x ∈ r ∧ IsCluster periodicDist iceCloud cutoff L r

/-- The state of the do-while of `largestIceCluster` for the start index `i`, entered with the
linked list `L0`: the ring of `i` is `pre ++ j :: post`, it holds particles connected to `i`,
the entries of `pre` have all their joined particles on the ring, and the rest of the linked
list is as in `L0`. -/
def RingInv (periodicDist : PointCloud → Nat → Nat → Dbl) (iceCloud : PointCloud)
    (cutoff : Dbl) (L0 : List Nat) (i : Nat) (L pre : List Nat) (j : Nat) (post : List Nat) :
    Prop :=
  L.length = iceCloud.nop ∧ IsRing L (pre ++ j :: post) ∧ (pre ++ [j]).head? = some i ∧
  (∀ x ∈ pre ++ j :: post, connected periodicDist iceCloud cutoff i x) ∧
  (∀ x ∈ pre, ∀ y, joined periodicDist iceCloud cutoff x y → y ∈ pre ++ j :: post) ∧
  (∀ x, x ∉ pre ++ j :: post → L[x]? = L0[x]?)

/-- Example data: an ice cloud of particles on a line, particle `k` at the abscissa
`xs[k]`. -/
def exampleIce (xs : List ℚ) : PointCloud :=
  { pts := xs.map (fun x =>
      { atomID := 0, molID := 0, x := Dbl.val x, y := Dbl.val 0, z := Dbl.val 0,
        neighList := [], c_ij := [], iceType := atom_state_type.cubic, inSlice := true }),
    nop := xs.length, box := [], boxLow := [], currentFrame := 0 }

/-- Example data: a distance for `exampleIce`, the distance between the abscissas. -/
def exampleDist (cloud : PointCloud) (a b : Nat) : Dbl :=
  match cloud.pts[a]?, cloud.pts[b]? with
  | some p, some q =>
    match p.x, q.x with
    | Dbl.val u, Dbl.val v => Dbl.val |u - v|
    | _, _ => Dbl.nan
  | _, _ => Dbl.nan

/-- Example data: the five particles of `exampleFresh` after a CHILL+ correlation pass in which
every correlation value is `0`, holding the tag `t`. -/
def exampleEclipsed (t : atom_state_type) : PointCloud :=
  { exampleFresh with pts := exampleFresh.pts.map (fun p =>
      { p with iceType := t,
               c_ij := List.replicate 4 ⟨bond_type.eclipsed, Dbl.val 0⟩ }) }

/-! ### The pass `reclassifyWater` -/

/-- The exact quotient `a / b` of two doubles, for the averages that are embedded without
rounding.  A value divided by zero is an infinity or NaN in C++; the only division by zero
there is `0.0 / 0`, which is NaN. -/
def Dbl.div : Dbl → Dbl → Dbl
  | Dbl.val a, Dbl.val b => if b = 0 then Dbl.nan else Dbl.val (a / b)
  | _, _ => Dbl.nan

/-- The power `2 ^ e` of two, as a rational number. -/
def Dbl.pow2 (e : Int) : ℚ :=
  if 0 ≤ e then ((2 ^ e.toNat : Nat) : ℚ) else 1 / ((2 ^ (-e).toNat : Nat) : ℚ)

/-- The position of the leading binary digit of `n`: the `k` with `2 ^ k ≤ n < 2 ^ (k + 1)`,
for `0 < n < 2 ^ fuel`. -/
def Dbl.log2 : Nat → Nat → Nat
  | 0, _ => 0
  | fuel + 1, n => if n < 2 then 0 else Dbl.log2 fuel (n / 2) + 1

/-- The binary exponent of a rational `x ≠ 0`: the `e` with `2 ^ e ≤ |x| < 2 ^ (e + 1)`. -/
def Dbl.exponent (x : ℚ) : Int :=
  let e0 : Int := (Dbl.log2 x.num.natAbs x.num.natAbs : Int) - (Dbl.log2 x.den x.den : Int)
  if Dbl.pow2 e0 ≤ |x| then e0 else e0 - 1

/-- The magnitude that stands for an infinity: `2 ^ 1024`, above every finite double. -/
def Dbl.huge : ℚ := Dbl.pow2 1024

/-- The double that IEEE 754 binary64 arithmetic gives for the exact result `x`: the nearest
multiple of `2 ^ (e - 52)`, where `e` is the binary exponent of `x` and at least `-1022`, a tie
going to the even multiple; a result of magnitude `2 ^ 1024` is an infinity. -/
def Dbl.round (x : ℚ) : ℚ :=
  if x = 0 then 0
  else
    let e := max (Dbl.exponent x) (-1022)
    let ulp := Dbl.pow2 (e - 52)
    let s := |x| / ulp
    let f : Int := s.num / (s.den : Int)
    let r := s - (f : ℚ)
    let m : Int :=
      if r < 1 / 2 then f else if 1 / 2 < r then f + 1 else if f % 2 = 0 then f else f + 1
    let y := if Dbl.huge ≤ (m : ℚ) * ulp then Dbl.huge else (m : ℚ) * ulp
    if x < 0 then -y else y

/-- The sum `a + b` of two doubles as the machine computes it: the exact sum, rounded.  An
infinity stays one, and the sum of two opposite infinities is NaN. -/
def Dbl.fadd : Dbl → Dbl → Dbl
  | Dbl.val a, Dbl.val b =>
    if Dbl.huge ≤ |a| then
      if Dbl.huge ≤ |b| ∧ ¬ (a < 0 ↔ b < 0) then Dbl.nan else Dbl.val (Dbl.round a)
    else if Dbl.huge ≤ |b| then Dbl.val (Dbl.round b)
    else Dbl.val (Dbl.round (a + b))
  | _, _ => Dbl.nan

/-- The quotient `a / b` of two doubles as the machine computes it: the exact quotient,
rounded.  `0.0 / 0.0` and the quotient of two infinities are NaN, any other value divided by
zero is an infinity, and a finite value divided by an infinity is zero. -/
def Dbl.fdiv : Dbl → Dbl → Dbl
  | Dbl.val a, Dbl.val b =>
    if Dbl.huge ≤ |a| then
      if Dbl.huge ≤ |b| then Dbl.nan
      else Dbl.val (if (a < 0 ↔ b < 0) then Dbl.huge else -Dbl.huge)
    else if Dbl.huge ≤ |b| then Dbl.val 0
    else if b = 0 then
      if a = 0 then Dbl.nan else Dbl.val (if a < 0 then -Dbl.huge else Dbl.huge)
    else Dbl.val (Dbl.round (a / b))
  | _, _ => Dbl.nan

/-- The value `avgQ3` of `reclassifyWater` (lines 796-802): the `c_value` of every entry of
`c_ij` is added to `0.0`, in order, each sum being rounded to a double (`avgQ3 += ...`), and
the sum is divided by `(double) c_ij.size()`, the quotient being rounded (`avgQ3 /= ...`). -/
def reclassifyWater.avgQ3 (c_ij : List Result) : Dbl :=
  Dbl.fdiv (c_ij.foldl (fun avgQ3 r => Dbl.fadd avgQ3 r.c_value) (Dbl.val 0))
    (Dbl.val (c_ij.length : ℚ))

/-- One iteration of the loop over `iatom` of `reclassifyWater` (lines 792-814). -/
def reclassifyWater.step (q6 : List Dbl) (yCloud : PointCloud) (iatom : Nat) :
    Option PointCloud :=
  match yCloud.pts[iatom]? with
  | none => none
  | some p =>
    if p.iceType = atom_state_type.water then
      match q6[iatom]? with
      | none => none
      | some q =>
        if Dbl.val 0.5 < q then
          if reclassifyWater.avgQ3 p.c_ij ≤ Dbl.val (-0.75) then
            if reclassifyWater.avgQ3 p.c_ij < Dbl.val (-0.85) then
              some (setIceType yCloud iatom atom_state_type.cubic)
            else some (setIceType yCloud iatom atom_state_type.hexagonal)
          else some yCloud
        else some yCloud
    else some yCloud

/-- The pass `chill::reclassifyWater` (lines 784-817). -/
def reclassifyWater (yCloud : PointCloud) (q6 : List Dbl) : Option PointCloud :=
  (List.range yCloud.nop).foldlM (reclassifyWater.step q6) yCloud

/-- The tag `reclassifyWater` leaves on a water particle with the q6 value `q` and the bond
results `c_ij` (lines 795-811). -/
def reclassifyWater.newTag (q : Dbl) (c_ij : List Result) : atom_state_type :=
  if Dbl.val 0.5 < q ∧ reclassifyWater.avgQ3 c_ij ≤ Dbl.val (-0.75) then
    if reclassifyWater.avgQ3 c_ij < Dbl.val (-0.85) then atom_state_type.cubic
    else atom_state_type.hexagonal
  else atom_state_type.water

/-- Example data: a water particle whose bond results hold the doubles nearest to the
correlation values `cs`. -/
def exampleWater (cs : List ℚ) (t : atom_state_type) : Point :=
  { atomID := 0, molID := 0, x := Dbl.val 0, y := Dbl.val 0, z := Dbl.val 0, neighList := [],
    c_ij := cs.map (fun v => ⟨bond_type.out_of_range, Dbl.val (Dbl.round v)⟩), iceType := t,
    inSlice := true }

/-- Example data: four particles, holding the tags `t0 .. t3`.  The value `avgQ3` of particle 0
is about `-0.9`; that of particle 1, computed from the doubles nearest to `-0.9` and `-0.8`, is
the double just below `-0.85`; that of particle 2 is `-0.75` and that of particle 3 is
`-0.5`. -/
def exampleReclass (t0 t1 t2 t3 : atom_state_type) : PointCloud :=
  { pts := [exampleWater [-0.95, -0.85] t0, exampleWater [-0.9, -0.8] t1,
      exampleWater [-0.75] t2, exampleWater [-0.5, -0.5] t3],
    nop := 4, box := [], boxLow := [], currentFrame := 0 }

/-- Example data: one particle, holding the tag `t`, whose two correlation values are the
doubles `-0.75` and `-0.75 + 2 ^ (-53)`.  Their arithmetic mean is `-0.75 + 2 ^ (-54)`; their
sum `-1.5 + 2 ^ (-53)` lies half-way between two doubles and is rounded to `-1.5`. -/
def exampleTie (t : atom_state_type) : PointCloud :=
  { pts := [exampleWater [-3 / 4, -3 / 4 + 1 / 2 ^ 53] t],
    nop := 1, box := [], boxLow := [], currentFrame := 0 }

/-- Example data: the five particles of `exampleFresh`, each holding the bond results `rs` and
the tag `t`. -/
def exampleStale (rs : List Result) (t : atom_state_type) : PointCloud :=
  { exampleFresh with pts := exampleFresh.pts.map (fun p => { p with iceType := t, c_ij := rs }) }

/-! ### The ice-type passes as one loop, and their counters -/

/-- The counters after an eligible particle received the tag `tag`: `total` and the counter of
the tag are incremented (lines 379 and 401-417, 586 and 605-639).  No branch of the passes
leaves the tag unclassified; that case increments `unknown`. -/
def Tally.bump (t : Tally) (tag : atom_state_type) : Tally :=
  match tag with
  | atom_state_type.cubic => { t with total := t.total + 1, ic := t.ic + 1 }
  | atom_state_type.hexagonal => { t with total := t.total + 1, ih := t.ih + 1 }
  | atom_state_type.interfacial => { t with total := t.total + 1, interIce := t.interIce + 1 }
  | atom_state_type.water => { t with total := t.total + 1, water := t.water + 1 }
  | atom_state_type.clathrate => { t with total := t.total + 1, clath := t.clath + 1 }
  | atom_state_type.interClathrate =>
    { t with total := t.total + 1, interClath := t.interClath + 1 }
  | atom_state_type.unclassified => { t with total := t.total + 1, unknown := t.unknown + 1 }

/-- The tag one iteration of `getIceType` gives the particle `p` at index `iatom` (lines
380-417); `none` when a bond result it reads does not exist. -/
def chillStepTag (yCloud : PointCloud) (iatom : Nat) (p : Point) : Option atom_state_type :=
  match countBonds p.c_ij (List.range 4) (0, 0, 0) with
  | none => none
  | some (num_staggrd, num_eclipsd, _) =>
    if num_staggrd ≥ 4 then some atom_state_type.cubic
    else if num_eclipsd = 1 ∧ num_staggrd = 3 then some atom_state_type.hexagonal
    else
      match isInterfacial yCloud iatom num_staggrd num_eclipsd with
      | none => none
      | some true => some atom_state_type.interfacial
      | some false => some atom_state_type.water

/-- The tag one iteration of `getIceTypePlus` gives the particle `p` at index `iatom` (lines
587-639); `none` when a bond result it reads does not exist. -/
def chillPlusStepTag (yCloud : PointCloud) (iatom : Nat) (p : Point) :
    Option atom_state_type :=
  match countBonds p.c_ij (List.range p.neighList.length) (0, 0, 0) with
  | none => none
  | some (num_staggrd, num_eclipsd, _) =>
    if p.neighList.length = 4 then
      if num_eclipsd = 0 ∧ num_staggrd = 4 then some atom_state_type.cubic
      else if num_eclipsd = 1 ∧ num_staggrd = 3 then some atom_state_type.hexagonal
      else
        match isInterfacial yCloud iatom num_staggrd num_eclipsd with
        | none => none
        | some true => some atom_state_type.interfacial
        | some false =>
          if num_eclipsd = 4 ∧ num_staggrd = 0 then some atom_state_type.clathrate
          else if num_eclipsd = 3 then some atom_state_type.interClathrate
          else some atom_state_type.water
    else some atom_state_type.water

/-- The common shape of one iteration of the two ice-type passes: a particle outside the slice
is skipped; another particle gets the tag `tagF` computes and is counted. -/
def tagStep (tagF : PointCloud → Nat → Point → Option atom_state_type) (isSlice : Bool)
    (st : PointCloud × Tally) (iatom : Nat) : Option (PointCloud × Tally) :=
  match st.1.pts[iatom]? with
  | none => none
  | some p =>
    if isSlice = true ∧ p.inSlice = false then some st
    else
      match tagF st.1 iatom p with
      | none => none
      | some tag =>
        some (setIceType (setIceType st.1 iatom atom_state_type.unclassified) iatom tag,
          Tally.bump st.2 tag)

/-- The particle `q` takes part in an ice-type pass run with the flag `isSlice`. -/
def eligible (isSlice : Bool) (q : Point) : Bool := !isSlice || q.inSlice

/-- The number of eligible particles of `pts` that hold the tag `t`. -/
def countTag (isSlice : Bool) (t : atom_state_type) (pts : List Point) : Nat :=
  pts.countP (fun q => eligible isSlice q && decide (q.iceType = t))

/-- The counters `t` count the eligible particles of `pts`, tag by tag. -/
def TallyOf (isSlice : Bool) (pts : List Point) (t : Tally) : Prop :=
  t.total = pts.countP (eligible isSlice) ∧
  t.ic = countTag isSlice atom_state_type.cubic pts ∧
  t.ih = countTag isSlice atom_state_type.hexagonal pts ∧
  t.interIce = countTag isSlice atom_state_type.interfacial pts ∧
  t.water = countTag isSlice atom_state_type.water pts ∧
  t.clath = countTag isSlice atom_state_type.clathrate pts ∧
  t.interClath = countTag isSlice atom_state_type.interClathrate pts ∧
  t.unknown = countTag isSlice atom_state_type.unclassified pts

/-- Example data: the five particles of `exampleFrame`, the last one lying outside the slice. -/
def exampleSlice (t0 t1 t2 t3 t4 : atom_state_type) : PointCloud :=
  { exampleFrame t0 t1 t2 t3 t4 with
    pts := (exampleFrame t0 t1 t2 t3 t4).pts.modify (fun p => { p with inSlice := false }) 4 }

/-! ### The correlation value of a bond -/

/-- A finite `std::complex<double>`, by its real and imaginary part.  Rounding is not
modelled. -/
structure Cplx where
  re : ℚ
  im : ℚ
deriving DecidableEq

/-- The sum of two complex numbers. -/
def Cplx.add (a b : Cplx) : Cplx := ⟨a.re + b.re, a.im + b.im⟩

/-- The product of two complex numbers. -/
def Cplx.mul (a b : Cplx) : Cplx := ⟨a.re * b.re - a.im * b.im, a.re * b.im + a.im * b.re⟩

/-- The conjugate `std::conj`. -/
def Cplx.conj (a : Cplx) : Cplx := ⟨a.re, -a.im⟩

/-- The real part of the quotient `a / b` (lines 340-342).  The quotient by zero is NaN: in the
embedded code the numerator is zero whenever the denominator is. -/
def Cplx.divRe (a b : Cplx) : Dbl :=
  if b.re * b.re + b.im * b.im = 0 then Dbl.nan
  else Dbl.val ((a.re * b.re + a.im * b.im) / (b.re * b.re + b.im * b.im))

/-- The loop over the components `m` (lines 331-337, 533-539), over the values of `m` still to
visit; the sums are `(dot_product, Inorm, Jnorm)`. -/
def getCorrel.sums (qI qJ : List Cplx) :
    List Nat → Cplx × Cplx × Cplx → Option (Cplx × Cplx × Cplx)
  | [], acc => some acc
  | m :: rest, (dot_product, Inorm, Jnorm) =>
    match qI[m]?, qJ[m]? with
    | some a, some b =>
      getCorrel.sums qI qJ rest
        (Cplx.add dot_product (Cplx.mul a (Cplx.conj b)),
          Cplx.add Inorm (Cplx.mul a (Cplx.conj a)),
          Cplx.add Jnorm (Cplx.mul b (Cplx.conj b)))
    | _, _ => none

/-- The value `cij_real` of the bond from `iatom` to `jatom` (lines 326-342, 528-544), from the
averaged vectors `QlmTotal.ptq[..].ylm`, here `ptq`; `csqrt` is `std::sqrt` on complex numbers
and `l = 3`. -/
def getCorrel.cij_real (csqrt : Cplx → Cplx) (ptq : List (List Cplx)) (iatom jatom : Nat) :
    Option Dbl :=
  match ptq[iatom]?, ptq[jatom]? with
  | some qI, some qJ =>
    match getCorrel.sums qI qJ (List.range (2 * 3 + 1)) (⟨0, 0⟩, ⟨0, 0⟩, ⟨0, 0⟩) with
    | none => none
    | some (dot_product, Inorm, Jnorm) =>
      let complexDenominator := csqrt (Cplx.mul Inorm Jnorm)
      some (Cplx.divRe dot_product complexDenominator)
  | _, _ => none

/-- Example data: a square root that is exact on the real integer squares. -/
def exampleSqrt (z : Cplx) : Cplx :=
  ⟨(((List.range (z.re.num.toNat + 1)).find? (fun k => k * k = z.re.num.toNat)).getD 0 : Nat),
    0⟩

/-- Example data: the averaged vectors of two particles. -/
def examplePtq : List (List Cplx) :=
  [[⟨1, 1⟩, ⟨0, 0⟩, ⟨0, 0⟩, ⟨0, 0⟩, ⟨0, 0⟩, ⟨0, 0⟩, ⟨0, 0⟩],
    [⟨1, 0⟩, ⟨1, 0⟩, ⟨0, 0⟩, ⟨0, 0⟩, ⟨0, 0⟩, ⟨0, 0⟩, ⟨0, 0⟩]]

/-- Example data: the correlation values of `examplePtq`. -/
def exampleQ (iatom jatom : Nat) : Dbl :=
  (getCorrel.cij_real exampleSqrt examplePtq iatom jatom).getD Dbl.nan

/-- Example data: two particles, each the only neighbour of the other, the first one holding
the bond results `stale`. -/
def examplePair (stale : List bond_type) : PointCloud :=
  { pts := [examplePoint [1] stale atom_state_type.unclassified,
      examplePoint [0] [] atom_state_type.unclassified],
    nop := 2, box := [], boxLow := [], currentFrame := 0 }

/-! ### More example data -/

/-- Example data: four particles without bond results, each with the three others as
neighbours. -/
def exampleFresh3 : PointCloud :=
  { pts :=
      [examplePoint [1, 2, 3] [] atom_state_type.unclassified,
        examplePoint [0, 2, 3] [] atom_state_type.unclassified,
        examplePoint [0, 1, 3] [] atom_state_type.unclassified,
        examplePoint [0, 1, 2] [] atom_state_type.unclassified],
    nop := 4, box := [], boxLow := [], currentFrame := 0 }

/-- Example data: the five particles of `exampleFresh`, the last one lying outside the
slice. -/
def exampleFreshSlice : PointCloud :=
  { exampleFresh with
    pts := exampleFresh.pts.modify (fun p => { p with inSlice := false }) 4 }

/-- Example data: correlation values, `-0.9` for the bonds from particle 0 to the particles 1
and 2, and `0.5` for every other bond. -/
def exampleCij (iatom jatom : Nat) : Dbl :=
  if iatom = 0 ∧ jatom ≤ 2 then Dbl.val (-0.9) else Dbl.val 0.5

/-! ### The function `getIceCloud` -/

/-- One iteration of the loop of `getIceCloud` (lines 831-838); the state is the ice cloud and
the counter `nIce`. -/
def getIceCloud.step (yCloud : PointCloud) (st : PointCloud × Nat) (iatom : Nat) :
    Option (PointCloud × Nat) :=
  match yCloud.pts[iatom]? with
  | none => none
  | some p =>
    if p.iceType = atom_state_type.water then some st
    else some ({ st.1 with pts := st.1.pts ++ [p] }, st.2 + 1)

/-- The function `chill::getIceCloud` (lines 823-845).  It returns the frames that `*yCloud` and
`*iceCloud` hold at the end, in this order. -/
def getIceCloud (yCloud iceCloud : PointCloud) : Option (PointCloud × PointCloud) :=
  match (List.range yCloud.nop).foldlM (getIceCloud.step yCloud)
      ({ iceCloud with box := yCloud.box }, 0) with
  | none => none
  | some (ice, nIce) =>
    some (yCloud,
      { ice with nop := nIce, currentFrame := yCloud.currentFrame, boxLow := yCloud.boxLow })

/-- Example data: a frame without particles. -/
def exampleEmpty : PointCloud :=
  { pts := [], nop := 0, box := [], boxLow := [], currentFrame := 0 }

/-- Example data: six particles without bond results.  Particle 0 has the five others as
neighbours, particle 1 has the neighbours `nl1`, and each other particle has four
neighbours. -/
def exampleSix (nl1 : List Nat) : PointCloud :=
  { pts :=
      [examplePoint [1, 2, 3, 4, 5] [] atom_state_type.unclassified,
        examplePoint nl1 [] atom_state_type.unclassified,
        examplePoint [0, 1, 3, 4] [] atom_state_type.unclassified,
        examplePoint [0, 1, 2, 4] [] atom_state_type.unclassified,
        examplePoint [0, 1, 2, 3] [] atom_state_type.unclassified,
        examplePoint [0, 1, 2, 3] [] atom_state_type.unclassified],
    nop := 6, box := [], boxLow := [], currentFrame := 0 }

/-- Example data: correlation values for `exampleSix`, `-0.9` for the bonds from particle 0 to
the particles 1 and 2 and for the bonds from particle 1 to the particles 0, 2 and 4, and `0.5`
for every other bond. -/
def exampleSixCij (iatom jatom : Nat) : Dbl :=
  if (iatom = 0 ∧ jatom ≤ 2) ∨ (iatom = 1 ∧ jatom ≠ 3) then Dbl.val (-0.9) else Dbl.val 0.5

/-- Example data: six particles with four neighbours each, but particle 0, which has five; its
fifth bond is labelled `later`.  Particle 0 has two staggered bonds among the first four and its
neighbour 1 has three. -/
def exampleWide (later : bond_type) : PointCloud :=
  { pts :=
      [examplePoint [1, 2, 3, 4, 5] [bond_type.staggered, bond_type.staggered,
          bond_type.out_of_range, bond_type.out_of_range, later]
          atom_state_type.unclassified,
        examplePoint [0, 2, 3, 4] [bond_type.staggered, bond_type.staggered,
          bond_type.staggered, bond_type.out_of_range] atom_state_type.unclassified,
        examplePoint [0, 1, 3, 4] [bond_type.out_of_range, bond_type.out_of_range,
          bond_type.out_of_range, bond_type.out_of_range] atom_state_type.unclassified,
        examplePoint [0, 1, 2, 4] [bond_type.out_of_range, bond_type.out_of_range,
          bond_type.out_of_range, bond_type.out_of_range] atom_state_type.unclassified,
        examplePoint [0, 1, 2, 3] [bond_type.out_of_range, bond_type.out_of_range,
          bond_type.out_of_range, bond_type.out_of_range] atom_state_type.unclassified,
        examplePoint [0, 1, 2, 3] [bond_type.out_of_range, bond_type.out_of_range,
          bond_type.out_of_range, bond_type.out_of_range] atom_state_type.unclassified],
    nop := 6, box := [], boxLow := [], currentFrame := 0 }

/-- The invariant of the construction loop of `largestIceCluster`: the linked list has `nop`
entries, and every particle lies on a ring of the linked list that holds only particles
connected to it. -/
def CycleInv (periodicDist : PointCloud → Nat → Nat → Dbl) (iceCloud : PointCloud)
    (cutoff : Dbl) (L : List Nat) : Prop :=
  L.length = iceCloud.nop ∧
  ∀ x, x < iceCloud.nop →
    ∃ r, x ∈ r ∧ IsRing L r ∧ ∀ y ∈ r, connected periodicDist iceCloud cutoff x y

/-! ### The averaged vectors and the pass `getq6` -/

/-- Modelled from the spec: the function `avgVector`, which is missing from the sources: every
component of the vector is divided by the neighbour count (spec §4.1).  In every call of the
embedded code the vector is empty when the count is `0`. -/
def avgVector (v : List Cplx) (_l : Nat) (neigh : Nat) : List Cplx :=
  v.map (fun a => ⟨a.re / (neigh : ℚ), a.im / (neigh : ℚ)⟩)

/-- The loop `ylm[m] += lookupTable(m, angles)` over the components (lines 295-298, 497-500,
717-720), over the values of `m` still to visit; `yl` holds the values added. -/
def QlmTotal.add (yl : List Cplx) : List Nat → List Cplx → Option (List Cplx)
  | [], ylm => some ylm
  | m :: rest, ylm =>
    match ylm[m]?, yl[m]? with
    | some a, some b => QlmTotal.add yl rest (ylm.set m (Cplx.add a b))
    | _, _ => none

/-- The loop over the neighbours `j` of `iatom` in the first half of `getCorrel`,
`getCorrelPlus` and `getq6` (lines 272-299, 474-501, 696-721), over the pairs `(j, jatom)` still
to visit.  `harm iatom jatom` is the vector of the `2 l + 1` harmonics at the angles of the
pair: the first neighbour assigns it, the later ones add to it. -/
def QlmTotal.ylm (harm : Nat → Nat → List Cplx) (l iatom : Nat) :
    List (Nat × Nat) → List Cplx → Option (List Cplx)
  | [], ylm => some ylm
  | (j, jatom) :: rest, ylm =>
    if j = 0 then QlmTotal.ylm harm l iatom rest (harm iatom jatom)
    else
      match QlmTotal.add (harm iatom jatom) (List.range (2 * l + 1)) ylm with
      | none => none
      | some ylm1 => QlmTotal.ylm harm l iatom rest ylm1

/-- The first half of `getCorrel`, `getCorrelPlus` (with `l = 3`) and `getq6` (with `l = 6`),
lines 266-304, 465-506 and 689-726: the vectors `QlmTotal.ptq[iatom].ylm`, which start
empty. -/
def QlmTotal (harm : Nat → Nat → List Cplx) (l : Nat) (yCloud : PointCloud) :
    Option (List (List Cplx)) :=
  (List.range yCloud.nop).mapM (fun iatom =>
    match yCloud.pts[iatom]? with
    | none => none
    | some p =>
      match QlmTotal.ylm harm l iatom p.neighList.enum [] with
      | none => none
      | some ylm => some (avgVector ylm l p.neighList.length))

/-- The value `cij_real` of `getq6` for the bond from `iatom` to `jatom` (lines 742-762): as in
`getCorrel`, over the `2 * 6 + 1` components. -/
def getq6.cij_real (csqrt : Cplx → Cplx) (ptq : List (List Cplx)) (iatom jatom : Nat) :
    Option Dbl :=
  match ptq[iatom]?, ptq[jatom]? with
  | some qI, some qJ =>
    match getCorrel.sums qI qJ (List.range (2 * 6 + 1)) (⟨0, 0⟩, ⟨0, 0⟩, ⟨0, 0⟩) with
    | none => none
    | some (dot_product, Inorm, Jnorm) =>
      let complexDenominator := csqrt (Cplx.mul Inorm Jnorm)
      some (Cplx.divRe dot_product complexDenominator)
  | _, _ => none

/-- The loop over the neighbours in the second half of `getq6` (lines 741-764), over the
neighbours still to visit: `q_value += cij_real`. -/
def getq6.q_value (csqrt : Cplx → Cplx) (ptq : List (List Cplx)) (iatom : Nat) :
    List Nat → Dbl → Option Dbl
  | [], q_value => some q_value
  | jatom :: rest, q_value =>
    match getq6.cij_real csqrt ptq iatom jatom with
    | none => none
    | some cij_real => getq6.q_value csqrt ptq iatom rest (Dbl.add q_value cij_real)

/-- The pass `chill::getq6` (lines 666-776): the vector `resultQ`.  The slice flag is not
read. -/
def getq6 (harm : Nat → Nat → List Cplx) (csqrt : Cplx → Cplx) (yCloud : PointCloud)
    (_isSlice : Bool) : Option (List Dbl) :=
  match QlmTotal harm 6 yCloud with
  | none => none
  | some ptq =>
    (List.range yCloud.nop).mapM (fun iatom =>
      match yCloud.pts[iatom]? with
      | none => none
      | some p =>
        match getq6.q_value csqrt ptq iatom p.neighList (Dbl.val 0) with
        | none => none
        | some q_value => some (Dbl.div q_value (Dbl.val (p.neighList.length : ℚ))))

/-- Example data: two particles without bond results; particle 0 has particle 1 as its
neighbour and particle 1 has no neighbour. -/
def exampleLone : PointCloud :=
  { pts := [examplePoint [1] [] atom_state_type.unclassified,
      examplePoint [] [] atom_state_type.unclassified],
    nop := 2, box := [], boxLow := [], currentFrame := 0 }

/-- Example data: one particle without neighbours. -/
def exampleSingle : PointCloud :=
  { pts := [examplePoint [] [] atom_state_type.unclassified],
    nop := 1, box := [], boxLow := [], currentFrame := 0 }



/-! ### The function `printIceType` -/

/-- One iteration of the loop of `printIceType` (lines 973-997). -/
def printIceType.step (yCloud : PointCloud) (isSlice : Bool) (t : Tally) (iatom : Nat) :
    Option Tally :=
  match yCloud.pts[iatom]? with
  | none => none
  | some p =>
    if isSlice = true ∧ p.inSlice = false then some t
    else
      let t := { t with total := t.total + 1 }
      if p.iceType = atom_state_type.cubic then some { t with ic := t.ic + 1 }
      else if p.iceType = atom_state_type.hexagonal then some { t with ih := t.ih + 1 }
      else if p.iceType = atom_state_type.water then some { t with water := t.water + 1 }
      else if p.iceType = atom_state_type.interfacial then
        some { t with interIce := t.interIce + 1 }
      else if p.iceType = atom_state_type.clathrate then some { t with clath := t.clath + 1 }
      else if p.iceType = atom_state_type.interClathrate then
        some { t with interClath := t.interClath + 1 }
      else some { t with unknown := t.unknown + 1 }

/-- The function `chill::printIceType` (lines 965-1015).  It returns the value `0` and the line
appended to the report file: frame, ic, ih, interIce, clath, interClath, water, total. -/
def printIceType (yCloud : PointCloud) (isSlice : Bool) : Option (Int × List Int) :=
  match (List.range yCloud.nop).foldlM (printIceType.step yCloud isSlice) Tally.zero with
  | none => none
  | some t =>
    some (0, [yCloud.currentFrame, t.ic, t.ih, t.interIce, t.clath, t.interClath, t.water,
      t.total])

/-! ### The decision rules as a list -/

/-- The rules of the CHILL decision tree (lines 401-417), in the order of the source: the
condition of each rule, evaluated for `num_staggrd` staggered and `num_eclipsd` eclipsed bonds
and the value `interfacial` of the interfacial test, with the tag the rule assigns. -/
def chillRules (num_staggrd num_eclipsd : Nat) (interfacial : Bool) :
    List (Bool × atom_state_type) :=
  [(decide (num_staggrd ≥ 4), atom_state_type.cubic),
    (decide (num_eclipsd = 1 ∧ num_staggrd = 3), atom_state_type.hexagonal),
    (interfacial, atom_state_type.interfacial)]

/-- The rules of the CHILL+ decision tree for a particle with 4 neighbours (lines 606-630), in
the order of the source. -/
def chillPlusRules (num_staggrd num_eclipsd : Nat) (interfacial : Bool) :
    List (Bool × atom_state_type) :=
  [(decide (num_eclipsd = 0 ∧ num_staggrd = 4), atom_state_type.cubic),
    (decide (num_eclipsd = 1 ∧ num_staggrd = 3), atom_state_type.hexagonal),
    (interfacial, atom_state_type.interfacial),
    (decide (num_eclipsd = 4 ∧ num_staggrd = 0), atom_state_type.clathrate),
    (decide (num_eclipsd = 3), atom_state_type.interClathrate)]

/-- The evaluation of a list of rules in its order: the tag of the first rule whose condition
holds, and water when none holds (the final `else` of both trees). -/
def firstMatch : List (Bool × atom_state_type) → atom_state_type
  | [] => atom_state_type.water
  | (cond, tag) :: rest => if cond = true then tag else firstMatch rest

/-! ### Rings without reference to the distance -/

/-- Every index of the linked list `L` lies on a ring of `L`. -/
def AllRings (L : List Nat) : Prop :=
  ∀ x, x < L.length → ∃ r, x ∈ r ∧ IsRing L r

/-- The state of the do-while of `largestIceCluster` for the start index `i`, entered with the
linked list `L0`, whatever the distance: the ring of `i` is `pre ++ j :: post`, its entries were
on their own in `L0`, and the rest of the linked list is as in `L0`. -/
def WalkInv (L0 : List Nat) (i : Nat) (L pre : List Nat) (j : Nat) (post : List Nat) : Prop :=
  L.length = L0.length ∧ IsRing L (pre ++ j :: post) ∧ (pre ++ [j]).head? = some i ∧
  (∀ x ∈ pre ++ j :: post, L0[x]? = some x) ∧
  (∀ x, x ∉ pre ++ j :: post → L[x]? = L0[x]?)

/-- Example data: a distance for `exampleIce` that is not symmetric: the distance between the
abscissas from a particle to a particle of larger index, and NaN in the other direction. -/
def exampleOneWay (cloud : PointCloud) (a b : Nat) : Dbl :=
  if a < b then exampleDist cloud a b else Dbl.nan

/-! ### The correlation value over an arbitrary field

The correlation value of `getCorrel`, `getCorrelPlus` and `getq6` involves a square root, which
the rational numbers of `Cplx` cannot hold in general.  The definitions of this section
translate the same lines of the source with the parts of the complex numbers in a field `K`:
for `K = ℚ` they are executable, and for `K = ℝ` they are the computation in exact
arithmetic.  A NaN is `none`. -/

/-- A `std::complex<double>` with its parts in the field `K`. -/
structure CplxOver (K : Type) where
  re : K
  im : K

/-- The sum of two complex numbers. -/
def CplxOver.add {K : Type} [Field K] (a b : CplxOver K) : CplxOver K :=
  ⟨a.re + b.re, a.im + b.im⟩

/-- The product of two complex numbers. -/
def CplxOver.mul {K : Type} [Field K] (a b : CplxOver K) : CplxOver K :=
  ⟨a.re * b.re - a.im * b.im, a.re * b.im + a.im * b.re⟩

/-- The conjugate `std::conj`. -/
def CplxOver.conj {K : Type} [Field K] (a : CplxOver K) : CplxOver K := ⟨a.re, -a.im⟩

/-- The real part of the quotient `a / b` (lines 340-342); the quotient by zero is NaN. -/
def CplxOver.divRe {K : Type} [Field K] [DecidableEq K] (a b : CplxOver K) : Option K :=
  if b.re * b.re + b.im * b.im = 0 then none
  else some ((a.re * b.re + a.im * b.im) / (b.re * b.re + b.im * b.im))

/-- The loop over the components `m` (lines 331-337, 533-539, 750-756), over the values of `m`
still to visit; the sums are `(dot_product, Inorm, Jnorm)`. -/
def getCorrel.sumsOver {K : Type} [Field K] (qI qJ : List (CplxOver K)) :
    List Nat → CplxOver K × CplxOver K × CplxOver K →
      Option (CplxOver K × CplxOver K × CplxOver K)
  | [], acc => some acc
  | m :: rest, (dot_product, Inorm, Jnorm) =>
    match qI[m]?, qJ[m]? with
    | some a, some b =>
      getCorrel.sumsOver qI qJ rest
        (CplxOver.add dot_product (CplxOver.mul a (CplxOver.conj b)),
          CplxOver.add Inorm (CplxOver.mul a (CplxOver.conj a)),
          CplxOver.add Jnorm (CplxOver.mul b (CplxOver.conj b)))
    | _, _ => none

/-- The value `cij_real` of a bond (lines 326-342 and 528-544 with `l = 3`, lines 745-762 with
`l = 6`) from the averaged vectors `qI` and `qJ` of its two particles; `csqrt` is `std::sqrt`
on complex numbers.  The outer `none` is a read out of range, the inner one a NaN. -/
def getCorrel.cij_realOver {K : Type} [Field K] [DecidableEq K]
    (csqrt : CplxOver K → CplxOver K) (l : Nat) (qI qJ : List (CplxOver K)) :
    Option (Option K) :=
  match getCorrel.sumsOver qI qJ (List.range (2 * l + 1)) (⟨0, 0⟩, ⟨0, 0⟩, ⟨0, 0⟩) with
  | none => none
  | some (dot_product, Inorm, Jnorm) =>
    let complexDenominator := csqrt (CplxOver.mul Inorm Jnorm)
    some (CplxOver.divRe dot_product complexDenominator)

/-- The loop over the neighbours in the second half of `getq6` (lines 741-764), over the
neighbours still to visit: `q_value += cij_real`. -/
def getq6.q_valueOver {K : Type} [Field K] [DecidableEq K] (csqrt : CplxOver K → CplxOver K)
    (ptq : List (List (CplxOver K))) (iatom : Nat) : List Nat → Option K → Option (Option K)
  | [], q_value => some q_value
  | jatom :: rest, q_value =>
    match ptq[iatom]?, ptq[jatom]? with
    | some qI, some qJ =>
      match getCorrel.cij_realOver csqrt 6 qI qJ with
      | none => none
      | some cij_real =>
        getq6.q_valueOver csqrt ptq iatom rest
          (match q_value, cij_real with
            | some a, some b => some (a + b)
            | _, _ => none)
    | _, _ => none

/-- The value `resultQ[iatom]` of `getq6` (lines 739-769) for a particle with the neighbour
list `neighList`: the sum of the correlation values divided by the neighbour count. -/
def getq6.resultOver {K : Type} [Field K] [DecidableEq K] (csqrt : CplxOver K → CplxOver K)
    (ptq : List (List (CplxOver K))) (iatom : Nat) (neighList : List Nat) :
    Option (Option K) :=
  match getq6.q_valueOver csqrt ptq iatom neighList (some 0) with
  | none => none
  | some none => some none
  | some (some q_value) =>
    if (neighList.length : K) = 0 then some none
    else some (some (q_value / (neighList.length : K)))

/-- The complex number of `Cplx` as a `CplxOver ℚ`. -/
def Cplx.over (a : Cplx) : CplxOver ℚ := ⟨a.re, a.im⟩

/-- The double of `Dbl` for a value of the field `ℚ`, with `none` for NaN. -/
def Dbl.ofOption : Option ℚ → Dbl
  | none => Dbl.nan
  | some q => Dbl.val q


theorem Dbl_lt_val (a b : ℚ) : (Dbl.val a < Dbl.val b) ↔ a < b := by
  show (Dbl.lt (Dbl.val a) (Dbl.val b) = true) ↔ a < b
  simp [Dbl.lt]

theorem Dbl_le_val (a b : ℚ) : (Dbl.val a ≤ Dbl.val b) ↔ a ≤ b := by
  show (Dbl.le (Dbl.val a) (Dbl.val b) = true) ↔ a ≤ b
  simp [Dbl.le]

theorem Dbl_nan_lt (b : Dbl) : ¬ (Dbl.nan < b) := by
  show ¬ (Dbl.lt Dbl.nan b = true)
  simp [Dbl.lt]

theorem Dbl_lt_nan (a : Dbl) : ¬ (a < Dbl.nan) := by
  show ¬ (Dbl.lt a Dbl.nan = true)
  cases a <;> simp [Dbl.lt]

theorem Dbl_nan_le (b : Dbl) : ¬ (Dbl.nan ≤ b) := by
  show ¬ (Dbl.le Dbl.nan b = true)
  simp [Dbl.le]

theorem Dbl_le_nan (a : Dbl) : ¬ (a ≤ Dbl.nan) := by
  show ¬ (Dbl.le a Dbl.nan = true)
  cases a <;> simp [Dbl.le]

/-! ### Counting loops -/

theorem countBonds_append (rs : List Result) (l1 l2 : List Nat) (acc : Nat × Nat × Nat) :
    countBonds rs (l1 ++ l2) acc = (countBonds rs l1 acc).bind (countBonds rs l2) := by
  induction l1 generalizing acc with
  | nil => simp [countBonds]
  | cons j rest ih =>
    obtain ⟨s, e, na⟩ := acc
    simp only [List.cons_append, countBonds]
    cases rs[j]? with
    | none => simp
    | some r =>
      simp only
      split_ifs <;> exact ih _

theorem countBonds_range (rs : List Result) (n : Nat) (hn : n ≤ rs.length) :
    countBonds rs (List.range n) (0, 0, 0) =
      some (numLabel bond_type.staggered (rs.take n), numLabel bond_type.eclipsed (rs.take n),
        (rs.take n).countP (fun r => decide (r.classifier ≠ bond_type.eclipsed ∧
          r.classifier ≠ bond_type.staggered))) := by
  induction n with
  | zero => simp [countBonds, numLabel]
  | succ n ih =>
    have hlt : n < rs.length := hn
    rw [List.range_succ, countBonds_append, ih (Nat.le_of_lt hlt)]
    simp only [Option.some_bind, countBonds, List.getElem?_eq_getElem hlt]
    have htake : rs.take (n + 1) = rs.take n ++ [rs[n]] := by
      rw [List.take_succ, List.getElem?_eq_getElem hlt]; rfl
    rw [htake]
    simp only [numLabel, List.countP_append, List.countP_cons, List.countP_nil]
    by_cases h1 : rs[n].classifier = bond_type.eclipsed
    · simp [h1]
    · by_cases h2 : rs[n].classifier = bond_type.staggered
      · simp [h2]
      · simp [h1, h2]

theorem countBonds_range_none (rs : List Result) (n : Nat) (hn : rs.length < n) :
    countBonds rs (List.range n) (0, 0, 0) = none := by
  induction n with
  | zero => omega
  | succ n ih =>
    rw [List.range_succ, countBonds_append]
    by_cases h : rs.length < n
    · rw [ih h]; rfl
    · have hn' : n = rs.length := by omega
      subst hn'
      rw [countBonds_range rs rs.length le_rfl]
      simp [countBonds]

theorem countBonds_some (rs : List Result) (n s e na : Nat)
    (h : countBonds rs (List.range n) (0, 0, 0) = some (s, e, na)) :
    n ≤ rs.length ∧ s = numLabel bond_type.staggered (rs.take n) ∧
      e = numLabel bond_type.eclipsed (rs.take n) := by
  by_cases hn : n ≤ rs.length
  · rw [countBonds_range rs n hn] at h
    simp only [Option.some.injEq, Prod.mk.injEq] at h
    exact ⟨hn, h.1.symm, h.2.1.symm⟩
  · rw [countBonds_range_none rs n (by omega)] at h
    exact absurd h (by simp)

theorem numStaggered_loop_append (rs : List Result) (l1 l2 : List Nat) (acc : Nat) :
    numStaggered.loop rs (l1 ++ l2) acc = (numStaggered.loop rs l1 acc).bind (numStaggered.loop rs l2) := by
  induction l1 generalizing acc with
  | nil => simp [numStaggered.loop]
  | cons j rest ih =>
    simp only [List.cons_append, numStaggered.loop]
    cases rs[j]? with
    | none => simp
    | some r =>
      simp only
      split_ifs <;> exact ih _

theorem numStaggered_loop_range (rs : List Result) (n : Nat) (hn : n ≤ rs.length) :
    numStaggered.loop rs (List.range n) 0 = some (numLabel bond_type.staggered (rs.take n)) := by
  induction n with
  | zero => simp [numStaggered.loop, numLabel]
  | succ n ih =>
    have hlt : n < rs.length := hn
    rw [List.range_succ, numStaggered_loop_append, ih (Nat.le_of_lt hlt)]
    simp only [Option.some_bind, numStaggered.loop, List.getElem?_eq_getElem hlt]
    have htake : rs.take (n + 1) = rs.take n ++ [rs[n]] := by
      rw [List.take_succ, List.getElem?_eq_getElem hlt]; rfl
    rw [htake]
    simp only [numLabel, List.countP_append, List.countP_cons, List.countP_nil]
    by_cases h2 : rs[n].classifier = bond_type.staggered
    · simp [h2]
    · simp [h2]

theorem numStaggered_loop_range_none (rs : List Result) (n : Nat) (hn : rs.length < n) :
    numStaggered.loop rs (List.range n) 0 = none := by
  induction n with
  | zero => omega
  | succ n ih =>
    rw [List.range_succ, numStaggered_loop_append]
    by_cases h : rs.length < n
    · rw [ih h]; rfl
    · have hn' : n = rs.length := by omega
      subst hn'
      rw [numStaggered_loop_range rs rs.length le_rfl]
      simp [numStaggered.loop]

/-- What `numStaggered` returns: the staggered labels among the first `min 4 n` bond results,
provided they all exist. -/
theorem numStaggered_eq_some (y : PointCloud) (jatom n : Nat) :
    numStaggered y jatom = some n ↔
      ∃ q, y.pts[jatom]? = some q ∧ min 4 q.neighList.length ≤ q.c_ij.length ∧
        n = numLabel bond_type.staggered (q.c_ij.take (min 4 q.neighList.length)) := by
  unfold numStaggered
  cases hq : y.pts[jatom]? with
  | none => simp
  | some q =>
    have hmin : (if q.neighList.length < 4 then q.neighList.length else 4) =
        min 4 q.neighList.length := by
      split_ifs <;> omega
    simp only [hmin, Option.some.injEq, exists_eq_left']
    by_cases hle : min 4 q.neighList.length ≤ q.c_ij.length
    · rw [numStaggered_loop_range _ _ hle]
      simp only [Option.some.injEq]
      constructor
      · intro h; exact ⟨hle, h.symm⟩
      · intro h; exact h.2.symm
    · rw [numStaggered_loop_range_none _ _ (by omega)]
      simp [hle]



/-! ### The interfacial test -/

theorem isInterfacial_loop_true (y : PointCloud) (nl : List Nat) (test : Nat → Bool)
    (js : List Nat) (h : isInterfacial.loop y nl test js = some true) :
    ∃ j ∈ js, ∃ jatom ns, nl[j]? = some jatom ∧ numStaggered y jatom = some ns ∧
      test ns = true := by
  induction js with
  | nil => simp [isInterfacial.loop] at h
  | cons j rest ih =>
    simp only [isInterfacial.loop] at h
    cases hj : nl[j]? with
    | none => simp [hj] at h
    | some jatom =>
      simp only [hj] at h
      cases hn : numStaggered y jatom with
      | none => simp [hn] at h
      | some ns =>
        simp only [hn] at h
        by_cases ht : test ns = true
        · exact ⟨j, List.mem_cons_self _ _, jatom, ns, hj, hn, ht⟩
        · simp only [ht, if_false] at h
          obtain ⟨j', hj', rest'⟩ := ih h
          exact ⟨j', List.mem_cons_of_mem _ hj', rest'⟩

theorem isInterfacial_loop_false (y : PointCloud) (nl : List Nat) (test : Nat → Bool)
    (js : List Nat) (h : isInterfacial.loop y nl test js = some false) :
    ∀ j ∈ js, ∃ jatom ns, nl[j]? = some jatom ∧ numStaggered y jatom = some ns ∧
      test ns = false := by
  induction js with
  | nil => simp
  | cons j rest ih =>
    simp only [isInterfacial.loop] at h
    cases hj : nl[j]? with
    | none => simp [hj] at h
    | some jatom =>
      simp only [hj] at h
      cases hn : numStaggered y jatom with
      | none => simp [hn] at h
      | some ns =>
        simp only [hn] at h
        by_cases ht : test ns = true
        · simp [ht] at h
        · simp only [ht, if_false] at h
          intro j' hj'
          rcases List.mem_cons.mp hj' with rfl | hmem
          · exact ⟨jatom, ns, hj, hn, by simpa using ht⟩
          · exact ih h j' hmem

theorem isInterfacial_loop_total (y : PointCloud) (nl : List Nat) (test : Nat → Bool)
    (js : List Nat)
    (h : ∀ j ∈ js, ∃ jatom ns, nl[j]? = some jatom ∧ numStaggered y jatom = some ns) :
    ∃ b, isInterfacial.loop y nl test js = some b := by
  induction js with
  | nil => exact ⟨false, rfl⟩
  | cons j rest ih =>
    obtain ⟨jatom, ns, hj, hn⟩ := h j (List.mem_cons_self _ _)
    simp only [isInterfacial.loop, hj, hn]
    by_cases ht : test ns = true
    · exact ⟨true, by simp [ht]⟩
    · simp only [ht, if_false]
      exact ih (fun j' hj' => h j' (List.mem_cons_of_mem _ hj'))

/-- The neighbour loop in terms of the bond results: it returns `true` exactly when one of the
visited neighbours passes the test. -/
theorem isInterfacial_loop_iff (y : PointCloud) (nl : List Nat) (test : Nat → Bool)
    (js : List Nat) (b : Bool) (h : isInterfacial.loop y nl test js = some b) :
    b = true ↔ ∃ j ∈ js, ∃ jatom q, nl[j]? = some jatom ∧ y.pts[jatom]? = some q ∧
      test (numSt q) = true := by
  constructor
  · intro hb
    subst hb
    obtain ⟨j, hj, jatom, ns, h1, h2, h3⟩ := isInterfacial_loop_true y nl test js h
    obtain ⟨q, hq, _, hns⟩ := (numStaggered_eq_some y jatom ns).mp h2
    exact ⟨j, hj, jatom, q, h1, hq, by unfold numSt; rw [← hns]; exact h3⟩
  · rintro ⟨j, hj, jatom, q, h1, hq, h3⟩
    cases b with
    | true => rfl
    | false =>
      obtain ⟨jatom', ns, h1', h2, h4⟩ := isInterfacial_loop_false y nl test js h j hj
      rw [h1] at h1'
      cases h1'
      obtain ⟨q', hq', _, hns⟩ := (numStaggered_eq_some y jatom ns).mp h2
      rw [hq] at hq'
      cases hq'
      unfold numSt at h3; rw [← hns, h4] at h3
      exact absurd h3 (by simp)

theorem ite_lt_four (n : Nat) : (if n < 4 then n else 4) = min 4 n := by
  split_ifs <;> omega

/-- What `isInterfacial` returns, when it returns. -/
theorem isInterfacial_some_iff (y : PointCloud) (iatom s e : Nat) (p : Point)
    (hp : y.pts[iatom]? = some p) (b : Bool) (h : isInterfacial y iatom s e = some b) :
    b = true ↔
      (s = 2 ∧ ∃ j, j < min 4 p.neighList.length ∧ ∃ jatom q, p.neighList[j]? = some jatom ∧
        y.pts[jatom]? = some q ∧ 2 < numSt q) ∨
      (s = 3 ∧ e = 0 ∧ ∃ j, j < min 4 p.neighList.length ∧ ∃ jatom q,
        p.neighList[j]? = some jatom ∧ y.pts[jatom]? = some q ∧ numSt q = 2) := by
  unfold isInterfacial at h
  simp only [hp, ite_lt_four] at h
  by_cases hs2 : s = 2
  · have hs3 : ¬ (s = 3 ∧ e = 0) := by omega
    simp only [hs2, if_true] at h
    cases hl : isInterfacial.loop y p.neighList (fun n => decide (n > 2))
        (List.range (min 4 p.neighList.length)) with
    | none => simp [hl] at h
    | some b1 =>
      have hiff := isInterfacial_loop_iff y p.neighList _ _ b1 hl
      simp only [List.mem_range, decide_eq_true_eq] at hiff
      cases b1 with
      | true =>
        simp only [hl, Option.some.injEq] at h
        subst h
        simp only [true_iff] at hiff ⊢
        exact Or.inl ⟨hs2, hiff⟩
      | false =>
        simp only [hl] at h
        have hb : b = false := by
          have : (if (2:Nat) = 3 ∧ e = 0 then
              isInterfacial.loop y p.neighList (fun n => decide (n = 2))
                (List.range (min 4 p.neighList.length))
            else some false) = some false := by simp
          rw [this] at h
          exact (Option.some.inj h).symm
        subst hb
        simp only [Bool.false_eq_true, false_iff] at hiff ⊢
        rintro (⟨_, hex⟩ | ⟨h3, _⟩)
        · exact hiff (by simpa [gt_iff_lt] using hex)
        · omega
  · simp only [hs2, if_false] at h
    by_cases hs3 : s = 3 ∧ e = 0
    · simp only [hs3, and_self, if_true] at h
      have hiff := isInterfacial_loop_iff y p.neighList _ _ b h
      simp only [List.mem_range, decide_eq_true_eq] at hiff
      rw [hiff]
      constructor
      · intro hex; exact Or.inr ⟨hs3.1, hs3.2, hex⟩
      · rintro (⟨h2, _⟩ | ⟨_, _, hex⟩)
        · exact absurd h2 hs2
        · exact hex
    · simp only [hs3, if_false, Option.some.injEq] at h
      subst h
      simp only [Bool.false_eq_true, false_iff]
      rintro (⟨h2, _⟩ | ⟨h3, h0, _⟩)
      · exact hs2 h2
      · exact hs3 ⟨h3, h0⟩

/-- The interfacial test returns a value when the bond results it reads exist. -/
theorem isInterfacial_total (y : PointCloud) (iatom s e : Nat) (p : Point)
    (hp : y.pts[iatom]? = some p)
    (hwf : ∀ j, j < min 4 p.neighList.length → ∃ jatom q, p.neighList[j]? = some jatom ∧
      y.pts[jatom]? = some q ∧ min 4 q.neighList.length ≤ q.c_ij.length) :
    ∃ b, isInterfacial y iatom s e = some b := by
  have hall : ∀ j ∈ List.range (min 4 p.neighList.length), ∃ jatom ns,
      p.neighList[j]? = some jatom ∧ numStaggered y jatom = some ns := by
    intro j hj
    obtain ⟨jatom, q, h1, h2, h3⟩ := hwf j (List.mem_range.mp hj)
    exact ⟨jatom, _, h1, (numStaggered_eq_some y jatom _).mpr ⟨q, h2, h3, rfl⟩⟩
  unfold isInterfacial
  simp only [hp, ite_lt_four]
  obtain ⟨b1, hb1⟩ := isInterfacial_loop_total y p.neighList (fun n => decide (n > 2)) _ hall
  obtain ⟨b2, hb2⟩ := isInterfacial_loop_total y p.neighList (fun n => decide (n = 2)) _ hall
  rw [hb1, hb2]
  by_cases hs2 : s = 2
  · simp only [hs2, if_true]
    cases b1 with
    | true => exact ⟨true, rfl⟩
    | false => simp
  · simp only [hs2, if_false]
    split_ifs
    · exact ⟨b2, rfl⟩
    · exact ⟨false, rfl⟩



/-! ### The ice-type passes read no tag -/

theorem noTags_getElem? (y : PointCloud) (k : Nat) :
    (noTags y).pts[k]? = (y.pts[k]?).map noTag := by
  simp [noTags, List.getElem?_map]

theorem noTags_setIceType (y : PointCloud) (i : Nat) (t : atom_state_type) :
    noTags (setIceType y i t) = noTags y := by
  unfold noTags setIceType
  simp only [PointCloud.mk.injEq, and_true]
  apply List.ext_getElem?
  intro k
  simp only [List.getElem?_map, List.getElem?_modify]
  cases y.pts[k]? with
  | none => rfl
  | some p =>
    by_cases h : i = k <;> simp [h, noTag]

theorem setIceType_getElem?_ne (y : PointCloud) (i k : Nat) (t : atom_state_type) (h : k ≠ i) :
    (setIceType y i t).pts[k]? = y.pts[k]? := by
  simp [setIceType, List.getElem?_modify_ne _ _ (Ne.symm h)]

theorem setIceType_getElem?_self (y : PointCloud) (i : Nat) (t : atom_state_type) :
    (setIceType y i t).pts[i]? = (y.pts[i]?).map (fun p => { p with iceType := t }) := by
  simp [setIceType, List.getElem?_modify_eq]

theorem noTags_point (y y' : PointCloud) (h : noTags y = noTags y') (k : Nat) (p : Point)
    (hp : y.pts[k]? = some p) :
    ∃ p', y'.pts[k]? = some p' ∧ p'.neighList = p.neighList ∧ p'.c_ij = p.c_ij ∧
      p'.inSlice = p.inSlice ∧ p'.atomID = p.atomID ∧ p'.molID = p.molID ∧
      p'.x = p.x ∧ p'.y = p.y ∧ p'.z = p.z := by
  have h1 : (noTags y).pts[k]? = (noTags y').pts[k]? := by rw [h]
  rw [noTags_getElem?, noTags_getElem?, hp] at h1
  cases hp' : y'.pts[k]? with
  | none => simp [hp'] at h1
  | some p' =>
    simp only [hp', Option.map_some', Option.some.injEq] at h1
    refine ⟨p', rfl, ?_⟩
    have e1 := congrArg Point.neighList h1
    have e2 := congrArg Point.c_ij h1
    have e3 := congrArg Point.inSlice h1
    have e4 := congrArg Point.atomID h1
    have e5 := congrArg Point.molID h1
    have e6 := congrArg Point.x h1
    have e7 := congrArg Point.y h1
    have e8 := congrArg Point.z h1
    simp only [noTag] at e1 e2 e3 e4 e5 e6 e7 e8
    exact ⟨e1.symm, e2.symm, e3.symm, e4.symm, e5.symm, e6.symm, e7.symm, e8.symm⟩

theorem numStaggered_noTags (y : PointCloud) (j : Nat) :
    numStaggered (noTags y) j = numStaggered y j := by
  unfold numStaggered
  rw [noTags_getElem?]
  cases y.pts[j]? with
  | none => rfl
  | some p => rfl

theorem isInterfacial_loop_noTags (y : PointCloud) (nl : List Nat) (test : Nat → Bool)
    (js : List Nat) :
    isInterfacial.loop (noTags y) nl test js = isInterfacial.loop y nl test js := by
  induction js with
  | nil => rfl
  | cons j rest ih =>
    simp only [isInterfacial.loop, numStaggered_noTags, ih]

theorem isInterfacial_noTags (y : PointCloud) (i s e : Nat) :
    isInterfacial (noTags y) i s e = isInterfacial y i s e := by
  unfold isInterfacial
  rw [noTags_getElem?]
  cases y.pts[i]? with
  | none => rfl
  | some p =>
    simp only [Option.map_some', isInterfacial_loop_noTags]
    rfl

theorem isInterfacial_congr (y y' : PointCloud) (h : noTags y = noTags y') (i s e : Nat) :
    isInterfacial y i s e = isInterfacial y' i s e := by
  rw [← isInterfacial_noTags y, ← isInterfacial_noTags y', h]

/-- A loop over particle indices whose iterations write only their own particle and keep the
relation `R`: afterwards the particles outside the loop are untouched, and the particle `i`
holds what its own iteration left, an iteration that found the particle as it was at the
start. -/
theorem foldlM_indep {σ : Type} (pts : σ → List Point) (R : σ → σ → Prop)
    (hrefl : ∀ a, R a a) (htrans : ∀ a b d, R a b → R b d → R a d)
    (step : σ → Nat → Option σ)
    (hstep : ∀ st i st', step st i = some st' →
      R st st' ∧ ∀ k, k ≠ i → (pts st')[k]? = (pts st)[k]?)
    (is : List Nat) (st0 out : σ) (h : is.foldlM step st0 = some out) :
    R st0 out ∧ (∀ k, k ∉ is → (pts out)[k]? = (pts st0)[k]?) ∧
    (is.Nodup → ∀ i ∈ is, ∃ st st', R st0 st ∧
      (pts st)[i]? = (pts st0)[i]? ∧ step st i = some st' ∧
      (pts out)[i]? = (pts st')[i]?) := by
  induction is generalizing st0 with
  | nil =>
    simp only [List.foldlM_nil, pure, Option.some.injEq] at h
    subst h
    exact ⟨hrefl _, fun _ _ => rfl, fun _ i hi => absurd hi (List.not_mem_nil i)⟩
  | cons i rest ih =>
    rw [List.foldlM_cons] at h
    cases h1 : step st0 i with
    | none => simp [h1] at h
    | some st1 =>
      rw [h1] at h
      simp only [Option.bind_eq_bind, Option.some_bind] at h
      obtain ⟨ha, hb, hc⟩ := ih st1 h
      obtain ⟨hs1, hs2⟩ := hstep st0 i st1 h1
      refine ⟨htrans _ _ _ hs1 ha, ?_, ?_⟩
      · intro k hk
        simp only [List.mem_cons, not_or] at hk
        rw [hb k hk.2, hs2 k hk.1]
      · intro hnd i' hi'
        rw [List.nodup_cons] at hnd
        rcases List.mem_cons.mp hi' with rfl | hmem
        · exact ⟨st0, st1, hrefl _, rfl, h1, hb _ hnd.1⟩
        · obtain ⟨st, st', h3, h3', h4, h5⟩ := hc hnd.2 i' hmem
          have hne : i' ≠ i := fun heq => hnd.1 (heq ▸ hmem)
          exact ⟨st, st', htrans _ _ _ hs1 h3, h3'.trans (hs2 i' hne), h4, h5⟩

/-- The instance of `foldlM_indep` for the ice-type passes, whose iterations only write the tag
of their own particle. -/
theorem foldlM_tags (step : PointCloud × Tally → Nat → Option (PointCloud × Tally))
    (hstep : ∀ st i st', step st i = some st' →
      noTags st'.1 = noTags st.1 ∧ ∀ k, k ≠ i → st'.1.pts[k]? = st.1.pts[k]?)
    (is : List Nat) (st0 out : PointCloud × Tally) (h : is.foldlM step st0 = some out) :
    noTags out.1 = noTags st0.1 ∧ (∀ k, k ∉ is → out.1.pts[k]? = st0.1.pts[k]?) ∧
    (is.Nodup → ∀ i ∈ is, ∃ st st', noTags st.1 = noTags st0.1 ∧
      st.1.pts[i]? = st0.1.pts[i]? ∧ step st i = some st' ∧
      out.1.pts[i]? = st'.1.pts[i]?) :=
  foldlM_indep (fun st : PointCloud × Tally => st.1.pts)
    (fun a b : PointCloud × Tally => noTags b.1 = noTags a.1)
    (fun _ => rfl) (fun _ _ _ h1 h2 => h2.trans h1) step hstep is st0 out h

/-- What one iteration of `getIceType` does. -/
theorem getIceType_step_spec (isSlice : Bool) (st st' : PointCloud × Tally) (i : Nat)
    (h : getIceType.step isSlice st i = some st') :
    ∃ p, st.1.pts[i]? = some p ∧
      ((isSlice = true ∧ p.inSlice = false ∧ st' = st) ∨
       (¬ (isSlice = true ∧ p.inSlice = false) ∧ 4 ≤ p.c_ij.length ∧
         (¬ 4 ≤ numLabel bond_type.staggered (p.c_ij.take 4) →
          ¬ (numLabel bond_type.eclipsed (p.c_ij.take 4) = 1 ∧
            numLabel bond_type.staggered (p.c_ij.take 4) = 3) →
          ∃ b, isInterfacial st.1 i (numLabel bond_type.staggered (p.c_ij.take 4))
            (numLabel bond_type.eclipsed (p.c_ij.take 4)) = some b) ∧
         st'.1 = setIceType (setIceType st.1 i atom_state_type.unclassified) i
           (chillTag (numLabel bond_type.staggered (p.c_ij.take 4))
             (numLabel bond_type.eclipsed (p.c_ij.take 4))
             (isInterfacial st.1 i (numLabel bond_type.staggered (p.c_ij.take 4))
               (numLabel bond_type.eclipsed (p.c_ij.take 4)))))) := by
  unfold getIceType.step at h
  cases hp : st.1.pts[i]? with
  | none => simp [hp] at h
  | some p =>
    refine ⟨p, rfl, ?_⟩
    simp only [hp] at h
    by_cases hsl : isSlice = true ∧ p.inSlice = false
    · left
      simp only [hsl, and_self, if_true, Option.some.injEq] at h
      exact ⟨hsl.1, hsl.2, h.symm⟩
    · right
      rw [if_neg hsl] at h
      cases hc : countBonds p.c_ij (List.range 4) (0, 0, 0) with
      | none => rw [hc] at h; exact absurd h (by simp)
      | some sen =>
        obtain ⟨s, e, na⟩ := sen
        obtain ⟨h4, hs, he⟩ := countBonds_some _ _ _ _ _ hc
        rw [hc] at h
        dsimp only at h
        subst hs he
        have hcong := isInterfacial_congr _ _
          (noTags_setIceType st.1 i atom_state_type.unclassified) i
          (numLabel bond_type.staggered (p.c_ij.take 4))
          (numLabel bond_type.eclipsed (p.c_ij.take 4))
        rw [hcong] at h
        refine ⟨hsl, h4, ?_⟩
        by_cases c1 : 4 ≤ numLabel bond_type.staggered (p.c_ij.take 4)
        · simp only [ge_iff_le, c1, if_true, Option.some.injEq] at h
          refine ⟨fun hc1 => absurd c1 hc1, ?_⟩
          rw [← h]
          simp [chillTag, c1]
        · simp only [ge_iff_le, c1, if_false] at h
          by_cases c2 : numLabel bond_type.eclipsed (p.c_ij.take 4) = 1 ∧
              numLabel bond_type.staggered (p.c_ij.take 4) = 3
          · simp only [c2, and_self, if_true, Option.some.injEq] at h
            refine ⟨fun _ hc2 => absurd c2 hc2, ?_⟩
            rw [← h]
            simp [chillTag, c1, c2]
          · simp only [c2, if_false] at h
            cases hb : isInterfacial st.1 i (numLabel bond_type.staggered (p.c_ij.take 4))
                (numLabel bond_type.eclipsed (p.c_ij.take 4)) with
            | none => simp [hb] at h
            | some b =>
              refine ⟨fun _ _ => ⟨b, rfl⟩, ?_⟩
              simp only [hb] at h
              cases b with
              | true =>
                simp only [Option.some.injEq] at h
                rw [← h]
                simp [chillTag, c1, c2]
              | false =>
                simp only [Option.some.injEq] at h
                rw [← h]
                simp [chillTag, c1, c2]



/-- What one iteration of `getIceTypePlus` does. -/
theorem getIceTypePlus_step_spec (isSlice : Bool) (st st' : PointCloud × Tally) (i : Nat)
    (h : getIceTypePlus.step isSlice st i = some st') :
    ∃ p, st.1.pts[i]? = some p ∧
      ((isSlice = true ∧ p.inSlice = false ∧ st' = st) ∨
       (¬ (isSlice = true ∧ p.inSlice = false) ∧ p.neighList.length ≤ p.c_ij.length ∧
         (p.neighList.length = 4 →
          ¬ (numLabel bond_type.eclipsed (p.c_ij.take p.neighList.length) = 0 ∧
            numLabel bond_type.staggered (p.c_ij.take p.neighList.length) = 4) →
          ¬ (numLabel bond_type.eclipsed (p.c_ij.take p.neighList.length) = 1 ∧
            numLabel bond_type.staggered (p.c_ij.take p.neighList.length) = 3) →
          ∃ b, isInterfacial st.1 i
            (numLabel bond_type.staggered (p.c_ij.take p.neighList.length))
            (numLabel bond_type.eclipsed (p.c_ij.take p.neighList.length)) = some b) ∧
         st'.1 = setIceType (setIceType st.1 i atom_state_type.unclassified) i
           (chillPlusTag p.neighList.length
             (numLabel bond_type.staggered (p.c_ij.take p.neighList.length))
             (numLabel bond_type.eclipsed (p.c_ij.take p.neighList.length))
             (isInterfacial st.1 i
               (numLabel bond_type.staggered (p.c_ij.take p.neighList.length))
               (numLabel bond_type.eclipsed (p.c_ij.take p.neighList.length)))))) := by
  unfold getIceTypePlus.step at h
  cases hp : st.1.pts[i]? with
  | none => simp [hp] at h
  | some p =>
    refine ⟨p, rfl, ?_⟩
    simp only [hp] at h
    by_cases hsl : isSlice = true ∧ p.inSlice = false
    · left
      simp only [hsl, and_self, if_true, Option.some.injEq] at h
      exact ⟨hsl.1, hsl.2, h.symm⟩
    · right
      rw [if_neg hsl] at h
      cases hc : countBonds p.c_ij (List.range p.neighList.length) (0, 0, 0) with
      | none => rw [hc] at h; exact absurd h (by simp)
      | some sen =>
        obtain ⟨s, e, na⟩ := sen
        obtain ⟨h4, hs, he⟩ := countBonds_some _ _ _ _ _ hc
        rw [hc] at h
        dsimp only at h
        subst hs he
        have hcong := isInterfacial_congr _ _
          (noTags_setIceType st.1 i atom_state_type.unclassified) i
          (numLabel bond_type.staggered (p.c_ij.take p.neighList.length))
          (numLabel bond_type.eclipsed (p.c_ij.take p.neighList.length))
        rw [hcong] at h
        refine ⟨hsl, h4, ?_⟩
        clear hcong hc
        generalize numLabel bond_type.staggered (p.c_ij.take p.neighList.length) = s at h ⊢
        generalize numLabel bond_type.eclipsed (p.c_ij.take p.neighList.length) = e at h ⊢
        generalize p.neighList.length = n at h ⊢
        by_cases hn : n = 4
        · rw [if_pos hn] at h
          by_cases c1 : e = 0 ∧ s = 4
          · rw [if_pos c1] at h
            simp only [Option.some.injEq] at h
            refine ⟨fun _ hc1 => absurd c1 hc1, ?_⟩
            rw [← h]
            simp [chillPlusTag, hn, c1]
          · rw [if_neg c1] at h
            by_cases c2 : e = 1 ∧ s = 3
            · rw [if_pos c2] at h
              simp only [Option.some.injEq] at h
              refine ⟨fun _ _ hc2 => absurd c2 hc2, ?_⟩
              rw [← h]
              simp [chillPlusTag, hn, c2]
            · rw [if_neg c2] at h
              cases hb : isInterfacial st.1 i s e with
              | none => rw [hb] at h; exact absurd h (by simp)
              | some b =>
                refine ⟨fun _ _ _ => ⟨b, rfl⟩, ?_⟩
                rw [hb] at h
                cases b with
                | true =>
                  simp only [Option.some.injEq] at h
                  rw [← h]
                  simp [chillPlusTag, hn, c1, c2]
                | false =>
                  dsimp only at h
                  by_cases c4 : e = 4 ∧ s = 0
                  · rw [if_pos c4] at h
                    simp only [Option.some.injEq] at h
                    rw [← h]
                    simp [chillPlusTag, hn, c4]
                  · rw [if_neg c4] at h
                    by_cases c5 : e = 3
                    · rw [if_pos c5] at h
                      simp only [Option.some.injEq] at h
                      rw [← h]
                      simp [chillPlusTag, hn, c1, c2, c4, c5]
                    · rw [if_neg c5] at h
                      simp only [Option.some.injEq] at h
                      rw [← h]
                      simp [chillPlusTag, hn, c1, c2, c4, c5]
        · rw [if_neg hn] at h
          simp only [Option.some.injEq] at h
          refine ⟨fun h4 => absurd h4 hn, ?_⟩
          rw [← h]
          simp [chillPlusTag, hn]

theorem getIceType_step_frame (isSlice : Bool) (st : PointCloud × Tally) (i : Nat)
    (st' : PointCloud × Tally) (h : getIceType.step isSlice st i = some st') :
    noTags st'.1 = noTags st.1 ∧ ∀ k, k ≠ i → st'.1.pts[k]? = st.1.pts[k]? := by
  obtain ⟨p, _, hcase⟩ := getIceType_step_spec isSlice st st' i h
  rcases hcase with ⟨_, _, rfl⟩ | ⟨_, _, _, heq⟩
  · exact ⟨rfl, fun _ _ => rfl⟩
  · rw [heq]
    refine ⟨by rw [noTags_setIceType, noTags_setIceType], fun k hk => ?_⟩
    rw [setIceType_getElem?_ne _ _ _ _ hk, setIceType_getElem?_ne _ _ _ _ hk]

theorem getIceTypePlus_step_frame (isSlice : Bool) (st : PointCloud × Tally) (i : Nat)
    (st' : PointCloud × Tally) (h : getIceTypePlus.step isSlice st i = some st') :
    noTags st'.1 = noTags st.1 ∧ ∀ k, k ≠ i → st'.1.pts[k]? = st.1.pts[k]? := by
  obtain ⟨p, _, hcase⟩ := getIceTypePlus_step_spec isSlice st st' i h
  rcases hcase with ⟨_, _, rfl⟩ | ⟨_, _, _, heq⟩
  · exact ⟨rfl, fun _ _ => rfl⟩
  · rw [heq]
    refine ⟨by rw [noTags_setIceType, noTags_setIceType], fun k hk => ?_⟩
    rw [setIceType_getElem?_ne _ _ _ _ hk, setIceType_getElem?_ne _ _ _ _ hk]

theorem setIceType_twice_getElem? (y : PointCloud) (i : Nat) (t1 t2 : atom_state_type)
    (p : Point) (hp : y.pts[i]? = some p) :
    (setIceType (setIceType y i t1) i t2).pts[i]? = some { p with iceType := t2 } := by
  rw [setIceType_getElem?_self, setIceType_getElem?_self, hp]
  rfl

/-- The tag `getIceType` leaves on each particle, in terms of the frame it was given. -/
theorem getIceType_pass (y : PointCloud) (isSlice : Bool) (out : PointCloud × List Int)
    (h : getIceType y isSlice = some out) (i : Nat) (hi : i < y.nop) (p : Point)
    (hp : y.pts[i]? = some p) :
    (isSlice = true ∧ p.inSlice = false → out.1.pts[i]? = some p) ∧
    (¬ (isSlice = true ∧ p.inSlice = false) →
      4 ≤ p.c_ij.length ∧
      (¬ 4 ≤ numLabel bond_type.staggered (p.c_ij.take 4) →
        ¬ (numLabel bond_type.eclipsed (p.c_ij.take 4) = 1 ∧
          numLabel bond_type.staggered (p.c_ij.take 4) = 3) →
        ∃ b, isInterfacial y i (numLabel bond_type.staggered (p.c_ij.take 4))
          (numLabel bond_type.eclipsed (p.c_ij.take 4)) = some b) ∧
      out.1.pts[i]? = some { p with iceType :=
        (chillTag (numLabel bond_type.staggered (p.c_ij.take 4))
          (numLabel bond_type.eclipsed (p.c_ij.take 4))
          (isInterfacial y i (numLabel bond_type.staggered (p.c_ij.take 4))
            (numLabel bond_type.eclipsed (p.c_ij.take 4)))) }) := by
  unfold getIceType at h
  cases hf : (List.range y.nop).foldlM (getIceType.step isSlice) (y, Tally.zero) with
  | none => rw [hf] at h; exact absurd h (by simp)
  | some fin =>
    rw [hf] at h
    obtain ⟨yf, tf⟩ := fin
    simp only [Option.some.injEq] at h
    subst h
    obtain ⟨_, _, hc⟩ := foldlM_tags _ (getIceType_step_frame isSlice) _ _ _ hf
    obtain ⟨st, st', hst, hsti, hstep, hout⟩ :=
      hc (List.nodup_range _) i (List.mem_range.mpr hi)
    simp only at hst hsti hout ⊢
    obtain ⟨p', hp', hcase⟩ := getIceType_step_spec isSlice st st' i hstep
    rw [hsti, hp] at hp'
    cases hp'
    rcases hcase with ⟨hs1, hs2, heq⟩ | ⟨hns, h4, hdef, heq⟩
    · constructor
      · intro _
        rw [hout, heq, hsti, hp]
      · intro hn
        exact absurd ⟨hs1, hs2⟩ hn
    · constructor
      · intro hn
        exact absurd hn hns
      · intro _
        rw [isInterfacial_congr _ _ hst] at hdef heq
        refine ⟨h4, hdef, ?_⟩
        rw [hout, heq, setIceType_twice_getElem? _ _ _ _ _ (hsti.trans hp)]

/-- The tag `getIceTypePlus` leaves on each particle, in terms of the frame it was given. -/
theorem getIceTypePlus_pass (y : PointCloud) (isSlice : Bool) (out : PointCloud × List Int)
    (h : getIceTypePlus y isSlice = some out) (i : Nat) (hi : i < y.nop) (p : Point)
    (hp : y.pts[i]? = some p) :
    (isSlice = true ∧ p.inSlice = false → out.1.pts[i]? = some p) ∧
    (¬ (isSlice = true ∧ p.inSlice = false) →
      p.neighList.length ≤ p.c_ij.length ∧
      (p.neighList.length = 4 →
        ¬ (numLabel bond_type.eclipsed (p.c_ij.take p.neighList.length) = 0 ∧
          numLabel bond_type.staggered (p.c_ij.take p.neighList.length) = 4) →
        ¬ (numLabel bond_type.eclipsed (p.c_ij.take p.neighList.length) = 1 ∧
          numLabel bond_type.staggered (p.c_ij.take p.neighList.length) = 3) →
        ∃ b, isInterfacial y i (numLabel bond_type.staggered (p.c_ij.take p.neighList.length))
          (numLabel bond_type.eclipsed (p.c_ij.take p.neighList.length)) = some b) ∧
      out.1.pts[i]? = some { p with iceType :=
        (chillPlusTag p.neighList.length
          (numLabel bond_type.staggered (p.c_ij.take p.neighList.length))
          (numLabel bond_type.eclipsed (p.c_ij.take p.neighList.length))
          (isInterfacial y i (numLabel bond_type.staggered (p.c_ij.take p.neighList.length))
            (numLabel bond_type.eclipsed (p.c_ij.take p.neighList.length)))) }) := by
  unfold getIceTypePlus at h
  cases hf : (List.range y.nop).foldlM (getIceTypePlus.step isSlice) (y, Tally.zero) with
  | none => rw [hf] at h; exact absurd h (by simp)
  | some fin =>
    rw [hf] at h
    obtain ⟨yf, tf⟩ := fin
    simp only [Option.some.injEq] at h
    subst h
    obtain ⟨_, _, hc⟩ := foldlM_tags _ (getIceTypePlus_step_frame isSlice) _ _ _ hf
    obtain ⟨st, st', hst, hsti, hstep, hout⟩ :=
      hc (List.nodup_range _) i (List.mem_range.mpr hi)
    simp only at hst hsti hout ⊢
    obtain ⟨p', hp', hcase⟩ := getIceTypePlus_step_spec isSlice st st' i hstep
    rw [hsti, hp] at hp'
    cases hp'
    rcases hcase with ⟨hs1, hs2, heq⟩ | ⟨hns, h4, hdef, heq⟩
    · constructor
      · intro _
        rw [hout, heq, hsti, hp]
      · intro hn
        exact absurd ⟨hs1, hs2⟩ hn
    · constructor
      · intro hn
        exact absurd hn hns
      · intro _
        rw [isInterfacial_congr _ _ hst] at hdef heq
        refine ⟨h4, hdef, ?_⟩
        rw [hout, heq, setIceType_twice_getElem? _ _ _ _ _ (hsti.trans hp)]



/-! ### The correlation passes -/

theorem correlBonds_eq_some (label : Dbl → Result) (cij : Nat → Nat → Dbl) (nop i : Nat)
    (nl : List Nat) (c0 rs : List Result) :
    correlBonds label cij nop i nl c0 = some rs ↔
      (∀ j ∈ nl, j < nop) ∧ rs = c0 ++ nl.map (fun j => label (cij i j)) := by
  induction nl generalizing c0 with
  | nil =>
    simp only [correlBonds, Option.some.injEq, List.not_mem_nil, false_implies, implies_true,
      List.map_nil, List.append_nil, true_and]
    exact eq_comm
  | cons j rest ih =>
    simp only [correlBonds]
    by_cases hj : j < nop
    · rw [if_pos hj, ih]
      simp only [List.mem_cons, forall_eq_or_imp, hj, true_and, List.map_cons,
        List.append_assoc, List.singleton_append]
    · rw [if_neg hj]
      simp only [List.mem_cons, forall_eq_or_imp, hj, false_and, iff_false]
      exact fun h => absurd h (by simp)

/-- What one iteration of a correlation pass does. -/
theorem correlStep_spec (label : Dbl → Result) (cij : Nat → Nat → Dbl) (isSlice : Bool)
    (y y' : PointCloud) (i : Nat) (h : correlStep label cij isSlice y i = some y') :
    ∃ p, y.pts[i]? = some p ∧
      ((isSlice = true ∧ p.inSlice = false ∧ y' = y) ∨
       (¬ (isSlice = true ∧ p.inSlice = false) ∧ (∀ j ∈ p.neighList, j < y.nop) ∧
         y' = { y with pts := (y.pts.set i
           { p with c_ij := p.c_ij ++ p.neighList.map (fun j => label (cij i j)) }) })) := by
  unfold correlStep at h
  cases hp : y.pts[i]? with
  | none => simp [hp] at h
  | some p =>
    refine ⟨p, rfl, ?_⟩
    simp only [hp] at h
    by_cases hsl : isSlice = true ∧ p.inSlice = false
    · left
      rw [if_pos hsl] at h
      exact ⟨hsl.1, hsl.2, (Option.some.inj h).symm⟩
    · right
      rw [if_neg hsl] at h
      cases hc : correlBonds label cij y.nop i p.neighList p.c_ij with
      | none => rw [hc] at h; exact absurd h (by simp)
      | some rs =>
        rw [hc] at h
        obtain ⟨hall, hrs⟩ := (correlBonds_eq_some _ _ _ _ _ _ _).mp hc
        subst hrs
        exact ⟨hsl, hall, (Option.some.inj h).symm⟩

theorem correlStep_frame (label : Dbl → Result) (cij : Nat → Nat → Dbl) (isSlice : Bool)
    (y : PointCloud) (i : Nat) (y' : PointCloud)
    (h : correlStep label cij isSlice y i = some y') :
    y'.nop = y.nop ∧ ∀ k, k ≠ i → y'.pts[k]? = y.pts[k]? := by
  obtain ⟨p, _, hcase⟩ := correlStep_spec label cij isSlice y y' i h
  rcases hcase with ⟨_, _, rfl⟩ | ⟨_, _, heq⟩
  · exact ⟨rfl, fun _ _ => rfl⟩
  · rw [heq]
    exact ⟨rfl, fun k hk => List.getElem?_set_ne (Ne.symm hk)⟩

/-- The bond results a correlation pass leaves on each particle, in terms of the frame it was
given: one result per neighbour is appended, in neighbour-list order. -/
theorem correl_pass (label : Dbl → Result) (cij : Nat → Nat → Dbl) (isSlice : Bool)
    (y out : PointCloud)
    (h : (List.range y.nop).foldlM (correlStep label cij isSlice) y = some out)
    (i : Nat) (hi : i < y.nop) (p : Point) (hp : y.pts[i]? = some p) :
    out.nop = y.nop ∧
    (isSlice = true ∧ p.inSlice = false → out.pts[i]? = some p) ∧
    (¬ (isSlice = true ∧ p.inSlice = false) →
      (∀ j ∈ p.neighList, j < y.nop) ∧
      out.pts[i]? = some
        { p with c_ij := p.c_ij ++ p.neighList.map (fun j => label (cij i j)) }) := by
  obtain ⟨hnop, _, hc⟩ := foldlM_indep (fun st : PointCloud => st.pts)
    (fun a b : PointCloud => b.nop = a.nop) (fun _ => rfl) (fun _ _ _ h1 h2 => h2.trans h1)
    (correlStep label cij isSlice) (correlStep_frame label cij isSlice) _ _ _ h
  obtain ⟨st, st', hst, hsti, hstep, hout⟩ :=
    hc (List.nodup_range _) i (List.mem_range.mpr hi)
  obtain ⟨p', hp', hcase⟩ := correlStep_spec label cij isSlice st st' i hstep
  rw [hsti, hp] at hp'
  cases hp'
  refine ⟨hnop, ?_, ?_⟩
  · intro hs
    rcases hcase with ⟨_, _, heq⟩ | ⟨hns, _, _⟩
    · rw [hout, heq, hsti, hp]
    · exact absurd hs hns
  · intro hns
    rcases hcase with ⟨hs1, hs2, _⟩ | ⟨_, hall, heq⟩
    · exact absurd ⟨hs1, hs2⟩ hns
    · rw [hst] at hall
      refine ⟨hall, ?_⟩
      rw [hout, heq]
      have hlt : i < st.pts.length := by
        have := hsti.trans hp
        exact (List.getElem?_eq_some_iff.mp this).1
      simp only
      rw [List.getElem?_set_self hlt]

theorem numLabel_all (b : bond_type) (rs : List Result) (h : ∀ r ∈ rs, r.classifier = b) :
    numLabel b rs = rs.length := by
  unfold numLabel
  rw [List.countP_eq_length]
  intro r hr
  simpa using h r hr

theorem numLabel_none (b : bond_type) (rs : List Result) (h : ∀ r ∈ rs, r.classifier ≠ b) :
    numLabel b rs = 0 := by
  unfold numLabel
  rw [List.countP_eq_zero]
  intro r hr
  simpa using h r hr



/-! ### Bond labelling -/

/-- C4: the CHILL+ bond label of `getCorrelPlus`: staggered iff `c <= -0.8`, eclipsed iff
`-0.35 <= c <= 0.25`, out of range otherwise; the three bounds `-0.8`, `-0.35`, `0.25` are
inside their classes. -/
theorem getCorrelPlus_bond_label (cij_real : Dbl) :
    ((getCorrelPlus.temp_cij cij_real).classifier = bond_type.staggered ↔
      cij_real ≤ Dbl.val (-0.8)) ∧
    ((getCorrelPlus.temp_cij cij_real).classifier = bond_type.eclipsed ↔
      (Dbl.val (-0.35) ≤ cij_real ∧ cij_real ≤ Dbl.val 0.25)) ∧
    ((getCorrelPlus.temp_cij cij_real).classifier = bond_type.out_of_range ↔
      (¬ cij_real ≤ Dbl.val (-0.8) ∧
        ¬ (Dbl.val (-0.35) ≤ cij_real ∧ cij_real ≤ Dbl.val 0.25))) ∧
    (getCorrelPlus.temp_cij (Dbl.val (-0.8))).classifier = bond_type.staggered ∧
    (getCorrelPlus.temp_cij (Dbl.val (-0.35))).classifier = bond_type.eclipsed ∧
    (getCorrelPlus.temp_cij (Dbl.val 0.25)).classifier = bond_type.eclipsed := by
  refine ⟨?_, ?_, ?_, ?_, ?_, ?_⟩
  · cases cij_real with
    | nan => simp [getCorrelPlus.temp_cij, Dbl_nan_le, Dbl_le_nan]
    | val q =>
      simp only [getCorrelPlus.temp_cij, Dbl_le_val]
      split_ifs <;> simp_all
  · cases cij_real with
    | nan => simp [getCorrelPlus.temp_cij, Dbl_nan_le, Dbl_le_nan]
    | val q =>
      simp only [getCorrelPlus.temp_cij, Dbl_le_val]
      split_ifs with h1 h2
      · simp only [reduceCtorEq, false_iff, not_and]
        intro h3
        norm_num at h1 h3 ⊢
        linarith
      · simp [h2]
      · simp [h2]
  · cases cij_real with
    | nan => simp [getCorrelPlus.temp_cij, Dbl_nan_le, Dbl_le_nan]
    | val q =>
      simp only [getCorrelPlus.temp_cij, Dbl_le_val]
      split_ifs <;> simp_all
  · simp only [getCorrelPlus.temp_cij, Dbl_le_val]; norm_num
  · simp only [getCorrelPlus.temp_cij, Dbl_le_val]; norm_num
  · simp only [getCorrelPlus.temp_cij, Dbl_le_val]; norm_num

/-! ### The decision trees -/

/-- C5: the CHILL decision tree.  After `getIceType`, an eligible particle with at least 4 bond
results, `s` staggered and `e` eclipsed labels among the first 4, is tagged cubic if `s >= 4`,
otherwise hexagonal if `e = 1` and `s = 3`, otherwise interfacial if `isInterfacial` returns
true, otherwise water (and `isInterfacial` does return a value in the last two cases). -/
theorem getIceType_decision_tree (yCloud : PointCloud) (isSlice : Bool)
    (out : PointCloud × List Int) (hrun : getIceType yCloud isSlice = some out)
    (iatom : Nat) (hi : iatom < yCloud.nop) (p : Point) (hp : yCloud.pts[iatom]? = some p)
    (helig : isSlice = true → p.inSlice = true) (_h4 : 4 ≤ p.c_ij.length) :
    ∃ q, out.1.pts[iatom]? = some q ∧
      q.iceType =
        (if 4 ≤ numLabel bond_type.staggered (p.c_ij.take 4) then atom_state_type.cubic
         else if numLabel bond_type.eclipsed (p.c_ij.take 4) = 1 ∧
            numLabel bond_type.staggered (p.c_ij.take 4) = 3 then atom_state_type.hexagonal
         else if isInterfacial yCloud iatom (numLabel bond_type.staggered (p.c_ij.take 4))
            (numLabel bond_type.eclipsed (p.c_ij.take 4)) = some true then
           atom_state_type.interfacial
         else atom_state_type.water) ∧
      (¬ 4 ≤ numLabel bond_type.staggered (p.c_ij.take 4) →
        ¬ (numLabel bond_type.eclipsed (p.c_ij.take 4) = 1 ∧
          numLabel bond_type.staggered (p.c_ij.take 4) = 3) →
        ∃ b, isInterfacial yCloud iatom (numLabel bond_type.staggered (p.c_ij.take 4))
          (numLabel bond_type.eclipsed (p.c_ij.take 4)) = some b) := by
  have hel : ¬ (isSlice = true ∧ p.inSlice = false) := by
    rintro ⟨h1, h2⟩
    rw [helig h1] at h2
    exact absurd h2 (by simp)
  obtain ⟨_, hdef, hq⟩ := (getIceType_pass yCloud isSlice out hrun iatom hi p hp).2 hel
  exact ⟨_, hq, rfl, hdef⟩

/-- Witness of C5 on `exampleFrame`: particle 0 (two staggered bonds, interfacial test true) is
tagged interfacial. -/
theorem getIceType_decision_tree_witness :
    getIceType (exampleFrame atom_state_type.unclassified atom_state_type.unclassified
      atom_state_type.unclassified atom_state_type.unclassified atom_state_type.unclassified)
      false =
      some (exampleFrame atom_state_type.interfacial atom_state_type.interfacial
        atom_state_type.cubic atom_state_type.hexagonal atom_state_type.water,
        [0, 1, 1, 2, 1, 5]) ∧
    ∃ q, (exampleFrame atom_state_type.interfacial atom_state_type.interfacial
        atom_state_type.cubic atom_state_type.hexagonal atom_state_type.water).pts[0]? =
        some q ∧ q.iceType = atom_state_type.interfacial := by
  refine ⟨by rfl, ?_⟩
  obtain ⟨q, hq, htag, _⟩ := getIceType_decision_tree
    (exampleFrame atom_state_type.unclassified atom_state_type.unclassified
      atom_state_type.unclassified atom_state_type.unclassified atom_state_type.unclassified)
    false _ (by rfl) 0 (by decide)
    (examplePoint [1, 2, 3, 4] [bond_type.staggered, bond_type.staggered,
      bond_type.out_of_range, bond_type.out_of_range] atom_state_type.unclassified)
    (by rfl) (by intro _; rfl) (by decide)
  refine ⟨q, hq, ?_⟩
  rw [htag]
  decide

/-- C6: the CHILL+ decision tree.  After `getIceTypePlus`, an eligible particle with exactly 4
neighbours, `s` staggered and `e` eclipsed labels among its 4 bond results, is tagged cubic if
`e = 0` and `s = 4`, else hexagonal if `e = 1` and `s = 3`, else interfacial if `isInterfacial`
returns true, else clathrate if `e = 4` and `s = 0`, else interClathrate if `e = 3`, else
water. -/
theorem getIceTypePlus_decision_tree (yCloud : PointCloud) (isSlice : Bool)
    (out : PointCloud × List Int) (hrun : getIceTypePlus yCloud isSlice = some out)
    (iatom : Nat) (hi : iatom < yCloud.nop) (p : Point) (hp : yCloud.pts[iatom]? = some p)
    (helig : isSlice = true → p.inSlice = true) (h4 : p.neighList.length = 4) :
    4 ≤ p.c_ij.length ∧
    ∃ q, out.1.pts[iatom]? = some q ∧
      q.iceType =
        (if numLabel bond_type.eclipsed (p.c_ij.take 4) = 0 ∧
            numLabel bond_type.staggered (p.c_ij.take 4) = 4 then atom_state_type.cubic
         else if numLabel bond_type.eclipsed (p.c_ij.take 4) = 1 ∧
            numLabel bond_type.staggered (p.c_ij.take 4) = 3 then atom_state_type.hexagonal
         else if isInterfacial yCloud iatom (numLabel bond_type.staggered (p.c_ij.take 4))
            (numLabel bond_type.eclipsed (p.c_ij.take 4)) = some true then
           atom_state_type.interfacial
         else if numLabel bond_type.eclipsed (p.c_ij.take 4) = 4 ∧
            numLabel bond_type.staggered (p.c_ij.take 4) = 0 then atom_state_type.clathrate
         else if numLabel bond_type.eclipsed (p.c_ij.take 4) = 3 then
           atom_state_type.interClathrate
         else atom_state_type.water) ∧
      (¬ (numLabel bond_type.eclipsed (p.c_ij.take 4) = 0 ∧
          numLabel bond_type.staggered (p.c_ij.take 4) = 4) →
        ¬ (numLabel bond_type.eclipsed (p.c_ij.take 4) = 1 ∧
          numLabel bond_type.staggered (p.c_ij.take 4) = 3) →
        ∃ b, isInterfacial yCloud iatom (numLabel bond_type.staggered (p.c_ij.take 4))
          (numLabel bond_type.eclipsed (p.c_ij.take 4)) = some b) := by
  have hel : ¬ (isSlice = true ∧ p.inSlice = false) := by
    rintro ⟨h1, h2⟩
    rw [helig h1] at h2
    exact absurd h2 (by simp)
  obtain ⟨hlen, hdef, hq⟩ := (getIceTypePlus_pass yCloud isSlice out hrun iatom hi p hp).2 hel
  rw [h4] at hlen hdef hq
  refine ⟨hlen, _, hq, ?_, hdef rfl⟩
  simp only [chillPlusTag, if_true]

/-- Witness of C6 on `exampleFrame`: particle 4 (four eclipsed bonds) is tagged clathrate. -/
theorem getIceTypePlus_decision_tree_witness :
    getIceTypePlus (exampleFrame atom_state_type.unclassified atom_state_type.unclassified
      atom_state_type.unclassified atom_state_type.unclassified atom_state_type.unclassified)
      false =
      some (exampleFrame atom_state_type.interfacial atom_state_type.interfacial
        atom_state_type.cubic atom_state_type.hexagonal atom_state_type.clathrate,
        [0, 1, 1, 2, 1, 0, 0, 5]) ∧
    ∃ q, (exampleFrame atom_state_type.interfacial atom_state_type.interfacial
        atom_state_type.cubic atom_state_type.hexagonal atom_state_type.clathrate).pts[4]? =
        some q ∧ q.iceType = atom_state_type.clathrate := by
  refine ⟨by rfl, ?_⟩
  obtain ⟨_, q, hq, htag, _⟩ := getIceTypePlus_decision_tree
    (exampleFrame atom_state_type.unclassified atom_state_type.unclassified
      atom_state_type.unclassified atom_state_type.unclassified atom_state_type.unclassified)
    false _ (by rfl) 4 (by decide)
    (examplePoint [0, 1, 2, 3] [bond_type.eclipsed, bond_type.eclipsed,
      bond_type.eclipsed, bond_type.eclipsed] atom_state_type.unclassified)
    (by rfl) (by intro _; rfl) (by decide)
  refine ⟨q, hq, ?_⟩
  rw [htag]
  decide

/-- C7: under CHILL+ an eligible particle whose neighbour count is not 4 is tagged water by
`getIceTypePlus`, whatever its bond labels; it is not tagged cubic, hexagonal or clathrate. -/
theorem getIceTypePlus_not_four_water (yCloud : PointCloud) (isSlice : Bool)
    (out : PointCloud × List Int) (hrun : getIceTypePlus yCloud isSlice = some out)
    (iatom : Nat) (hi : iatom < yCloud.nop) (p : Point) (hp : yCloud.pts[iatom]? = some p)
    (helig : isSlice = true → p.inSlice = true) (hn : p.neighList.length ≠ 4) :
    ∃ q, out.1.pts[iatom]? = some q ∧ q.iceType = atom_state_type.water ∧
      q.iceType ≠ atom_state_type.cubic ∧ q.iceType ≠ atom_state_type.hexagonal ∧
      q.iceType ≠ atom_state_type.clathrate := by
  have hel : ¬ (isSlice = true ∧ p.inSlice = false) := by
    rintro ⟨h1, h2⟩
    rw [helig h1] at h2
    exact absurd h2 (by simp)
  obtain ⟨_, _, hq⟩ := (getIceTypePlus_pass yCloud isSlice out hrun iatom hi p hp).2 hel
  refine ⟨_, hq, ?_⟩
  simp [chillPlusTag, hn]

/-- Witness of C7 on `exampleFrame3`: particle 1 has three neighbours, all bonds staggered, and
is tagged water. -/
theorem getIceTypePlus_not_four_water_witness :
    getIceTypePlus (exampleFrame3 atom_state_type.unclassified atom_state_type.unclassified
      atom_state_type.unclassified atom_state_type.unclassified) false =
      some (exampleFrame3 atom_state_type.water atom_state_type.water atom_state_type.water
        atom_state_type.water, [0, 0, 0, 0, 0, 0, 4, 4]) ∧
    ∃ q, (exampleFrame3 atom_state_type.water atom_state_type.water atom_state_type.water
        atom_state_type.water).pts[1]? = some q ∧ q.iceType = atom_state_type.water ∧
      q.iceType ≠ atom_state_type.cubic ∧ q.iceType ≠ atom_state_type.hexagonal ∧
      q.iceType ≠ atom_state_type.clathrate :=
  ⟨by rfl, getIceTypePlus_not_four_water
    (exampleFrame3 atom_state_type.unclassified atom_state_type.unclassified
      atom_state_type.unclassified atom_state_type.unclassified) false _ (by rfl) 1 (by decide)
    (examplePoint [0, 2, 3] [bond_type.staggered, bond_type.staggered, bond_type.staggered]
      atom_state_type.unclassified) (by rfl) (by intro _; rfl) (by decide)⟩



/-- C8: `isInterfacial` returns true exactly when `s = 2` and one of the first `min 4 n`
neighbours has more than 2 staggered bonds, or `s = 3`, `e = 0` and one of them has exactly 2,
the staggered bonds of a neighbour being counted among its first `min 4 n'` bond results; it
returns false in every other case; and it does return when those bond results exist. -/
theorem isInterfacial_true_iff (yCloud : PointCloud) (iatom num_staggrd num_eclipsd : Nat)
    (p : Point) (hp : yCloud.pts[iatom]? = some p) :
    (∀ b, isInterfacial yCloud iatom num_staggrd num_eclipsd = some b →
      (b = true ↔
        (num_staggrd = 2 ∧ ∃ j, j < min 4 p.neighList.length ∧ ∃ jatom q,
          p.neighList[j]? = some jatom ∧ yCloud.pts[jatom]? = some q ∧ 2 < numSt q) ∨
        (num_staggrd = 3 ∧ num_eclipsd = 0 ∧ ∃ j, j < min 4 p.neighList.length ∧ ∃ jatom q,
          p.neighList[j]? = some jatom ∧ yCloud.pts[jatom]? = some q ∧ numSt q = 2))) ∧
    ((∀ j, j < min 4 p.neighList.length → ∃ jatom q, p.neighList[j]? = some jatom ∧
        yCloud.pts[jatom]? = some q ∧ min 4 q.neighList.length ≤ q.c_ij.length) →
      ∃ b, isInterfacial yCloud iatom num_staggrd num_eclipsd = some b) :=
  ⟨fun b hb => isInterfacial_some_iff yCloud iatom num_staggrd num_eclipsd p hp b hb,
    fun hwf => isInterfacial_total yCloud iatom num_staggrd num_eclipsd p hp hwf⟩

/-- Witness of C8 on `exampleFrame`: for particle 0 and `s = 2` the test returns true, and a
neighbour with more than 2 staggered bonds exists. -/
theorem isInterfacial_true_iff_witness :
    isInterfacial (exampleFrame atom_state_type.unclassified atom_state_type.unclassified
      atom_state_type.unclassified atom_state_type.unclassified atom_state_type.unclassified)
      0 2 0 = some true ∧
    ((2 = 2 ∧ ∃ j, j < min 4 (examplePoint [1, 2, 3, 4] [bond_type.staggered,
        bond_type.staggered, bond_type.out_of_range, bond_type.out_of_range]
        atom_state_type.unclassified).neighList.length ∧ ∃ jatom q,
        (examplePoint [1, 2, 3, 4] [bond_type.staggered, bond_type.staggered,
          bond_type.out_of_range, bond_type.out_of_range]
          atom_state_type.unclassified).neighList[j]? = some jatom ∧
        (exampleFrame atom_state_type.unclassified atom_state_type.unclassified
          atom_state_type.unclassified atom_state_type.unclassified
          atom_state_type.unclassified).pts[jatom]? = some q ∧ 2 < numSt q) ∨
      (2 = 3 ∧ 0 = 0 ∧ ∃ j, j < min 4 (examplePoint [1, 2, 3, 4] [bond_type.staggered,
        bond_type.staggered, bond_type.out_of_range, bond_type.out_of_range]
        atom_state_type.unclassified).neighList.length ∧ ∃ jatom q,
        (examplePoint [1, 2, 3, 4] [bond_type.staggered, bond_type.staggered,
          bond_type.out_of_range, bond_type.out_of_range]
          atom_state_type.unclassified).neighList[j]? = some jatom ∧
        (exampleFrame atom_state_type.unclassified atom_state_type.unclassified
          atom_state_type.unclassified atom_state_type.unclassified
          atom_state_type.unclassified).pts[jatom]? = some q ∧ numSt q = 2)) :=
  ⟨by rfl, ((isInterfacial_true_iff
    (exampleFrame atom_state_type.unclassified atom_state_type.unclassified
      atom_state_type.unclassified atom_state_type.unclassified atom_state_type.unclassified)
    0 2 0 _ (by rfl)).1 true (by rfl)).mp rfl⟩

/-- C9, as stated, fails under CHILL+ on `exampleFrame3`: particle 0 has exactly 2 staggered
bonds, its neighbour 1 has 3 staggered bonds, and `getIceTypePlus` tags particle 0 water. -/
theorem interfacial_one_hop_counterexample :
    getIceTypePlus (exampleFrame3 atom_state_type.unclassified atom_state_type.unclassified
      atom_state_type.unclassified atom_state_type.unclassified) false =
      some (exampleFrame3 atom_state_type.water atom_state_type.water atom_state_type.water
        atom_state_type.water, [0, 0, 0, 0, 0, 0, 4, 4]) ∧
    (exampleFrame3 atom_state_type.unclassified atom_state_type.unclassified
      atom_state_type.unclassified atom_state_type.unclassified).pts[0]? =
      some (examplePoint [1, 2, 3] [bond_type.staggered, bond_type.staggered,
        bond_type.out_of_range] atom_state_type.unclassified) ∧
    numLabel bond_type.staggered (examplePoint [1, 2, 3] [bond_type.staggered,
      bond_type.staggered, bond_type.out_of_range] atom_state_type.unclassified).c_ij = 2 ∧
    (exampleFrame3 atom_state_type.unclassified atom_state_type.unclassified
      atom_state_type.unclassified atom_state_type.unclassified).pts[1]? =
      some (examplePoint [0, 2, 3] [bond_type.staggered, bond_type.staggered,
        bond_type.staggered] atom_state_type.unclassified) ∧
    numLabel bond_type.staggered (examplePoint [0, 2, 3] [bond_type.staggered,
      bond_type.staggered, bond_type.staggered] atom_state_type.unclassified).c_ij = 3 ∧
    (exampleFrame3 atom_state_type.water atom_state_type.water atom_state_type.water
      atom_state_type.water).pts[0]? =
      some (examplePoint [1, 2, 3] [bond_type.staggered, bond_type.staggered,
        bond_type.out_of_range] atom_state_type.water) ∧
    atom_state_type.water ≠ atom_state_type.interfacial :=
  ⟨by rfl, by rfl, by decide, by rfl, by decide, by rfl, by decide⟩

/-- C9, amended: an eligible particle with exactly 2 staggered labels among its first 4 bond
results, one of whose first `min 4 n` neighbours has 3 staggered labels among its own first
`min 4 n'` bond results, is tagged interfacial by `getIceType`, and by `getIceTypePlus` when
the particle has exactly 4 neighbours. -/
theorem interfacial_one_hop (yCloud : PointCloud) (isSlice : Bool) (iatom : Nat)
    (hi : iatom < yCloud.nop) (p : Point) (hp : yCloud.pts[iatom]? = some p)
    (helig : isSlice = true → p.inSlice = true)
    (hs : numLabel bond_type.staggered (p.c_ij.take 4) = 2)
    (j jatom : Nat) (q : Point) (hj : j < min 4 p.neighList.length)
    (hjatom : p.neighList[j]? = some jatom) (hq : yCloud.pts[jatom]? = some q)
    (h3 : numSt q = 3) :
    (∀ out, getIceType yCloud isSlice = some out →
      ∃ r, out.1.pts[iatom]? = some r ∧ r.iceType = atom_state_type.interfacial) ∧
    (p.neighList.length = 4 → ∀ out, getIceTypePlus yCloud isSlice = some out →
      ∃ r, out.1.pts[iatom]? = some r ∧ r.iceType = atom_state_type.interfacial) := by
  have hel : ¬ (isSlice = true ∧ p.inSlice = false) := by
    rintro ⟨h1, h2⟩
    rw [helig h1] at h2
    exact absurd h2 (by simp)
  have htrue : ∀ e b, isInterfacial yCloud iatom 2 e = some b → b = true := by
    intro e b hb
    exact (isInterfacial_some_iff yCloud iatom 2 e p hp b hb).mpr
      (Or.inl ⟨rfl, j, hj, jatom, q, hjatom, hq, by omega⟩)
  constructor
  · intro out hrun
    obtain ⟨_, hdef, hr⟩ := (getIceType_pass yCloud isSlice out hrun iatom hi p hp).2 hel
    rw [hs] at hdef hr
    obtain ⟨b, hb⟩ := hdef (by omega) (by omega)
    have := htrue _ b hb
    subst this
    refine ⟨_, hr, ?_⟩
    simp [chillTag, hb]
  · intro h4 out hrun
    obtain ⟨_, hdef, hr⟩ := (getIceTypePlus_pass yCloud isSlice out hrun iatom hi p hp).2 hel
    rw [h4, hs] at hdef hr
    obtain ⟨b, hb⟩ := hdef rfl (by omega) (by omega)
    have := htrue _ b hb
    subst this
    refine ⟨_, hr, ?_⟩
    simp [chillPlusTag, hb]

/-- Witness of the amended C9 on `exampleFrame`: particle 0 is tagged interfacial by both
passes. -/
theorem interfacial_one_hop_witness :
    (∃ r, (exampleFrame atom_state_type.interfacial atom_state_type.interfacial
        atom_state_type.cubic atom_state_type.hexagonal atom_state_type.water).pts[0]? =
        some r ∧ r.iceType = atom_state_type.interfacial) ∧
    (∃ r, (exampleFrame atom_state_type.interfacial atom_state_type.interfacial
        atom_state_type.cubic atom_state_type.hexagonal atom_state_type.clathrate).pts[0]? =
        some r ∧ r.iceType = atom_state_type.interfacial) :=
  have h := interfacial_one_hop
    (exampleFrame atom_state_type.unclassified atom_state_type.unclassified
      atom_state_type.unclassified atom_state_type.unclassified atom_state_type.unclassified)
    false 0 (by decide)
    (examplePoint [1, 2, 3, 4] [bond_type.staggered, bond_type.staggered,
      bond_type.out_of_range, bond_type.out_of_range] atom_state_type.unclassified)
    (by rfl) (by intro _; rfl) (by decide) 0 1
    (examplePoint [0, 2, 3, 4] [bond_type.staggered, bond_type.staggered,
      bond_type.staggered, bond_type.out_of_range] atom_state_type.unclassified)
    (by decide) (by rfl) (by rfl) (by decide)
  ⟨h.1 (exampleFrame atom_state_type.interfacial atom_state_type.interfacial
      atom_state_type.cubic atom_state_type.hexagonal atom_state_type.water,
      [0, 1, 1, 2, 1, 5]) (by rfl),
    h.2 (by rfl) (exampleFrame atom_state_type.interfacial atom_state_type.interfacial
      atom_state_type.cubic atom_state_type.hexagonal atom_state_type.clathrate,
      [0, 1, 1, 2, 1, 0, 0, 5]) (by rfl)⟩

theorem isRing_singleton (L : List Nat) (i : Nat) (h : L[i]? = some i) : IsRing L [i] := by
  refine ⟨List.nodup_singleton i, ?_⟩
  simp [h]

theorem isRing_congr (L L' : List Nat) (r : List Nat) (h : IsRing L r)
    (heq : ∀ x ∈ r, L'[x]? = L[x]?) : IsRing L' r := by
  refine ⟨h.1, ?_⟩
  rw [← h.2]
  exact List.map_congr_left heq

theorem isRing_rotate (L : List Nat) (r : List Nat) (n : Nat) (h : IsRing L r) :
    IsRing L (r.rotate n) := by
  refine ⟨List.nodup_rotate.mpr h.1, ?_⟩
  rw [List.map_rotate, h.2, ← List.map_rotate, List.rotate_rotate, List.rotate_rotate,
    Nat.add_comm]

theorem isRing_of_rotate (L : List Nat) (r : List Nat) (n : Nat) (hn : n ≤ r.length)
    (h : IsRing L (r.rotate n)) : IsRing L r := by
  have h2 := isRing_rotate L _ (r.length - n) h
  rw [List.rotate_rotate, Nat.add_sub_cancel' hn, List.rotate_length] at h2
  exact h2

/-- In a ring written from `a`, `L` leads from `a` to the head of `rest ++ [a]`, and along
`rest`. -/
theorem isRing_cons (L : List Nat) (a : Nat) (rest : List Nat) (h : IsRing L (a :: rest)) :
    L[a]? :: rest.map (fun x => L[x]?) = (rest ++ [a]).map some := by
  have h2 := h.2
  rw [List.rotate_cons_succ, List.rotate_zero] at h2
  simpa using h2

theorem isRing_of_cons (L : List Nat) (a : Nat) (rest : List Nat) (hnd : (a :: rest).Nodup)
    (h : L[a]? :: rest.map (fun x => L[x]?) = (rest ++ [a]).map some) :
    IsRing L (a :: rest) := by
  refine ⟨hnd, ?_⟩
  rw [List.rotate_cons_succ, List.rotate_zero]
  simpa using h

/-- A ring can be written from any of its entries. -/
theorem isRing_from (L : List Nat) (r : List Nat) (x : Nat) (h : IsRing L r) (hx : x ∈ r) :
    ∃ rest, IsRing L (x :: rest) ∧ (∀ y, y ∈ x :: rest ↔ y ∈ r) ∧
      (x :: rest).length = r.length := by
  obtain ⟨s, t, rfl⟩ := List.append_of_mem hx
  refine ⟨t ++ s, ?_, ?_, ?_⟩
  · have := isRing_rotate L _ s.length h
    rw [List.rotate_append_length_eq] at this
    simpa using this
  · intro y
    simp only [List.mem_cons, List.mem_append]
    tauto
  · simp only [List.length_cons, List.length_append]
    omega

/-- An entry of a ring that `L` leads to itself is the whole ring. -/
theorem isRing_fixed (L : List Nat) (r : List Nat) (x : Nat) (h : IsRing L r) (hx : x ∈ r)
    (hfix : L[x]? = some x) : r = [x] := by
  obtain ⟨rest, hring, hmem, hlen⟩ := isRing_from L r x h hx
  have hc := isRing_cons L x rest hring
  cases rest with
  | nil =>
    have hl : r.length = 1 := by simpa using hlen.symm
    obtain ⟨y, rfl⟩ := List.length_eq_one.mp hl
    have : x ∈ [y] := hx
    simp only [List.mem_singleton] at this
    rw [this]
  | cons y rest' =>
    simp only [List.cons_append, List.map_cons, List.cons.injEq] at hc
    rw [hfix] at hc
    have hxy : x = y := Option.some.inj hc.1
    have hnd := hring.1
    rw [hxy] at hnd
    simp at hnd

/-- Splicing a fixed point `k` into a ring, right after the entry `j`: the effect of
`iter_swap` on entries `j` and `k`. -/
theorem isRing_splice (L : List Nat) (pre post : List Nat) (j k nj : Nat)
    (h : IsRing L (pre ++ j :: post)) (hk : k ∉ pre ++ j :: post)
    (hj : L[j]? = some nj) (hkk : L[k]? = some k) :
    IsRing ((L.set j k).set k nj) (pre ++ j :: k :: post) := by
  have hjk : j ≠ k := by
    rintro rfl
    exact hk (by simp)
  have hjlt : j < L.length := (List.getElem?_eq_some_iff.mp hj).1
  have hklt : k < L.length := (List.getElem?_eq_some_iff.mp hkk).1
  have hrot := isRing_rotate L _ pre.length h
  rw [List.rotate_append_length_eq] at hrot
  have hc := isRing_cons L j (post ++ pre) (by simpa using hrot)
  rw [hj] at hc
  apply isRing_of_rotate _ _ pre.length (by simp)
  rw [List.rotate_append_length_eq]
  have hnd : (j :: k :: (post ++ pre)).Nodup := by
    have h1 : (j :: (post ++ pre)).Nodup := by simpa using hrot.1
    have hk' : k ∉ j :: (post ++ pre) := by
      intro hmem
      apply hk
      simp only [List.mem_cons, List.mem_append] at hmem ⊢
      tauto
    rw [List.nodup_cons] at h1 ⊢
    refine ⟨?_, List.nodup_cons.mpr ⟨fun hm => hk' (List.mem_cons_of_mem _ hm), h1.2⟩⟩
    intro hm
    rcases List.mem_cons.mp hm with e | e
    · exact hjk e
    · exact h1.1 e
  have := isRing_of_cons ((L.set j k).set k nj) j (k :: (post ++ pre)) hnd ?_
  · simpa using this
  · have e1 : ((L.set j k).set k nj)[j]? = some k := by
      rw [List.getElem?_set_ne (Ne.symm hjk), List.getElem?_set_self hjlt]
    have e2 : ((L.set j k).set k nj)[k]? = some nj := by
      rw [List.getElem?_set_self (by rw [List.length_set]; exact hklt)]
    have e3 : (post ++ pre).map (fun x => ((L.set j k).set k nj)[x]?) =
        (post ++ pre).map (fun x => L[x]?) := by
      apply List.map_congr_left
      intro x hx
      have hxj : x ≠ j := by
        rintro rfl
        have h1 : (x :: (post ++ pre)).Nodup := by simpa using hrot.1
        exact (List.nodup_cons.mp h1).1 hx
      have hxk : x ≠ k := by
        rintro rfl
        apply hk
        simp only [List.mem_append, List.mem_cons] at hx ⊢
        tauto
      rw [List.getElem?_set_ne (Ne.symm hxk), List.getElem?_set_ne (Ne.symm hxj)]
    simp only [List.map_cons, List.cons_append, e1, e2, e3]
    rw [hc]

/-- Where `L` leads from the entry `j` of a ring that starts at `i`. -/
theorem isRing_next (L : List Nat) (pre post : List Nat) (i j : Nat)
    (h : IsRing L (pre ++ j :: post)) (hi : (pre ++ [j]).head? = some i) :
    L[j]? = (post ++ [i]).head? := by
  have hrot := isRing_rotate L _ pre.length h
  rw [List.rotate_append_length_eq] at hrot
  have hc := isRing_cons L j (post ++ pre) (by simpa using hrot)
  cases post with
  | nil =>
    cases pre with
    | nil =>
      simp only [List.nil_append, List.head?_cons, Option.some.injEq] at hi
      simpa [hi] using hc
    | cons a pre' =>
      simp only [List.cons_append, List.head?_cons, Option.some.injEq] at hi
      simp only [List.nil_append, List.map_cons, List.cons_append, List.cons.injEq] at hc
      simpa [hi] using hc.1
  | cons y post' =>
    simp only [List.cons_append, List.map_cons, List.cons.injEq] at hc
    simpa using hc.1



/-! ### Connected particles -/

theorem connected_lt (pd : PointCloud → Nat → Nat → Dbl) (ice : PointCloud) (cutoff : Dbl)
    (a b : Nat) (ha : a < ice.nop) (h : connected pd ice cutoff a b) : b < ice.nop := by
  induction h with
  | refl => exact ha
  | tail _ hbc _ => exact hbc.2.1

theorem joined_symm (pd : PointCloud → Nat → Nat → Dbl) (ice : PointCloud) (cutoff : Dbl)
    (hsym : ∀ a b, a < ice.nop → b < ice.nop → pd ice a b = pd ice b a) :
    Symmetric (joined pd ice cutoff) := by
  intro a b ⟨ha, hb, hd⟩
  exact ⟨hb, ha, by rw [hsym b a hb ha]; exact hd⟩

theorem connected_symm (pd : PointCloud → Nat → Nat → Dbl) (ice : PointCloud) (cutoff : Dbl)
    (hsym : ∀ a b, a < ice.nop → b < ice.nop → pd ice a b = pd ice b a) (a b : Nat)
    (h : connected pd ice cutoff a b) : connected pd ice cutoff b a :=
  Relation.ReflTransGen.symmetric (joined_symm pd ice cutoff hsym) h

theorem connected_trans (pd : PointCloud → Nat → Nat → Dbl) (ice : PointCloud) (cutoff : Dbl)
    (a b d : Nat) (h1 : connected pd ice cutoff a b) (h2 : connected pd ice cutoff b d) :
    connected pd ice cutoff a d :=
  Relation.ReflTransGen.trans h1 h2

/-- A list that holds `a` and, with each entry, every particle joined to it, holds every
particle connected to `a`. -/
theorem connected_mem_of_closed (pd : PointCloud → Nat → Nat → Dbl) (ice : PointCloud)
    (cutoff : Dbl) (r : List Nat) (a : Nat) (ha : a ∈ r)
    (hclosed : ∀ x ∈ r, ∀ y, joined pd ice cutoff x y → y ∈ r) (b : Nat)
    (h : connected pd ice cutoff a b) : b ∈ r := by
  induction h with
  | refl => exact ha
  | tail _ hbc ih => exact hclosed _ ih _ hbc

/-- While `i` is on its own, every other particle connected to `i` is on its own too, at a
larger index. -/
theorem construct_alone (pd : PointCloud → Nat → Nat → Dbl) (ice : PointCloud) (cutoff : Dbl)
    (hsym : ∀ a b, a < ice.nop → b < ice.nop → pd ice a b = pd ice b a)
    (L : List Nat) (i : Nat) (hG : ConstructInv pd ice cutoff L i) (hi : i < ice.nop)
    (hLi : L[i]? = some i) (y : Nat) (hy : connected pd ice cutoff i y) (hne : y ≠ i) :
    L[y]? = some y ∧ i < y := by
  have hylt := connected_lt pd ice cutoff i y hi hy
  rcases hG.2 y hylt with ⟨h1, h2⟩ | ⟨r, hyr, hring, hcl⟩
  · exact ⟨h1, lt_of_le_of_ne h2 (Ne.symm hne)⟩
  · have hir : i ∈ r := (hcl y hyr i).mpr (connected_symm pd ice cutoff hsym i y hy)
    have := isRing_fixed L r i hring hir hLi
    rw [this] at hyr
    exact absurd (List.mem_singleton.mp hyr) hne

/-! ### The construction loop -/

theorem getElem?_of_lt {α : Type} (L : List α) (k : Nat) (h : k < L.length) :
    ∃ v, L[k]? = some v :=
  ⟨L[k], List.getElem?_eq_getElem h⟩

theorem iter_swap_eq (L : List Nat) (j k nj nk : Nat) (hj : L[j]? = some nj)
    (hk : L[k]? = some nk) : iter_swap L j k = some ((L.set j nk).set k nj) := by
  simp [iter_swap, hj, hk]

/-- The loop over `k`: it returns, the particles it adds to the ring of `i` come right after
`j`, and afterwards every visited `k` joined to `j` is on the ring. -/
theorem scan_spec (pd : PointCloud → Nat → Nat → Dbl) (ice : PointCloud) (cutoff : Dbl)
    (hsym : ∀ a b, a < ice.nop → b < ice.nop → pd ice a b = pd ice b a)
    (L0 : List Nat) (i : Nat) (hG : ConstructInv pd ice cutoff L0 i) (hi : i < ice.nop)
    (hL0i : L0[i]? = some i) (pre : List Nat) (j : Nat) (ks : List Nat) :
    ∀ (L post : List Nat), (∀ k ∈ ks, i < k ∧ k < ice.nop) →
      RingInv pd ice cutoff L0 i L pre j post →
      ∃ L' post', largestIceCluster.scan pd ice cutoff j ks L = some L' ∧
        RingInv pd ice cutoff L0 i L' pre j post' ∧ (∀ x ∈ post, x ∈ post') ∧
        (∀ k ∈ ks, joined pd ice cutoff j k → k ∈ pre ++ j :: post') := by
  induction ks with
  | nil =>
    intro L post _ hR
    exact ⟨L, post, rfl, hR, fun _ h => h, fun k hk => absurd hk (List.not_mem_nil k)⟩
  | cons k ks ih =>
    intro L post hks hR
    obtain ⟨hlen, hring, hhead, hconn, hclosed, hframe⟩ := hR
    have hk := hks k (List.mem_cons_self _ _)
    have hks' : ∀ k' ∈ ks, i < k' ∧ k' < ice.nop :=
      fun k' hk' => hks k' (List.mem_cons_of_mem _ hk')
    have hiring : i ∈ pre ++ j :: post := by
      cases pre with
      | nil =>
        simp only [List.nil_append, List.head?_cons, Option.some.injEq] at hhead
        simp [hhead]
      | cons a pre' =>
        simp only [List.cons_append, List.head?_cons, Option.some.injEq] at hhead
        simp [hhead]
    have hjring : j ∈ pre ++ j :: post := by simp
    have hjlt : j < ice.nop := connected_lt pd ice cutoff i j hi (hconn j hjring)
    obtain ⟨nk, hnk⟩ := getElem?_of_lt L k (by rw [hlen]; exact hk.2)
    obtain ⟨nj, hnj⟩ := getElem?_of_lt L j (by rw [hlen]; exact hjlt)
    have hmono : ∀ (L' post' : List Nat),
        RingInv pd ice cutoff L0 i L' pre j post' → (∀ x ∈ post, x ∈ post') →
        (joined pd ice cutoff j k → k ∈ pre ++ j :: post') →
        ∃ L'' post'', largestIceCluster.scan pd ice cutoff j ks L' = some L'' ∧
          RingInv pd ice cutoff L0 i L'' pre j post'' ∧ (∀ x ∈ post, x ∈ post'') ∧
          (∀ k' ∈ k :: ks, joined pd ice cutoff j k' → k' ∈ pre ++ j :: post'') := by
      intro L' post' hR' hsub hkin
      obtain ⟨L'', post'', h1, h2, h3, h4⟩ := ih L' post' hks' hR'
      refine ⟨L'', post'', h1, h2, fun x hx => h3 x (hsub x hx), ?_⟩
      intro k' hk' hjk'
      rcases List.mem_cons.mp hk' with rfl | hmem
      · have := hkin hjk'
        simp only [List.mem_append, List.mem_cons] at this ⊢
        rcases this with h | h | h
        · exact Or.inl h
        · exact Or.inr (Or.inl h)
        · exact Or.inr (Or.inr (h3 _ h))
      · exact h4 k' hmem hjk'
    simp only [largestIceCluster.scan, hnk]
    by_cases hfix : nk = k
    · subst hfix
      rw [if_pos rfl]
      by_cases hd : pd ice j nk ≤ cutoff
      · rw [if_pos hd, iter_swap_eq L j nk nj nk hnj hnk]
        simp only
        have hknot : nk ∉ pre ++ j :: post := by
          intro hmem
          have := isRing_fixed L _ nk hring hmem hnk
          rw [this] at hiring
          have := List.mem_singleton.mp hiring
          omega
        have hjk : joined pd ice cutoff j nk := ⟨hjlt, hk.2, hd⟩
        apply hmono ((L.set j nk).set nk nj) (nk :: post)
        · refine ⟨by simp [hlen], isRing_splice L pre post j nk nj hring hknot hnj hnk, hhead,
            ?_, ?_, ?_⟩
          · intro x hx
            simp only [List.mem_append, List.mem_cons] at hx
            rcases hx with h | h | h | h
            · exact hconn x (by simp [h])
            · exact hconn x (by simp [h])
            · rw [h]
              exact Relation.ReflTransGen.tail (hconn j hjring) hjk
            · exact hconn x (by simp [h])
          · intro x hx y hxy
            have := hclosed x hx y hxy
            simp only [List.mem_append, List.mem_cons] at this ⊢
            tauto
          · intro x hx
            simp only [List.mem_append, List.mem_cons, not_or] at hx
            rw [List.getElem?_set_ne (Ne.symm hx.2.2.1), List.getElem?_set_ne (Ne.symm hx.2.1)]
            apply hframe
            simp only [List.mem_append, List.mem_cons, not_or]
            exact ⟨hx.1, hx.2.1, hx.2.2.2⟩
        · intro x hx
          exact List.mem_cons_of_mem _ hx
        · intro _
          simp
      · rw [if_neg hd]
        apply hmono L post ⟨hlen, hring, hhead, hconn, hclosed, hframe⟩ (fun _ h => h)
        intro hjk
        exact absurd hjk.2.2 hd
    · rw [if_neg hfix]
      apply hmono L post ⟨hlen, hring, hhead, hconn, hclosed, hframe⟩ (fun _ h => h)
      intro hjk
      by_contra hnot
      have hik : connected pd ice cutoff i k :=
        Relation.ReflTransGen.tail (hconn j hjring) hjk
      have := (construct_alone pd ice cutoff hsym L0 i hG hi hL0i k hik (by omega)).1
      rw [← hframe k hnot, hnk] at this
      exact hfix (Option.some.inj this)



theorem ringInv_head_mem (pd : PointCloud → Nat → Nat → Dbl) (ice : PointCloud) (cutoff : Dbl)
    (L0 : List Nat) (i : Nat) (L pre : List Nat) (j : Nat) (post : List Nat)
    (hR : RingInv pd ice cutoff L0 i L pre j post) : i ∈ pre ++ [j] := by
  have hhead := hR.2.2.1
  cases pre with
  | nil =>
    simp only [List.nil_append, List.head?_cons, Option.some.injEq] at hhead
    simp [hhead]
  | cons a pre' =>
    simp only [List.cons_append, List.head?_cons, Option.some.injEq] at hhead
    simp [hhead]

theorem ring_length_le (pd : PointCloud → Nat → Nat → Dbl) (ice : PointCloud) (cutoff : Dbl)
    (i : Nat) (hi : i < ice.nop) (r : List Nat) (hnd : r.Nodup)
    (hconn : ∀ x ∈ r, connected pd ice cutoff i x) : r.length ≤ ice.nop := by
  have hsub : r ⊆ List.range ice.nop := by
    intro x hx
    exact List.mem_range.mpr (connected_lt pd ice cutoff i x hi (hconn x hx))
  have := List.Subperm.length_le (List.subperm_of_subset hnd hsub)
  simpa using this

/-- The do-while: with enough iterations allowed it returns, and the ring of `i` is then the
whole cluster of `i`, the rest of the linked list being untouched. -/
theorem ring_spec (pd : PointCloud → Nat → Nat → Dbl) (ice : PointCloud) (cutoff : Dbl)
    (hsym : ∀ a b, a < ice.nop → b < ice.nop → pd ice a b = pd ice b a)
    (L0 : List Nat) (i : Nat) (hG : ConstructInv pd ice cutoff L0 i) (hi : i < ice.nop)
    (hL0i : L0[i]? = some i) (fuel : Nat) :
    ∀ (L pre : List Nat) (j : Nat) (post : List Nat), ice.nop ≤ pre.length + fuel →
      RingInv pd ice cutoff L0 i L pre j post →
      ∃ L' r, largestIceCluster.ring pd ice cutoff i fuel j L = some L' ∧
        L'.length = ice.nop ∧ IsRing L' r ∧ i ∈ r ∧
        (∀ x, x ∈ r ↔ connected pd ice cutoff i x) ∧ (∀ x, x ∉ r → L'[x]? = L0[x]?) := by
  induction fuel with
  | zero =>
    intro L pre j post hfuel hR
    exfalso
    have := ring_length_le pd ice cutoff i hi _ hR.2.1.1 hR.2.2.2.1
    simp only [List.length_append, List.length_cons] at this
    omega
  | succ fuel ih =>
    intro L pre j post hfuel hR
    have hks : ∀ k ∈ List.range' (i + 1) (ice.nop - (i + 1)), i < k ∧ k < ice.nop := by
      intro k hk
      obtain ⟨t, ht, rfl⟩ := List.mem_range'.mp hk
      omega
    obtain ⟨L1, post1, hscan, hR1, _, hall⟩ :=
      scan_spec pd ice cutoff hsym L0 i hG hi hL0i pre j _ L post hks hR
    obtain ⟨hlen, hring, hhead, hconn, hclosed, hframe⟩ := hR1
    have hnext := isRing_next L1 pre post1 i j hring hhead
    have hjring : j ∈ pre ++ j :: post1 := by simp
    have hiring : i ∈ pre ++ j :: post1 := by
      have := ringInv_head_mem pd ice cutoff L0 i L1 pre j post1
        ⟨hlen, hring, hhead, hconn, hclosed, hframe⟩
      simp only [List.mem_append, List.mem_singleton, List.mem_cons] at this ⊢
      tauto
    have hjclosed : ∀ y, joined pd ice cutoff j y → y ∈ pre ++ j :: post1 := by
      intro y hjy
      by_cases hyi : y = i
      · rw [hyi]; exact hiring
      · have hiy : connected pd ice cutoff i y :=
          Relation.ReflTransGen.tail (hconn j hjring) hjy
        have := (construct_alone pd ice cutoff hsym L0 i hG hi hL0i y hiy hyi).2
        apply hall y _ hjy
        apply List.mem_range'.mpr
        refine ⟨y - (i + 1), ?_, ?_⟩
        · have := hjy.2.1
          omega
        · omega
    simp only [largestIceCluster.ring, hscan]
    cases post1 with
    | nil =>
      simp only [List.nil_append, List.head?_cons] at hnext
      simp only [hnext, ne_eq, not_true_eq_false, if_false]
      refine ⟨L1, pre ++ [j], rfl, hlen, hring, ?_, ?_, hframe⟩
      · exact ringInv_head_mem pd ice cutoff L0 i L1 pre j []
          ⟨hlen, hring, hhead, hconn, hclosed, hframe⟩
      · intro x
        constructor
        · exact hconn x
        · intro hx
          apply connected_mem_of_closed pd ice cutoff _ i hiring _ x hx
          intro x' hx' y hxy
          simp only [List.mem_append, List.mem_singleton] at hx'
          rcases hx' with h | h
          · exact hclosed x' h y hxy
          · rw [h] at hxy
            exact hjclosed y hxy
    | cons j1 post2 =>
      simp only [List.cons_append, List.head?_cons] at hnext
      have hj1 : j1 ≠ i := by
        intro heq
        have hnd := hring.1
        have him := ringInv_head_mem pd ice cutoff L0 i L1 pre j (j1 :: post2)
          ⟨hlen, hring, hhead, hconn, hclosed, hframe⟩
        have e : pre ++ j :: j1 :: post2 = (pre ++ [j]) ++ j1 :: post2 := by simp
        rw [e] at hnd
        have := (List.nodup_append.mp hnd).2.2
        exact this him (by rw [heq]; exact List.mem_cons_self _ _)
      simp only [hnext, ne_eq, hj1, not_false_eq_true, if_true]
      have hR2 : RingInv pd ice cutoff L0 i L1 (pre ++ [j]) j1 post2 := by
        have e : (pre ++ [j]) ++ j1 :: post2 = pre ++ j :: j1 :: post2 := by simp
        refine ⟨hlen, by rw [e]; exact hring, ?_, by rw [e]; exact hconn, ?_,
          by rw [e]; exact hframe⟩
        · cases pre with
          | nil => simpa using hhead
          | cons a pre' => simpa using hhead
        · intro x hx y hxy
          rw [e]
          simp only [List.mem_append, List.mem_singleton] at hx
          rcases hx with h | h
          · exact hclosed x h y hxy
          · rw [h] at hxy
            exact hjclosed y hxy
      exact ih L1 (pre ++ [j]) j1 post2 (by simp only [List.length_append, List.length_singleton]; omega) hR2

/-- One iteration of the construction loop keeps its invariant. -/
theorem construct_spec (pd : PointCloud → Nat → Nat → Dbl) (ice : PointCloud) (cutoff : Dbl)
    (hsym : ∀ a b, a < ice.nop → b < ice.nop → pd ice a b = pd ice b a)
    (fuel : Nat) (hfuel : ice.nop ≤ fuel) (L : List Nat) (i : Nat) (hi : i < ice.nop)
    (hG : ConstructInv pd ice cutoff L i) :
    ∃ L', largestIceCluster.construct pd ice cutoff fuel L i = some L' ∧
      ConstructInv pd ice cutoff L' (i + 1) := by
  obtain ⟨Li, hLi⟩ := getElem?_of_lt L i (by rw [hG.1]; exact hi)
  simp only [largestIceCluster.construct, hLi]
  by_cases hfix : Li = i
  · subst hfix
    simp only [ne_eq, not_true_eq_false, if_false]
    have hR0 : RingInv pd ice cutoff L Li L [] Li [] :=
      ⟨hG.1, isRing_singleton L Li hLi, rfl,
        fun x hx => by
          have : x = Li := by simpa using hx
          rw [this]
          exact Relation.ReflTransGen.refl,
        fun x hx => absurd hx (List.not_mem_nil x), fun _ _ => rfl⟩
    obtain ⟨L', r, hrun, hlen, hring, hir, hmem, hframe⟩ :=
      ring_spec pd ice cutoff hsym L Li hG hi hLi fuel L [] Li [] (by simpa using hfuel) hR0
    refine ⟨L', hrun, hlen, ?_⟩
    intro x hx
    by_cases hxr : x ∈ r
    · right
      refine ⟨r, hxr, hring, ?_⟩
      intro x' hx' y
      rw [hmem]
      have hix' := (hmem x').mp hx'
      constructor
      · intro hiy
        exact connected_trans pd ice cutoff _ _ _
          (connected_symm pd ice cutoff hsym _ _ hix') hiy
      · intro hx'y
        exact connected_trans pd ice cutoff _ _ _ hix' hx'y
    · rcases hG.2 x hx with ⟨h1, h2⟩ | ⟨r0, hxr0, hring0, hcl0⟩
      · left
        refine ⟨by rw [hframe x hxr]; exact h1, ?_⟩
        have : x ≠ Li := fun h => hxr (h ▸ hir)
        omega
      · right
        refine ⟨r0, hxr0, ?_, hcl0⟩
        apply isRing_congr L L' r0 hring0
        intro z hz
        apply hframe
        intro hzr
        have hiz := (hmem z).mp hzr
        have hir0 : Li ∈ r0 := (hcl0 z hz Li).mpr (connected_symm pd ice cutoff hsym _ _ hiz)
        have := isRing_fixed L r0 Li hring0 hir0 hLi
        rw [this] at hxr0
        rw [List.mem_singleton.mp hxr0] at hxr
        exact hxr hir
  · simp only [ne_eq, hfix, not_false_eq_true, if_true]
    refine ⟨L, rfl, hG.1, ?_⟩
    intro x hx
    rcases hG.2 x hx with ⟨h1, h2⟩ | h
    · left
      refine ⟨h1, ?_⟩
      have : x ≠ i := by
        intro heq
        rw [heq, hLi] at h1
        exact hfix (Option.some.inj h1)
      omega
    · exact Or.inr h

/-- The construction loop over the indices below `n` returns and keeps its invariant. -/
theorem construct_fold (pd : PointCloud → Nat → Nat → Dbl) (ice : PointCloud) (cutoff : Dbl)
    (hsym : ∀ a b, a < ice.nop → b < ice.nop → pd ice a b = pd ice b a)
    (fuel : Nat) (hfuel : ice.nop ≤ fuel) (n : Nat) (hn : n ≤ ice.nop) :
    ∃ L, (List.range n).foldlM (largestIceCluster.construct pd ice cutoff fuel)
        (List.range ice.nop) = some L ∧ ConstructInv pd ice cutoff L n := by
  induction n with
  | zero =>
    refine ⟨List.range ice.nop, rfl, by simp, ?_⟩
    intro x hx
    left
    exact ⟨List.getElem?_range hx, Nat.zero_le _⟩
  | succ n ih =>
    obtain ⟨L, hrun, hG⟩ := ih (by omega)
    obtain ⟨L', hstep, hG'⟩ := construct_spec pd ice cutoff hsym fuel hfuel L n (by omega) hG
    refine ⟨L', ?_, hG'⟩
    rw [List.range_succ, List.foldlM_append, hrun]
    simp [hstep]

/-- After the construction loop every particle is on a ring that is its whole cluster. -/
theorem construct_final (pd : PointCloud → Nat → Nat → Dbl) (ice : PointCloud) (cutoff : Dbl)
    (hsym : ∀ a b, a < ice.nop → b < ice.nop → pd ice a b = pd ice b a)
    (fuel : Nat) (hfuel : ice.nop ≤ fuel) :
    ∃ L, (List.range (ice.nop - 1)).foldlM (largestIceCluster.construct pd ice cutoff fuel)
        (List.range ice.nop) = some L ∧ L.length = ice.nop ∧
      ∀ x, x < ice.nop → ∃ r, x ∈ r ∧ IsCluster pd ice cutoff L r := by
  obtain ⟨L, hrun, hG⟩ := construct_fold pd ice cutoff hsym fuel hfuel (ice.nop - 1) (by omega)
  refine ⟨L, hrun, hG.1, ?_⟩
  intro x hx
  rcases hG.2 x hx with ⟨h1, h2⟩ | h
  · have hxe : x = ice.nop - 1 := by omega
    refine ⟨[x], List.mem_singleton_self x, isRing_singleton L x h1, ?_⟩
    intro x' hx' y
    rw [List.mem_singleton.mp hx']
    constructor
    · intro hy
      rw [List.mem_singleton.mp hy]
      exact Relation.ReflTransGen.refl
    · intro hxy
      by_contra hne
      have hne' : y ≠ x := by simpa using hne
      have hG' : ConstructInv pd ice cutoff L x := by rw [hxe]; exact hG
      have := (construct_alone pd ice cutoff hsym L x hG' hx h1 y hxy hne').2
      have := connected_lt pd ice cutoff x y hx hxy
      omega
  · exact h



/-! ### The loop that measures the clusters -/

/-- Measuring a ring: started on the entry `x` of a ring through `i`, with `rest` the entries
between `x` and `i`, the walk takes `rest.length + 1` steps and flags the entries it meets. -/
theorem walk_spec (L : List Nat) (i : Nat) :
    ∀ (rest : List Nat) (x noc n : Nat) (flag : List Nat),
      L[x]? :: rest.map (fun y => L[y]?) = (rest ++ [i]).map some →
      (∀ y ∈ rest, y ≠ i) → (∀ y ∈ rest ++ [i], y < flag.length) → rest.length + 1 ≤ n →
      ∃ flag', largestIceCluster.walk L i n x noc flag = some (flag', noc + rest.length + 1) ∧
        flag'.length = flag.length ∧
        ∀ z, flag'[z]? = if z ∈ rest ++ [i] then some 1 else flag[z]? := by
  intro rest
  induction rest with
  | nil =>
    intro x noc n flag hL _ hlt hn
    obtain ⟨n', rfl⟩ : ∃ n', n = n' + 1 := ⟨n - 1, by simp at hn; omega⟩
    simp only [List.map_nil, List.nil_append, List.map_cons, List.cons.injEq, and_true] at hL
    have hi : i < flag.length := hlt i (by simp)
    refine ⟨flag.set i 1, ?_, by simp, ?_⟩
    · simp [largestIceCluster.walk, hL, hi]
    · intro z
      by_cases hz : z = i
      · subst hz
        simp [List.getElem?_set_self hi]
      · simp [hz, List.getElem?_set_ne (Ne.symm hz)]
  | cons y rest ih =>
    intro x noc n flag hL hne hlt hn
    obtain ⟨n', rfl⟩ : ∃ n', n = n' + 1 := ⟨n - 1, by simp at hn; omega⟩
    simp only [List.map_cons, List.cons_append, List.cons.injEq] at hL
    obtain ⟨hLx, hLy⟩ := hL
    have hy : y < flag.length := hlt y (by simp)
    have hyi : y ≠ i := hne y (List.mem_cons_self _ _)
    obtain ⟨flag', hrun, hlen, hflag⟩ := ih y (noc + 1) n' (flag.set y 1)
      (by simpa using hLy) (fun y' hy' => hne y' (List.mem_cons_of_mem _ hy'))
      (fun y' hy' => by
        rw [List.length_set]
        exact hlt y' (by
          simp only [List.cons_append, List.mem_cons]
          exact Or.inr hy'))
      (by simp only [List.length_cons] at hn; omega)
    refine ⟨flag', ?_, by rw [hlen, List.length_set], ?_⟩
    · simp only [largestIceCluster.walk, hLx, hy, if_true, hyi, if_false, hrun,
        List.length_cons]
      congr 2
      omega
    · intro z
      rw [hflag z]
      by_cases hz : z ∈ rest ++ [i]
      · have : z ∈ y :: rest ++ [i] := by
          simp only [List.cons_append, List.mem_cons]
          exact Or.inr hz
        rw [if_pos hz, if_pos this]
      · rw [if_neg hz]
        by_cases hzy : z = y
        · subst hzy
          have : z ∈ z :: rest ++ [i] := by simp
          rw [if_pos this, List.getElem?_set_self hy]
        · have : z ∉ y :: rest ++ [i] := by
            simp only [List.cons_append, List.mem_cons, not_or]
            exact ⟨hzy, hz⟩
          rw [if_neg this, List.getElem?_set_ne (Ne.symm hzy)]

/-- In a ring that is a cluster, every entry is a particle of the ice cloud. -/
theorem isCluster_lt (pd : PointCloud → Nat → Nat → Dbl) (ice : PointCloud) (cutoff : Dbl)
    (L r : List Nat) (h : IsCluster pd ice cutoff L r) (x : Nat) (hx : x ∈ r)
    (hlt : x < ice.nop) (y : Nat) (hy : y ∈ r) : y < ice.nop :=
  connected_lt pd ice cutoff x y hlt ((h.2 x hx y).mp hy)

theorem isCluster_length_le (pd : PointCloud → Nat → Nat → Dbl) (ice : PointCloud)
    (cutoff : Dbl) (L r : List Nat) (h : IsCluster pd ice cutoff L r) (x : Nat) (hx : x ∈ r)
    (hlt : x < ice.nop) : r.length ≤ ice.nop :=
  ring_length_le pd ice cutoff x hlt r h.1.1 (fun y hy => (h.2 x hx y).mp hy)

/-- One iteration of the measuring loop: it returns; an unflagged `i` gets an entry holding the
length of its ring, and the newly flagged particles are those of that ring. -/
theorem measure_spec (pd : PointCloud → Nat → Nat → Dbl) (ice : PointCloud) (cutoff : Dbl)
    (L : List Nat)
    (hfinal : ∀ x, x < ice.nop → ∃ r, x ∈ r ∧ IsCluster pd ice cutoff L r)
    (flag clusterID nCluster : List Nat) (i : Nat) (hi : i < ice.nop)
    (hflag : flag.length = ice.nop) :
    ∃ flag' clusterID' nCluster',
      largestIceCluster.measure L ice.nop (flag, clusterID, nCluster) i =
        some (flag', clusterID', nCluster') ∧
      flag'.length = ice.nop ∧
      ((flag[i]? = some 1 ∧ flag' = flag ∧ clusterID' = clusterID ∧ nCluster' = nCluster) ∨
       (flag[i]? ≠ some 1 ∧ ∃ r, i ∈ r ∧ IsCluster pd ice cutoff L r ∧
         clusterID' = clusterID ++ [i] ∧ nCluster' = nCluster ++ [r.length] ∧
         ∀ z, flag'[z]? = if z ∈ r then some 1 else flag[z]?)) := by
  obtain ⟨f, hf⟩ := getElem?_of_lt flag i (by rw [hflag]; exact hi)
  simp only [largestIceCluster.measure, hf]
  by_cases hf1 : f = 1
  · subst hf1
    exact ⟨flag, clusterID, nCluster, by simp, hflag, Or.inl ⟨rfl, rfl, rfl, rfl⟩⟩
  · rw [if_neg hf1]
    obtain ⟨r, hir, hcl⟩ := hfinal i hi
    obtain ⟨rest, hring, hmem, hlen⟩ := isRing_from L r i hcl.1 hir
    have hrest_r : ∀ y, y ∈ rest ++ [i] ↔ y ∈ r := by
      intro y
      rw [← hmem y]
      simp only [List.mem_append, List.mem_singleton, List.mem_cons]
      tauto
    obtain ⟨flag', hrun, hlen', hflag'⟩ := walk_spec L i rest i 0 ice.nop flag
      (isRing_cons L i rest hring)
      (fun y hy heq => by
        have := (List.nodup_cons.mp hring.1).1
        exact this (heq ▸ hy))
      (fun y hy => by
        rw [hflag]
        exact isCluster_lt pd ice cutoff L r hcl i hir hi y ((hrest_r y).mp hy))
      (by
        have := isCluster_length_le pd ice cutoff L r hcl i hir hi
        simp only [List.length_cons] at hlen
        omega)
    refine ⟨flag', clusterID ++ [i], nCluster ++ [r.length], ?_, by rw [hlen', hflag], ?_⟩
    · rw [hrun]
      simp only [List.length_cons] at hlen
      simp only [Nat.zero_add, hlen]
    · right
      refine ⟨by simpa using hf1, r, hir, hcl, rfl, rfl, ?_⟩
      intro z
      rw [hflag' z]
      by_cases hz : z ∈ r
      · rw [if_pos hz, if_pos ((hrest_r z).mpr hz)]
      · rw [if_neg hz, if_neg (fun h => hz ((hrest_r z).mp h))]

/-- The measuring loop over the indices below `n`: it returns; every recorded size is the
length of the ring of the start index recorded with it; and every particle below `n`, as every
flagged particle, is on a ring whose length is recorded. -/
theorem measure_fold (pd : PointCloud → Nat → Nat → Dbl) (ice : PointCloud) (cutoff : Dbl)
    (L : List Nat)
    (hfinal : ∀ x, x < ice.nop → ∃ r, x ∈ r ∧ IsCluster pd ice cutoff L r)
    (n : Nat) (hn : n ≤ ice.nop) :
    ∃ flag clusterID nCluster,
      (List.range n).foldlM (largestIceCluster.measure L ice.nop)
        (List.replicate ice.nop 0, [], []) = some (flag, clusterID, nCluster) ∧
      flag.length = ice.nop ∧
      (∀ p ∈ clusterID.zip nCluster, p.1 < ice.nop ∧
        ∃ r, p.1 ∈ r ∧ IsCluster pd ice cutoff L r ∧ r.length = p.2) ∧
      clusterID.length = nCluster.length ∧
      (∀ x, x < ice.nop → (x < n ∨ flag[x]? = some 1) →
        ∃ r, x ∈ r ∧ IsCluster pd ice cutoff L r ∧ r.length ∈ nCluster) := by
  induction n with
  | zero =>
    refine ⟨List.replicate ice.nop 0, [], [], rfl, by simp, by simp, rfl, ?_⟩
    intro x hx h
    rcases h with h | h
    · omega
    · rw [List.getElem?_replicate] at h
      simp [hx] at h
  | succ n ih =>
    obtain ⟨flag, clusterID, nCluster, hrun, hflen, hrec, hlen, hcov⟩ := ih (by omega)
    obtain ⟨flag', clusterID', nCluster', hstep, hflen', hcase⟩ :=
      measure_spec pd ice cutoff L hfinal flag clusterID nCluster n (by omega) hflen
    refine ⟨flag', clusterID', nCluster', ?_, hflen', ?_⟩
    · rw [List.range_succ, List.foldlM_append, hrun]
      simp [hstep]
    · rcases hcase with ⟨hf, rfl, rfl, rfl⟩ | ⟨hf, r, hnr, hcl, rfl, rfl, hflag'⟩
      · refine ⟨hrec, hlen, ?_⟩
        intro x hx h
        rcases h with h | h
        · by_cases hxn : x = n
          · subst hxn
            exact hcov x hx (Or.inr hf)
          · exact hcov x hx (Or.inl (by omega))
        · exact hcov x hx (Or.inr h)
      · refine ⟨?_, by simp [hlen], ?_⟩
        · intro p hp
          rw [List.zip_append hlen] at hp
          rcases List.mem_append.mp hp with h | h
          · exact hrec p h
          · simp only [List.zip_cons_cons, List.zip_nil_right, List.mem_singleton] at h
            subst h
            exact ⟨by omega, r, hnr, hcl, rfl⟩
        · intro x hx h
          have hold : (x < n ∨ flag[x]? = some 1) →
              ∃ r', x ∈ r' ∧ IsCluster pd ice cutoff L r' ∧
                r'.length ∈ nCluster ++ [r.length] := by
            intro h'
            obtain ⟨r', h1, h2, h3⟩ := hcov x hx h'
            exact ⟨r', h1, h2, List.mem_append_left _ h3⟩
          by_cases hxr : x ∈ r
          · exact ⟨r, hxr, hcl, by simp⟩
          · rcases h with h | h
            · have : x ≠ n := fun heq => hxr (heq ▸ hnr)
              exact hold (Or.inl (by omega))
            · rw [hflag' x, if_neg hxr] at h
              exact hold (Or.inr h)

/-! ### `std::max_element` -/

theorem max_element_loop_spec :
    ∀ (rest done : List Nat) (largest largestVal : Nat),
      (done ++ rest)[largest]? = some largestVal → (∀ e ∈ done, e ≤ largestVal) →
      ∃ m, (done ++ rest)[max_element.loop rest done.length largest largestVal]? = some m ∧
        ∀ e ∈ done ++ rest, e ≤ m := by
  intro rest
  induction rest with
  | nil =>
    intro done largest largestVal h1 h2
    exact ⟨largestVal, by simpa [max_element.loop] using h1, by simpa using h2⟩
  | cons x rest ih =>
    intro done largest largestVal h1 h2
    have e : done ++ x :: rest = (done ++ [x]) ++ rest := by simp
    simp only [max_element.loop]
    by_cases hlt : largestVal < x
    · rw [if_pos hlt]
      have := ih (done ++ [x]) done.length x (by
        rw [List.append_assoc, List.getElem?_append_right (le_refl _)]
        simp) (by
        intro e' he'
        rcases List.mem_append.mp he' with h | h
        · exact le_of_lt (lt_of_le_of_lt (h2 e' h) hlt)
        · simp only [List.mem_singleton] at h
          omega)
      rw [e]
      simpa using this
    · rw [if_neg hlt]
      have := ih (done ++ [x]) largest largestVal (by rw [← e]; exact h1) (by
        intro e' he'
        rcases List.mem_append.mp he' with h | h
        · exact h2 e' h
        · simp only [List.mem_singleton] at h
          omega)
      rw [e]
      simpa using this

/-- On a non-empty vector `max_element` is the position of an entry that no entry exceeds. -/
theorem max_element_spec (l : List Nat) (hl : l ≠ []) :
    ∃ m, l[max_element l]? = some m ∧ ∀ e ∈ l, e ≤ m := by
  cases l with
  | nil => exact absurd rfl hl
  | cons x rest =>
    have := max_element_loop_spec rest [x] 0 x (by simp) (by simp)
    simpa [max_element] using this



/-! ### The largest cluster

The theorems of this and of the later sections on `largestIceCluster.loops` and
`largestIceCluster.body` run them on the linked list `List.range nop`: the list the
initialisation loop leaves in a vector of `nop` entries (`init_sized`).  The function itself
runs that loop on a vector without entries (`init_unsized`). -/

/-- In a ring that is a cluster, `L` leads from a particle of the ice cloud to a particle of
the ice cloud. -/
theorem isCluster_next_lt (pd : PointCloud → Nat → Nat → Dbl) (ice : PointCloud) (cutoff : Dbl)
    (L : List Nat)
    (hfinal : ∀ x, x < ice.nop → ∃ r, x ∈ r ∧ IsCluster pd ice cutoff L r)
    (x : Nat) (hx : x < ice.nop) : ∃ v, L[x]? = some v ∧ v < ice.nop := by
  obtain ⟨r, hxr, hcl⟩ := hfinal x hx
  obtain ⟨rest, hring, hmem, _⟩ := isRing_from L r x hcl.1 hxr
  have hc := isRing_cons L x rest hring
  cases rest with
  | nil =>
    simp only [List.map_nil, List.nil_append, List.map_cons, List.cons.injEq, and_true] at hc
    exact ⟨x, hc, hx⟩
  | cons y rest' =>
    simp only [List.map_cons, List.cons_append, List.cons.injEq] at hc
    refine ⟨y, hc.1, ?_⟩
    exact isCluster_lt pd ice cutoff L r hcl x hxr hx y ((hmem y).mp (by simp))

theorem members_total (ice : PointCloud) (L : List Nat)
    (hval : ∀ x, x < ice.nop → ∃ v, L[x]? = some v ∧ v < ice.nop)
    (hpts : ice.nop ≤ ice.pts.length) :
    ∀ (n iatom : Nat), iatom < ice.nop →
      ∃ out, largestIceCluster.members ice L n iatom = some out ∧ out.length = n := by
  intro n
  induction n with
  | zero =>
    intro iatom _
    exact ⟨[], rfl, rfl⟩
  | succ n ih =>
    intro iatom hi
    obtain ⟨jatom, hj, hjlt⟩ := hval iatom hi
    obtain ⟨p, hp⟩ := getElem?_of_lt ice.pts jatom (by omega)
    obtain ⟨out, hout, hlen⟩ := ih jatom hjlt
    refine ⟨(p.atomID, p.molID, p.iceType, p.x, p.y, p.z) :: out, ?_, by simp [hlen]⟩
    simp only [largestIceCluster.members, hj, hp, hout]

theorem bounds_total (ice : PointCloud) (ks : List Nat)
    (hks : ∀ k ∈ ks, k < ice.boxLow.length ∧ k < ice.box.length) :
    ∃ b, largestIceCluster.bounds ice ks = some b := by
  induction ks with
  | nil => exact ⟨[], rfl⟩
  | cons k ks ih =>
    obtain ⟨lo, hlo⟩ := getElem?_of_lt ice.boxLow k (hks k (List.mem_cons_self _ _)).1
    obtain ⟨len, hlen⟩ := getElem?_of_lt ice.box k (hks k (List.mem_cons_self _ _)).2
    obtain ⟨b, hb⟩ := ih (fun k' hk' => hks k' (List.mem_cons_of_mem _ hk'))
    exact ⟨(lo, Dbl.add lo len) :: b, by simp only [largestIceCluster.bounds, hlo, hlen, hb]⟩

/-- The value `largestIceCluster.body` returns on the linked list `0 .. nop - 1`, for a
non-empty ice cloud with a symmetric distance: it is the number of particles of one cluster, and
no cluster has more particles.  A cluster is given as the list, without repetition, of the
particles connected to a particle. -/
theorem body_core (fuel : Nat) (pd : PointCloud → Nat → Nat → Dbl)
    (ice : PointCloud) (cutoff : Dbl) (printCluster isSlice : Bool)
    (hN : 0 < ice.nop) (hfuel : ice.nop ≤ fuel)
    (hsym : ∀ a b, a < ice.nop → b < ice.nop → pd ice a b = pd ice b a)
    (hprint : printCluster = true →
      ice.nop ≤ ice.pts.length ∧ ice.boxLow.length ≤ ice.box.length) :
    ∃ n dump, largestIceCluster.body fuel pd ice cutoff printCluster isSlice
        (List.range ice.nop) = some (n, dump) ∧
      (∃ i, i < ice.nop ∧ ∃ r : List Nat, r.Nodup ∧
        (∀ k, k ∈ r ↔ connected pd ice cutoff i k) ∧ r.length = n) ∧
      (∀ i, i < ice.nop → ∃ r : List Nat, r.Nodup ∧
        (∀ k, k ∈ r ↔ connected pd ice cutoff i k) ∧ r.length ≤ n) := by
  obtain ⟨L, hL, hLlen, hfinal⟩ := construct_final pd ice cutoff hsym fuel hfuel
  obtain ⟨flag, clusterID, nCluster, hM, _, hrec, hlen, hcov⟩ :=
    measure_fold pd ice cutoff L hfinal ice.nop le_rfl
  have hne : nCluster ≠ [] := by
    obtain ⟨r, _, _, hr⟩ := hcov 0 hN (Or.inl hN)
    exact List.ne_nil_of_mem hr
  obtain ⟨m, hm, hmax⟩ := max_element_spec nCluster hne
  have hidx : max_element nCluster < nCluster.length := (List.getElem?_eq_some_iff.mp hm).1
  obtain ⟨cid, hcid⟩ := getElem?_of_lt clusterID (max_element nCluster) (by rw [hlen]; exact hidx)
  have hzip : (cid, m) ∈ clusterID.zip nCluster :=
    List.getElem?_mem (List.getElem?_zip_eq_some.mpr ⟨hcid, hm⟩)
  obtain ⟨hcidlt, r, hcr, hcl, hrlen⟩ := hrec (cid, m) hzip
  simp only at hcidlt hcr hrlen
  have hres : ∃ dump, largestIceCluster.body fuel pd ice cutoff printCluster isSlice
      (List.range ice.nop) =
      some (m, dump) := by
    simp only [largestIceCluster.body, largestIceCluster.loops, hL, hM, hm]
    by_cases hp : printCluster = true
    · obtain ⟨hpts, hbox⟩ := hprint hp
      obtain ⟨b, hb⟩ := bounds_total ice (List.range ice.boxLow.length) (by
        intro k hk
        have := List.mem_range.mp hk
        omega)
      obtain ⟨atoms, hat, _⟩ := members_total ice L
        (isCluster_next_lt pd ice cutoff L hfinal) hpts m cid hcidlt
      simp only [hp, if_true, hb, hcid, hat]
      exact ⟨_, rfl⟩
    · simp only [hp, Bool.false_eq_true, if_false]
      exact ⟨_, rfl⟩
  obtain ⟨dump, hdump⟩ := hres
  refine ⟨m, dump, hdump, ⟨cid, hcidlt, r, hcl.1.1, hcl.2 cid hcr, hrlen⟩, ?_⟩
  intro i hi
  obtain ⟨r', hir', hcl', hr'⟩ := hcov i hi (Or.inl hi)
  exact ⟨r', hcl'.1.1, hcl'.2 i hir', hmax _ hr'⟩

/-- The largest component, on the linked list `0 .. nop - 1`.  For a non-empty ice cloud with a
symmetric periodic distance, `largestIceCluster.body` returns (given `nop` iterations for each
do-while) the number of particles of the largest connected component of the graph that joins two
particles exactly when their distance is at most the cutoff: the value is the size of the
component of some particle, and no component is larger. -/
theorem body_largest_component (fuel : Nat)
    (periodicDist : PointCloud → Nat → Nat → Dbl) (iceCloud : PointCloud) (cutoff : Dbl)
    (printCluster isSlice : Bool) (hN : 0 < iceCloud.nop) (hfuel : iceCloud.nop ≤ fuel)
    (hsym : ∀ a b, a < iceCloud.nop → b < iceCloud.nop →
      periodicDist iceCloud a b = periodicDist iceCloud b a)
    (hprint : printCluster = true →
      iceCloud.nop ≤ iceCloud.pts.length ∧ iceCloud.boxLow.length ≤ iceCloud.box.length) :
    ∃ n dump,
      largestIceCluster.body fuel periodicDist iceCloud cutoff printCluster isSlice
          (List.range iceCloud.nop) =
        some (n, dump) ∧
      (∃ i, i < iceCloud.nop ∧ ∃ C : Finset Nat,
        (∀ k, k ∈ C ↔ connected periodicDist iceCloud cutoff i k) ∧ C.card = n) ∧
      (∀ i, i < iceCloud.nop → ∀ C : Finset Nat,
        (∀ k, k ∈ C ↔ connected periodicDist iceCloud cutoff i k) → C.card ≤ n) := by
  obtain ⟨n, dump, hrun, ⟨i, hi, r, hnd, hmem, hlen⟩, hall⟩ :=
    body_core fuel periodicDist iceCloud cutoff printCluster isSlice hN hfuel hsym
      hprint
  refine ⟨n, dump, hrun, ⟨i, hi, r.toFinset, ?_, ?_⟩, ?_⟩
  · intro k
    rw [List.mem_toFinset]
    exact hmem k
  · rw [List.toFinset_card_of_nodup hnd, hlen]
  · intro i' hi' C hC
    obtain ⟨r', hnd', hmem', hlen'⟩ := hall i' hi'
    have : C = r'.toFinset := by
      ext k
      rw [hC k, List.mem_toFinset, hmem' k]
    rw [this, List.toFinset_card_of_nodup hnd']
    exact hlen'

theorem exampleDist_symm (cloud : PointCloud) (a b : Nat) :
    exampleDist cloud a b = exampleDist cloud b a := by
  unfold exampleDist
  cases cloud.pts[a]? with
  | none => cases cloud.pts[b]? <;> rfl
  | some p =>
    cases cloud.pts[b]? with
    | none => rfl
    | some q =>
      simp only
      cases p.x <;> cases q.x <;> simp [abs_sub_comm]

/-- Example of `body_largest_component`: four particles on a line at the abscissas 0, 1, 5, 2
with cutoff 1; the particles 0, 1 and 3 form the largest cluster and the value returned is 3. -/
theorem body_largest_component_example :
    (largestIceCluster.body 4 exampleDist (exampleIce [0, 1, 5, 2]) (Dbl.val 1) false false
        (List.range (exampleIce [0, 1, 5, 2]).nop) =
      some (3, none)) ∧
    ∃ n dump,
      largestIceCluster.body 4 exampleDist (exampleIce [0, 1, 5, 2]) (Dbl.val 1) true false
          (List.range (exampleIce [0, 1, 5, 2]).nop) =
        some (n, dump) ∧
      (∃ i, i < (exampleIce [0, 1, 5, 2]).nop ∧ ∃ C : Finset Nat,
        (∀ k, k ∈ C ↔ connected exampleDist (exampleIce [0, 1, 5, 2]) (Dbl.val 1) i k) ∧
        C.card = n) ∧
      (∀ i, i < (exampleIce [0, 1, 5, 2]).nop → ∀ C : Finset Nat,
        (∀ k, k ∈ C ↔ connected exampleDist (exampleIce [0, 1, 5, 2]) (Dbl.val 1) i k) →
        C.card ≤ n) :=
  ⟨by decide!,
    body_largest_component 4 exampleDist (exampleIce [0, 1, 5, 2]) (Dbl.val 1)
      true false (by decide) (by decide) (fun a b _ _ => exampleDist_symm _ a b)
      (fun _ => ⟨by decide, by decide⟩)⟩



theorem Dbl_not_le_of_lt (a b : Dbl) (h : a < b) : ¬ b ≤ a := by
  cases a with
  | nan => exact absurd h (Dbl_nan_lt b)
  | val u =>
    cases b with
    | nan => exact absurd h (Dbl_lt_nan _)
    | val v =>
      rw [Dbl_lt_val] at h
      rw [Dbl_le_val]
      exact not_le.mpr h

/-- Along a chain every particle is connected to the first one. -/
theorem chain_connected_head (pd : PointCloud → Nat → Nat → Dbl) (ice : PointCloud)
    (cutoff : Dbl) (l : List Nat) :
    ∀ a, List.Chain' (joined pd ice cutoff) (a :: l) →
      ∀ b ∈ a :: l, connected pd ice cutoff a b := by
  induction l with
  | nil =>
    intro a _ b hb
    rw [List.mem_singleton.mp hb]
    exact Relation.ReflTransGen.refl
  | cons x l ih =>
    intro a hch b hb
    rw [List.chain'_cons] at hch
    rcases List.mem_cons.mp hb with rfl | hmem
    · exact Relation.ReflTransGen.refl
    · exact Relation.ReflTransGen.head hch.1 (ih x hch.2 b hmem)

/-- The particles of a chain that is separated from all other particles are a cluster. -/
theorem chain_cluster (pd : PointCloud → Nat → Nat → Dbl) (ice : PointCloud) (cutoff : Dbl)
    (hsym : ∀ a b, a < ice.nop → b < ice.nop → pd ice a b = pd ice b a)
    (s t : List Nat) (hperm : (s ++ t).Perm (List.range ice.nop))
    (hchain : List.Chain' (fun a b => pd ice a b ≤ cutoff) s)
    (hsep : ∀ a ∈ s, ∀ b ∈ t, ¬ pd ice a b ≤ cutoff) (x : Nat) (hx : x ∈ s) (k : Nat) :
    connected pd ice cutoff x k ↔ k ∈ s := by
  have hlt : ∀ y ∈ s, y < ice.nop := by
    intro y hy
    exact List.mem_range.mp ((hperm.mem_iff).mp (List.mem_append_left _ hy))
  constructor
  · intro h
    apply connected_mem_of_closed pd ice cutoff s x hx _ k h
    intro a ha b hab
    have hb : b ∈ s ++ t := (hperm.mem_iff).mpr (List.mem_range.mpr hab.2.1)
    rcases List.mem_append.mp hb with h1 | h1
    · exact h1
    · exact absurd hab.2.2 (hsep a ha b h1)
  · intro hk
    have hj : List.Chain' (joined pd ice cutoff) s := by
      rw [List.Chain'.iff_mem] at hchain
      exact hchain.imp (fun a b h => ⟨hlt a h.1, hlt b h.2.1, h.2.2⟩)
    cases s with
    | nil => exact absurd hx (List.not_mem_nil x)
    | cons a l =>
      have h1 := chain_connected_head pd ice cutoff l a hj
      exact connected_trans pd ice cutoff _ _ _
        (connected_symm pd ice cutoff hsym _ _ (h1 x hx)) (h1 k hk)

/-- Cluster connectivity, on the linked list `0 .. nop - 1`.  When the `N >= 1` particles of the
ice cloud form a single chain, each consecutive pair within the cutoff, in any index order,
`largestIceCluster.body` returns `N`; when they form two such chains of sizes `A > B`, every
particle of one farther than the cutoff from every particle of the other, it returns `A`. -/
theorem body_chains (fuel : Nat) (periodicDist : PointCloud → Nat → Nat → Dbl)
    (iceCloud : PointCloud) (cutoff : Dbl) (printCluster isSlice : Bool)
    (hN : 1 ≤ iceCloud.nop) (hfuel : iceCloud.nop ≤ fuel)
    (hsym : ∀ a b, a < iceCloud.nop → b < iceCloud.nop →
      periodicDist iceCloud a b = periodicDist iceCloud b a)
    (hprint : printCluster = true →
      iceCloud.nop ≤ iceCloud.pts.length ∧ iceCloud.boxLow.length ≤ iceCloud.box.length) :
    (∀ chain : List Nat, chain.Perm (List.range iceCloud.nop) →
      List.Chain' (fun a b => periodicDist iceCloud a b ≤ cutoff) chain →
      ∃ dump, largestIceCluster.body fuel periodicDist iceCloud cutoff printCluster isSlice
          (List.range iceCloud.nop) =
        some (iceCloud.nop, dump)) ∧
    (∀ chainA chainB : List Nat, (chainA ++ chainB).Perm (List.range iceCloud.nop) →
      List.Chain' (fun a b => periodicDist iceCloud a b ≤ cutoff) chainA →
      List.Chain' (fun a b => periodicDist iceCloud a b ≤ cutoff) chainB →
      chainB.length < chainA.length →
      (∀ a ∈ chainA, ∀ b ∈ chainB, cutoff < periodicDist iceCloud a b) →
      ∃ dump, largestIceCluster.body fuel periodicDist iceCloud cutoff printCluster isSlice
          (List.range iceCloud.nop) =
        some (chainA.length, dump)) := by
  obtain ⟨n, dump, hrun, ⟨i, hi, r, hnd, hmem, hlen⟩, hall⟩ :=
    body_core fuel periodicDist iceCloud cutoff printCluster isSlice hN hfuel hsym
      hprint
  constructor
  · intro chain hperm hchain
    have hperm' : (chain ++ []).Perm (List.range iceCloud.nop) := by simpa using hperm
    have hic : i ∈ chain := (hperm.mem_iff).mpr (List.mem_range.mpr hi)
    have hr : r.Perm chain := by
      rw [List.perm_ext_iff_of_nodup hnd ((hperm.nodup_iff).mpr (List.nodup_range _))]
      intro k
      rw [hmem k]
      exact chain_cluster periodicDist iceCloud cutoff hsym chain [] hperm' hchain
        (fun _ _ b hb => absurd hb (List.not_mem_nil b)) i hic k
    refine ⟨dump, ?_⟩
    rw [hrun, ← hlen, hr.length_eq, hperm.length_eq, List.length_range]
  · intro chainA chainB hperm hA hB hAB hsep
    have hndAB : (chainA ++ chainB).Nodup := (hperm.nodup_iff).mpr (List.nodup_range _)
    have hpermBA : (chainB ++ chainA).Perm (List.range iceCloud.nop) :=
      List.perm_append_comm.trans hperm
    have hltAB : ∀ y ∈ chainA ++ chainB, y < iceCloud.nop :=
      fun y hy => List.mem_range.mp ((hperm.mem_iff).mp hy)
    have hsepA : ∀ a ∈ chainA, ∀ b ∈ chainB, ¬ periodicDist iceCloud a b ≤ cutoff :=
      fun a ha b hb => Dbl_not_le_of_lt _ _ (hsep a ha b hb)
    have hsepB : ∀ b ∈ chainB, ∀ a ∈ chainA, ¬ periodicDist iceCloud b a ≤ cutoff := by
      intro b hb a ha
      rw [hsym b a (hltAB b (List.mem_append_right _ hb))
        (hltAB a (List.mem_append_left _ ha))]
      exact hsepA a ha b hb
    have hsize : ∀ x, x < iceCloud.nop → ∀ r' : List Nat, r'.Nodup →
        (∀ k, k ∈ r' ↔ connected periodicDist iceCloud cutoff x k) →
        (x ∈ chainA ∧ r'.length = chainA.length) ∨ (x ∈ chainB ∧ r'.length = chainB.length) := by
      intro x hx r' hnd' hmem'
      have hxAB : x ∈ chainA ++ chainB := (hperm.mem_iff).mpr (List.mem_range.mpr hx)
      rcases List.mem_append.mp hxAB with h | h
      · left
        refine ⟨h, List.Perm.length_eq ?_⟩
        rw [List.perm_ext_iff_of_nodup hnd' hndAB.of_append_left]
        intro k
        rw [hmem' k]
        exact chain_cluster periodicDist iceCloud cutoff hsym chainA chainB hperm hA hsepA x h k
      · right
        refine ⟨h, List.Perm.length_eq ?_⟩
        rw [List.perm_ext_iff_of_nodup hnd' hndAB.of_append_right]
        intro k
        rw [hmem' k]
        exact chain_cluster periodicDist iceCloud cutoff hsym chainB chainA hpermBA hB hsepB x h k
    refine ⟨dump, ?_⟩
    rw [hrun]
    rcases hsize i hi r hnd hmem with ⟨_, h⟩ | ⟨_, h⟩
    · rw [← hlen, h]
    · exfalso
      obtain ⟨a, ha⟩ : ∃ a, a ∈ chainA := by
        cases chainA with
        | nil => simp at hAB
        | cons a l => exact ⟨a, List.mem_cons_self _ _⟩
      have halt := hltAB a (List.mem_append_left _ ha)
      obtain ⟨r', hnd', hmem', hle'⟩ := hall a halt
      rcases hsize a halt r' hnd' hmem' with ⟨_, h'⟩ | ⟨hb, _⟩
      · omega
      · exact (List.nodup_append.mp hndAB).2.2 ha hb

/-- Example of `body_chains`: three particles in one chain, in the index order 1, 0, 2, give 3;
with two more particles in a second chain far away, the result is still 3. -/
theorem body_chains_example :
    (∃ dump, largestIceCluster.body 3 exampleDist (exampleIce [1, 0, 2]) (Dbl.val 1) false false
        (List.range (exampleIce [1, 0, 2]).nop) =
      some ((exampleIce [1, 0, 2]).nop, dump)) ∧
    (∃ dump, largestIceCluster.body 5 exampleDist (exampleIce [1, 0, 2, 10, 11]) (Dbl.val 1) true
      false (List.range (exampleIce [1, 0, 2, 10, 11]).nop) = some ([1, 0, 2].length, dump)) :=
  ⟨(body_chains 3 exampleDist (exampleIce [1, 0, 2]) (Dbl.val 1) false false
      (by decide) (by decide) (fun a b _ _ => exampleDist_symm _ a b)
      (fun h => absurd h (by decide))).1 [1, 0, 2] (by decide)
      (List.chain'_cons.mpr ⟨by decide!, List.chain'_cons.mpr ⟨by decide!,
        List.chain'_singleton _⟩⟩),
   (body_chains 5 exampleDist (exampleIce [1, 0, 2, 10, 11]) (Dbl.val 1) true
      false (by decide) (by decide) (fun a b _ _ => exampleDist_symm _ a b)
      (fun _ => ⟨by decide, by decide⟩)).2 [1, 0, 2] [3, 4] (by decide)
      (List.chain'_cons.mpr ⟨by decide!, List.chain'_cons.mpr ⟨by decide!,
        List.chain'_singleton _⟩⟩)
      (List.chain'_cons.mpr ⟨by decide!, List.chain'_singleton _⟩)
      (by decide) (by decide!)⟩

/-! ### Perfect clathrate geometry -/

/-- C11, amended: perfect clathrate geometry under CHILL+.  For a particle with exactly 4
neighbours and no bond result yet, whose 4 correlation values all lie in `[-0.35, 0.25]`,
`getCorrelPlus` stores 4 bond results, all eclipsed, and `getIceTypePlus` then tags the particle
clathrate (so none of the five other tags), whatever the other particles hold. -/
theorem clathrate_coordination (cij : Nat → Nat → Dbl) (yCloud : PointCloud) (isSlice : Bool)
    (y1 : PointCloud) (hcor : getCorrelPlus cij yCloud isSlice = some y1)
    (iatom : Nat) (hi : iatom < yCloud.nop) (p : Point) (hp : yCloud.pts[iatom]? = some p)
    (helig : isSlice = true → p.inSlice = true) (hfresh : p.c_ij = [])
    (hn : p.neighList.length = 4)
    (hc : ∀ jatom ∈ p.neighList,
      Dbl.val (-0.35) ≤ cij iatom jatom ∧ cij iatom jatom ≤ Dbl.val 0.25) :
    ∃ p1, y1.pts[iatom]? = some p1 ∧
      p1.c_ij = p.neighList.map (fun jatom => getCorrelPlus.temp_cij (cij iatom jatom)) ∧
      p1.c_ij.length = 4 ∧
      (∀ r ∈ p1.c_ij, r.classifier = bond_type.eclipsed) ∧
      ∀ out, getIceTypePlus y1 isSlice = some out →
        ∃ q, out.1.pts[iatom]? = some q ∧ q.iceType = atom_state_type.clathrate ∧
          q.iceType ≠ atom_state_type.cubic ∧ q.iceType ≠ atom_state_type.hexagonal ∧
          q.iceType ≠ atom_state_type.interfacial ∧
          q.iceType ≠ atom_state_type.interClathrate ∧ q.iceType ≠ atom_state_type.water := by
  have hel : ¬ (isSlice = true ∧ p.inSlice = false) := by
    rintro ⟨h1, h2⟩
    rw [helig h1] at h2
    exact absurd h2 (by simp)
  obtain ⟨hnop, _, hproc⟩ := correl_pass getCorrelPlus.temp_cij cij isSlice yCloud y1 hcor
    iatom hi p hp
  obtain ⟨_, hp1⟩ := hproc hel
  rw [hfresh, List.nil_append] at hp1
  have hall : ∀ r ∈ p.neighList.map (fun jatom => getCorrelPlus.temp_cij (cij iatom jatom)),
      r.classifier = bond_type.eclipsed := by
    intro r hr
    obtain ⟨jatom, hmem, rfl⟩ := List.mem_map.mp hr
    obtain ⟨h1, h2⟩ := hc jatom hmem
    have hns : ¬ cij iatom jatom ≤ Dbl.val (-0.8) := by
      cases hv : cij iatom jatom with
      | nan => exact Dbl_nan_le _
      | val v =>
        rw [hv, Dbl_le_val] at h1
        rw [Dbl_le_val]
        norm_num at h1 ⊢
        linarith
    simp [getCorrelPlus.temp_cij, hns, h1, h2]
  have hlen : (p.neighList.map
      (fun jatom => getCorrelPlus.temp_cij (cij iatom jatom))).length = 4 := by
    rw [List.length_map, hn]
  refine ⟨_, hp1, rfl, hlen, hall, ?_⟩
  intro out hrun
  obtain ⟨_, hdef, hq⟩ := (getIceTypePlus_pass y1 isSlice out hrun iatom
    (by rw [hnop]; exact hi) _ hp1).2 hel
  have htake : (p.neighList.map (fun jatom => getCorrelPlus.temp_cij (cij iatom jatom))).take
      p.neighList.length =
      p.neighList.map (fun jatom => getCorrelPlus.temp_cij (cij iatom jatom)) :=
    List.take_of_length_le (by rw [hlen, hn])
  have he : numLabel bond_type.eclipsed
      (p.neighList.map (fun jatom => getCorrelPlus.temp_cij (cij iatom jatom))) = 4 := by
    rw [numLabel_all _ _ hall, hlen]
  have hs : numLabel bond_type.staggered
      (p.neighList.map (fun jatom => getCorrelPlus.temp_cij (cij iatom jatom))) = 0 :=
    numLabel_none _ _ (fun r hr => by rw [hall r hr]; decide)
  simp only [htake, he, hs] at hdef hq
  obtain ⟨b, hb⟩ := hdef hn (by omega) (by omega)
  have hbf : b = false := by
    cases b with
    | false => rfl
    | true =>
      have := (isInterfacial_some_iff y1 iatom 0 4 _ hp1 true hb).mp rfl
      rcases this with ⟨h, _⟩ | ⟨h, _⟩ <;> omega
  subst hbf
  refine ⟨_, hq, ?_⟩
  simp [chillPlusTag, hn, hb]

/-- Witness of C11 on `exampleFresh` with every correlation value `0`: particle 0 gets four
eclipsed bonds and is tagged clathrate. -/
theorem clathrate_coordination_witness :
    getCorrelPlus (fun _ _ => Dbl.val 0) exampleFresh false =
      some (exampleEclipsed atom_state_type.unclassified) ∧
    getIceTypePlus (exampleEclipsed atom_state_type.unclassified) false =
      some (exampleEclipsed atom_state_type.clathrate, [0, 0, 0, 0, 5, 0, 0, 5]) ∧
    ∃ q, (exampleEclipsed atom_state_type.clathrate).pts[0]? = some q ∧
      q.iceType = atom_state_type.clathrate := by
  have hcor : getCorrelPlus (fun _ _ => Dbl.val 0) exampleFresh false =
      some (exampleEclipsed atom_state_type.unclassified) := by decide!
  have hice : getIceTypePlus (exampleEclipsed atom_state_type.unclassified) false =
      some (exampleEclipsed atom_state_type.clathrate, [0, 0, 0, 0, 5, 0, 0, 5]) := by rfl
  obtain ⟨_, _, _, _, _, hout⟩ := clathrate_coordination (fun _ _ => Dbl.val 0) exampleFresh
    false _ hcor 0 (by decide)
    (examplePoint [1, 2, 3, 4] [] atom_state_type.unclassified) (by rfl)
    (by intro _; rfl) (by rfl) (by rfl)
    (by intro _ _; rw [Dbl_le_val, Dbl_le_val]; norm_num)
  obtain ⟨q, hq, htag, _⟩ := hout _ hice
  exact ⟨hcor, hice, q, hq, htag⟩


/-! ### The reclassification pass -/

theorem Dbl_not_lt_of_le (a b : Dbl) (h : a ≤ b) : ¬ b < a := by
  cases a with
  | nan => exact absurd h (Dbl_nan_le b)
  | val u =>
    cases b with
    | nan => exact absurd h (Dbl_le_nan _)
    | val v =>
      rw [Dbl_le_val] at h
      rw [Dbl_lt_val]
      exact not_lt.mpr h

/-! ### Rounding -/

/-- The value of `Dbl.pow2` is the power of two. -/
theorem Dbl_pow2_eq (e : Int) : Dbl.pow2 e = (2 : ℚ) ^ e := by
  unfold Dbl.pow2
  split_ifs with h
  · obtain ⟨n, rfl⟩ := Int.eq_ofNat_of_zero_le h
    simp
  · have h' : 0 ≤ -e := by omega
    obtain ⟨n, hn⟩ := Int.eq_ofNat_of_zero_le h'
    have he : e = -(n : Int) := by omega
    subst he
    simp

/-- The value of `Dbl.log2` is the position of the leading binary digit. -/
theorem Dbl_log2_spec (fuel n : Nat) (hn : 0 < n) (hf : n < 2 ^ fuel) :
    2 ^ Dbl.log2 fuel n ≤ n ∧ n < 2 ^ (Dbl.log2 fuel n + 1) := by
  induction fuel generalizing n with
  | zero => simp at hf; omega
  | succ fuel ih =>
    unfold Dbl.log2
    split_ifs with h2
    · simp; omega
    · have hpos : 0 < n / 2 := by omega
      have hlt : n / 2 < 2 ^ fuel := by
        rw [pow_succ] at hf
        omega
      obtain ⟨h1, h3⟩ := ih (n / 2) hpos hlt
      rw [pow_succ] at h3 ⊢
      rw [pow_succ]
      constructor <;> omega

/-- A rational number is below the power of two that follows its binary exponent. -/
theorem Dbl_exponent_lt (x : ℚ) (hx : x ≠ 0) : |x| < (2 : ℚ) ^ (Dbl.exponent x + 1) := by
  have hN : 0 < x.num.natAbs := Int.natAbs_pos.mpr (Rat.num_ne_zero.mpr hx)
  have hD : 0 < x.den := x.den_pos
  obtain ⟨_, hN2⟩ := Dbl_log2_spec _ _ hN (Nat.lt_two_pow _)
  obtain ⟨hD1, _⟩ := Dbl_log2_spec _ _ hD (Nat.lt_two_pow _)
  have habs : |x| = (x.num.natAbs : ℚ) / (x.den : ℚ) := by
    rw [Rat.abs_def, Rat.divInt_eq_div]
    push_cast
    rw [Nat.cast_natAbs]
    push_cast
    rfl
  unfold Dbl.exponent
  simp only []
  split_ifs with h
  · rw [habs,
      show ((Dbl.log2 x.num.natAbs x.num.natAbs : Int) - (Dbl.log2 x.den x.den : Int) + 1) =
        ((Dbl.log2 x.num.natAbs x.num.natAbs + 1 : Nat) : Int) -
          ((Dbl.log2 x.den x.den : Nat) : Int) by push_cast; ring]
    rw [zpow_sub₀ (by norm_num : (2 : ℚ) ≠ 0), zpow_natCast, zpow_natCast]
    have hN2' : (x.num.natAbs : ℚ) < 2 ^ (Dbl.log2 x.num.natAbs x.num.natAbs + 1) := by
      exact_mod_cast hN2
    have hD1' : (2 : ℚ) ^ Dbl.log2 x.den x.den ≤ (x.den : ℚ) := by exact_mod_cast hD1
    have hp : (0 : ℚ) < 2 ^ Dbl.log2 x.den x.den := by positivity
    have hDq : (0 : ℚ) < (x.den : ℚ) := by exact_mod_cast hD
    rw [div_lt_div_iff₀ hDq hp]
    calc (x.num.natAbs : ℚ) * 2 ^ Dbl.log2 x.den x.den
        ≤ (x.num.natAbs : ℚ) * (x.den : ℚ) := by
          apply mul_le_mul_of_nonneg_left hD1' (by positivity)
      _ < 2 ^ (Dbl.log2 x.num.natAbs x.num.natAbs + 1) * (x.den : ℚ) := by
          apply mul_lt_mul_of_pos_right hN2' hDq
  · rw [Dbl_pow2_eq] at h
    rw [sub_add_cancel]
    exact lt_of_not_le h

/-- A rounded value is, up to its sign, an infinity or a multiple `m * 2 ^ (e - 52)` with
`0 <= m <= 2 ^ 53`, where `e` is at least the binary exponent of the exact value. -/
theorem Dbl_round_shape (x : ℚ) (hx : x ≠ 0) :
    ∃ (e m : Int) (y : ℚ), Dbl.exponent x ≤ e ∧ 0 ≤ m ∧ m ≤ 2 ^ 53 ∧
      (y = (m : ℚ) * (2 : ℚ) ^ (e - 52) ∨ y = Dbl.huge) ∧
      (Dbl.round x = y ∨ Dbl.round x = -y) := by
  unfold Dbl.round
  rw [if_neg hx]
  simp only []
  generalize he : max (Dbl.exponent x) (-1022) = e
  have hee : Dbl.exponent x ≤ e := by rw [← he]; exact le_max_left _ _
  have hulp : Dbl.pow2 (e - 52) = (2 : ℚ) ^ (e - 52) := Dbl_pow2_eq _
  have hulp0 : (0 : ℚ) < (2 : ℚ) ^ (e - 52) := by positivity
  rw [hulp]
  generalize hs : |x| / (2 : ℚ) ^ (e - 52) = s
  have hfl : s.num / (s.den : Int) = ⌊s⌋ := (Rat.floor_def' s).symm
  rw [hfl]
  have hs0 : 0 ≤ s := by rw [← hs]; positivity
  have hf0 : 0 ≤ ⌊s⌋ := Int.floor_nonneg.mpr hs0
  have hs53 : s < 2 ^ 53 := by
    rw [← hs, div_lt_iff₀ hulp0]
    have h1 := Dbl_exponent_lt x hx
    have h2 : (2 : ℚ) ^ (Dbl.exponent x + 1) ≤ (2 : ℚ) ^ (e + 1) :=
      zpow_le_zpow_right₀ (by norm_num) (by omega)
    have h3 : (2 : ℚ) ^ (e + 1) = 2 ^ 53 * (2 : ℚ) ^ (e - 52) := by
      rw [show (e + 1) = (53 : Int) + (e - 52) by ring, zpow_add₀ (by norm_num : (2 : ℚ) ≠ 0)]
      norm_num
    linarith
  have hf53 : ⌊s⌋ + 1 ≤ 2 ^ 53 := by
    have : ((⌊s⌋ : Int) : ℚ) < 2 ^ 53 := lt_of_le_of_lt (Int.floor_le s) hs53
    have : ⌊s⌋ < 2 ^ 53 := by exact_mod_cast this
    omega
  generalize hm : (if s - (⌊s⌋ : ℚ) < 1 / 2 then ⌊s⌋
      else if 1 / 2 < s - (⌊s⌋ : ℚ) then ⌊s⌋ + 1 else if ⌊s⌋ % 2 = 0 then ⌊s⌋ else ⌊s⌋ + 1) = m
  have hm0 : 0 ≤ m ∧ m ≤ 2 ^ 53 := by
    rw [← hm]
    split_ifs <;> constructor <;> omega
  refine ⟨e, m, (if Dbl.huge ≤ (m : ℚ) * (2 : ℚ) ^ (e - 52) then Dbl.huge
    else (m : ℚ) * (2 : ℚ) ^ (e - 52)), hee, hm0.1, hm0.2, ?_, ?_⟩
  rotate_left
  · by_cases hneg : x < 0
    · rw [if_pos hneg]; exact Or.inr rfl
    · rw [if_neg hneg]; exact Or.inl rfl
  · split_ifs
    · exact Or.inr rfl
    · exact Or.inl rfl

/-- No rounded value lies between `-0.85` and the double nearest to it. -/
theorem Dbl_round_gap (x : ℚ) (h1 : -0.85 ≤ Dbl.round x)
    (h2 : Dbl.round x < -7656119366529843 / 9007199254740992) : False := by
  by_cases hx : x = 0
  · rw [hx] at h2
    have : Dbl.round 0 = 0 := rfl
    rw [this] at h2
    norm_num at h2
  obtain ⟨e, m, y, _, hm0, hm53, hy, hr⟩ := Dbl_round_shape x hx
  have hpos : (0 : ℚ) < (2 : ℚ) ^ (e - 52) := by positivity
  have hmq : (0 : ℚ) ≤ (m : ℚ) := by exact_mod_cast hm0
  have hy0 : 0 ≤ y := by
    rcases hy with hy | hy
    · rw [hy]; positivity
    · rw [hy]; unfold Dbl.huge; rw [Dbl_pow2_eq]; positivity
  rcases hr with hr | hr
  · rw [hr] at h2
    linarith
  · rw [hr] at h1 h2
    rcases hy with hy | hy
    · by_cases hek : -1 ≤ e
      · obtain ⟨k, hk⟩ := Int.eq_ofNat_of_zero_le (show 0 ≤ e + 1 by omega)
        have hpow : (2 : ℚ) ^ (e - 52) = (2 : ℚ) ^ k / 2 ^ 53 := by
          rw [show e - 52 = (k : Int) - 53 by omega, zpow_sub₀ (by norm_num : (2 : ℚ) ≠ 0),
            zpow_natCast]
          norm_num
        rw [hy, hpow] at h1 h2
        have hz1 : (7656119366529843 : ℚ) < ((m * 2 ^ k : Int) : ℚ) := by
          push_cast
          have := h2
          rw [neg_lt, ← mul_div_assoc, lt_div_iff₀ (by norm_num)] at this
          norm_num at this ⊢
          linarith
        have hz2 : ((m * 2 ^ k : Int) : ℚ) < 7656119366529844 := by
          push_cast
          have := h1
          rw [neg_le_neg_iff, ← mul_div_assoc, div_le_iff₀ (by norm_num)] at this
          norm_num at this ⊢
          linarith
        have hz1' : (7656119366529843 : Int) < m * 2 ^ k := by exact_mod_cast hz1
        have hz2' : m * 2 ^ k < (7656119366529844 : Int) := by exact_mod_cast hz2
        omega
      · have hle : (2 : ℚ) ^ (e - 52) ≤ (2 : ℚ) ^ (-54 : Int) :=
          zpow_le_zpow_right₀ (by norm_num) (by omega)
        have hm53q : (m : ℚ) ≤ 2 ^ 53 := by exact_mod_cast hm53
        have : (m : ℚ) * (2 : ℚ) ^ (e - 52) ≤ 2 ^ 53 * (2 : ℚ) ^ (-54 : Int) :=
          mul_le_mul hm53q hle (le_of_lt hpos) (by positivity)
        rw [hy] at h2
        norm_num at this h2
        linarith
    · rw [hy] at h1
      have : (1 : ℚ) ≤ Dbl.huge := by
        unfold Dbl.huge
        rw [Dbl_pow2_eq]
        exact one_le_zpow₀ (by norm_num) (by norm_num)
      norm_num at h1
      linarith

theorem Dbl_huge_ge : (1 : ℚ) ≤ Dbl.huge := by
  unfold Dbl.huge
  rw [Dbl_pow2_eq]
  exact one_le_zpow₀ (by norm_num) (by norm_num)

theorem Dbl_round_literal : Dbl.round (-0.85) = -7656119366529843 / 9007199254740992 := by
  decide!

/-- A quotient computed by `Dbl.fdiv` is an infinity, zero or a rounded value. -/
theorem Dbl_fdiv_val (a b : Dbl) (v : ℚ) (h : Dbl.fdiv a b = Dbl.val v) :
    v = Dbl.huge ∨ v = -Dbl.huge ∨ v = 0 ∨ ∃ x, v = Dbl.round x := by
  cases a with
  | nan => simp [Dbl.fdiv] at h
  | val a =>
    cases b with
    | nan => simp [Dbl.fdiv] at h
    | val b =>
      simp only [Dbl.fdiv] at h
      split_ifs at h
      · exact Or.inl (Dbl.val.inj h).symm
      · exact Or.inr (Or.inl (Dbl.val.inj h).symm)
      · exact Or.inr (Or.inr (Or.inl (Dbl.val.inj h).symm))
      · exact Or.inr (Or.inl (Dbl.val.inj h).symm)
      · exact Or.inl (Dbl.val.inj h).symm
      · exact Or.inr (Or.inr (Or.inr ⟨_, (Dbl.val.inj h).symm⟩))

/-- The literal `-0.85` of line 805 is the double nearest to `-0.85`, which is larger than
`-0.85`; no double lies between the two, so that `avgQ3` is below the one exactly when it is
below the other. -/
theorem avgQ3_literal (rs : List Result) :
    reclassifyWater.avgQ3 rs < Dbl.val (-0.85) ↔
      reclassifyWater.avgQ3 rs < Dbl.val (Dbl.round (-0.85)) := by
  rw [Dbl_round_literal]
  cases hv : reclassifyWater.avgQ3 rs with
  | nan => exact ⟨fun h => absurd h (Dbl_nan_lt _), fun h => absurd h (Dbl_nan_lt _)⟩
  | val v =>
    rw [Dbl_lt_val, Dbl_lt_val]
    constructor
    · intro h
      norm_num at h ⊢
      linarith
    · intro h
      have hh := Dbl_huge_ge
      rcases Dbl_fdiv_val _ _ v hv with h1 | h1 | h1 | ⟨x, h1⟩
      · rw [h1] at h; norm_num at h; linarith
      · rw [h1]; norm_num; linarith
      · rw [h1] at h; norm_num at h
      · by_contra hnot
        rw [h1] at h hnot
        exact Dbl_round_gap x (not_lt.mp hnot) h

/-! ### The reclassification rule -/

theorem setIceType_same (y : PointCloud) (i : Nat) (p : Point) (hp : y.pts[i]? = some p) :
    setIceType y i p.iceType = y := by
  unfold setIceType
  have : y.pts.modify (fun q => { q with iceType := p.iceType }) i = y.pts := by
    apply List.ext_getElem?
    intro k
    rw [List.getElem?_modify]
    by_cases hk : i = k
    · subst hk
      simp [hp]
    · cases y.pts[k]? <;> simp [hk]
  rw [this]

/-- One iteration of `reclassifyWater` on a particle that is not tagged water. -/
theorem reclassify_step_other (q6 : List Dbl) (y : PointCloud) (i : Nat) (p : Point)
    (hp : y.pts[i]? = some p) (hw : p.iceType ≠ atom_state_type.water) :
    reclassifyWater.step q6 y i = some y := by
  simp only [reclassifyWater.step, hp, hw, if_false]

/-- One iteration of `reclassifyWater` on a particle tagged water. -/
theorem reclassify_step_water (q6 : List Dbl) (y : PointCloud) (i : Nat) (p : Point)
    (hp : y.pts[i]? = some p) (hw : p.iceType = atom_state_type.water) (q : Dbl)
    (hq : q6[i]? = some q) :
    reclassifyWater.step q6 y i = some (setIceType y i (reclassifyWater.newTag q p.c_ij)) := by
  have hsame := setIceType_same y i p hp
  rw [hw] at hsame
  simp only [reclassifyWater.step, hp, hw, if_true, hq, reclassifyWater.newTag]
  by_cases h1 : Dbl.val 0.5 < q
  · by_cases h2 : reclassifyWater.avgQ3 p.c_ij ≤ Dbl.val (-0.75)
    · by_cases h3 : reclassifyWater.avgQ3 p.c_ij < Dbl.val (-0.85)
      · simp only [h1, h2, h3, if_true, and_self]
      · simp only [h1, h2, h3, if_true, if_false, and_self]
    · simp only [h1, h2, if_true, if_false, and_false, hsame]
  · simp only [h1, if_false, false_and, hsame]

/-- What one iteration of `reclassifyWater` does, when it returns. -/
theorem reclassify_step_spec (q6 : List Dbl) (y y' : PointCloud) (i : Nat)
    (h : reclassifyWater.step q6 y i = some y') :
    ∃ p, y.pts[i]? = some p ∧
      ((p.iceType ≠ atom_state_type.water ∧ y' = y) ∨
       (p.iceType = atom_state_type.water ∧ ∃ q, q6[i]? = some q ∧
         y' = setIceType y i (reclassifyWater.newTag q p.c_ij))) := by
  cases hp : y.pts[i]? with
  | none => simp [reclassifyWater.step, hp] at h
  | some p =>
    refine ⟨p, rfl, ?_⟩
    by_cases hw : p.iceType = atom_state_type.water
    · right
      cases hq : q6[i]? with
      | none => simp [reclassifyWater.step, hp, hw, hq] at h
      | some q =>
        rw [reclassify_step_water q6 y i p hp hw q hq] at h
        exact ⟨hw, q, rfl, (Option.some.inj h).symm⟩
    · left
      rw [reclassify_step_other q6 y i p hp hw] at h
      exact ⟨hw, (Option.some.inj h).symm⟩

theorem reclassify_step_frame (q6 : List Dbl) (y : PointCloud) (i : Nat) (y' : PointCloud)
    (h : reclassifyWater.step q6 y i = some y') :
    noTags y' = noTags y ∧ ∀ k, k ≠ i → y'.pts[k]? = y.pts[k]? := by
  obtain ⟨p, _, hcase⟩ := reclassify_step_spec q6 y y' i h
  rcases hcase with ⟨_, rfl⟩ | ⟨_, q, _, rfl⟩
  · exact ⟨rfl, fun _ _ => rfl⟩
  · exact ⟨noTags_setIceType _ _ _, fun k hk => setIceType_getElem?_ne _ _ _ _ hk⟩

/-- The particles `reclassifyWater` leaves, in terms of the frame it was given. -/
theorem reclassify_pass (y : PointCloud) (q6 : List Dbl) (out : PointCloud)
    (h : reclassifyWater y q6 = some out) :
    noTags out = noTags y ∧ (∀ k, y.nop ≤ k → out.pts[k]? = y.pts[k]?) ∧
    ∀ i, i < y.nop → ∃ p, y.pts[i]? = some p ∧
      ((p.iceType ≠ atom_state_type.water ∧ out.pts[i]? = some p) ∨
       (p.iceType = atom_state_type.water ∧ ∃ q, q6[i]? = some q ∧
         out.pts[i]? = some { p with iceType := (reclassifyWater.newTag q p.c_ij) })) := by
  obtain ⟨hno, hrest, hc⟩ := foldlM_indep (fun st : PointCloud => st.pts)
    (fun a b : PointCloud => noTags b = noTags a) (fun _ => rfl)
    (fun _ _ _ h1 h2 => h2.trans h1)
    (reclassifyWater.step q6) (reclassify_step_frame q6) _ _ _ h
  refine ⟨hno, fun k hk => hrest k (by simp only [List.mem_range]; omega), ?_⟩
  intro i hi
  obtain ⟨st, st', _, hsti, hstep, hout⟩ := hc (List.nodup_range _) i (List.mem_range.mpr hi)
  obtain ⟨p, hp, hcase⟩ := reclassify_step_spec q6 st st' i hstep
  refine ⟨p, hsti ▸ hp, ?_⟩
  rcases hcase with ⟨hw, rfl⟩ | ⟨hw, q, hq, rfl⟩
  · exact Or.inl ⟨hw, by rw [hout, hp]⟩
  · right
    refine ⟨hw, q, hq, ?_⟩
    rw [hout, setIceType_getElem?_self, hp]
    rfl


/-- C12, amended: the reclassification rule.  After `reclassifyWater`, a particle that was
tagged water, has a q6 value `> 0.5` and at least one bond result, is tagged cubic if `avgQ3 <
-0.85`, hexagonal if `-0.85 <= avgQ3 <= -0.75` and water if `avgQ3 > -0.75`, where `avgQ3` is
the value the code computes in double arithmetic: its stored correlation values are added one by
one to `0.0`, every sum being rounded, and the last sum is divided by their number, the quotient
being rounded.  The value `-0.75` and the double nearest to `-0.85`, which is what the literal
`-0.85` of the code denotes, both give hexagonal; `avgQ3` is below that double exactly when it
is below `-0.85`. -/
theorem reclassifyWater_rule (yCloud : PointCloud) (q6 : List Dbl) (out : PointCloud)
    (hrun : reclassifyWater yCloud q6 = some out) (iatom : Nat) (hi : iatom < yCloud.nop)
    (p : Point) (hp : yCloud.pts[iatom]? = some p) (hw : p.iceType = atom_state_type.water)
    (q : Dbl) (hq : q6[iatom]? = some q) (hq6 : Dbl.val 0.5 < q) (_hne : p.c_ij ≠ []) :
    ∃ r, out.pts[iatom]? = some r ∧
      (reclassifyWater.avgQ3 p.c_ij < Dbl.val (-0.85) → r.iceType = atom_state_type.cubic) ∧
      (Dbl.val (-0.85) ≤ reclassifyWater.avgQ3 p.c_ij ∧
        reclassifyWater.avgQ3 p.c_ij ≤ Dbl.val (-0.75) →
        r.iceType = atom_state_type.hexagonal) ∧
      (Dbl.val (-0.75) < reclassifyWater.avgQ3 p.c_ij → r.iceType = atom_state_type.water) ∧
      (reclassifyWater.avgQ3 p.c_ij = Dbl.val (Dbl.round (-0.85)) →
        r.iceType = atom_state_type.hexagonal) ∧
      (reclassifyWater.avgQ3 p.c_ij = Dbl.val (-0.75) →
        r.iceType = atom_state_type.hexagonal) ∧
      (reclassifyWater.avgQ3 p.c_ij < Dbl.val (-0.85) ↔
        reclassifyWater.avgQ3 p.c_ij < Dbl.val (Dbl.round (-0.85))) ∧
      reclassifyWater.avgQ3 p.c_ij =
        Dbl.fdiv (p.c_ij.foldl (fun sum b => Dbl.fadd sum b.c_value) (Dbl.val 0))
          (Dbl.val (p.c_ij.length : ℚ)) := by
  obtain ⟨_, _, hall⟩ := reclassify_pass yCloud q6 out hrun
  obtain ⟨p', hp', hcase⟩ := hall iatom hi
  rw [hp] at hp'
  cases hp'
  rcases hcase with ⟨hnw, _⟩ | ⟨_, q', hq', hout⟩
  · exact absurd hw hnw
  · rw [hq] at hq'
    cases hq'
    refine ⟨_, hout, ?_, ?_, ?_, ?_, ?_, avgQ3_literal p.c_ij, rfl⟩
    · intro h
      cases hv : reclassifyWater.avgQ3 p.c_ij with
      | nan => rw [hv] at h; exact absurd h (Dbl_nan_lt _)
      | val v =>
        rw [hv, Dbl_lt_val] at h
        have h2 : v ≤ -0.75 := by norm_num at h ⊢; linarith
        simp [reclassifyWater.newTag, hq6, hv, Dbl_lt_val, Dbl_le_val, h, h2]
    · rintro ⟨h1, h2⟩
      have h3 := Dbl_not_lt_of_le _ _ h1
      simp [reclassifyWater.newTag, hq6, h2, h3]
    · intro h
      have h2 := Dbl_not_le_of_lt _ _ h
      simp [reclassifyWater.newTag, h2]
    · intro h
      have h1 : Dbl.val (Dbl.round (-0.85)) ≤ Dbl.val (-0.75) := by decide!
      have h2 : ¬ Dbl.val (Dbl.round (-0.85)) < Dbl.val (-0.85) := by decide!
      simp only [reclassifyWater.newTag, hq6, h, h1, h2, and_self, if_true, if_false]
    · intro h
      simp only [reclassifyWater.newTag, hq6, h, Dbl_lt_val, Dbl_le_val]
      norm_num

/-- Witness of C12 on `exampleReclass`: the value `avgQ3` of particle 1, computed from the
doubles nearest to `-0.9` and `-0.8`, is below `-0.85`, and the particle becomes cubic. -/
theorem reclassifyWater_rule_witness :
    reclassifyWater (exampleReclass atom_state_type.water atom_state_type.water
      atom_state_type.water atom_state_type.water)
      [Dbl.val 0.6, Dbl.val 0.6, Dbl.val 0.6, Dbl.val 0.6] =
      some (exampleReclass atom_state_type.cubic atom_state_type.cubic
        atom_state_type.hexagonal atom_state_type.water) ∧
    reclassifyWater.avgQ3 (exampleWater [-0.9, -0.8] atom_state_type.water).c_ij <
      Dbl.val (-0.85) ∧
    ∃ r, (exampleReclass atom_state_type.cubic atom_state_type.cubic
        atom_state_type.hexagonal atom_state_type.water).pts[1]? = some r ∧
      r.iceType = atom_state_type.cubic := by
  have hrun : reclassifyWater (exampleReclass atom_state_type.water atom_state_type.water
      atom_state_type.water atom_state_type.water)
      [Dbl.val 0.6, Dbl.val 0.6, Dbl.val 0.6, Dbl.val 0.6] =
      some (exampleReclass atom_state_type.cubic atom_state_type.cubic
        atom_state_type.hexagonal atom_state_type.water) := by decide!
  have havg : reclassifyWater.avgQ3 (exampleWater [-0.9, -0.8] atom_state_type.water).c_ij <
      Dbl.val (-0.85) := by decide!
  obtain ⟨r, hr, h1, _⟩ := reclassifyWater_rule _ _ _ hrun 1 (by decide)
    (exampleWater [-0.9, -0.8] atom_state_type.water) (by rfl) (by rfl) (Dbl.val 0.6)
    (by rfl) (by decide!) (by decide)
  exact ⟨hrun, havg, r, hr, h1 havg⟩

/-- C12, as stated, fails with `avgQ3` the arithmetic mean.  The particle of
`exampleTie` is tagged water, has the q6 value `0.6` and stores the two doubles `-0.75` and
`-0.75 + 2 ^ (-53)`.  Their arithmetic mean is above `-0.75`, for which the rule leaves the
particle water; the code rounds their sum to `-1.5`, finds `avgQ3 = -0.75` and tags the
particle hexagonal. -/
theorem reclassifyWater_rule_counterexample :
    (exampleTie atom_state_type.water).pts[0]? =
      some (exampleWater [-3 / 4, -3 / 4 + 1 / 2 ^ 53] atom_state_type.water) ∧
    (exampleWater [-3 / 4, -3 / 4 + 1 / 2 ^ 53] atom_state_type.water).c_ij.map
        (fun b => b.c_value) = [Dbl.val (-3 / 4), Dbl.val (-3 / 4 + 1 / 2 ^ 53)] ∧
    (-0.75 : ℚ) < ((-3 / 4) + (-3 / 4 + 1 / 2 ^ 53)) / 2 ∧
    reclassifyWater.avgQ3
        (exampleWater [-3 / 4, -3 / 4 + 1 / 2 ^ 53] atom_state_type.water).c_ij =
      Dbl.val (-0.75) ∧
    reclassifyWater (exampleTie atom_state_type.water) [Dbl.val 0.6] =
      some (exampleTie atom_state_type.hexagonal) ∧
    (exampleTie atom_state_type.hexagonal).pts[0]? =
      some (exampleWater [-3 / 4, -3 / 4 + 1 / 2 ^ 53] atom_state_type.hexagonal) ∧
    (exampleWater [-3 / 4, -3 / 4 + 1 / 2 ^ 53] atom_state_type.hexagonal).iceType ≠
      atom_state_type.water :=
  ⟨rfl, by decide!, by norm_num, by decide!, by decide!, rfl, by decide⟩


/-- C13: what `reclassifyWater` leaves alone.  A particle that is not tagged water, a water
particle with `q6 <= 0.5`, and a water particle with `avgQ3 > -0.75` are unchanged; of every
particle only the tag can change, and a changed tag was water and is now cubic or hexagonal;
the frame data are unchanged. -/
theorem reclassifyWater_unchanged (yCloud : PointCloud) (q6 : List Dbl) (out : PointCloud)
    (hrun : reclassifyWater yCloud q6 = some out) :
    out.nop = yCloud.nop ∧ out.box = yCloud.box ∧ out.boxLow = yCloud.boxLow ∧
    out.currentFrame = yCloud.currentFrame ∧ out.pts.length = yCloud.pts.length ∧
    ∀ (i : Nat) (p : Point), yCloud.pts[i]? = some p → ∃ r : Point, out.pts[i]? = some r ∧
      (r.atomID = p.atomID ∧ r.molID = p.molID ∧ r.x = p.x ∧ r.y = p.y ∧ r.z = p.z ∧
        r.neighList = p.neighList ∧ r.c_ij = p.c_ij ∧ r.inSlice = p.inSlice) ∧
      (r.iceType = p.iceType ∨ (p.iceType = atom_state_type.water ∧
        (r.iceType = atom_state_type.cubic ∨ r.iceType = atom_state_type.hexagonal))) ∧
      (p.iceType ≠ atom_state_type.water → r = p) ∧
      (∀ q, q6[i]? = some q → q ≤ Dbl.val 0.5 → r = p) ∧
      (Dbl.val (-0.75) < reclassifyWater.avgQ3 p.c_ij → r = p) := by
  obtain ⟨hno, hrest, hall⟩ := reclassify_pass yCloud q6 out hrun
  have hf1 := congrArg PointCloud.nop hno
  have hf2 := congrArg PointCloud.box hno
  have hf3 := congrArg PointCloud.boxLow hno
  have hf4 := congrArg PointCloud.currentFrame hno
  have hf5 := congrArg (fun c : PointCloud => c.pts.length) hno
  simp only [noTags, List.length_map] at hf1 hf2 hf3 hf4 hf5
  refine ⟨hf1, hf2, hf3, hf4, hf5, ?_⟩
  intro i p hp
  by_cases hi : i < yCloud.nop
  · obtain ⟨p', hp', hcase⟩ := hall i hi
    rw [hp] at hp'
    cases hp'
    rcases hcase with ⟨hnw, hout⟩ | ⟨hw, q, hq, hout⟩
    · exact ⟨p, hout, ⟨rfl, rfl, rfl, rfl, rfl, rfl, rfl, rfl⟩, Or.inl rfl, fun _ => rfl,
        fun _ _ _ => rfl, fun _ => rfl⟩
    · have hsame : p.iceType = atom_state_type.water →
          ({ p with iceType := atom_state_type.water } : Point) = p := by
        intro h
        cases p
        simp only at h
        rw [h]
      refine ⟨_, hout, ⟨rfl, rfl, rfl, rfl, rfl, rfl, rfl, rfl⟩, ?_, fun h => absurd hw h,
        ?_, ?_⟩
      · simp only [reclassifyWater.newTag]
        by_cases h1 : Dbl.val 0.5 < q ∧ reclassifyWater.avgQ3 p.c_ij ≤ Dbl.val (-0.75)
        · rw [if_pos h1]
          right
          refine ⟨hw, ?_⟩
          by_cases h2 : reclassifyWater.avgQ3 p.c_ij < Dbl.val (-0.85)
          · rw [if_pos h2]; exact Or.inl rfl
          · rw [if_neg h2]; exact Or.inr rfl
        · rw [if_neg h1]
          exact Or.inl hw.symm
      · intro q' hq' hle
        rw [hq] at hq'
        cases hq'
        have := Dbl_not_lt_of_le _ _ hle
        simp only [reclassifyWater.newTag, this, false_and, if_false]
        exact hsame hw
      · intro hlt
        have := Dbl_not_le_of_lt _ _ hlt
        simp only [reclassifyWater.newTag, this, and_false, if_false]
        exact hsame hw
  · exact ⟨p, by rw [hrest i (by omega), hp], ⟨rfl, rfl, rfl, rfl, rfl, rfl, rfl, rfl⟩,
      Or.inl rfl, fun _ => rfl, fun _ _ _ => rfl, fun _ => rfl⟩


/-- Witness of C13 on `exampleReclass` with the q6 values 0.5, 0.6, 0.6, 0.6: particle 0 has
`q6 = 0.5` and is unchanged although its value `avgQ3` is about `-0.9`. -/
theorem reclassifyWater_unchanged_witness :
    reclassifyWater (exampleReclass atom_state_type.water atom_state_type.water
      atom_state_type.water atom_state_type.water)
      [Dbl.val 0.5, Dbl.val 0.6, Dbl.val 0.6, Dbl.val 0.6] =
      some (exampleReclass atom_state_type.water atom_state_type.cubic
        atom_state_type.hexagonal atom_state_type.water) ∧
    ∃ r, (exampleReclass atom_state_type.water atom_state_type.cubic
        atom_state_type.hexagonal atom_state_type.water).pts[0]? = some r ∧
      r = exampleWater [-0.95, -0.85] atom_state_type.water := by
  have hrun : reclassifyWater (exampleReclass atom_state_type.water atom_state_type.water
      atom_state_type.water atom_state_type.water)
      [Dbl.val 0.5, Dbl.val 0.6, Dbl.val 0.6, Dbl.val 0.6] =
      some (exampleReclass atom_state_type.water atom_state_type.cubic
        atom_state_type.hexagonal atom_state_type.water) := by decide!
  obtain ⟨_, _, _, _, _, hall⟩ := reclassifyWater_unchanged _ _ _ hrun
  obtain ⟨r, hr, _, _, _, h4, _⟩ := hall 0 (exampleWater [-0.95, -0.85] atom_state_type.water)
    (by rfl)
  exact ⟨hrun, r, hr, h4 (Dbl.val 0.5) (by rfl) (by decide!)⟩

theorem foldlM_fixed {σ : Type} (step : σ → Nat → Option σ) (st : σ) (is : List Nat)
    (h : ∀ i ∈ is, step st i = some st) : is.foldlM step st = some st := by
  induction is with
  | nil => rfl
  | cons i rest ih =>
    rw [List.foldlM_cons, h i (List.mem_cons_self _ _)]
    simp only [Option.bind_eq_bind, Option.some_bind]
    exact ih (fun k hk => h k (List.mem_cons_of_mem _ hk))

theorem newTag_cases (q : Dbl) (rs : List Result) :
    reclassifyWater.newTag q rs = atom_state_type.water ∨
    reclassifyWater.newTag q rs = atom_state_type.cubic ∨
    reclassifyWater.newTag q rs = atom_state_type.hexagonal := by
  unfold reclassifyWater.newTag
  split_ifs <;> simp

/-- C14: reclassification is idempotent.  Run on the frame it returned, with the same q6
vector, `reclassifyWater` returns that frame unchanged: a second pass changes no tag. -/
theorem reclassifyWater_idempotent (yCloud : PointCloud) (q6 : List Dbl) (y1 : PointCloud)
    (hrun : reclassifyWater yCloud q6 = some y1) : reclassifyWater y1 q6 = some y1 := by
  obtain ⟨hno, _, hall⟩ := reclassify_pass yCloud q6 y1 hrun
  have hnop : y1.nop = yCloud.nop := by
    have := congrArg PointCloud.nop hno
    simpa [noTags] using this
  unfold reclassifyWater
  apply foldlM_fixed
  intro i hi
  rw [List.mem_range, hnop] at hi
  obtain ⟨p, _, hcase⟩ := hall i hi
  rcases hcase with ⟨hnw, hout⟩ | ⟨hw, q, hq, hout⟩
  · exact reclassify_step_other q6 y1 i p hout hnw
  · rcases newTag_cases q p.c_ij with h | h | h
    · rw [reclassify_step_water q6 y1 i _ hout h q hq]
      have := setIceType_same y1 i _ hout
      simp only [h] at this ⊢
      rw [this]
    · exact reclassify_step_other q6 y1 i _ hout (by simp [h])
    · exact reclassify_step_other q6 y1 i _ hout (by simp [h])

/-- Witness of C14 on `exampleReclass`: the second pass returns the frame of the first. -/
theorem reclassifyWater_idempotent_witness :
    reclassifyWater (exampleReclass atom_state_type.water atom_state_type.water
      atom_state_type.water atom_state_type.water)
      [Dbl.val 0.6, Dbl.val 0.6, Dbl.val 0.6, Dbl.val 0.6] =
      some (exampleReclass atom_state_type.cubic atom_state_type.cubic
        atom_state_type.hexagonal atom_state_type.water) ∧
    reclassifyWater (exampleReclass atom_state_type.cubic atom_state_type.cubic
      atom_state_type.hexagonal atom_state_type.water)
      [Dbl.val 0.6, Dbl.val 0.6, Dbl.val 0.6, Dbl.val 0.6] =
      some (exampleReclass atom_state_type.cubic atom_state_type.cubic
        atom_state_type.hexagonal atom_state_type.water) := by
  have hrun : reclassifyWater (exampleReclass atom_state_type.water atom_state_type.water
      atom_state_type.water atom_state_type.water)
      [Dbl.val 0.6, Dbl.val 0.6, Dbl.val 0.6, Dbl.val 0.6] =
      some (exampleReclass atom_state_type.cubic atom_state_type.cubic
        atom_state_type.hexagonal atom_state_type.water) := by decide!
  exact ⟨hrun, reclassifyWater_idempotent _ _ _ hrun⟩


/-! ### The two ice-type passes as one loop -/

theorem getIceType_step_eq (isSlice : Bool) (st : PointCloud × Tally) (i : Nat) :
    getIceType.step isSlice st i = tagStep chillStepTag isSlice st i := by
  unfold getIceType.step tagStep chillStepTag
  cases st.1.pts[i]? with
  | none => rfl
  | some p =>
    dsimp only
    by_cases hsl : isSlice = true ∧ p.inSlice = false
    · rw [if_pos hsl, if_pos hsl]
    · rw [if_neg hsl, if_neg hsl]
      cases countBonds p.c_ij (List.range 4) (0, 0, 0) with
      | none => rfl
      | some sen =>
        obtain ⟨s, e, na⟩ := sen
        dsimp only
        rw [isInterfacial_congr _ _ (noTags_setIceType st.1 i atom_state_type.unclassified)]
        by_cases c1 : s ≥ 4
        · rw [if_pos c1, if_pos c1]; rfl
        · rw [if_neg c1, if_neg c1]
          by_cases c2 : e = 1 ∧ s = 3
          · rw [if_pos c2, if_pos c2]; rfl
          · rw [if_neg c2, if_neg c2]
            cases isInterfacial st.1 i s e with
            | none => rfl
            | some b => cases b <;> rfl

theorem getIceTypePlus_step_eq (isSlice : Bool) (st : PointCloud × Tally) (i : Nat) :
    getIceTypePlus.step isSlice st i = tagStep chillPlusStepTag isSlice st i := by
  unfold getIceTypePlus.step tagStep chillPlusStepTag
  cases st.1.pts[i]? with
  | none => rfl
  | some p =>
    dsimp only
    by_cases hsl : isSlice = true ∧ p.inSlice = false
    · rw [if_pos hsl, if_pos hsl]
    · rw [if_neg hsl, if_neg hsl]
      cases countBonds p.c_ij (List.range p.neighList.length) (0, 0, 0) with
      | none => rfl
      | some sen =>
        obtain ⟨s, e, na⟩ := sen
        dsimp only
        rw [isInterfacial_congr _ _ (noTags_setIceType st.1 i atom_state_type.unclassified)]
        by_cases hn : p.neighList.length = 4
        · rw [if_pos hn, if_pos hn]
          by_cases c1 : e = 0 ∧ s = 4
          · rw [if_pos c1, if_pos c1]; rfl
          · rw [if_neg c1, if_neg c1]
            by_cases c2 : e = 1 ∧ s = 3
            · rw [if_pos c2, if_pos c2]; rfl
            · rw [if_neg c2, if_neg c2]
              cases isInterfacial st.1 i s e with
              | none => rfl
              | some b =>
                cases b with
                | true => rfl
                | false =>
                  dsimp only
                  by_cases c4 : e = 4 ∧ s = 0
                  · rw [if_pos c4, if_pos c4]; rfl
                  · rw [if_neg c4, if_neg c4]
                    by_cases c5 : e = 3
                    · rw [if_pos c5, if_pos c5]; rfl
                    · rw [if_neg c5, if_neg c5]; rfl
        · rw [if_neg hn, if_neg hn]; rfl

theorem getIceType_fold_eq (isSlice : Bool) (is : List Nat) (st : PointCloud × Tally) :
    is.foldlM (getIceType.step isSlice) st = is.foldlM (tagStep chillStepTag isSlice) st := by
  have : getIceType.step isSlice = tagStep chillStepTag isSlice := by
    funext st i
    exact getIceType_step_eq isSlice st i
  rw [this]

theorem getIceTypePlus_fold_eq (isSlice : Bool) (is : List Nat) (st : PointCloud × Tally) :
    is.foldlM (getIceTypePlus.step isSlice) st =
      is.foldlM (tagStep chillPlusStepTag isSlice) st := by
  have : getIceTypePlus.step isSlice = tagStep chillPlusStepTag isSlice := by
    funext st i
    exact getIceTypePlus_step_eq isSlice st i
  rw [this]


theorem foldlM_range_succ {σ : Type} (step : σ → Nat → Option σ) (n : Nat) (s0 out : σ) :
    (List.range (n + 1)).foldlM step s0 = some out ↔
      ∃ mid, (List.range n).foldlM step s0 = some mid ∧ step mid n = some out := by
  rw [List.range_succ, List.foldlM_append]
  cases h : (List.range n).foldlM step s0 with
  | none => simp
  | some mid =>
    simp only [Option.bind_eq_bind, Option.some_bind, List.foldlM_cons, List.foldlM_nil,
      Option.some.injEq, exists_eq_left']
    cases step mid n <;> simp

theorem tagStep_spec (tagF : PointCloud → Nat → Point → Option atom_state_type)
    (isSlice : Bool) (st st' : PointCloud × Tally) (i : Nat)
    (h : tagStep tagF isSlice st i = some st') :
    ∃ p, st.1.pts[i]? = some p ∧
      ((eligible isSlice p = false ∧ st' = st) ∨
        (eligible isSlice p = true ∧ ∃ tag, tagF st.1 i p = some tag ∧
          st' = (setIceType (setIceType st.1 i atom_state_type.unclassified) i tag,
            Tally.bump st.2 tag))) := by
  unfold tagStep at h
  cases hp : st.1.pts[i]? with
  | none => rw [hp] at h; simp at h
  | some p =>
    rw [hp] at h
    dsimp only at h
    refine ⟨p, rfl, ?_⟩
    by_cases hsl : isSlice = true ∧ p.inSlice = false
    · rw [if_pos hsl] at h
      left
      refine ⟨by simp [eligible, hsl.1, hsl.2], ?_⟩
      injection h with h
      exact h.symm
    · rw [if_neg hsl] at h
      right
      refine ⟨?_, ?_⟩
      · cases isSlice <;> cases hin : p.inSlice <;> simp_all [eligible]
      · cases ht : tagF st.1 i p with
        | none => rw [ht] at h; simp at h
        | some tag =>
          rw [ht] at h
          injection h with h
          exact ⟨tag, rfl, h.symm⟩

theorem tagStep_of_eligible (tagF : PointCloud → Nat → Point → Option atom_state_type)
    (isSlice : Bool) (st : PointCloud × Tally) (i : Nat) (p : Point)
    (hp : st.1.pts[i]? = some p) (he : eligible isSlice p = true) :
    tagStep tagF isSlice st i =
      (tagF st.1 i p).map (fun tag =>
        (setIceType (setIceType st.1 i atom_state_type.unclassified) i tag,
          Tally.bump st.2 tag)) := by
  unfold tagStep
  rw [hp]
  dsimp only
  have hsl : ¬ (isSlice = true ∧ p.inSlice = false) := by
    intro hsl
    simp [eligible, hsl.1, hsl.2] at he
  rw [if_neg hsl]
  cases tagF st.1 i p <;> rfl

theorem tagStep_of_skipped (tagF : PointCloud → Nat → Point → Option atom_state_type)
    (isSlice : Bool) (st : PointCloud × Tally) (i : Nat) (p : Point)
    (hp : st.1.pts[i]? = some p) (he : eligible isSlice p = false) :
    tagStep tagF isSlice st i = some st := by
  unfold tagStep
  rw [hp]
  dsimp only
  have hsl : isSlice = true ∧ p.inSlice = false := by
    cases isSlice <;> cases hin : p.inSlice <;> simp_all [eligible]
  rw [if_pos hsl]

theorem take_succ_of_getElem? {α : Type} (l : List α) (i : Nat) (a : α) (h : l[i]? = some a) :
    l.take (i + 1) = l.take i ++ [a] := by
  rw [List.take_succ, h]
  rfl

theorem setIceType_take (y : PointCloud) (i : Nat) (t : atom_state_type) :
    (setIceType y i t).pts.take i = y.pts.take i := by
  apply List.ext_getElem?
  intro k
  rw [List.getElem?_take, List.getElem?_take]
  by_cases hk : k < i
  · rw [if_pos hk, if_pos hk]
    exact setIceType_getElem?_ne y i k t (Nat.ne_of_lt hk)
  · rw [if_neg hk, if_neg hk]

theorem setIceType_length (y : PointCloud) (i : Nat) (t : atom_state_type) :
    (setIceType y i t).pts.length = y.pts.length := by
  simp [setIceType]

theorem eligible_noTag (isSlice : Bool) (p p' : Point) (h : noTag p = noTag p') :
    eligible isSlice p = eligible isSlice p' := by
  have : (noTag p).inSlice = (noTag p').inSlice := by rw [h]
  have h2 : p.inSlice = p'.inSlice := this
  simp [eligible, h2]

theorem tallyOf_zero (isSlice : Bool) : TallyOf isSlice [] Tally.zero := by
  simp [TallyOf, Tally.zero, countTag]

theorem tallyOf_skip (isSlice : Bool) (l : List Point) (t : Tally) (p : Point)
    (h : TallyOf isSlice l t) (he : eligible isSlice p = false) :
    TallyOf isSlice (l ++ [p]) t := by
  unfold TallyOf countTag at *
  obtain ⟨h0, h1, h2, h3, h4, h5, h6, h7⟩ := h
  simp only [List.countP_append, List.countP_singleton, he, Bool.false_and,
    Bool.false_eq_true, if_false, Nat.add_zero]
  exact ⟨h0, h1, h2, h3, h4, h5, h6, h7⟩

theorem tallyOf_bump (isSlice : Bool) (l : List Point) (t : Tally) (p : Point)
    (tag : atom_state_type) (h : TallyOf isSlice l t) (he : eligible isSlice p = true) :
    TallyOf isSlice (l ++ [{ p with iceType := tag }]) (Tally.bump t tag) := by
  unfold TallyOf countTag at *
  obtain ⟨h0, h1, h2, h3, h4, h5, h6, h7⟩ := h
  have he' : eligible isSlice { p with iceType := tag } = true := he
  simp only [List.countP_append, List.countP_singleton, he', Bool.true_and, if_true]
  cases tag <;> simp [Tally.bump, h0, h1, h2, h3, h4, h5, h6, h7]


theorem noTags_getElem?_some (a b : PointCloud) (h : noTags a = noTags b) (k : Nat) (p : Point)
    (hp : a.pts[k]? = some p) : ∃ p', b.pts[k]? = some p' ∧ noTag p = noTag p' := by
  have h1 : (noTags a).pts[k]? = (noTags b).pts[k]? := by rw [h]
  rw [noTags_getElem?, noTags_getElem?, hp] at h1
  cases hp' : b.pts[k]? with
  | none => rw [hp'] at h1; simp at h1
  | some p' =>
    rw [hp'] at h1
    simp only [Option.map_some', Option.some.injEq] at h1
    exact ⟨p', rfl, h1⟩

theorem withTag_noTag (p p' : Point) (t : atom_state_type) (h : noTag p = noTag p') :
    ({ p with iceType := t } : Point) = { p' with iceType := t } := by
  have h1 : ({ noTag p with iceType := t } : Point) = { noTag p' with iceType := t } := by
    rw [h]
  exact h1

/-- The counters of an ice-type pass count the eligible particles among the first `n`, tag by
tag, and the pass found a particle at each of the first `n` indices. -/
theorem tagStep_fold_tally (tagF : PointCloud → Nat → Point → Option atom_state_type)
    (isSlice : Bool) (y : PointCloud) :
    ∀ (n : Nat) (out : PointCloud × Tally),
      (List.range n).foldlM (tagStep tagF isSlice) (y, Tally.zero) = some out →
      noTags out.1 = noTags y ∧ n ≤ out.1.pts.length ∧
        TallyOf isSlice (out.1.pts.take n) out.2 := by
  intro n
  induction n with
  | zero =>
    intro out h
    simp only [List.range_zero, List.foldlM_nil] at h
    injection h with h
    subst h
    exact ⟨rfl, Nat.zero_le _, tallyOf_zero _⟩
  | succ n ih =>
    intro out h
    obtain ⟨mid, hmid, hstep⟩ := (foldlM_range_succ _ n _ out).mp h
    obtain ⟨hfr, _, htal⟩ := ih mid hmid
    obtain ⟨p, hp, hcase⟩ := tagStep_spec tagF isSlice mid out n hstep
    have hlt : n < mid.1.pts.length := by
      by_contra hge
      rw [List.getElem?_eq_none (Nat.le_of_not_lt hge)] at hp
      simp at hp
    rcases hcase with ⟨he, rfl⟩ | ⟨he, tag, _, rfl⟩
    · refine ⟨hfr, hlt, ?_⟩
      rw [take_succ_of_getElem? _ _ _ hp]
      exact tallyOf_skip _ _ _ _ htal he
    · refine ⟨?_, ?_, ?_⟩
      · rw [noTags_setIceType, noTags_setIceType]
        exact hfr
      · rw [setIceType_length, setIceType_length]
        exact hlt
      · dsimp only
        rw [take_succ_of_getElem? _ n _
          (setIceType_twice_getElem? mid.1 n atom_state_type.unclassified tag p hp),
          setIceType_take, setIceType_take]
        exact tallyOf_bump _ _ _ _ _ htal he

/-- Two runs of an ice-type pass on frames that differ in their tags only: the second run
succeeds when the first does, with the same counters, and with the same particle at every
eligible index; at every other index each run leaves what it found. -/
theorem tagStep_fold_congr (tagF : PointCloud → Nat → Point → Option atom_state_type)
    (hinv : ∀ (a b : PointCloud) (i : Nat) (p p' : Point), noTags a = noTags b →
      noTag p = noTag p' → tagF a i p = tagF b i p')
    (isSlice : Bool) (y y' : PointCloud) (hy : noTags y = noTags y') (t0 : Tally) :
    ∀ (n : Nat) (out : PointCloud × Tally),
      (List.range n).foldlM (tagStep tagF isSlice) (y, t0) = some out →
      ∃ out', (List.range n).foldlM (tagStep tagF isSlice) (y', t0) = some out' ∧
        out'.2 = out.2 ∧ noTags out.1 = noTags y ∧ noTags out'.1 = noTags y' ∧
        ∀ i : Nat,
          (i < n → ∀ p : Point, y.pts[i]? = some p → eligible isSlice p = true →
            out'.1.pts[i]? = out.1.pts[i]?) ∧
          (out'.1.pts[i]? = out.1.pts[i]? ∨
            (out.1.pts[i]? = y.pts[i]? ∧ out'.1.pts[i]? = y'.pts[i]?)) := by
  intro n
  induction n with
  | zero =>
    intro out h
    simp only [List.range_zero, List.foldlM_nil] at h
    injection h with h
    subst h
    exact ⟨(y', t0), rfl, rfl, rfl, rfl,
      fun i => ⟨fun hi => absurd hi (Nat.not_lt_zero i), Or.inr ⟨rfl, rfl⟩⟩⟩
  | succ n ih =>
    intro out h
    obtain ⟨mid, hmid, hstep⟩ := (foldlM_range_succ _ n _ out).mp h
    obtain ⟨mid', hmid', ht, hfr, hfr', hrel⟩ := ih mid hmid
    obtain ⟨p, hp, hcase⟩ := tagStep_spec tagF isSlice mid out n hstep
    have hmm : noTags mid.1 = noTags mid'.1 := by rw [hfr, hfr', hy]
    obtain ⟨p', hp', hpp⟩ := noTags_getElem?_some mid.1 mid'.1 hmm n p hp
    have hel : eligible isSlice p = eligible isSlice p' := eligible_noTag isSlice p p' hpp
    rcases hcase with ⟨he, rfl⟩ | ⟨he, tag, htag, rfl⟩
    · refine ⟨mid', (foldlM_range_succ _ n _ mid').mpr ⟨mid', hmid', ?_⟩, ht, hfr, hfr', ?_⟩
      · exact tagStep_of_skipped tagF isSlice mid' n p' hp' (by rw [← hel]; exact he)
      · intro i
        refine ⟨fun hi q hq heq => ?_, (hrel i).2⟩
        rcases Nat.lt_succ_iff_lt_or_eq.mp hi with hlt | rfl
        · exact (hrel i).1 hlt q hq heq
        · obtain ⟨q', hq', hqq⟩ := noTags_getElem?_some y out.1 hfr.symm i q hq
          rw [hp] at hq'
          injection hq' with hq'
          subst hq'
          rw [eligible_noTag isSlice q p hqq, he] at heq
          exact absurd heq (by simp)
    · have htag' : tagF mid'.1 n p' = some tag := by
        rw [← hinv mid.1 mid'.1 n p p' hmm hpp]
        exact htag
      refine ⟨(setIceType (setIceType mid'.1 n atom_state_type.unclassified) n tag,
          Tally.bump mid'.2 tag), (foldlM_range_succ _ n _ _).mpr ⟨mid', hmid', ?_⟩, ?_, ?_, ?_,
          ?_⟩
      · rw [tagStep_of_eligible tagF isSlice mid' n p' hp' (by rw [← hel]; exact he), htag']
        rfl
      · dsimp only
        rw [ht]
      · dsimp only
        rw [noTags_setIceType, noTags_setIceType]
        exact hfr
      · dsimp only
        rw [noTags_setIceType, noTags_setIceType]
        exact hfr'
      · intro i
        dsimp only
        by_cases hin : i = n
        · subst hin
          have heq : (setIceType (setIceType mid'.1 i atom_state_type.unclassified) i tag).pts[i]?
              = (setIceType (setIceType mid.1 i atom_state_type.unclassified) i tag).pts[i]? := by
            rw [setIceType_twice_getElem? mid'.1 i _ tag p' hp',
              setIceType_twice_getElem? mid.1 i _ tag p hp, withTag_noTag p p' tag hpp]
          exact ⟨fun _ _ _ _ => heq, Or.inl heq⟩
        · rw [setIceType_getElem?_ne _ _ _ _ hin, setIceType_getElem?_ne _ _ _ _ hin,
            setIceType_getElem?_ne _ _ _ _ hin, setIceType_getElem?_ne _ _ _ _ hin]
          refine ⟨fun hi q hq heq => ?_, (hrel i).2⟩
          rcases Nat.lt_succ_iff_lt_or_eq.mp hi with hlt | heq'
          · exact (hrel i).1 hlt q hq heq
          · exact absurd heq' hin

theorem chillStepTag_inv (a b : PointCloud) (i : Nat) (p p' : Point)
    (hab : noTags a = noTags b) (hpp : noTag p = noTag p') :
    chillStepTag a i p = chillStepTag b i p' := by
  have hc : p.c_ij = p'.c_ij := by
    have : (noTag p).c_ij = (noTag p').c_ij := by rw [hpp]
    exact this
  unfold chillStepTag
  rw [hc]
  cases countBonds p'.c_ij (List.range 4) (0, 0, 0) with
  | none => rfl
  | some sen =>
    obtain ⟨s, e, na⟩ := sen
    dsimp only
    rw [isInterfacial_congr a b hab]

theorem chillPlusStepTag_inv (a b : PointCloud) (i : Nat) (p p' : Point)
    (hab : noTags a = noTags b) (hpp : noTag p = noTag p') :
    chillPlusStepTag a i p = chillPlusStepTag b i p' := by
  have hc : p.c_ij = p'.c_ij := by
    have : (noTag p).c_ij = (noTag p').c_ij := by rw [hpp]
    exact this
  have hn : p.neighList = p'.neighList := by
    have : (noTag p).neighList = (noTag p').neighList := by rw [hpp]
    exact this
  unfold chillPlusStepTag
  rw [hc, hn]
  cases countBonds p'.c_ij (List.range p'.neighList.length) (0, 0, 0) with
  | none => rfl
  | some sen =>
    obtain ⟨s, e, na⟩ := sen
    dsimp only
    rw [isInterfacial_congr a b hab]


theorem noTags_fields (a b : PointCloud) (h : noTags a = noTags b) :
    a.nop = b.nop ∧ a.currentFrame = b.currentFrame ∧ a.box = b.box ∧ a.boxLow = b.boxLow := by
  have h1 : (noTags a).nop = (noTags b).nop := by rw [h]
  have h2 : (noTags a).currentFrame = (noTags b).currentFrame := by rw [h]
  have h3 : (noTags a).box = (noTags b).box := by rw [h]
  have h4 : (noTags a).boxLow = (noTags b).boxLow := by rw [h]
  exact ⟨h1, h2, h3, h4⟩

theorem eq_of_noTags_pts (a b : PointCloud) (h : noTags a = noTags b) (hp : a.pts = b.pts) :
    a = b := by
  obtain ⟨h1, h2, h3, h4⟩ := noTags_fields a b h
  cases a
  cases b
  simp only [PointCloud.mk.injEq]
  exact ⟨hp, h1, h3, h4, h2⟩

theorem countP_eligible_noTags (isSlice : Bool) (a b : PointCloud) (h : noTags a = noTags b)
    (n : Nat) :
    (a.pts.take n).countP (eligible isSlice) = (b.pts.take n).countP (eligible isSlice) := by
  have key : ∀ y : PointCloud, (y.pts.take n).countP (eligible isSlice) =
      ((noTags y).pts.take n).countP (eligible isSlice) := by
    intro y
    have hf : (eligible isSlice) ∘ noTag = eligible isSlice := by
      funext q
      rfl
    unfold noTags
    dsimp only
    rw [← List.map_take, List.countP_map, hf]
  rw [key a, key b, h]

theorem getIceType_run (y : PointCloud) (isSlice : Bool) (out : PointCloud × List Int) :
    getIceType y isSlice = some out ↔
      ∃ t : Tally, (List.range y.nop).foldlM (tagStep chillStepTag isSlice) (y, Tally.zero) =
          some (out.1, t) ∧
        out.2 = [out.1.currentFrame, (t.ic : Int), (t.ih : Int), (t.interIce : Int),
          (t.water : Int), (t.total : Int)] := by
  unfold getIceType
  rw [getIceType_fold_eq]
  cases (List.range y.nop).foldlM (tagStep chillStepTag isSlice) (y, Tally.zero) with
  | none => simp
  | some r =>
    obtain ⟨y1, t⟩ := r
    obtain ⟨o1, o2⟩ := out
    simp only [Option.some.injEq, Prod.mk.injEq]
    constructor
    · rintro ⟨rfl, rfl⟩
      exact ⟨t, ⟨rfl, rfl⟩, rfl⟩
    · rintro ⟨t', ⟨rfl, rfl⟩, rfl⟩
      exact ⟨rfl, rfl⟩

theorem getIceTypePlus_run (y : PointCloud) (isSlice : Bool) (out : PointCloud × List Int) :
    getIceTypePlus y isSlice = some out ↔
      ∃ t : Tally, (List.range y.nop).foldlM (tagStep chillPlusStepTag isSlice)
          (y, Tally.zero) = some (out.1, t) ∧
        out.2 = [out.1.currentFrame, (t.ic : Int), (t.ih : Int), (t.interIce : Int),
          (t.clath : Int), (t.interClath : Int), (t.water : Int), (t.total : Int)] := by
  unfold getIceTypePlus
  rw [getIceTypePlus_fold_eq]
  cases (List.range y.nop).foldlM (tagStep chillPlusStepTag isSlice) (y, Tally.zero) with
  | none => simp
  | some r =>
    obtain ⟨y1, t⟩ := r
    obtain ⟨o1, o2⟩ := out
    simp only [Option.some.injEq, Prod.mk.injEq]
    constructor
    · rintro ⟨rfl, rfl⟩
      exact ⟨t, ⟨rfl, rfl⟩, rfl⟩
    · rintro ⟨t', ⟨rfl, rfl⟩, rfl⟩
      exact ⟨rfl, rfl⟩

/-- The `total` column of an ice-type pass: the number of in-slice particles of the frame when
the slice is on, the particle count of the frame when it is off. -/
theorem tagStep_fold_total (tagF : PointCloud → Nat → Point → Option atom_state_type)
    (isSlice : Bool) (y : PointCloud) (out : PointCloud × Tally)
    (h : (List.range y.nop).foldlM (tagStep tagF isSlice) (y, Tally.zero) = some out) :
    (isSlice = true → out.2.total = (y.pts.take y.nop).countP (fun q => q.inSlice)) ∧
    (isSlice = false → out.2.total = y.nop) := by
  obtain ⟨hfr, hlen, htal⟩ := tagStep_fold_tally tagF isSlice y y.nop out h
  have htot : out.2.total = (y.pts.take y.nop).countP (eligible isSlice) := by
    rw [htal.1]
    exact countP_eligible_noTags isSlice out.1 y hfr y.nop
  have hlen' : y.nop ≤ y.pts.length := by
    have : (noTags out.1).pts.length = (noTags y).pts.length := by rw [hfr]
    simp only [noTags, List.length_map] at this
    rw [← this]
    exact hlen
  constructor
  · intro hs
    subst hs
    rw [htot]
    rfl
  · intro hs
    subst hs
    rw [htot]
    have hall : ∀ q ∈ y.pts.take y.nop, eligible false q = true := fun _ _ => rfl
    rw [List.countP_eq_length.mpr hall, List.length_take, Nat.min_eq_left hlen']


/-- C15: slice restriction.  When `isSlice` is true, `getIceType` and `getIceTypePlus` leave every
particle whose in-slice flag is false as it was, tag included, and the total they report, the
last column of the line, is the number of in-slice particles of the frame; when `isSlice` is
false the total is the particle count of the frame. -/
theorem slice_restriction (yCloud : PointCloud) (isSlice : Bool) (out : PointCloud × List Int)
    (hrun : getIceType yCloud isSlice = some out ∨ getIceTypePlus yCloud isSlice = some out) :
    (isSlice = true → ∀ (i : Nat) (p : Point), i < yCloud.nop → yCloud.pts[i]? = some p →
      p.inSlice = false → out.1.pts[i]? = some p) ∧
    (isSlice = true → out.2.getLast? =
      some (((yCloud.pts.take yCloud.nop).countP (fun q => q.inSlice) : Nat) : Int)) ∧
    (isSlice = false → out.2.getLast? = some (yCloud.nop : Int)) := by
  rcases hrun with hrun | hrun
  · obtain ⟨t, hfold, hline⟩ := (getIceType_run yCloud isSlice out).mp hrun
    obtain ⟨ht1, ht2⟩ := tagStep_fold_total chillStepTag isSlice yCloud (out.1, t) hfold
    refine ⟨fun hs i p hi hp hin => (getIceType_pass yCloud isSlice out hrun i hi p hp).1
      ⟨hs, hin⟩, fun hs => ?_, fun hs => ?_⟩
    · rw [hline, ← ht1 hs]
      rfl
    · rw [hline, ← ht2 hs]
      rfl
  · obtain ⟨t, hfold, hline⟩ := (getIceTypePlus_run yCloud isSlice out).mp hrun
    obtain ⟨ht1, ht2⟩ := tagStep_fold_total chillPlusStepTag isSlice yCloud (out.1, t) hfold
    refine ⟨fun hs i p hi hp hin => (getIceTypePlus_pass yCloud isSlice out hrun i hi p hp).1
      ⟨hs, hin⟩, fun hs => ?_, fun hs => ?_⟩
    · rw [hline, ← ht1 hs]
      rfl
    · rw [hline, ← ht2 hs]
      rfl

/-- Witness of C15 on `exampleSlice`, whose last particle lies outside the slice: it keeps its
tag and the total is 4. -/
theorem slice_restriction_witness :
    getIceType (exampleSlice atom_state_type.unclassified atom_state_type.unclassified
      atom_state_type.unclassified atom_state_type.unclassified atom_state_type.clathrate)
      true =
      some (exampleSlice atom_state_type.interfacial atom_state_type.interfacial
        atom_state_type.cubic atom_state_type.hexagonal atom_state_type.clathrate,
        [0, 1, 1, 2, 0, 4]) ∧
    (exampleSlice atom_state_type.interfacial atom_state_type.interfacial
        atom_state_type.cubic atom_state_type.hexagonal atom_state_type.clathrate).pts[4]? =
      (exampleSlice atom_state_type.unclassified atom_state_type.unclassified
        atom_state_type.unclassified atom_state_type.unclassified
        atom_state_type.clathrate).pts[4]? ∧
    ([0, 1, 1, 2, 0, 4] : List Int).getLast? = some (4 : Int) := by
  have h := slice_restriction
    (exampleSlice atom_state_type.unclassified atom_state_type.unclassified
      atom_state_type.unclassified atom_state_type.unclassified atom_state_type.clathrate)
    true
    (exampleSlice atom_state_type.interfacial atom_state_type.interfacial
        atom_state_type.cubic atom_state_type.hexagonal atom_state_type.clathrate,
        [0, 1, 1, 2, 0, 4]) (Or.inl (by rfl))
  refine ⟨by rfl, ?_, ?_⟩
  · exact h.1 rfl 4 _ (by decide) (by rfl) (by rfl)
  · exact h.2.1 rfl

/-- C16: the report record.  The line of `getIceType` is frame, cubic count, hexagonal count,
interfacial count, water count, total, and the line of `getIceTypePlus` is frame, cubic,
hexagonal, interfacial, clathrate, interClathrate, water, total, where each count is the number
of eligible particles of the frame that hold the tag after the pass and the total is the number
of eligible particles. -/
theorem report_record (yCloud : PointCloud) (isSlice : Bool) (out : PointCloud × List Int) :
    (getIceType yCloud isSlice = some out →
      out.2 = [yCloud.currentFrame,
        (countTag isSlice atom_state_type.cubic (out.1.pts.take yCloud.nop) : Nat),
        (countTag isSlice atom_state_type.hexagonal (out.1.pts.take yCloud.nop) : Nat),
        (countTag isSlice atom_state_type.interfacial (out.1.pts.take yCloud.nop) : Nat),
        (countTag isSlice atom_state_type.water (out.1.pts.take yCloud.nop) : Nat),
        ((out.1.pts.take yCloud.nop).countP (eligible isSlice) : Nat)]) ∧
    (getIceTypePlus yCloud isSlice = some out →
      out.2 = [yCloud.currentFrame,
        (countTag isSlice atom_state_type.cubic (out.1.pts.take yCloud.nop) : Nat),
        (countTag isSlice atom_state_type.hexagonal (out.1.pts.take yCloud.nop) : Nat),
        (countTag isSlice atom_state_type.interfacial (out.1.pts.take yCloud.nop) : Nat),
        (countTag isSlice atom_state_type.clathrate (out.1.pts.take yCloud.nop) : Nat),
        (countTag isSlice atom_state_type.interClathrate (out.1.pts.take yCloud.nop) : Nat),
        (countTag isSlice atom_state_type.water (out.1.pts.take yCloud.nop) : Nat),
        ((out.1.pts.take yCloud.nop).countP (eligible isSlice) : Nat)]) := by
  constructor
  · intro hrun
    obtain ⟨t, hfold, hline⟩ := (getIceType_run yCloud isSlice out).mp hrun
    obtain ⟨hfr, _, h0, h1, h2, h3, h4, _⟩ :=
      tagStep_fold_tally chillStepTag isSlice yCloud yCloud.nop (out.1, t) hfold
    dsimp only at h0 h1 h2 h3 h4 hfr
    rw [hline, (noTags_fields out.1 yCloud hfr).2.1, h0, h1, h2, h3, h4]
  · intro hrun
    obtain ⟨t, hfold, hline⟩ := (getIceTypePlus_run yCloud isSlice out).mp hrun
    obtain ⟨hfr, _, h0, h1, h2, h3, h4, h5, h6, _⟩ :=
      tagStep_fold_tally chillPlusStepTag isSlice yCloud yCloud.nop (out.1, t) hfold
    dsimp only at h0 h1 h2 h3 h4 h5 h6 hfr
    rw [hline, (noTags_fields out.1 yCloud hfr).2.1, h0, h1, h2, h3, h4, h5, h6]

/-- Witness of C16 on `exampleFrame`: two interfacial, one cubic, one hexagonal and one water
particle give the line `0 1 1 2 1 5`. -/
theorem report_record_witness :
    getIceType (exampleFrame atom_state_type.unclassified atom_state_type.unclassified
      atom_state_type.unclassified atom_state_type.unclassified atom_state_type.unclassified)
      false =
      some (exampleFrame atom_state_type.interfacial atom_state_type.interfacial
        atom_state_type.cubic atom_state_type.hexagonal atom_state_type.water,
        [0, 1, 1, 2, 1, 5]) ∧
    ([0, 1, 1, 2, 1, 5] : List Int) = [(0 : Int),
      (countTag false atom_state_type.cubic
        ((exampleFrame atom_state_type.interfacial atom_state_type.interfacial
          atom_state_type.cubic atom_state_type.hexagonal atom_state_type.water).pts.take 5) :
        Nat),
      (countTag false atom_state_type.hexagonal
        ((exampleFrame atom_state_type.interfacial atom_state_type.interfacial
          atom_state_type.cubic atom_state_type.hexagonal atom_state_type.water).pts.take 5) :
        Nat),
      (countTag false atom_state_type.interfacial
        ((exampleFrame atom_state_type.interfacial atom_state_type.interfacial
          atom_state_type.cubic atom_state_type.hexagonal atom_state_type.water).pts.take 5) :
        Nat),
      (countTag false atom_state_type.water
        ((exampleFrame atom_state_type.interfacial atom_state_type.interfacial
          atom_state_type.cubic atom_state_type.hexagonal atom_state_type.water).pts.take 5) :
        Nat),
      (((exampleFrame atom_state_type.interfacial atom_state_type.interfacial
          atom_state_type.cubic atom_state_type.hexagonal atom_state_type.water).pts.take
          5).countP (eligible false) : Nat)] :=
  ⟨by rfl, (report_record
    (exampleFrame atom_state_type.unclassified atom_state_type.unclassified
      atom_state_type.unclassified atom_state_type.unclassified atom_state_type.unclassified)
    false
    (exampleFrame atom_state_type.interfacial atom_state_type.interfacial
        atom_state_type.cubic atom_state_type.hexagonal atom_state_type.water,
        [0, 1, 1, 2, 1, 5])).1 (by rfl)⟩


/-- A second run of an ice-type pass, on the frame the first run left, returns that frame and
the same counters; a run on a frame that differs from the first one in its tags only succeeds
too, with the same counters and the same particle at every eligible index. -/
theorem tagStep_fold_rerun (tagF : PointCloud → Nat → Point → Option atom_state_type)
    (hinv : ∀ (a b : PointCloud) (i : Nat) (p p' : Point), noTags a = noTags b →
      noTag p = noTag p' → tagF a i p = tagF b i p')
    (isSlice : Bool) (y : PointCloud) (out : PointCloud × Tally)
    (h : (List.range y.nop).foldlM (tagStep tagF isSlice) (y, Tally.zero) = some out) :
    (List.range out.1.nop).foldlM (tagStep tagF isSlice) (out.1, Tally.zero) = some out ∧
    ∀ y' : PointCloud, noTags y' = noTags y →
      ∃ out', (List.range y'.nop).foldlM (tagStep tagF isSlice) (y', Tally.zero) = some out' ∧
        out'.2 = out.2 ∧ out'.1.currentFrame = out.1.currentFrame ∧
        ∀ (i : Nat) (p : Point), i < y.nop → y.pts[i]? = some p →
          eligible isSlice p = true → out'.1.pts[i]? = out.1.pts[i]? := by
  have hfr : noTags out.1 = noTags y := (tagStep_fold_tally tagF isSlice y y.nop out h).1
  constructor
  · obtain ⟨out', hrun', ht, _, hfr', hrel⟩ :=
      tagStep_fold_congr tagF hinv isSlice y out.1 hfr.symm Tally.zero y.nop out h
    rw [(noTags_fields out.1 y hfr).1, hrun']
    have hpts : out'.1.pts = out.1.pts := by
      apply List.ext_getElem?
      intro i
      rcases (hrel i).2 with h1 | ⟨_, h2⟩
      · exact h1
      · exact h2
    have h1 : out'.1 = out.1 := eq_of_noTags_pts out'.1 out.1 hfr' hpts
    exact congrArg some (Prod.ext h1 ht)
  · intro y' hy'
    obtain ⟨out', hrun', ht, _, hfr', hrel⟩ :=
      tagStep_fold_congr tagF hinv isSlice y y' hy'.symm Tally.zero y.nop out h
    refine ⟨out', ?_, ht, ?_, fun i p hi hp he => (hrel i).1 hi p hp he⟩
    · rw [(noTags_fields y' y hy').1]
      exact hrun'
    · rw [(noTags_fields out'.1 y' hfr').2.1, (noTags_fields y' y hy').2.1,
        (noTags_fields out.1 y hfr).2.1]

theorem eligible_iff (isSlice : Bool) (p : Point) :
    eligible isSlice p = true ↔ (isSlice = true → p.inSlice = true) := by
  cases isSlice <;> cases h : p.inSlice <;> simp [eligible, h]

/-- C17: report determinism.  A second run of `getIceType` (respectively `getIceTypePlus`) on the
frame left by the first run returns the same frame, hence the same tags, and the same line; and
a run on a frame that differs from the given one only in the tags of its particles succeeds
with the same line and the same particle, tag included, at every eligible index. -/
theorem report_determinism (yCloud : PointCloud) (isSlice : Bool)
    (out : PointCloud × List Int) :
    (getIceType yCloud isSlice = some out →
      getIceType out.1 isSlice = some out ∧
      ∀ y' : PointCloud, noTags y' = noTags yCloud →
        ∃ out', getIceType y' isSlice = some out' ∧ out'.2 = out.2 ∧
          ∀ (i : Nat) (p : Point), i < yCloud.nop → yCloud.pts[i]? = some p →
            (isSlice = true → p.inSlice = true) → out'.1.pts[i]? = out.1.pts[i]?) ∧
    (getIceTypePlus yCloud isSlice = some out →
      getIceTypePlus out.1 isSlice = some out ∧
      ∀ y' : PointCloud, noTags y' = noTags yCloud →
        ∃ out', getIceTypePlus y' isSlice = some out' ∧ out'.2 = out.2 ∧
          ∀ (i : Nat) (p : Point), i < yCloud.nop → yCloud.pts[i]? = some p →
            (isSlice = true → p.inSlice = true) → out'.1.pts[i]? = out.1.pts[i]?) := by
  constructor
  · intro hrun
    obtain ⟨t, hfold, hline⟩ := (getIceType_run yCloud isSlice out).mp hrun
    obtain ⟨h1, h2⟩ :=
      tagStep_fold_rerun chillStepTag chillStepTag_inv isSlice yCloud (out.1, t) hfold
    refine ⟨(getIceType_run out.1 isSlice out).mpr ⟨t, h1, hline⟩, fun y' hy' => ?_⟩
    obtain ⟨out', hrun', ht, hcf, hrel⟩ := h2 y' hy'
    refine ⟨(out'.1, [out'.1.currentFrame, (out'.2.ic : Int), (out'.2.ih : Int),
        (out'.2.interIce : Int), (out'.2.water : Int), (out'.2.total : Int)]),
      (getIceType_run y' isSlice _).mpr ⟨out'.2, hrun', rfl⟩, ?_,
      fun i p hi hp he => hrel i p hi hp ((eligible_iff isSlice p).mpr he)⟩
    dsimp only at ht hcf ⊢
    rw [hline, ht, hcf]
  · intro hrun
    obtain ⟨t, hfold, hline⟩ := (getIceTypePlus_run yCloud isSlice out).mp hrun
    obtain ⟨h1, h2⟩ :=
      tagStep_fold_rerun chillPlusStepTag chillPlusStepTag_inv isSlice yCloud (out.1, t) hfold
    refine ⟨(getIceTypePlus_run out.1 isSlice out).mpr ⟨t, h1, hline⟩, fun y' hy' => ?_⟩
    obtain ⟨out', hrun', ht, hcf, hrel⟩ := h2 y' hy'
    refine ⟨(out'.1, [out'.1.currentFrame, (out'.2.ic : Int), (out'.2.ih : Int),
        (out'.2.interIce : Int), (out'.2.clath : Int), (out'.2.interClath : Int),
        (out'.2.water : Int), (out'.2.total : Int)]),
      (getIceTypePlus_run y' isSlice _).mpr ⟨out'.2, hrun', rfl⟩, ?_,
      fun i p hi hp he => hrel i p hi hp ((eligible_iff isSlice p).mpr he)⟩
    dsimp only at ht hcf ⊢
    rw [hline, ht, hcf]

/-- Witness of C17 on `exampleFrame`: the second run of `getIceTypePlus` returns the frame and
the line of the first run. -/
theorem report_determinism_witness :
    getIceTypePlus (exampleFrame atom_state_type.water atom_state_type.cubic
      atom_state_type.unclassified atom_state_type.clathrate atom_state_type.hexagonal)
      false =
      some (exampleFrame atom_state_type.interfacial atom_state_type.interfacial
        atom_state_type.cubic atom_state_type.hexagonal atom_state_type.clathrate,
        [0, 1, 1, 2, 1, 0, 0, 5]) ∧
    getIceTypePlus (exampleFrame atom_state_type.interfacial atom_state_type.interfacial
        atom_state_type.cubic atom_state_type.hexagonal atom_state_type.clathrate) false =
      some (exampleFrame atom_state_type.interfacial atom_state_type.interfacial
        atom_state_type.cubic atom_state_type.hexagonal atom_state_type.clathrate,
        [0, 1, 1, 2, 1, 0, 0, 5]) :=
  ⟨by rfl, ((report_determinism
    (exampleFrame atom_state_type.water atom_state_type.cubic
      atom_state_type.unclassified atom_state_type.clathrate atom_state_type.hexagonal)
    false
    (exampleFrame atom_state_type.interfacial atom_state_type.interfacial
        atom_state_type.cubic atom_state_type.hexagonal atom_state_type.clathrate,
        [0, 1, 1, 2, 1, 0, 0, 5])).2 (by rfl)).1⟩


/-! ### The sums of a bond correlation -/

theorem Cplx_mul_comm (a b : Cplx) : Cplx.mul a b = Cplx.mul b a := by
  simp only [Cplx.mul, Cplx.mk.injEq]
  constructor <;> ring

theorem getCorrel_sums_swap (qI qJ : List Cplx) :
    ∀ (ms : List Nat) (d a b : Cplx),
      getCorrel.sums qJ qI ms (Cplx.conj d, b, a) =
        (getCorrel.sums qI qJ ms (d, a, b)).map (fun r => (Cplx.conj r.1, r.2.2, r.2.1)) := by
  intro ms
  induction ms with
  | nil => intro d a b; rfl
  | cons m rest ih =>
    intro d a b
    unfold getCorrel.sums
    cases hI : qI[m]? with
    | none => cases qJ[m]? <;> rfl
    | some x =>
      cases hJ : qJ[m]? with
      | none => rfl
      | some y =>
        dsimp only
        rw [← ih]
        congr 3
        simp only [Cplx.add, Cplx.mul, Cplx.conj, Cplx.mk.injEq]
        constructor <;> ring

theorem getCorrel_sums_norm (qI qJ : List Cplx) :
    ∀ (ms : List Nat) (d a b d' a' b' : Cplx),
      getCorrel.sums qI qJ ms (d, a, b) = some (d', a', b') →
      a.im = 0 → b.im = 0 → 0 ≤ a.re → 0 ≤ b.re →
      a'.im = 0 ∧ b'.im = 0 ∧ 0 ≤ a'.re ∧ 0 ≤ b'.re := by
  intro ms
  induction ms with
  | nil =>
    intro d a b d' a' b' h ha hb ha' hb'
    unfold getCorrel.sums at h
    injection h with h
    injection h with h1 h2
    injection h2 with h2 h3
    subst h2 h3
    exact ⟨ha, hb, ha', hb'⟩
  | cons m rest ih =>
    intro d a b d' a' b' h ha hb ha' hb'
    unfold getCorrel.sums at h
    cases hI : qI[m]? with
    | none => rw [hI] at h; cases hJ : qJ[m]? <;> rw [hJ] at h <;> simp at h
    | some x =>
      cases hJ : qJ[m]? with
      | none => rw [hI, hJ] at h; simp at h
      | some y =>
        rw [hI, hJ] at h
        dsimp only at h
        refine ih _ _ _ d' a' b' h ?_ ?_ ?_ ?_
        · simp only [Cplx.add, Cplx.mul, Cplx.conj, ha]
          ring
        · simp only [Cplx.add, Cplx.mul, Cplx.conj, hb]
          ring
        · simp only [Cplx.add, Cplx.mul, Cplx.conj]
          nlinarith [mul_self_nonneg x.re, mul_self_nonneg x.im]
        · simp only [Cplx.add, Cplx.mul, Cplx.conj]
          nlinarith [mul_self_nonneg y.re, mul_self_nonneg y.im]

/-- The value of lines 326-342 for the bond from `i` to `j` is the value for the bond from `j`
to `i`, as soon as the square root of a non-negative real number is real. -/
theorem cij_real_symm (csqrt : Cplx → Cplx)
    (hsqrt : ∀ r : ℚ, 0 ≤ r → (csqrt ⟨r, 0⟩).im = 0) (ptq : List (List Cplx)) (i j : Nat) :
    getCorrel.cij_real csqrt ptq i j = getCorrel.cij_real csqrt ptq j i := by
  unfold getCorrel.cij_real
  cases hI : ptq[i]? with
  | none => cases ptq[j]? <;> rfl
  | some qI =>
    cases hJ : ptq[j]? with
    | none => rfl
    | some qJ =>
      dsimp only
      have hswap := getCorrel_sums_swap qI qJ (List.range (2 * 3 + 1)) ⟨0, 0⟩ ⟨0, 0⟩ ⟨0, 0⟩
      have hc : Cplx.conj ⟨0, 0⟩ = (⟨0, 0⟩ : Cplx) := by simp [Cplx.conj]
      rw [hc] at hswap
      rw [hswap]
      cases hs : getCorrel.sums qI qJ (List.range (2 * 3 + 1)) (⟨0, 0⟩, ⟨0, 0⟩, ⟨0, 0⟩) with
      | none => rfl
      | some r =>
        obtain ⟨d, a, b⟩ := r
        obtain ⟨ha, hb, ha', hb'⟩ := getCorrel_sums_norm qI qJ _ _ _ _ d a b hs rfl rfl
          (le_refl 0) (le_refl 0)
        simp only [Option.map_some', Option.some.injEq]
        rw [Cplx_mul_comm b a]
        have hprod : Cplx.mul a b = ⟨a.re * b.re, 0⟩ := by
          simp [Cplx.mul, ha, hb]
        have him : (csqrt (Cplx.mul a b)).im = 0 := by
          rw [hprod]
          exact hsqrt _ (mul_nonneg ha' hb')
        simp [Cplx.divRe, Cplx.conj, him]


/-! ### Bond results after a correlation pass -/

/-- The bond results of a processed particle after a correlation pass: the results it held,
followed by one result per neighbour in neighbour-list order. -/
theorem correl_entries (label : Dbl → Result) (cij : Nat → Nat → Dbl) (isSlice : Bool)
    (y out : PointCloud)
    (h : (List.range y.nop).foldlM (correlStep label cij isSlice) y = some out)
    (i : Nat) (hi : i < y.nop) (p : Point) (hp : y.pts[i]? = some p)
    (helig : isSlice = true → p.inSlice = true) :
    ∃ q, out.pts[i]? = some q ∧ q.neighList = p.neighList ∧
      q.c_ij = p.c_ij ++ p.neighList.map (fun j => label (cij i j)) ∧
      (p.c_ij = [] → q.c_ij.length = q.neighList.length ∧
        ∀ (j jatom : Nat), q.neighList[j]? = some jatom →
          q.c_ij[j]? = some (label (cij i jatom))) := by
  have hel : ¬ (isSlice = true ∧ p.inSlice = false) := by
    rintro ⟨h1, h2⟩
    rw [helig h1] at h2
    exact absurd h2 (by simp)
  obtain ⟨_, _, hproc⟩ := correl_pass label cij isSlice y out h i hi p hp
  obtain ⟨_, hq⟩ := hproc hel
  refine ⟨_, hq, rfl, rfl, fun hfresh => ?_⟩
  dsimp only
  rw [hfresh, List.nil_append]
  refine ⟨by simp, fun j jatom hj => ?_⟩
  rw [List.getElem?_map, hj]
  rfl

/-! ### The bond correlation is symmetric -/

/-- C18, refuted as stated: no averaged vectors and no pair of particles give a value of lines
326-342 for the bond from `i` to `j` that differs from the value for the bond from `j` to `i`,
the square root of a non-negative real number being real. -/
theorem correlation_asymmetric_counterexample :
    ¬ ∃ (csqrt : Cplx → Cplx) (ptq : List (List Cplx)) (i j : Nat),
      (∀ r : ℚ, 0 ≤ r → (csqrt ⟨r, 0⟩).im = 0) ∧
      getCorrel.cij_real csqrt ptq i j ≠ getCorrel.cij_real csqrt ptq j i := by
  rintro ⟨csqrt, ptq, i, j, hsqrt, hne⟩
  exact hne (cij_real_symm csqrt hsqrt ptq i j)

/-- C18, amended: the bond correlation is symmetric.  When the correlation values of a pass are
those of lines 326-342 and two processed particles `i` and `j` without earlier bond results are
in each other's neighbour lists, the `c_value` stored for the bond from `i` to `j` equals the
`c_value` stored for the bond from `j` to `i`. -/
theorem correlation_symmetric (csqrt : Cplx → Cplx)
    (hsqrt : ∀ r : ℚ, 0 ≤ r → (csqrt ⟨r, 0⟩).im = 0)
    (ptq : List (List Cplx)) (cij : Nat → Nat → Dbl) (yCloud : PointCloud)
    (hcij : ∀ a b : Nat, a < yCloud.nop → b < yCloud.nop →
      getCorrel.cij_real csqrt ptq a b = some (cij a b))
    (isSlice : Bool) (y1 : PointCloud)
    (hrun : getCorrel cij yCloud isSlice = some y1 ∨
      getCorrelPlus cij yCloud isSlice = some y1)
    (i j : Nat) (hi : i < yCloud.nop) (hj : j < yCloud.nop) (p q : Point)
    (hp : yCloud.pts[i]? = some p) (hq : yCloud.pts[j]? = some q)
    (hep : isSlice = true → p.inSlice = true) (heq : isSlice = true → q.inSlice = true)
    (hfp : p.c_ij = []) (hfq : q.c_ij = [])
    (a b : Nat) (ha : p.neighList[a]? = some j) (hb : q.neighList[b]? = some i) :
    ∃ (p1 q1 : Point) (ri rj : Result), y1.pts[i]? = some p1 ∧ y1.pts[j]? = some q1 ∧
      p1.c_ij[a]? = some ri ∧ q1.c_ij[b]? = some rj ∧
      ri.c_value = cij i j ∧ rj.c_value = cij j i ∧ ri.c_value = rj.c_value := by
  have hsym : cij i j = cij j i := by
    have h1 := hcij i j hi hj
    have h2 := hcij j i hj hi
    rw [cij_real_symm csqrt hsqrt ptq i j, h2] at h1
    injection h1 with h1
    exact h1.symm
  rcases hrun with hrun | hrun
  · obtain ⟨p1, hp1, hn1, _, hf1⟩ := correl_entries getCorrel.temp_cij cij isSlice yCloud y1
      hrun i hi p hp hep
    obtain ⟨q1, hq1, hn2, _, hf2⟩ := correl_entries getCorrel.temp_cij cij isSlice yCloud y1
      hrun j hj q hq heq
    exact ⟨p1, q1, _, _, hp1, hq1, (hf1 hfp).2 a j (by rw [hn1]; exact ha),
      (hf2 hfq).2 b i (by rw [hn2]; exact hb), rfl, rfl, hsym⟩
  · obtain ⟨p1, hp1, hn1, _, hf1⟩ := correl_entries getCorrelPlus.temp_cij cij isSlice yCloud
      y1 hrun i hi p hp hep
    obtain ⟨q1, hq1, hn2, _, hf2⟩ := correl_entries getCorrelPlus.temp_cij cij isSlice yCloud
      y1 hrun j hj q hq heq
    exact ⟨p1, q1, _, _, hp1, hq1, (hf1 hfp).2 a j (by rw [hn1]; exact ha),
      (hf2 hfq).2 b i (by rw [hn2]; exact hb), rfl, rfl, hsym⟩

/-- Witness of C18 on `examplePair`, with the averaged vectors `examplePtq`: both bonds get the
correlation value `1/2`. -/
theorem correlation_symmetric_witness :
    exampleQ 0 1 = Dbl.val (1 / 2) ∧ exampleQ 1 0 = Dbl.val (1 / 2) ∧
    ∃ y1, getCorrel exampleQ (examplePair []) false = some y1 ∧
      ∃ (p1 q1 : Point) (ri rj : Result), y1.pts[0]? = some p1 ∧ y1.pts[1]? = some q1 ∧
        p1.c_ij[0]? = some ri ∧ q1.c_ij[0]? = some rj ∧
        ri.c_value = exampleQ 0 1 ∧ rj.c_value = exampleQ 1 0 ∧ ri.c_value = rj.c_value := by
  refine ⟨by decide!, by decide!, ?_⟩
  have hsome : (getCorrel exampleQ (examplePair []) false).isSome = true := by decide!
  obtain ⟨y1, hy1⟩ := Option.isSome_iff_exists.mp hsome
  refine ⟨y1, hy1, ?_⟩
  exact correlation_symmetric exampleSqrt (fun _ _ => rfl) examplePtq exampleQ (examplePair [])
    (by
      intro a b ha hb
      have ha' : a < 2 := ha
      have hb' : b < 2 := hb
      interval_cases a <;> interval_cases b <;> decide!)
    false y1 (Or.inl hy1) 0 1 (by decide) (by decide)
    (examplePoint [1] [] atom_state_type.unclassified)
    (examplePoint [0] [] atom_state_type.unclassified) (by rfl) (by rfl)
    (fun _ => rfl) (fun _ => rfl) (by rfl) (by rfl) 0 0 (by rfl) (by rfl)

/-! ### Bond results are appended -/

/-- C19, refuted as stated: particle 0 of `examplePair` holds one bond result and has one
neighbour; after `getCorrel` it holds two bond results, the old one first. -/
theorem correl_overwrite_counterexample :
    ∃ (y1 : PointCloud) (q : Point),
      getCorrel (fun _ _ => Dbl.val (-0.9)) (examplePair [bond_type.out_of_range]) false =
        some y1 ∧
      y1.pts[0]? = some q ∧ q.neighList = [1] ∧
      q.c_ij = [⟨bond_type.out_of_range, Dbl.nan⟩, ⟨bond_type.staggered, Dbl.val (-0.9)⟩] ∧
      q.c_ij.length ≠ q.neighList.length := by
  have hsome : ((getCorrel (fun _ _ => Dbl.val (-0.9)) (examplePair [bond_type.out_of_range])
      false).bind (fun y => y.pts[0]?)).isSome = true := by decide!
  have hval : ∀ q, (getCorrel (fun _ _ => Dbl.val (-0.9))
      (examplePair [bond_type.out_of_range]) false).bind (fun y => y.pts[0]?) = some q →
      q.neighList = [1] ∧
      q.c_ij = [⟨bond_type.out_of_range, Dbl.nan⟩, ⟨bond_type.staggered, Dbl.val (-0.9)⟩] := by
    decide!
  obtain ⟨q, hq⟩ := Option.isSome_iff_exists.mp hsome
  obtain ⟨y1, hy1, hq1⟩ := Option.bind_eq_some.mp hq
  obtain ⟨h1, h2⟩ := hval q hq
  refine ⟨y1, q, hy1, hq1, h1, h2, ?_⟩
  rw [h1, h2]
  decide


/-- C19, amended: for every particle processed by `getCorrel` (respectively `getCorrelPlus`),
after the call its bond results are the results it held before the call followed by one result
per neighbour, in neighbour-list order; for a particle that held no bond result before the call
there are exactly as many entries as neighbours and entry `j` is the result computed for the
`j`-th neighbour. -/
theorem correl_appends (cij : Nat → Nat → Dbl) (yCloud : PointCloud) (isSlice : Bool)
    (y1 : PointCloud) (iatom : Nat) (hi : iatom < yCloud.nop) (p : Point)
    (hp : yCloud.pts[iatom]? = some p) (helig : isSlice = true → p.inSlice = true) :
    (getCorrel cij yCloud isSlice = some y1 →
      ∃ q, y1.pts[iatom]? = some q ∧ q.neighList = p.neighList ∧
        q.c_ij = p.c_ij ++ p.neighList.map (fun j => getCorrel.temp_cij (cij iatom j)) ∧
        (p.c_ij = [] → q.c_ij.length = q.neighList.length ∧
          ∀ (j jatom : Nat), q.neighList[j]? = some jatom →
            q.c_ij[j]? = some (getCorrel.temp_cij (cij iatom jatom)))) ∧
    (getCorrelPlus cij yCloud isSlice = some y1 →
      ∃ q, y1.pts[iatom]? = some q ∧ q.neighList = p.neighList ∧
        q.c_ij = p.c_ij ++ p.neighList.map (fun j => getCorrelPlus.temp_cij (cij iatom j)) ∧
        (p.c_ij = [] → q.c_ij.length = q.neighList.length ∧
          ∀ (j jatom : Nat), q.neighList[j]? = some jatom →
            q.c_ij[j]? = some (getCorrelPlus.temp_cij (cij iatom jatom)))) :=
  ⟨fun hrun => correl_entries getCorrel.temp_cij cij isSlice yCloud y1 hrun iatom hi p hp helig,
    fun hrun =>
      correl_entries getCorrelPlus.temp_cij cij isSlice yCloud y1 hrun iatom hi p hp helig⟩

/-- Witness of C19 on `exampleFresh`, every correlation value being `-0.9`: particle 0 ends with
four bond results for its four neighbours. -/
theorem correl_appends_witness :
    getCorrel (fun _ _ => Dbl.val (-0.9)) exampleFresh false =
      some (exampleCorrelated atom_state_type.unclassified) ∧
    ∃ q, (exampleCorrelated atom_state_type.unclassified).pts[0]? = some q ∧
      q.neighList = [1, 2, 3, 4] ∧
      q.c_ij = [] ++ [1, 2, 3, 4].map
        (fun _ => getCorrel.temp_cij (Dbl.val (-0.9))) ∧
      q.c_ij.length = q.neighList.length := by
  have hrun : getCorrel (fun _ _ => Dbl.val (-0.9)) exampleFresh false =
      some (exampleCorrelated atom_state_type.unclassified) := by decide!
  refine ⟨hrun, ?_⟩
  obtain ⟨q, hq, hn, hc, hf⟩ := (correl_appends (fun _ _ => Dbl.val (-0.9)) exampleFresh false
    (exampleCorrelated atom_state_type.unclassified) 0 (by decide)
    (examplePoint [1, 2, 3, 4] [] atom_state_type.unclassified) (by rfl) (fun _ => rfl)).1 hrun
  exact ⟨q, hq, hn, hc, (hf rfl).1⟩

/-! ### Bond results read by the ice-type passes -/

/-- C20, a failing input.  Every neighbour-list entry of `exampleFresh3` and of
`exampleFreshSlice` is a particle index and the bond results are those of the correlation pass
run with the same `isSlice`; yet `getIceType` reads the bond result 3 of a particle that has 3
neighbours and 3 bond results, and `getIceType` and `getIceTypePlus` read, through
`isInterfacial` and `numStaggered`, the bond result 0 of the neighbour 4, which lies outside
the slice and holds no bond result. -/
theorem getIceType_reads_missing_bond :
    (∀ p ∈ exampleFresh3.pts, ∀ j ∈ p.neighList, j < exampleFresh3.nop) ∧
    (∃ y1, getCorrel (fun _ _ => Dbl.val (-0.9)) exampleFresh3 false = some y1 ∧
      (∀ p ∈ y1.pts, p.c_ij.length = 3) ∧ getIceType y1 false = none) ∧
    (∀ p ∈ exampleFreshSlice.pts, ∀ j ∈ p.neighList, j < exampleFreshSlice.nop) ∧
    (∃ y1, getCorrel exampleCij exampleFreshSlice true = some y1 ∧
      numStaggered y1 4 = none ∧ isInterfacial y1 0 2 0 = none ∧
      getIceType y1 true = none) ∧
    (∃ y1, getCorrelPlus exampleCij exampleFreshSlice true = some y1 ∧
      numStaggered y1 4 = none ∧ isInterfacial y1 0 2 0 = none ∧
      getIceTypePlus y1 true = none) := by
  have key : ∀ (o : Option PointCloud) (P : PointCloud → Prop),
      o.isSome = true → (∀ y, o = some y → P y) → ∃ y1, o = some y1 ∧ P y1 := by
    intro o P h1 h2
    obtain ⟨y1, hy1⟩ := Option.isSome_iff_exists.mp h1
    exact ⟨y1, hy1, h2 y1 hy1⟩
  refine ⟨by decide, key _ _ (by decide!) (by decide!), by decide,
    key _ _ (by decide!) (by decide!), key _ _ (by decide!) (by decide!)⟩


/-! ### One tag per particle -/

theorem chillTag_cases (s e : Nat) (b : Option Bool) :
    (chillTag s e b = atom_state_type.cubic ∨ chillTag s e b = atom_state_type.hexagonal ∨
      chillTag s e b = atom_state_type.interfacial ∨ chillTag s e b = atom_state_type.water) ∧
    (¬ 4 ≤ s → ¬ (e = 1 ∧ s = 3) → b ≠ some true → chillTag s e b = atom_state_type.water) := by
  unfold chillTag
  constructor
  · split_ifs <;> simp
  · intro h1 h2 h3
    rw [if_neg h1, if_neg h2, if_neg h3]

theorem chillPlusTag_cases (n s e : Nat) (b : Option Bool) :
    (chillPlusTag n s e b = atom_state_type.cubic ∨
      chillPlusTag n s e b = atom_state_type.hexagonal ∨
      chillPlusTag n s e b = atom_state_type.interfacial ∨
      chillPlusTag n s e b = atom_state_type.clathrate ∨
      chillPlusTag n s e b = atom_state_type.interClathrate ∨
      chillPlusTag n s e b = atom_state_type.water) ∧
    (n ≠ 4 → chillPlusTag n s e b = atom_state_type.water) ∧
    (¬ (e = 0 ∧ s = 4) → ¬ (e = 1 ∧ s = 3) → b ≠ some true → ¬ (e = 4 ∧ s = 0) → e ≠ 3 →
      chillPlusTag n s e b = atom_state_type.water) := by
  unfold chillPlusTag
  refine ⟨?_, ?_, ?_⟩
  · split_ifs <;> simp
  · intro h
    rw [if_neg h]
  · intro h1 h2 h3 h4 h5
    rw [if_neg h1, if_neg h2, if_neg h3, if_neg h4, if_neg h5]
    split_ifs <;> rfl

/-- C22: after an ice-type pass every eligible particle holds a tag that is not unclassified.
Under `getIceType` the tag is cubic, hexagonal, interfacial or water, and it is water when the
particle has fewer than 4 staggered bonds, not 1 eclipsed and 3 staggered bonds, and fails the
interfacial test.  Under `getIceTypePlus` the tag is cubic, hexagonal, interfacial, clathrate,
interClathrate or water, and it is water when the neighbour count is not 4 or every test of the
decision tree fails. -/
theorem one_tag_per_particle (yCloud : PointCloud) (isSlice : Bool)
    (out : PointCloud × List Int) (iatom : Nat) (hi : iatom < yCloud.nop) (p : Point)
    (hp : yCloud.pts[iatom]? = some p) (helig : isSlice = true → p.inSlice = true) :
    (getIceType yCloud isSlice = some out →
      ∃ q, out.1.pts[iatom]? = some q ∧ q.iceType ≠ atom_state_type.unclassified ∧
        (q.iceType = atom_state_type.cubic ∨ q.iceType = atom_state_type.hexagonal ∨
          q.iceType = atom_state_type.interfacial ∨ q.iceType = atom_state_type.water) ∧
        (¬ 4 ≤ numLabel bond_type.staggered (p.c_ij.take 4) →
          ¬ (numLabel bond_type.eclipsed (p.c_ij.take 4) = 1 ∧
            numLabel bond_type.staggered (p.c_ij.take 4) = 3) →
          isInterfacial yCloud iatom (numLabel bond_type.staggered (p.c_ij.take 4))
            (numLabel bond_type.eclipsed (p.c_ij.take 4)) ≠ some true →
          q.iceType = atom_state_type.water)) ∧
    (getIceTypePlus yCloud isSlice = some out →
      ∃ q, out.1.pts[iatom]? = some q ∧ q.iceType ≠ atom_state_type.unclassified ∧
        (q.iceType = atom_state_type.cubic ∨ q.iceType = atom_state_type.hexagonal ∨
          q.iceType = atom_state_type.interfacial ∨ q.iceType = atom_state_type.clathrate ∨
          q.iceType = atom_state_type.interClathrate ∨ q.iceType = atom_state_type.water) ∧
        (p.neighList.length ≠ 4 → q.iceType = atom_state_type.water) ∧
        (¬ (numLabel bond_type.eclipsed (p.c_ij.take p.neighList.length) = 0 ∧
            numLabel bond_type.staggered (p.c_ij.take p.neighList.length) = 4) →
          ¬ (numLabel bond_type.eclipsed (p.c_ij.take p.neighList.length) = 1 ∧
            numLabel bond_type.staggered (p.c_ij.take p.neighList.length) = 3) →
          isInterfacial yCloud iatom
            (numLabel bond_type.staggered (p.c_ij.take p.neighList.length))
            (numLabel bond_type.eclipsed (p.c_ij.take p.neighList.length)) ≠ some true →
          ¬ (numLabel bond_type.eclipsed (p.c_ij.take p.neighList.length) = 4 ∧
            numLabel bond_type.staggered (p.c_ij.take p.neighList.length) = 0) →
          numLabel bond_type.eclipsed (p.c_ij.take p.neighList.length) ≠ 3 →
          q.iceType = atom_state_type.water)) := by
  have hel : ¬ (isSlice = true ∧ p.inSlice = false) := by
    rintro ⟨h1, h2⟩
    rw [helig h1] at h2
    exact absurd h2 (by simp)
  constructor
  · intro hrun
    obtain ⟨_, _, hq⟩ := (getIceType_pass yCloud isSlice out hrun iatom hi p hp).2 hel
    obtain ⟨hc, hw⟩ := chillTag_cases (numLabel bond_type.staggered (p.c_ij.take 4))
      (numLabel bond_type.eclipsed (p.c_ij.take 4))
      (isInterfacial yCloud iatom (numLabel bond_type.staggered (p.c_ij.take 4))
        (numLabel bond_type.eclipsed (p.c_ij.take 4)))
    refine ⟨_, hq, ?_, hc, hw⟩
    dsimp only
    rcases hc with h | h | h | h <;> rw [h] <;> decide
  · intro hrun
    obtain ⟨_, _, hq⟩ := (getIceTypePlus_pass yCloud isSlice out hrun iatom hi p hp).2 hel
    obtain ⟨hc, hn, hw⟩ := chillPlusTag_cases p.neighList.length
      (numLabel bond_type.staggered (p.c_ij.take p.neighList.length))
      (numLabel bond_type.eclipsed (p.c_ij.take p.neighList.length))
      (isInterfacial yCloud iatom
        (numLabel bond_type.staggered (p.c_ij.take p.neighList.length))
        (numLabel bond_type.eclipsed (p.c_ij.take p.neighList.length)))
    refine ⟨_, hq, ?_, hc, hn, hw⟩
    dsimp only
    rcases hc with h | h | h | h | h | h <;> rw [h] <;> decide

/-- Witness of C22 on `exampleFrame`: particle 4, with four eclipsed bonds, fails every test of
`getIceType` and is tagged water. -/
theorem one_tag_per_particle_witness :
    getIceType (exampleFrame atom_state_type.unclassified atom_state_type.unclassified
      atom_state_type.unclassified atom_state_type.unclassified atom_state_type.unclassified)
      false =
      some (exampleFrame atom_state_type.interfacial atom_state_type.interfacial
        atom_state_type.cubic atom_state_type.hexagonal atom_state_type.water,
        [0, 1, 1, 2, 1, 5]) ∧
    ∃ q, (exampleFrame atom_state_type.interfacial atom_state_type.interfacial
        atom_state_type.cubic atom_state_type.hexagonal atom_state_type.water).pts[4]? =
        some q ∧ q.iceType ≠ atom_state_type.unclassified ∧
      q.iceType = atom_state_type.water := by
  refine ⟨by rfl, ?_⟩
  obtain ⟨q, hq, hne, _, hw⟩ := (one_tag_per_particle
    (exampleFrame atom_state_type.unclassified atom_state_type.unclassified
      atom_state_type.unclassified atom_state_type.unclassified atom_state_type.unclassified)
    false
    (exampleFrame atom_state_type.interfacial atom_state_type.interfacial
        atom_state_type.cubic atom_state_type.hexagonal atom_state_type.water,
        [0, 1, 1, 2, 1, 5]) 4 (by decide)
    (examplePoint [0, 1, 2, 3] [bond_type.eclipsed, bond_type.eclipsed,
      bond_type.eclipsed, bond_type.eclipsed] atom_state_type.unclassified)
    (by rfl) (fun _ => rfl)).1 (by rfl)
  exact ⟨q, hq, hne, hw (by decide) (by decide) (by decide)⟩


/-! ### NaN correlation values -/

theorem newTag_nan (q : Dbl) (rs : List Result)
    (h : q = Dbl.nan ∨ reclassifyWater.avgQ3 rs = Dbl.nan) :
    reclassifyWater.newTag q rs = atom_state_type.water := by
  unfold reclassifyWater.newTag
  rw [if_neg]
  rintro ⟨h1, h2⟩
  rcases h with h | h
  · rw [h] at h1
    exact Dbl_lt_nan _ h1
  · rw [h] at h2
    exact Dbl_nan_le _ h2

/-- C28: a bond whose correlation value is NaN is labelled out of range by `getCorrel` and by
`getCorrelPlus`; the counting loop of the ice-type passes counts such a bond neither as
staggered nor as eclipsed; and `reclassifyWater` leaves a water particle as it is when its q6
value is NaN or the mean `avgQ3` of its correlation values is NaN. -/
theorem nan_bond_out_of_range :
    (getCorrel.temp_cij Dbl.nan).classifier = bond_type.out_of_range ∧
    (getCorrelPlus.temp_cij Dbl.nan).classifier = bond_type.out_of_range ∧
    (∀ (rs : List Result) (j : Nat) (rest : List Nat) (s e na : Nat),
      (rs[j]? = some (getCorrel.temp_cij Dbl.nan) ∨
        rs[j]? = some (getCorrelPlus.temp_cij Dbl.nan)) →
      countBonds rs (j :: rest) (s, e, na) = countBonds rs rest (s, e, na + 1)) ∧
    (∀ (yCloud : PointCloud) (q6 : List Dbl) (out : PointCloud) (iatom : Nat) (p : Point)
      (q : Dbl), reclassifyWater yCloud q6 = some out → iatom < yCloud.nop →
      yCloud.pts[iatom]? = some p → p.iceType = atom_state_type.water →
      q6[iatom]? = some q → (q = Dbl.nan ∨ reclassifyWater.avgQ3 p.c_ij = Dbl.nan) →
      out.pts[iatom]? = some p) := by
  have h1 : (getCorrel.temp_cij Dbl.nan).classifier = bond_type.out_of_range := by
    simp [getCorrel.temp_cij, Dbl_nan_lt, Dbl_lt_nan]
  have h2 : (getCorrelPlus.temp_cij Dbl.nan).classifier = bond_type.out_of_range := by
    simp [getCorrelPlus.temp_cij, Dbl_nan_le, Dbl_le_nan]
  refine ⟨h1, h2, ?_, ?_⟩
  · intro rs j rest s e na hj
    have hcl : ∃ r, rs[j]? = some r ∧ r.classifier = bond_type.out_of_range := by
      rcases hj with hj | hj
      · exact ⟨_, hj, h1⟩
      · exact ⟨_, hj, h2⟩
    obtain ⟨r, hr, hc⟩ := hcl
    simp only [countBonds, hr, hc]
    rw [if_neg (by decide), if_neg (by decide)]
  · intro yCloud q6 out iatom p q hrun hi hp hw hq hnan
    obtain ⟨_, _, hall⟩ := reclassify_pass yCloud q6 out hrun
    obtain ⟨p', hp', hcase⟩ := hall iatom hi
    rw [hp] at hp'
    cases hp'
    rcases hcase with ⟨hnw, _⟩ | ⟨_, q', hq', hout⟩
    · exact absurd hw hnw
    · rw [hq] at hq'
      cases hq'
      rw [hout, newTag_nan q p.c_ij hnan, ← hw]

/-- Witness of C28 on `exampleReclass`: particle 0 is water with a value `avgQ3` of about
`-0.9`; with a NaN q6 value it stays water. -/
theorem nan_bond_out_of_range_witness :
    reclassifyWater (exampleReclass atom_state_type.water atom_state_type.water
      atom_state_type.water atom_state_type.water)
      [Dbl.nan, Dbl.val 0.6, Dbl.val 0.6, Dbl.val 0.6] =
      some (exampleReclass atom_state_type.water atom_state_type.cubic
        atom_state_type.hexagonal atom_state_type.water) ∧
    (exampleReclass atom_state_type.water atom_state_type.cubic
        atom_state_type.hexagonal atom_state_type.water).pts[0]? =
      some (exampleWater [-0.95, -0.85] atom_state_type.water) ∧
    countBonds [getCorrel.temp_cij Dbl.nan] [0] (0, 0, 0) = some (0, 0, 1) := by
  have hrun : reclassifyWater (exampleReclass atom_state_type.water atom_state_type.water
      atom_state_type.water atom_state_type.water)
      [Dbl.nan, Dbl.val 0.6, Dbl.val 0.6, Dbl.val 0.6] =
      some (exampleReclass atom_state_type.water atom_state_type.cubic
        atom_state_type.hexagonal atom_state_type.water) := by decide!
  refine ⟨hrun, ?_, ?_⟩
  · exact nan_bond_out_of_range.2.2.2 _ _ _ 0
      (exampleWater [-0.95, -0.85] atom_state_type.water) Dbl.nan hrun (by decide) (by rfl)
      (by rfl) (by rfl) (Or.inl rfl)
  · rw [nan_bond_out_of_range.2.2.1 [getCorrel.temp_cij Dbl.nan] 0 [] 0 0 0 (Or.inl rfl)]
    rfl


/-! ### The ice cloud -/

/-- The loop of `getIceCloud` over the indices below `n`: it appends the particles among the
first `n` whose tag is not water, in order, and counts them. -/
theorem getIceCloud_fold (y ice0 : PointCloud) (k : Nat) :
    ∀ n, n ≤ y.pts.length →
      (List.range n).foldlM (getIceCloud.step y) (ice0, k) =
        some ({ ice0 with pts := ice0.pts ++
            (y.pts.take n).filter (fun p => decide (p.iceType ≠ atom_state_type.water)) },
          k + ((y.pts.take n).filter
            (fun p => decide (p.iceType ≠ atom_state_type.water))).length) := by
  intro n
  induction n with
  | zero =>
    intro _
    simp
  | succ n ih =>
    intro hn
    obtain ⟨p, hp⟩ := getElem?_of_lt y.pts n (by omega)
    rw [foldlM_range_succ]
    refine ⟨_, ih (by omega), ?_⟩
    rw [take_succ_of_getElem? y.pts n p hp, List.filter_append]
    unfold getIceCloud.step
    rw [hp]
    dsimp only
    by_cases hw : p.iceType = atom_state_type.water
    · rw [if_pos hw]
      simp [hw]
    · rw [if_neg hw]
      simp [hw, Nat.add_assoc]

/-- The ice cloud `getIceCloud` builds, for a frame that holds its `nop` particles. -/
theorem getIceCloud_eq (y iceCloud : PointCloud) (hnop : y.nop ≤ y.pts.length) :
    getIceCloud y iceCloud =
      some (y,
        { pts := iceCloud.pts ++
            (y.pts.take y.nop).filter (fun p => decide (p.iceType ≠ atom_state_type.water)),
          nop := ((y.pts.take y.nop).filter
            (fun p => decide (p.iceType ≠ atom_state_type.water))).length,
          box := y.box, boxLow := y.boxLow, currentFrame := y.currentFrame }) := by
  unfold getIceCloud
  rw [getIceCloud_fold y _ 0 y.nop hnop]
  simp

/-- C23: for a frame that holds its `nop` particles and an ice cloud without particles,
`getIceCloud` returns; the particles of the ice cloud are then the particles of the frame whose
tag is not water, in their order, `nop` is their number, the box, the box lower bound and the
frame index are those of the frame, and the frame is as it was. -/
theorem getIceCloud_subsequence (yCloud iceCloud : PointCloud)
    (hnop : yCloud.nop ≤ yCloud.pts.length) (hempty : iceCloud.pts = []) :
    ∃ ice, getIceCloud yCloud iceCloud = some (yCloud, ice) ∧
      ice.pts = (yCloud.pts.take yCloud.nop).filter
        (fun p => decide (p.iceType ≠ atom_state_type.water)) ∧
      (yCloud.nop = yCloud.pts.length → ice.pts = yCloud.pts.filter
        (fun p => decide (p.iceType ≠ atom_state_type.water))) ∧
      List.Sublist ice.pts yCloud.pts ∧
      ice.nop = ice.pts.length ∧ ice.box = yCloud.box ∧ ice.boxLow = yCloud.boxLow ∧
      ice.currentFrame = yCloud.currentFrame := by
  refine ⟨_, getIceCloud_eq yCloud iceCloud hnop, ?_, ?_, ?_, ?_, rfl, rfl, rfl⟩
  · simp [hempty]
  · intro h
    simp [hempty, h]
  · simp only [hempty, List.nil_append]
    exact (List.filter_sublist _).trans (List.take_sublist _ _)
  · simp [hempty]

/-- Witness of C23 on `exampleFrame`: the particles 1 and 3 are water, the ice cloud holds the
particles 0, 2 and 4. -/
theorem getIceCloud_subsequence_witness :
    ∃ ice, getIceCloud (exampleFrame atom_state_type.cubic atom_state_type.water
        atom_state_type.hexagonal atom_state_type.water atom_state_type.interfacial)
        exampleEmpty =
      some (exampleFrame atom_state_type.cubic atom_state_type.water
        atom_state_type.hexagonal atom_state_type.water atom_state_type.interfacial, ice) ∧
      ice.pts =
        [examplePoint [1, 2, 3, 4] [bond_type.staggered, bond_type.staggered,
          bond_type.out_of_range, bond_type.out_of_range] atom_state_type.cubic,
        examplePoint [0, 1, 3, 4] [bond_type.staggered, bond_type.staggered,
          bond_type.staggered, bond_type.staggered] atom_state_type.hexagonal,
        examplePoint [0, 1, 2, 3] [bond_type.eclipsed, bond_type.eclipsed,
          bond_type.eclipsed, bond_type.eclipsed] atom_state_type.interfacial] ∧
      ice.nop = 3 := by
  obtain ⟨ice, hrun, hpts, _, _, hn, _⟩ := getIceCloud_subsequence
    (exampleFrame atom_state_type.cubic atom_state_type.water
        atom_state_type.hexagonal atom_state_type.water atom_state_type.interfacial)
    exampleEmpty (by decide) rfl
  refine ⟨ice, hrun, ?_, ?_⟩
  · rw [hpts]
    rfl
  · rw [hn, hpts]
    rfl


/-- C24, a failing input.  `getIceType` run with `isSlice` true on `exampleSlice` skips
particle 4, which lies outside the slice and stays unclassified; `getIceCloud` then places this
particle in the ice cloud, which holds 5 particles. -/
theorem getIceCloud_takes_unclassified :
    getIceType (exampleSlice atom_state_type.unclassified atom_state_type.unclassified
      atom_state_type.unclassified atom_state_type.unclassified atom_state_type.unclassified)
      true =
      some (exampleSlice atom_state_type.interfacial atom_state_type.interfacial
        atom_state_type.cubic atom_state_type.hexagonal atom_state_type.unclassified,
        [0, 1, 1, 2, 0, 4]) ∧
    ∃ ice q, getIceCloud (exampleSlice atom_state_type.interfacial
        atom_state_type.interfacial atom_state_type.cubic atom_state_type.hexagonal
        atom_state_type.unclassified) exampleEmpty =
      some (exampleSlice atom_state_type.interfacial atom_state_type.interfacial
        atom_state_type.cubic atom_state_type.hexagonal atom_state_type.unclassified, ice) ∧
      ice.nop = 5 ∧ ice.pts[4]? = some q ∧ q.iceType = atom_state_type.unclassified ∧
      q.inSlice = false := by
  refine ⟨by rfl, _, _, getIceCloud_eq _ exampleEmpty (by decide), by rfl, by rfl, by rfl,
    by rfl⟩

/-! ### Neighbour lists in the ice cloud -/

/-- C25, refuted as stated: in `exampleFrame` with particle 0 tagged water every neighbour-list
entry is a particle index; the ice cloud holds 4 particles, its particle 0 is particle 1 of
the frame, and the neighbour list of this particle holds the entry 4, which is no index into
the ice cloud, and the entry 0, which designates another particle in the ice cloud than in the
frame. -/
theorem getIceCloud_neighbours_counterexample :
    (∀ p ∈ (exampleFrame atom_state_type.water atom_state_type.cubic atom_state_type.cubic
      atom_state_type.cubic atom_state_type.cubic).pts, ∀ j ∈ p.neighList,
      j < (exampleFrame atom_state_type.water atom_state_type.cubic atom_state_type.cubic
        atom_state_type.cubic atom_state_type.cubic).nop) ∧
    ∃ ice q, getIceCloud (exampleFrame atom_state_type.water atom_state_type.cubic
        atom_state_type.cubic atom_state_type.cubic atom_state_type.cubic) exampleEmpty =
      some (exampleFrame atom_state_type.water atom_state_type.cubic
        atom_state_type.cubic atom_state_type.cubic atom_state_type.cubic, ice) ∧
      ice.nop = 4 ∧ ice.pts[0]? = some q ∧ q.neighList = [0, 2, 3, 4] ∧ ¬ 4 < ice.nop ∧
      ice.pts[0]? = (exampleFrame atom_state_type.water atom_state_type.cubic
        atom_state_type.cubic atom_state_type.cubic atom_state_type.cubic).pts[1]? ∧
      ice.pts[0]? ≠ (exampleFrame atom_state_type.water atom_state_type.cubic
        atom_state_type.cubic atom_state_type.cubic atom_state_type.cubic).pts[0]? := by
  refine ⟨by decide, _, _, getIceCloud_eq _ exampleEmpty (by decide), by rfl, by rfl, by rfl,
    by decide, by rfl, by decide⟩

/-- C25, amended: `getIceCloud` copies every particle as it is, neighbour list included.  For a
frame whose neighbour-list entries are particle indices and an ice cloud without particles,
every particle of the ice cloud is a particle of the frame with a tag other than water, and
every entry of its neighbour list is an index into the frame, where it designates the particle
it designated before the call; the ice cloud has at most as many particles as the frame. -/
theorem getIceCloud_neighbours (yCloud iceCloud : PointCloud)
    (hnop : yCloud.nop ≤ yCloud.pts.length) (hempty : iceCloud.pts = [])
    (hvalid : ∀ p ∈ yCloud.pts.take yCloud.nop, ∀ j ∈ p.neighList, j < yCloud.nop) :
    ∃ y1 ice, getIceCloud yCloud iceCloud = some (y1, ice) ∧ y1 = yCloud ∧
      ice.nop ≤ yCloud.nop ∧
      ∀ q ∈ ice.pts, q ∈ yCloud.pts.take yCloud.nop ∧ q.iceType ≠ atom_state_type.water ∧
        ∀ j ∈ q.neighList, j < yCloud.nop ∧ y1.pts[j]? = yCloud.pts[j]? := by
  refine ⟨_, _, getIceCloud_eq yCloud iceCloud hnop, rfl, ?_, ?_⟩
  · dsimp only
    calc ((yCloud.pts.take yCloud.nop).filter _).length
        ≤ (yCloud.pts.take yCloud.nop).length := List.length_filter_le _ _
      _ ≤ yCloud.nop := by
        rw [List.length_take]
        exact Nat.min_le_left _ _
  · intro q hq
    dsimp only at hq
    rw [hempty, List.nil_append, List.mem_filter] at hq
    refine ⟨hq.1, by simpa using hq.2, fun j hj => ⟨hvalid q hq.1 j hj, rfl⟩⟩

/-- Witness of C25 on `exampleFrame` with particle 0 tagged water: the ice cloud holds 4
particles, whose neighbour-list entries are below 5. -/
theorem getIceCloud_neighbours_witness :
    ∃ y1 ice, getIceCloud (exampleFrame atom_state_type.water atom_state_type.cubic
        atom_state_type.cubic atom_state_type.cubic atom_state_type.cubic) exampleEmpty =
      some (y1, ice) ∧
      y1 = exampleFrame atom_state_type.water atom_state_type.cubic
        atom_state_type.cubic atom_state_type.cubic atom_state_type.cubic ∧
      ice.nop ≤ 5 ∧
      ∀ q ∈ ice.pts, q ∈ (exampleFrame atom_state_type.water atom_state_type.cubic
          atom_state_type.cubic atom_state_type.cubic atom_state_type.cubic).pts.take 5 ∧
        q.iceType ≠ atom_state_type.water ∧
        ∀ j ∈ q.neighList, j < 5 ∧ y1.pts[j]? =
          (exampleFrame atom_state_type.water atom_state_type.cubic
            atom_state_type.cubic atom_state_type.cubic atom_state_type.cubic).pts[j]? :=
  getIceCloud_neighbours
    (exampleFrame atom_state_type.water atom_state_type.cubic
      atom_state_type.cubic atom_state_type.cubic atom_state_type.cubic)
    exampleEmpty (by decide) rfl (by decide)


/-! ### What the CHILL tag depends on -/

theorem numStaggered_loop_congr (rs rs' : List Result) :
    ∀ (js : List Nat) (acc : Nat), (∀ j ∈ js, rs[j]? = rs'[j]?) →
      numStaggered.loop rs js acc = numStaggered.loop rs' js acc := by
  intro js
  induction js with
  | nil => intro acc _; rfl
  | cons j rest ih =>
    intro acc h
    unfold numStaggered.loop
    rw [← h j (List.mem_cons_self j rest)]
    cases rs[j]? with
    | none => rfl
    | some r =>
      dsimp only
      rw [ih _ (fun k hk => h k (List.mem_cons_of_mem j hk)),
        ih _ (fun k hk => h k (List.mem_cons_of_mem j hk))]

theorem getElem?_of_take_eq {α : Type} (l l' : List α) (n : Nat) (h : l.take n = l'.take n)
    (j : Nat) (hj : j < n) : l[j]? = l'[j]? := by
  have h1 : (l.take n)[j]? = (l'.take n)[j]? := by rw [h]
  rw [List.getElem?_take, List.getElem?_take, if_pos hj, if_pos hj] at h1
  exact h1

/-- The count `numStaggered` of a particle depends on its first 4 bond results and on its
neighbour count capped at 4. -/
theorem numStaggered_first_four (y y' : PointCloud) (jatom : Nat) (q q' : Point)
    (hq : y.pts[jatom]? = some q) (hq' : y'.pts[jatom]? = some q')
    (hc : q.c_ij.take 4 = q'.c_ij.take 4)
    (hn : min 4 q.neighList.length = min 4 q'.neighList.length) :
    numStaggered y jatom = numStaggered y' jatom := by
  unfold numStaggered
  rw [hq, hq']
  dsimp only
  have e1 : (if q.neighList.length < 4 then q.neighList.length else 4) =
      min 4 q.neighList.length := by
    split_ifs <;> omega
  have e2 : (if q'.neighList.length < 4 then q'.neighList.length else 4) =
      min 4 q'.neighList.length := by
    split_ifs <;> omega
  rw [e1, e2, ← hn]
  apply numStaggered_loop_congr
  intro j hj
  exact getElem?_of_take_eq _ _ 4 hc j (by
    have := List.mem_range.mp hj
    omega)

theorem isInterfacial_loop_congr (y y' : PointCloud) (nl nl' : List Nat) (test : Nat → Bool) :
    ∀ js : List Nat, (∀ j ∈ js, nl[j]? = nl'[j]?) →
      (∀ j ∈ js, ∀ jatom, nl[j]? = some jatom → numStaggered y jatom = numStaggered y' jatom) →
      isInterfacial.loop y nl test js = isInterfacial.loop y' nl' test js := by
  intro js
  induction js with
  | nil => intro _ _; rfl
  | cons j rest ih =>
    intro h1 h2
    unfold isInterfacial.loop
    rw [← h1 j (List.mem_cons_self j rest)]
    cases hj : nl[j]? with
    | none => rfl
    | some jatom =>
      dsimp only
      rw [← h2 j (List.mem_cons_self j rest) jatom hj,
        ih (fun k hk => h1 k (List.mem_cons_of_mem j hk))
          (fun k hk => h2 k (List.mem_cons_of_mem j hk))]

/-- The interfacial test of a particle with at least 4 neighbours depends on its first 4
neighbours and on their counts of staggered bonds. -/
theorem isInterfacial_first_four (y y' : PointCloud) (i s e : Nat) (p p' : Point)
    (hp : y.pts[i]? = some p) (hp' : y'.pts[i]? = some p')
    (hn : 4 ≤ p.neighList.length) (hn' : 4 ≤ p'.neighList.length)
    (hnl : p.neighList.take 4 = p'.neighList.take 4)
    (hneigh : ∀ jatom ∈ p.neighList.take 4, numStaggered y jatom = numStaggered y' jatom) :
    isInterfacial y i s e = isInterfacial y' i s e := by
  unfold isInterfacial
  rw [hp, hp']
  dsimp only
  have e1 : (if p.neighList.length < 4 then p.neighList.length else 4) = 4 :=
    if_neg (by omega)
  have e2 : (if p'.neighList.length < 4 then p'.neighList.length else 4) = 4 :=
    if_neg (by omega)
  rw [e1, e2]
  have hloop : ∀ test : Nat → Bool,
      isInterfacial.loop y p.neighList test (List.range 4) =
        isInterfacial.loop y' p'.neighList test (List.range 4) := by
    intro test
    apply isInterfacial_loop_congr
    · intro j hj
      exact getElem?_of_take_eq _ _ 4 hnl j (List.mem_range.mp hj)
    · intro j hj jatom hjat
      apply hneigh
      have hj4 : j < 4 := List.mem_range.mp hj
      have : (p.neighList.take 4)[j]? = some jatom := by
        rw [List.getElem?_take, if_pos hj4]
        exact hjat
      exact List.getElem?_mem this
  rw [hloop, hloop]


/-- C21, refuted as stated.  Frame `yA` is `exampleSix [0, 2, 3, 4]` after one run of
`getCorrel`, frame `yB` is `exampleSix [0, 2, 3]` after two runs.  Particle 0 has 5 neighbours
in both; the frames agree on its first 4 bond results, on its first 4 neighbours and on the
first 4 bond results of each of these neighbours.  Neighbour 1 has 4 neighbours in `yA` and 3 in
`yB`, so that 3 of its staggered bonds count in `yA` and 2 in `yB`: `getIceType` tags particle 0
interfacial in `yA` and water in `yB`. -/
theorem chill_first_four_counterexample :
    ∃ (yA yB : PointCloud) (outA outB : PointCloud × List Int) (p p' r r' : Point),
      getCorrel exampleSixCij (exampleSix [0, 2, 3, 4]) false = some yA ∧
      (getCorrel exampleSixCij (exampleSix [0, 2, 3]) false).bind
        (fun y => getCorrel exampleSixCij y false) = some yB ∧
      getIceType yA false = some outA ∧ getIceType yB false = some outB ∧
      yA.pts[0]? = some p ∧ yB.pts[0]? = some p' ∧
      4 < p.neighList.length ∧ 4 < p'.neighList.length ∧
      p.c_ij.take 4 = p'.c_ij.take 4 ∧ p.neighList.take 4 = [1, 2, 3, 4] ∧
      p'.neighList.take 4 = [1, 2, 3, 4] ∧
      (∀ jatom ∈ [1, 2, 3, 4], ∃ q q', yA.pts[jatom]? = some q ∧ yB.pts[jatom]? = some q' ∧
        q.c_ij.take 4 = q'.c_ij.take 4) ∧
      outA.1.pts[0]? = some r ∧ outB.1.pts[0]? = some r' ∧
      r.iceType = atom_state_type.interfacial ∧ r'.iceType = atom_state_type.water := by
  have hA : (getCorrel exampleSixCij (exampleSix [0, 2, 3, 4]) false).isSome = true := by
    decide!
  have hB : ((getCorrel exampleSixCij (exampleSix [0, 2, 3]) false).bind
      (fun y => getCorrel exampleSixCij y false)).isSome = true := by decide!
  obtain ⟨yA, hyA⟩ := Option.isSome_iff_exists.mp hA
  obtain ⟨yB, hyB⟩ := Option.isSome_iff_exists.mp hB
  have hoA : ∀ y, getCorrel exampleSixCij (exampleSix [0, 2, 3, 4]) false = some y →
      (getIceType y false).isSome = true := by decide!
  have hoB : ∀ y, (getCorrel exampleSixCij (exampleSix [0, 2, 3]) false).bind
      (fun y => getCorrel exampleSixCij y false) = some y →
      (getIceType y false).isSome = true := by decide!
  obtain ⟨outA, houtA⟩ := Option.isSome_iff_exists.mp (hoA yA hyA)
  obtain ⟨outB, houtB⟩ := Option.isSome_iff_exists.mp (hoB yB hyB)
  have hfA : ∀ y, getCorrel exampleSixCij (exampleSix [0, 2, 3, 4]) false = some y →
      ∀ o, getIceType y false = some o →
      ((y.pts[0]?).map (fun p => (p.neighList.take 4, p.c_ij.take 4,
          decide (4 < p.neighList.length))) =
        some ([1, 2, 3, 4], [⟨bond_type.staggered, Dbl.val (-0.9)⟩,
          ⟨bond_type.staggered, Dbl.val (-0.9)⟩, ⟨bond_type.out_of_range, Dbl.val 0.5⟩,
          ⟨bond_type.out_of_range, Dbl.val 0.5⟩], true) ∧
        ([1, 2, 3, 4].map (fun j => (y.pts[j]?).map (fun q => q.c_ij.take 4)) =
          [some [⟨bond_type.staggered, Dbl.val (-0.9)⟩, ⟨bond_type.staggered, Dbl.val (-0.9)⟩,
              ⟨bond_type.out_of_range, Dbl.val 0.5⟩, ⟨bond_type.staggered, Dbl.val (-0.9)⟩],
            some (List.replicate 4 ⟨bond_type.out_of_range, Dbl.val 0.5⟩),
            some (List.replicate 4 ⟨bond_type.out_of_range, Dbl.val 0.5⟩),
            some (List.replicate 4 ⟨bond_type.out_of_range, Dbl.val 0.5⟩)]) ∧
        (o.1.pts[0]?).map (fun p => p.iceType) = some atom_state_type.interfacial) := by
    decide!
  have hfB : ∀ y, (getCorrel exampleSixCij (exampleSix [0, 2, 3]) false).bind
      (fun y => getCorrel exampleSixCij y false) = some y →
      ∀ o, getIceType y false = some o →
      ((y.pts[0]?).map (fun p => (p.neighList.take 4, p.c_ij.take 4,
          decide (4 < p.neighList.length))) =
        some ([1, 2, 3, 4], [⟨bond_type.staggered, Dbl.val (-0.9)⟩,
          ⟨bond_type.staggered, Dbl.val (-0.9)⟩, ⟨bond_type.out_of_range, Dbl.val 0.5⟩,
          ⟨bond_type.out_of_range, Dbl.val 0.5⟩], true) ∧
        ([1, 2, 3, 4].map (fun j => (y.pts[j]?).map (fun q => q.c_ij.take 4)) =
          [some [⟨bond_type.staggered, Dbl.val (-0.9)⟩, ⟨bond_type.staggered, Dbl.val (-0.9)⟩,
              ⟨bond_type.out_of_range, Dbl.val 0.5⟩, ⟨bond_type.staggered, Dbl.val (-0.9)⟩],
            some (List.replicate 4 ⟨bond_type.out_of_range, Dbl.val 0.5⟩),
            some (List.replicate 4 ⟨bond_type.out_of_range, Dbl.val 0.5⟩),
            some (List.replicate 4 ⟨bond_type.out_of_range, Dbl.val 0.5⟩)]) ∧
        (o.1.pts[0]?).map (fun p => p.iceType) = some atom_state_type.water) := by
    decide!
  obtain ⟨a1, a2, a3⟩ := hfA yA hyA outA houtA
  obtain ⟨b1, b2, b3⟩ := hfB yB hyB outB houtB
  obtain ⟨p, hp, hpe⟩ := Option.map_eq_some'.mp a1
  obtain ⟨p', hp', hpe'⟩ := Option.map_eq_some'.mp b1
  obtain ⟨r, hr, hre⟩ := Option.map_eq_some'.mp a3
  obtain ⟨r', hr', hre'⟩ := Option.map_eq_some'.mp b3
  simp only [Prod.mk.injEq, decide_eq_true_eq] at hpe hpe'
  refine ⟨yA, yB, outA, outB, p, p', r, r', hyA, hyB, houtA, houtB, hp, hp', hpe.2.2,
    hpe'.2.2, by rw [hpe.2.1, hpe'.2.1], hpe.1, hpe'.1, ?_, hr, hr', hre, hre'⟩
  have hmap : [1, 2, 3, 4].map (fun j => (yA.pts[j]?).map (fun q => q.c_ij.take 4)) =
      [1, 2, 3, 4].map (fun j => (yB.pts[j]?).map (fun q => q.c_ij.take 4)) := by
    rw [a2, b2]
  intro jatom hj
  have hj' : (yA.pts[jatom]?).map (fun q => q.c_ij.take 4) =
      (yB.pts[jatom]?).map (fun q => q.c_ij.take 4) :=
    List.map_inj_left.mp hmap jatom hj
  have hsA : ((yA.pts[jatom]?).map (fun q => q.c_ij.take 4)).isSome = true := by
    have hall : ∀ o ∈ [1, 2, 3, 4].map (fun j => (yA.pts[j]?).map (fun q => q.c_ij.take 4)),
        o.isSome = true := by
      rw [a2]
      decide
    exact hall _ (List.mem_map_of_mem _ hj)
  obtain ⟨v, hv⟩ := Option.isSome_iff_exists.mp hsA
  obtain ⟨q, hq, hqv⟩ := Option.map_eq_some'.mp hv
  rw [hv] at hj'
  obtain ⟨q', hq', hqv'⟩ := Option.map_eq_some'.mp hj'.symm
  exact ⟨q, q', hq, hq', by rw [hqv, hqv']⟩

/-- C21, amended: under CHILL the tag of an eligible particle with more than 4 neighbours
depends only on its first 4 bond results, on its first 4 neighbours and, for each of these
neighbours, on the first 4 bond results of the neighbour and on its neighbour count capped at
4.  Two frames that agree on those values give the particle the same tag from `getIceType`,
whatever the later bond results and later neighbours are. -/
theorem chill_first_four (y y' : PointCloud) (isSlice : Bool)
    (out out' : PointCloud × List Int)
    (hrun : getIceType y isSlice = some out) (hrun' : getIceType y' isSlice = some out')
    (iatom : Nat) (hi : iatom < y.nop) (hi' : iatom < y'.nop) (p p' : Point)
    (hp : y.pts[iatom]? = some p) (hp' : y'.pts[iatom]? = some p')
    (helig : isSlice = true → p.inSlice = true) (helig' : isSlice = true → p'.inSlice = true)
    (hn : 4 < p.neighList.length) (hn' : 4 < p'.neighList.length)
    (hc : p.c_ij.take 4 = p'.c_ij.take 4) (hnl : p.neighList.take 4 = p'.neighList.take 4)
    (hneigh : ∀ jatom ∈ p.neighList.take 4, ∃ q q', y.pts[jatom]? = some q ∧
      y'.pts[jatom]? = some q' ∧ q.c_ij.take 4 = q'.c_ij.take 4 ∧
      min 4 q.neighList.length = min 4 q'.neighList.length) :
    ∃ r r', out.1.pts[iatom]? = some r ∧ out'.1.pts[iatom]? = some r' ∧
      r.iceType = r'.iceType := by
  have hel : ¬ (isSlice = true ∧ p.inSlice = false) := by
    rintro ⟨h1, h2⟩
    rw [helig h1] at h2
    exact absurd h2 (by simp)
  have hel' : ¬ (isSlice = true ∧ p'.inSlice = false) := by
    rintro ⟨h1, h2⟩
    rw [helig' h1] at h2
    exact absurd h2 (by simp)
  obtain ⟨_, _, hq⟩ := (getIceType_pass y isSlice out hrun iatom hi p hp).2 hel
  obtain ⟨_, _, hq'⟩ := (getIceType_pass y' isSlice out' hrun' iatom hi' p' hp').2 hel'
  refine ⟨_, _, hq, hq', ?_⟩
  dsimp only
  rw [hc, isInterfacial_first_four y y' iatom _ _ p p' hp hp' (by omega) (by omega) hnl]
  intro jatom hj
  obtain ⟨q, q', h1, h2, h3, h4⟩ := hneigh jatom hj
  exact numStaggered_first_four y y' jatom q q' h1 h2 h3 h4

/-- Witness of C21 on `exampleWide`: the fifth bond of particle 0 is staggered in one frame and
eclipsed in the other, and particle 0 is tagged interfacial in both. -/
theorem chill_first_four_witness :
    ∃ (out out' : PointCloud × List Int) (r r' : Point),
      getIceType (exampleWide bond_type.staggered) false = some out ∧
      getIceType (exampleWide bond_type.eclipsed) false = some out' ∧
      out.1.pts[0]? = some r ∧ out'.1.pts[0]? = some r' ∧ r.iceType = r'.iceType ∧
      r.iceType = atom_state_type.interfacial := by
  have h1 : (getIceType (exampleWide bond_type.staggered) false).isSome = true := by rfl
  have h2 : (getIceType (exampleWide bond_type.eclipsed) false).isSome = true := by rfl
  obtain ⟨out, hout⟩ := Option.isSome_iff_exists.mp h1
  obtain ⟨out', hout'⟩ := Option.isSome_iff_exists.mp h2
  obtain ⟨r, r', hr, hr', he⟩ := chill_first_four (exampleWide bond_type.staggered)
    (exampleWide bond_type.eclipsed) false out out' hout hout' 0 (by decide) (by decide)
    (examplePoint [1, 2, 3, 4, 5] [bond_type.staggered, bond_type.staggered,
      bond_type.out_of_range, bond_type.out_of_range, bond_type.staggered]
      atom_state_type.unclassified)
    (examplePoint [1, 2, 3, 4, 5] [bond_type.staggered, bond_type.staggered,
      bond_type.out_of_range, bond_type.out_of_range, bond_type.eclipsed]
      atom_state_type.unclassified)
    (by rfl) (by rfl) (fun _ => rfl) (fun _ => rfl) (by decide) (by decide) (by rfl)
    (by rfl) (by
      intro jatom hj
      have hj' : jatom ∈ [1, 2, 3, 4] := hj
      simp only [List.mem_cons, List.mem_singleton, List.not_mem_nil, or_false] at hj'
      rcases hj' with rfl | rfl | rfl | rfl <;> exact ⟨_, _, rfl, rfl, rfl, rfl⟩)
  refine ⟨out, out', r, r', hout, hout', hr, hr', he, ?_⟩
  have h3 : ∀ o, getIceType (exampleWide bond_type.staggered) false = some o →
      (o.1.pts[0]?).map (fun p => p.iceType) = some atom_state_type.interfacial := by decide
  have h4 := h3 out hout
  rw [hr] at h4
  simpa using h4



/-! ### The tie-break of `std::max_element` -/

theorem max_element_loop_first :
    ∀ (rest done : List Nat) (largest largestVal : Nat),
      done[largest]? = some largestVal → (∀ e ∈ done, e ≤ largestVal) →
      (∀ k v, k < largest → done[k]? = some v → v < largestVal) →
      ∃ m, (done ++ rest)[max_element.loop rest done.length largest largestVal]? = some m ∧
        (∀ e ∈ done ++ rest, e ≤ m) ∧
        ∀ k v, k < max_element.loop rest done.length largest largestVal →
          (done ++ rest)[k]? = some v → v < m := by
  intro rest
  induction rest with
  | nil =>
    intro done largest largestVal h1 h2 h3
    refine ⟨largestVal, by simpa [max_element.loop] using h1, by simpa using h2, ?_⟩
    intro k v hk hv
    simp only [max_element.loop] at hk
    rw [List.append_nil] at hv
    exact h3 k v hk hv
  | cons x rest ih =>
    intro done largest largestVal h1 h2 h3
    have hlt1 : largest < done.length := (List.getElem?_eq_some_iff.mp h1).1
    have e : done ++ x :: rest = (done ++ [x]) ++ rest := by simp
    have hl : (done ++ [x]).length = done.length + 1 := by simp
    simp only [max_element.loop]
    by_cases hlt : largestVal < x
    · rw [if_pos hlt, e, ← hl]
      apply ih (done ++ [x]) done.length x
      · rw [List.getElem?_append_right (le_refl _)]
        simp
      · intro e' he'
        rcases List.mem_append.mp he' with h | h
        · exact le_of_lt (lt_of_le_of_lt (h2 e' h) hlt)
        · simp only [List.mem_singleton] at h
          omega
      · intro k v hk hv
        rw [List.getElem?_append_left hk] at hv
        exact lt_of_le_of_lt (h2 v (List.getElem?_mem hv)) hlt
    · rw [if_neg hlt, e, ← hl]
      apply ih (done ++ [x]) largest largestVal
      · rw [List.getElem?_append_left hlt1]
        exact h1
      · intro e' he'
        rcases List.mem_append.mp he' with h | h
        · exact h2 e' h
        · simp only [List.mem_singleton] at h
          omega
      · intro k v hk hv
        rw [List.getElem?_append_left (by omega)] at hv
        exact h3 k v hk hv

/-- On a non-empty vector `max_element` is the first position of the largest entry: no entry
exceeds it and every entry before it is smaller. -/
theorem max_element_first (l : List Nat) (hl : l ≠ []) :
    ∃ m, l[max_element l]? = some m ∧ (∀ e ∈ l, e ≤ m) ∧
      ∀ k v, k < max_element l → l[k]? = some v → v < m := by
  cases l with
  | nil => exact absurd rfl hl
  | cons x rest =>
    have := max_element_loop_first rest [x] 0 x (by simp) (by simp)
      (fun k v hk _ => absurd hk (Nat.not_lt_zero k))
    simpa [max_element] using this


/-! ### The order in which the clusters are measured -/

/-- The measuring loop over the indices below `n`: it returns; a particle is flagged exactly
when it is connected to a recorded start index; the recorded start indices are below `n`,
increasing, and each is the smallest particle of its cluster; every particle below `n` is
flagged; and the size recorded with a start index is the length of its ring. -/
theorem measure_fold_order (pd : PointCloud → Nat → Nat → Dbl) (ice : PointCloud)
    (cutoff : Dbl)
    (hsym : ∀ a b, a < ice.nop → b < ice.nop → pd ice a b = pd ice b a)
    (L : List Nat)
    (hfinal : ∀ x, x < ice.nop → ∃ r, x ∈ r ∧ IsCluster pd ice cutoff L r)
    (n : Nat) (hn : n ≤ ice.nop) :
    ∃ flag clusterID nCluster,
      (List.range n).foldlM (largestIceCluster.measure L ice.nop)
        (List.replicate ice.nop 0, [], []) = some (flag, clusterID, nCluster) ∧
      flag.length = ice.nop ∧
      (∀ z, z < ice.nop →
        (flag[z]? = some 1 ↔ ∃ c ∈ clusterID, connected pd ice cutoff c z)) ∧
      (∀ c ∈ clusterID, c < n) ∧
      (∀ z, z < n → flag[z]? = some 1) ∧
      clusterID.Pairwise (fun a b => a < b) ∧
      (∀ c ∈ clusterID, ∀ z, connected pd ice cutoff c z → c ≤ z) ∧
      clusterID.length = nCluster.length ∧
      (∀ (k c m : Nat), clusterID[k]? = some c → nCluster[k]? = some m →
        ∃ r, c ∈ r ∧ IsCluster pd ice cutoff L r ∧ r.length = m) := by
  induction n with
  | zero =>
    refine ⟨List.replicate ice.nop 0, [], [], rfl, by simp, ?_, by simp, ?_, by simp, by simp,
      rfl, by simp⟩
    · intro z hz
      rw [List.getElem?_replicate]
      simp [hz]
    · intro z hz
      omega
  | succ n ih =>
    obtain ⟨flag, cid, nc, hrun, hflag, ha, hb, hc, hd, he, hlen, hz⟩ := ih (by omega)
    have hi : n < ice.nop := by omega
    obtain ⟨flag', cid', nc', hstep, hflag', hcase⟩ :=
      measure_spec pd ice cutoff L hfinal flag cid nc n hi hflag
    refine ⟨flag', cid', nc', ?_, hflag', ?_⟩
    · rw [foldlM_range_succ]
      exact ⟨_, hrun, hstep⟩
    rcases hcase with ⟨hf1, rfl, rfl, rfl⟩ | ⟨hf1, r, hir, hcl, rfl, rfl, hfl⟩
    · refine ⟨ha, fun c hc' => Nat.lt_succ_of_lt (hb c hc'), ?_, hd, he, hlen, hz⟩
      intro z hz'
      rcases Nat.lt_succ_iff_lt_or_eq.mp hz' with h | h
      · exact hc z h
      · rw [h]
        exact hf1
    · have hmem : ∀ z, z ∈ r ↔ connected pd ice cutoff n z := hcl.2 n hir
      refine ⟨?_, ?_, ?_, ?_, ?_, by simp [hlen], ?_⟩
      · intro z hzlt
        rw [hfl z]
        constructor
        · intro h
          by_cases hzr : z ∈ r
          · exact ⟨n, by simp, (hmem z).mp hzr⟩
          · rw [if_neg hzr] at h
            obtain ⟨c, hc1, hc2⟩ := (ha z hzlt).mp h
            exact ⟨c, List.mem_append_left _ hc1, hc2⟩
        · rintro ⟨c, hc1, hc2⟩
          by_cases hzr : z ∈ r
          · rw [if_pos hzr]
          · rw [if_neg hzr]
            rcases List.mem_append.mp hc1 with h | h
            · exact (ha z hzlt).mpr ⟨c, h, hc2⟩
            · rw [List.mem_singleton.mp h] at hc2
              exact absurd ((hmem z).mpr hc2) hzr
      · intro c hc'
        rcases List.mem_append.mp hc' with h | h
        · exact Nat.lt_succ_of_lt (hb c h)
        · rw [List.mem_singleton.mp h]
          exact Nat.lt_succ_self n
      · intro z hz'
        rw [hfl z]
        by_cases hzr : z ∈ r
        · rw [if_pos hzr]
        · rw [if_neg hzr]
          rcases Nat.lt_succ_iff_lt_or_eq.mp hz' with h | h
          · exact hc z h
          · rw [h] at hzr
            exact absurd hir hzr
      · rw [List.pairwise_append]
        refine ⟨hd, List.pairwise_singleton _ _, ?_⟩
        intro a ha' b hb'
        rw [List.mem_singleton.mp hb']
        exact hb a ha'
      · intro c hc' z hcz
        rcases List.mem_append.mp hc' with h | h
        · exact he c h z hcz
        · rw [List.mem_singleton.mp h] at hcz ⊢
          by_contra hlt
          have hzn : z < n := by omega
          obtain ⟨c0, hc0, hc0z⟩ := (ha z (by omega)).mp (hc z hzn)
          have hc0n : connected pd ice cutoff c0 n :=
            connected_trans pd ice cutoff c0 z n hc0z
              (connected_symm pd ice cutoff hsym n z hcz)
          exact hf1 ((ha n hi).mpr ⟨c0, hc0, hc0n⟩)
      · intro k c m hkc hkm
        by_cases hk : k < cid.length
        · rw [List.getElem?_append_left hk] at hkc
          rw [List.getElem?_append_left (by omega)] at hkm
          exact hz k c m hkc hkm
        · have hk' : cid.length ≤ k := by omega
          rw [List.getElem?_append_right hk'] at hkc
          rw [List.getElem?_append_right (by omega)] at hkm
          have hk0 : k - cid.length = 0 := by
            by_contra hne
            rw [List.getElem?_eq_none (by simp; omega)] at hkc
            simp at hkc
          rw [hk0] at hkc
          rw [← hlen, hk0] at hkm
          simp only [List.getElem?_cons_zero, Option.some.injEq] at hkc hkm
          rw [← hkc, ← hkm]
          exact ⟨r, hir, hcl, rfl⟩


/-- The loop that prints the members, started on the entry `x` of a ring through `i`, with
`rest` the entries between `x` and `i`: in `rest.length + 1` steps it prints the particles
`rest ++ [i]`, in this order. -/
theorem members_ring (ice : PointCloud) (L : List Nat) (i : Nat) :
    ∀ (rest : List Nat) (x : Nat),
      L[x]? :: rest.map (fun y => L[y]?) = (rest ++ [i]).map some →
      (∀ y ∈ rest ++ [i], y < ice.pts.length) →
      ∃ ps : List Point, (rest ++ [i]).map (fun y => ice.pts[y]?) = ps.map some ∧
        largestIceCluster.members ice L (rest.length + 1) x =
          some (ps.map (fun p => (p.atomID, p.molID, p.iceType, p.x, p.y, p.z))) := by
  intro rest
  induction rest with
  | nil =>
    intro x h hlt
    simp only [List.map_nil, List.nil_append, List.map_cons, List.cons.injEq, and_true] at h
    obtain ⟨p, hp⟩ := getElem?_of_lt ice.pts i (hlt i (by simp))
    refine ⟨[p], by simp [hp], ?_⟩
    simp [largestIceCluster.members, h, hp]
  | cons y rest ih =>
    intro x h hlt
    simp only [List.map_cons, List.cons_append, List.cons.injEq] at h
    obtain ⟨hx, hrest⟩ := h
    obtain ⟨p, hp⟩ := getElem?_of_lt ice.pts y (hlt y (by simp))
    obtain ⟨ps, hps, hmem⟩ := ih y hrest
      (fun z hz => hlt z (by simp at hz ⊢; tauto))
    refine ⟨p :: ps, by simp [hp, hps], ?_⟩
    rw [List.length_cons, largestIceCluster.members, hx]
    dsimp only
    rw [hp]
    dsimp only
    rw [hmem]
    rfl


/-- The tie-break of `largestIceCluster.body` on the linked list `0 .. nop - 1`, for a non-empty
ice cloud with a symmetric distance.  The cluster it reports is the one recorded at the position
`max_element nCluster`, with the start index `cid`: the value `n` returned is the number of
particles connected to `cid`, the members it emits are these particles, no cluster is larger,
and `cid` is at most every particle of every cluster with `n` particles: the reported cluster
is, among the largest ones, the one that holds the smallest particle index, and `cid` is that
index. -/
theorem body_tie_break (fuel : Nat)
    (periodicDist : PointCloud → Nat → Nat → Dbl) (iceCloud : PointCloud) (cutoff : Dbl)
    (printCluster isSlice : Bool) (hN : 0 < iceCloud.nop) (hfuel : iceCloud.nop ≤ fuel)
    (hsym : ∀ a b, a < iceCloud.nop → b < iceCloud.nop →
      periodicDist iceCloud a b = periodicDist iceCloud b a)
    (hprint : printCluster = true →
      iceCloud.nop ≤ iceCloud.pts.length ∧ iceCloud.boxLow.length ≤ iceCloud.box.length) :
    ∃ (L clusterID nCluster : List Nat) (cid n : Nat) (dump : Option ClusterDump),
      largestIceCluster.loops fuel periodicDist iceCloud cutoff (List.range iceCloud.nop) =
        some (L, clusterID, nCluster) ∧
      clusterID[max_element nCluster]? = some cid ∧
      largestIceCluster.body fuel periodicDist iceCloud cutoff printCluster isSlice
          (List.range iceCloud.nop) =
        some (n, dump) ∧
      cid < iceCloud.nop ∧
      (∃ r : List Nat, r.Nodup ∧
        (∀ k, k ∈ r ↔ connected periodicDist iceCloud cutoff cid k) ∧ r.length = n ∧
        (printCluster = true → ∃ (b : List (Dbl × Dbl)) (ps : List Point),
          r.map (fun y => iceCloud.pts[y]?) = ps.map some ∧
          dump = some ⟨iceCloud.currentFrame, n, b,
            ps.map (fun p => (p.atomID, p.molID, p.iceType, p.x, p.y, p.z))⟩)) ∧
      (∀ x, x < iceCloud.nop → ∀ r : List Nat, r.Nodup →
        (∀ k, k ∈ r ↔ connected periodicDist iceCloud cutoff x k) →
        r.length ≤ n ∧ (r.length = n → cid ≤ x)) := by
  obtain ⟨L, hL, hLlen, hfinal⟩ := construct_final periodicDist iceCloud cutoff hsym fuel hfuel
  obtain ⟨flag, clusterID, nCluster, hM, _, ha, hb, hc, hd, he, hlen, hz⟩ :=
    measure_fold_order periodicDist iceCloud cutoff hsym L hfinal iceCloud.nop le_rfl
  have hcov : ∀ x, x < iceCloud.nop → ∃ (k c m : Nat), clusterID[k]? = some c ∧
      nCluster[k]? = some m ∧ connected periodicDist iceCloud cutoff c x := by
    intro x hx
    obtain ⟨c, hc1, hc2⟩ := (ha x hx).mp (hc x hx)
    obtain ⟨k, hk⟩ := List.mem_iff_getElem?.mp hc1
    have hklt : k < clusterID.length := (List.getElem?_eq_some_iff.mp hk).1
    obtain ⟨m, hm⟩ := getElem?_of_lt nCluster k (by omega)
    exact ⟨k, c, m, hk, hm, hc2⟩
  have hne : nCluster ≠ [] := by
    obtain ⟨k, c, m, _, hm, _⟩ := hcov 0 hN
    exact List.ne_nil_of_mem (List.getElem?_mem hm)
  obtain ⟨n, hn, hmax, hfirst⟩ := max_element_first nCluster hne
  have hidx : max_element nCluster < nCluster.length := (List.getElem?_eq_some_iff.mp hn).1
  obtain ⟨cid, hcid⟩ := getElem?_of_lt clusterID (max_element nCluster) (by omega)
  have hcidlt : cid < iceCloud.nop := hb cid (List.getElem?_mem hcid)
  obtain ⟨r0, hcr0, hcl, hr0len⟩ := hz _ cid n hcid hn
  obtain ⟨rest, hring, hmem, hrlen⟩ := isRing_from L r0 cid hcl.1 hcr0
  have hchain := isRing_cons L cid rest hring
  have hmemr : ∀ k, k ∈ rest ++ [cid] ↔ connected periodicDist iceCloud cutoff cid k := by
    intro k
    rw [← hcl.2 cid hcr0 k, ← hmem k]
    simp only [List.mem_append, List.mem_singleton, List.mem_cons]
    tauto
  have hnd : (rest ++ [cid]).Nodup := by
    have := hring.1
    rw [List.nodup_cons] at this
    rw [List.nodup_append]
    refine ⟨this.2, List.nodup_singleton _, ?_⟩
    intro a ha1 ha2
    rw [List.mem_singleton.mp ha2] at ha1
    exact this.1 ha1
  have hrl : (rest ++ [cid]).length = n := by
    rw [← hr0len, ← hrlen]
    simp
  have hres : ∃ dump, largestIceCluster.body fuel periodicDist iceCloud cutoff printCluster
      isSlice (List.range iceCloud.nop) = some (n, dump) ∧
      (printCluster = true → ∃ (b : List (Dbl × Dbl)) (ps : List Point),
        (rest ++ [cid]).map (fun y => iceCloud.pts[y]?) = ps.map some ∧
        dump = some ⟨iceCloud.currentFrame, n, b,
          ps.map (fun p => (p.atomID, p.molID, p.iceType, p.x, p.y, p.z))⟩) := by
    simp only [largestIceCluster.body, largestIceCluster.loops, hL, hM, hn]
    by_cases hp : printCluster = true
    · obtain ⟨hpts, hbox⟩ := hprint hp
      obtain ⟨b, hbd⟩ := bounds_total iceCloud (List.range iceCloud.boxLow.length) (by
        intro k hk
        have := List.mem_range.mp hk
        omega)
      obtain ⟨ps, hps, hat⟩ := members_ring iceCloud L cid rest cid hchain (by
        intro y hy
        have := connected_lt periodicDist iceCloud cutoff cid y hcidlt ((hmemr y).mp hy)
        omega)
      have hn1 : rest.length + 1 = n := by
        rw [← hrl]
        simp
      rw [hn1] at hat
      simp only [hp, if_true, hbd, hcid, hat]
      exact ⟨_, rfl, fun _ => ⟨b, ps, hps, rfl⟩⟩
    · simp only [hp, Bool.false_eq_true, if_false]
      exact ⟨_, rfl, fun h => absurd h (by simp)⟩
  obtain ⟨dump, hdump, hatoms⟩ := hres
  refine ⟨L, clusterID, nCluster, cid, n, dump, ?_, hcid, hdump, hcidlt,
    ⟨rest ++ [cid], hnd, hmemr, hrl, hatoms⟩, ?_⟩
  · simp only [largestIceCluster.loops, hL, hM]
  · intro x hx r hrnd hrmem
    obtain ⟨k, c, m, hkc, hkm, hcx⟩ := hcov x hx
    obtain ⟨rk, hcrk, hclk, hrklen⟩ := hz k c m hkc hkm
    have hperm : r.Perm rk := by
      rw [List.perm_ext_iff_of_nodup hrnd hclk.1.1]
      intro y
      rw [hrmem y, hclk.2 c hcrk y]
      constructor
      · intro h
        exact connected_trans periodicDist iceCloud cutoff c x y hcx h
      · intro h
        exact connected_trans periodicDist iceCloud cutoff x c y
          (connected_symm periodicDist iceCloud cutoff hsym c x hcx) h
    have hrm : r.length = m := by rw [hperm.length_eq, hrklen]
    refine ⟨?_, fun hrn => ?_⟩
    · rw [hrm]
      exact hmax m (List.getElem?_mem hkm)
    · have hidxk : max_element nCluster ≤ k := by
        by_contra hlt
        have := hfirst k m (by omega) hkm
        omega
      have hcc : cid ≤ c := by
        rcases Nat.lt_or_eq_of_le hidxk with h | h
        · have hklt : k < clusterID.length := (List.getElem?_eq_some_iff.mp hkc).1
          have hilt : max_element nCluster < clusterID.length := by omega
          have := List.pairwise_iff_getElem.mp hd (max_element nCluster) k hilt hklt h
          rw [List.getElem?_eq_getElem hilt] at hcid
          rw [List.getElem?_eq_getElem hklt] at hkc
          injection hcid with hcid
          injection hkc with hkc
          omega
        · rw [h, hkc] at hcid
          injection hcid with hcid
          omega
      exact le_trans hcc (he c (List.getElem?_mem hkc) x hcx)


/-- Example of `body_tie_break`: four particles on a line at the abscissas 0, 1, 5, 6 with
cutoff 1 form two clusters of 2 particles; the clusters are recorded with the start indices 0
and 2, and `max_element` picks the first. -/
theorem body_tie_break_example :
    largestIceCluster.loops 4 exampleDist (exampleIce [0, 1, 5, 6]) (Dbl.val 1)
        (List.range (exampleIce [0, 1, 5, 6]).nop) =
      some ([1, 0, 3, 2], [0, 2], [2, 2]) ∧
    max_element [2, 2] = 0 ∧
    ∃ (L clusterID nCluster : List Nat) (cid n : Nat) (dump : Option ClusterDump),
      largestIceCluster.loops 4 exampleDist (exampleIce [0, 1, 5, 6]) (Dbl.val 1)
          (List.range (exampleIce [0, 1, 5, 6]).nop) =
        some (L, clusterID, nCluster) ∧
      clusterID[max_element nCluster]? = some cid ∧
      largestIceCluster.body 4 exampleDist (exampleIce [0, 1, 5, 6]) (Dbl.val 1) true false
          (List.range (exampleIce [0, 1, 5, 6]).nop) =
        some (n, dump) ∧
      cid < (exampleIce [0, 1, 5, 6]).nop ∧
      (∃ r : List Nat, r.Nodup ∧
        (∀ k, k ∈ r ↔ connected exampleDist (exampleIce [0, 1, 5, 6]) (Dbl.val 1) cid k) ∧
        r.length = n ∧
        (true = true → ∃ (b : List (Dbl × Dbl)) (ps : List Point),
          r.map (fun y => (exampleIce [0, 1, 5, 6]).pts[y]?) = ps.map some ∧
          dump = some ⟨(exampleIce [0, 1, 5, 6]).currentFrame, n, b,
            ps.map (fun p => (p.atomID, p.molID, p.iceType, p.x, p.y, p.z))⟩)) ∧
      (∀ x, x < (exampleIce [0, 1, 5, 6]).nop → ∀ r : List Nat, r.Nodup →
        (∀ k, k ∈ r ↔ connected exampleDist (exampleIce [0, 1, 5, 6]) (Dbl.val 1) x k) →
        r.length ≤ n ∧ (r.length = n → cid ≤ x)) :=
  ⟨by decide!, by decide,
    body_tie_break 4 exampleDist (exampleIce [0, 1, 5, 6]) (Dbl.val 1)
      true false (by decide) (by decide) (fun a b _ _ => exampleDist_symm _ a b)
      (fun _ => ⟨by decide, by decide⟩)⟩


/-! ### The cycles of the linked list -/

/-- A ring is closed under `L`. -/
theorem isRing_closed (L : List Nat) (r : List Nat) (h : IsRing L r) (a b : Nat) (ha : a ∈ r)
    (hab : L[a]? = some b) : b ∈ r := by
  obtain ⟨rest, hring, hmem, _⟩ := isRing_from L r a h ha
  have hc := isRing_cons L a rest hring
  rw [← hmem b]
  cases rest with
  | nil =>
    simp only [List.map_nil, List.nil_append, List.map_cons, List.cons.injEq, and_true] at hc
    rw [hab] at hc
    injection hc with hc
    simp [hc]
  | cons y rest' =>
    simp only [List.map_cons, List.cons_append, List.cons.injEq] at hc
    rw [hab] at hc
    obtain ⟨hc1, _⟩ := hc
    injection hc1 with hc1
    simp [hc1]

/-- The entries met by following `L` from an entry of a closed list are in the list. -/
theorem chain_mem_of_closed (L : List Nat) (r : List Nat) (i : Nat)
    (hclosed : ∀ a b, a ∈ r → L[a]? = some b → b ∈ r) :
    ∀ (rest : List Nat) (x : Nat), x ∈ r →
      L[x]? :: rest.map (fun y => L[y]?) = (rest ++ [i]).map some →
      ∀ y ∈ rest ++ [i], y ∈ r := by
  intro rest
  induction rest with
  | nil =>
    intro x hx h y hy
    simp only [List.map_nil, List.nil_append, List.map_cons, List.cons.injEq, and_true] at h
    simp only [List.nil_append, List.mem_singleton] at hy
    rw [hy]
    exact hclosed x i hx h
  | cons z rest ih =>
    intro x hx h y hy
    simp only [List.map_cons, List.cons_append, List.cons.injEq] at h
    obtain ⟨hxz, hrest⟩ := h
    have hz : z ∈ r := hclosed x z hx hxz
    rcases List.mem_cons.mp hy with rfl | hy'
    · exact hz
    · exact ih z hz hrest y hy'

/-- Two rings of `L` through the same entry hold the same entries. -/
theorem isRing_unique (L : List Nat) (r r' : List Nat) (h : IsRing L r) (h' : IsRing L r')
    (x : Nat) (hx : x ∈ r) (hx' : x ∈ r') : ∀ y, y ∈ r ↔ y ∈ r' := by
  have key : ∀ (s s' : List Nat), IsRing L s → IsRing L s' → x ∈ s → x ∈ s' →
      ∀ y, y ∈ s' → y ∈ s := by
    intro s s' hs hs' hxs hxs' y hy
    obtain ⟨rest, hring, hmem, _⟩ := isRing_from L s' x hs' hxs'
    have hc := isRing_cons L x rest hring
    have hall := chain_mem_of_closed L s x (fun a b => isRing_closed L s hs a b) rest x hxs hc
    have hy' : y ∈ x :: rest := (hmem y).mpr hy
    apply hall
    simp only [List.mem_cons, List.mem_append, List.mem_singleton] at hy' ⊢
    tauto
  intro y
  exact ⟨key r' r h' h hx' hx y, key r r' h h' hx hx' y⟩

/-- On a ring `L` is injective. -/
theorem isRing_injective (L : List Nat) (r : List Nat) (h : IsRing L r) (a b : Nat)
    (ha : a ∈ r) (hb : b ∈ r) (hab : L[a]? = L[b]?) : a = b := by
  have hnd : (r.map (fun x => L[x]?)).Nodup := by
    rw [h.2]
    exact (List.nodup_rotate.mpr h.1).map (Option.some_injective _)
  exact List.inj_on_of_nodup_map hnd ha hb hab

/-- A linked list whose entries below `nop` all lie on rings is a permutation of the indices
`0 .. nop - 1`. -/
theorem perm_of_rings (L : List Nat) (nop : Nat) (hlen : L.length = nop)
    (hring : ∀ x, x < nop → ∃ r, x ∈ r ∧ IsRing L r) : L.Perm (List.range nop) := by
  have hlt : ∀ v ∈ L, v < nop := by
    intro v hv
    obtain ⟨a, ha⟩ := List.mem_iff_getElem?.mp hv
    have halt : a < nop := by
      rw [← hlen]
      exact (List.getElem?_eq_some_iff.mp ha).1
    obtain ⟨r, har, hr⟩ := hring a halt
    have hvr : v ∈ r := isRing_closed L r hr a v har ha
    obtain ⟨rest, hring', _, _⟩ := isRing_from L r v hr hvr
    have hc := isRing_cons L v rest hring'
    have hsome : (L[v]?).isSome = true := by
      have := congrArg List.head? hc
      cases rest <;> simp at this <;> simp [this]
    rw [← hlen]
    by_contra hge
    rw [List.getElem?_eq_none (by omega)] at hsome
    simp at hsome
  have hnd : L.Nodup := by
    rw [List.nodup_iff_getElem?_ne_getElem?]
    intro a b hab hb heq
    have halt : a < nop := by omega
    have hblt : b < nop := by omega
    obtain ⟨v, hv⟩ := getElem?_of_lt L a (by omega)
    obtain ⟨r, har, hr⟩ := hring a halt
    obtain ⟨r', hbr', hr'⟩ := hring b hblt
    have hvr : v ∈ r := isRing_closed L r hr a v har hv
    have hvr' : v ∈ r' := isRing_closed L r' hr' b v hbr' (by rw [← heq]; exact hv)
    have hbr : b ∈ r := (isRing_unique L r r' hr hr' v hvr hvr' b).mpr hbr'
    have := isRing_injective L r hr a b har hbr heq
    omega
  apply List.Subperm.perm_of_length_le
  · apply List.subperm_of_subset hnd
    intro v hv
    exact List.mem_range.mpr (hlt v hv)
  · simp [hlen]


theorem isRing_lt (L : List Nat) (r : List Nat) (h : IsRing L r) (x : Nat) (hx : x ∈ r) :
    x < L.length := by
  obtain ⟨rest, hring, _, _⟩ := isRing_from L r x h hx
  have hc := isRing_cons L x rest hring
  have hsome : (L[x]?).isSome = true := by
    have := congrArg List.head? hc
    cases rest <;> simp at this <;> simp [this]
  by_contra hge
  rw [List.getElem?_eq_none (by omega)] at hsome
  simp at hsome

theorem set_self_of_getElem? {α : Type} (L : List α) (k : Nat) (v : α) (h : L[k]? = some v) :
    L.set k v = L := by
  apply List.ext_getElem?
  intro i
  by_cases hik : k = i
  · subst hik
    rw [List.getElem?_set_self, h]
    have hlt : k < L.length := (List.getElem?_eq_some_iff.mp h).1
    simp [hlt]
  · rw [List.getElem?_set_ne hik]

/-- What the invariant gives: the linked list is a permutation of the indices, and every ring
holds particles of one connected component only. -/
theorem cycleInv_perm (pd : PointCloud → Nat → Nat → Dbl) (ice : PointCloud) (cutoff : Dbl)
    (L : List Nat) (h : CycleInv pd ice cutoff L) :
    L.Perm (List.range ice.nop) ∧
    ∀ r, IsRing L r → ∀ x ∈ r, ∀ y ∈ r, connected pd ice cutoff x y := by
  refine ⟨perm_of_rings L ice.nop h.1 (fun x hx => ?_), ?_⟩
  · obtain ⟨r, hxr, hr, _⟩ := h.2 x hx
    exact ⟨r, hxr, hr⟩
  · intro r hr x hx y hy
    have hxlt : x < ice.nop := by
      rw [← h.1]
      exact isRing_lt L r hr x hx
    obtain ⟨rx, hxrx, hrx, hconn⟩ := h.2 x hxlt
    exact hconn y ((isRing_unique L r rx hr hrx x hx hxrx y).mp hy)

/-- The initial linked list has the invariant. -/
theorem cycleInv_init (pd : PointCloud → Nat → Nat → Dbl) (ice : PointCloud) (cutoff : Dbl) :
    CycleInv pd ice cutoff (List.range ice.nop) := by
  refine ⟨List.length_range _, fun x hx => ⟨[x], List.mem_singleton_self x,
    isRing_singleton _ x (List.getElem?_range hx), ?_⟩⟩
  intro y hy
  rw [List.mem_singleton.mp hy]
  exact Relation.ReflTransGen.refl

/-- The swap of the construction loop keeps the invariant: `k` is on its own and within the
cutoff of `j`. -/
theorem cycleInv_swap (pd : PointCloud → Nat → Nat → Dbl) (ice : PointCloud) (cutoff : Dbl)
    (hsym : ∀ a b, a < ice.nop → b < ice.nop → pd ice a b = pd ice b a)
    (L : List Nat) (j k : Nat) (h : CycleInv pd ice cutoff L) (hj : j < ice.nop)
    (hk : k < ice.nop) (hkk : L[k]? = some k) (hd : pd ice j k ≤ cutoff) :
    ∃ L', iter_swap L j k = some L' ∧ CycleInv pd ice cutoff L' := by
  obtain ⟨nj, hnj⟩ := getElem?_of_lt L j (by rw [h.1]; exact hj)
  refine ⟨(L.set j k).set k nj, iter_swap_eq L j k nj k hnj hkk, ?_⟩
  by_cases hjk : j = k
  · subst hjk
    rw [hkk] at hnj
    injection hnj with hnj
    subst hnj
    rw [set_self_of_getElem? L j j hkk, set_self_of_getElem? L j j hkk]
    exact h
  have hjoin : joined pd ice cutoff j k := ⟨hj, hk, hd⟩
  have hjoin' : joined pd ice cutoff k j := joined_symm pd ice cutoff hsym hjoin
  obtain ⟨rj, hjr, hrj, hcj⟩ := h.2 j hj
  have hknot : k ∉ rj := by
    intro hkr
    have := isRing_fixed L rj k hrj hkr hkk
    rw [this] at hjr
    exact hjk (List.mem_singleton.mp hjr)
  obtain ⟨pre, post, rfl⟩ := List.append_of_mem hjr
  have hnew := isRing_splice L pre post j k nj hrj hknot hnj hkk
  refine ⟨by simp [h.1], fun x hx => ?_⟩
  by_cases hxin : x ∈ pre ++ j :: post ∨ x = k
  · refine ⟨pre ++ j :: k :: post, ?_, hnew, ?_⟩
    · rcases hxin with hx1 | hx1
      · simp only [List.mem_append, List.mem_cons] at hx1 ⊢
        tauto
      · simp [hx1]
    · have hxj : connected pd ice cutoff x j := by
        rcases hxin with hx1 | hx1
        · exact connected_symm pd ice cutoff hsym j x (hcj x hx1)
        · rw [hx1]
          exact Relation.ReflTransGen.single hjoin'
      intro y hy
      have hjy : connected pd ice cutoff j y := by
        by_cases hyk : y = k
        · rw [hyk]
          exact Relation.ReflTransGen.single hjoin
        · apply hcj y
          simp only [List.mem_append, List.mem_cons] at hy ⊢
          tauto
      exact connected_trans pd ice cutoff x j y hxj hjy
  · have hx1 : x ∉ pre ++ j :: post := fun hc => hxin (Or.inl hc)
    have hx2 : x ≠ k := fun hc => hxin (Or.inr hc)
    obtain ⟨rx, hxrx, hrx, hcx⟩ := h.2 x hx
    have hjnot : j ∉ rx := by
      intro hjrx
      exact hx1 ((isRing_unique L rx (pre ++ j :: post) hrx hrj j hjrx hjr x).mp hxrx)
    have hknot' : k ∉ rx := by
      intro hkrx
      have := isRing_fixed L rx k hrx hkrx hkk
      rw [this] at hxrx
      exact hx2 (List.mem_singleton.mp hxrx)
    refine ⟨rx, hxrx, isRing_congr L _ rx hrx ?_, hcx⟩
    intro z hz
    have hzj : z ≠ j := fun hc => hjnot (hc ▸ hz)
    have hzk : z ≠ k := fun hc => hknot' (hc ▸ hz)
    rw [List.getElem?_set_ne (Ne.symm hzk), List.getElem?_set_ne (Ne.symm hzj)]

/-- The states of the construction loop before its iterations have the invariant. -/
theorem cycleInv_of_constructInv (pd : PointCloud → Nat → Nat → Dbl) (ice : PointCloud)
    (cutoff : Dbl) (L : List Nat) (n : Nat) (h : ConstructInv pd ice cutoff L n) :
    CycleInv pd ice cutoff L := by
  refine ⟨h.1, fun x hx => ?_⟩
  rcases h.2 x hx with ⟨h1, _⟩ | ⟨r, hxr, hcl⟩
  · refine ⟨[x], List.mem_singleton_self x, isRing_singleton L x h1, ?_⟩
    intro y hy
    rw [List.mem_singleton.mp hy]
    exact Relation.ReflTransGen.refl
  · exact ⟨r, hxr, hcl.1, fun y hy => (hcl.2 x hxr y).mp hy⟩


/-- The cycle representation.  The construction loop of `largestIceCluster`, started on the
linked list `0 .. nop - 1`, has the invariant
`CycleInv`, which makes the linked list a permutation of `0 .. nop - 1` whose rings
each hold particles of one connected component only: the initial list has it, every swap the
loop performs (of the entries `j` and `k`, `k` being on its own and within the cutoff of `j`)
keeps it, and the loop reaches each of its iterations in a state that has it.  When the loop
ends, two particles lie on the same ring exactly when they are connected by a chain of pairs
within the cutoff. -/
theorem construct_cycles (fuel : Nat) (periodicDist : PointCloud → Nat → Nat → Dbl)
    (iceCloud : PointCloud) (cutoff : Dbl) (hfuel : iceCloud.nop ≤ fuel)
    (hsym : ∀ a b, a < iceCloud.nop → b < iceCloud.nop →
      periodicDist iceCloud a b = periodicDist iceCloud b a) :
    (∀ L, CycleInv periodicDist iceCloud cutoff L →
      L.Perm (List.range iceCloud.nop) ∧
      ∀ r, IsRing L r → ∀ x ∈ r, ∀ y ∈ r, connected periodicDist iceCloud cutoff x y) ∧
    CycleInv periodicDist iceCloud cutoff (List.range iceCloud.nop) ∧
    (∀ (L : List Nat) (j k : Nat), CycleInv periodicDist iceCloud cutoff L →
      j < iceCloud.nop → k < iceCloud.nop → L[k]? = some k →
      periodicDist iceCloud j k ≤ cutoff →
      ∃ L', iter_swap L j k = some L' ∧ CycleInv periodicDist iceCloud cutoff L') ∧
    (∀ n, n ≤ iceCloud.nop - 1 →
      ∃ L, (List.range n).foldlM (largestIceCluster.construct periodicDist iceCloud cutoff fuel)
          (List.range iceCloud.nop) = some L ∧
        CycleInv periodicDist iceCloud cutoff L ∧ L.Perm (List.range iceCloud.nop) ∧
        ∀ r, IsRing L r → ∀ x ∈ r, ∀ y ∈ r, connected periodicDist iceCloud cutoff x y) ∧
    (∃ L, (List.range (iceCloud.nop - 1)).foldlM
          (largestIceCluster.construct periodicDist iceCloud cutoff fuel)
          (List.range iceCloud.nop) = some L ∧
      ∀ x y, x < iceCloud.nop → y < iceCloud.nop →
        ((∃ r, IsRing L r ∧ x ∈ r ∧ y ∈ r) ↔ connected periodicDist iceCloud cutoff x y)) := by
  refine ⟨cycleInv_perm periodicDist iceCloud cutoff,
    cycleInv_init periodicDist iceCloud cutoff,
    fun L j k h hj hk hkk hd => cycleInv_swap periodicDist iceCloud cutoff hsym L j k h hj hk
      hkk hd, ?_, ?_⟩
  · intro n hn
    obtain ⟨L, hrun, hG⟩ := construct_fold periodicDist iceCloud cutoff hsym fuel hfuel n
      (by omega)
    have hC := cycleInv_of_constructInv periodicDist iceCloud cutoff L n hG
    obtain ⟨h1, h2⟩ := cycleInv_perm periodicDist iceCloud cutoff L hC
    exact ⟨L, hrun, hC, h1, h2⟩
  · obtain ⟨L, hrun, hlen, hfinal⟩ :=
      construct_final periodicDist iceCloud cutoff hsym fuel hfuel
    refine ⟨L, hrun, ?_⟩
    have hC : CycleInv periodicDist iceCloud cutoff L := by
      refine ⟨hlen, fun x hx => ?_⟩
      obtain ⟨r, hxr, hcl⟩ := hfinal x hx
      exact ⟨r, hxr, hcl.1, fun y hy => (hcl.2 x hxr y).mp hy⟩
    intro x y hx _
    constructor
    · rintro ⟨r, hr, hxr, hyr⟩
      exact (cycleInv_perm periodicDist iceCloud cutoff L hC).2 r hr x hxr y hyr
    · intro hxy
      obtain ⟨r, hxr, hcl⟩ := hfinal x hx
      exact ⟨r, hcl.1, hxr, (hcl.2 x hxr y).mpr hxy⟩

/-- Example of `construct_cycles`: four particles on a line at the abscissas 0, 1, 5, 2 with
cutoff 1.  The loop ends with the linked list `1, 3, 2, 0`: the ring `0, 1, 3` and the particle
2 on its own. -/
theorem construct_cycles_example :
    (List.range 3).foldlM
      (largestIceCluster.construct exampleDist (exampleIce [0, 1, 5, 2]) (Dbl.val 1) 4)
      (List.range 4) = some [1, 3, 2, 0] ∧
    ∃ L, (List.range ((exampleIce [0, 1, 5, 2]).nop - 1)).foldlM
          (largestIceCluster.construct exampleDist (exampleIce [0, 1, 5, 2]) (Dbl.val 1) 4)
          (List.range (exampleIce [0, 1, 5, 2]).nop) = some L ∧
      ∀ x y, x < (exampleIce [0, 1, 5, 2]).nop → y < (exampleIce [0, 1, 5, 2]).nop →
        ((∃ r, IsRing L r ∧ x ∈ r ∧ y ∈ r) ↔
          connected exampleDist (exampleIce [0, 1, 5, 2]) (Dbl.val 1) x y) :=
  ⟨by decide!,
    (construct_cycles 4 exampleDist (exampleIce [0, 1, 5, 2]) (Dbl.val 1) (by decide)
      (fun a b _ _ => exampleDist_symm _ a b)).2.2.2.2⟩


/-! ### Particles without neighbours -/

/-- C27, a failing input.  In `exampleLone` particle 1 has no neighbour and is the neighbour of
particle 0.  The first half of the passes leaves the vector of particle 1 empty, with `l = 3` as
with `l = 6`; the correlation of the bond from 0 to 1 then reads the component 0 of this empty
vector, in `getCorrel` and in `getq6`, which does not return a value.  In `exampleSingle`, a
particle without neighbours, `getq6` divides `0.0` by the neighbour count `0`, and the value is
NaN. -/
theorem zero_neighbour_unguarded :
    QlmTotal (fun _ _ => List.replicate 7 ⟨1, 0⟩) 3 exampleLone =
      some [List.replicate 7 ⟨1, 0⟩, []] ∧
    getCorrel.cij_real exampleSqrt [List.replicate 7 ⟨1, 0⟩, []] 0 1 = none ∧
    QlmTotal (fun _ _ => List.replicate 13 ⟨1, 0⟩) 6 exampleLone =
      some [List.replicate 13 ⟨1, 0⟩, []] ∧
    getq6 (fun _ _ => List.replicate 13 ⟨1, 0⟩) exampleSqrt exampleLone false = none ∧
    getq6 (fun _ _ => List.replicate 13 ⟨1, 0⟩) exampleSqrt exampleSingle false =
      some [Dbl.div (Dbl.val 0) (Dbl.val ((0 : Nat) : ℚ))] ∧
    Dbl.div (Dbl.val 0) (Dbl.val ((0 : Nat) : ℚ)) = Dbl.nan := by
  refine ⟨by decide!, by decide!, by decide!, by decide!, by decide!, by decide!⟩


/-! ### The closed-form tables and the spherical harmonics -/

theorem sqrt_scale {K : Type} [Field K] [CharZero K] (sqrtOverPi : ℚ → K)
    (hsqrt : ∀ a r : ℚ, 0 ≤ a → sqrtOverPi (a ^ 2 * r) = (a : K) * sqrtOverPi r)
    (a r r' : ℚ) (ha : 0 ≤ a) (hr : r' = a ^ 2 * r) :
    sqrtOverPi r' = (a : K) * sqrtOverPi r := by
  rw [hr]
  exact hsqrt a r ha

/-- Each component `k` of the table `sph::lookupTableQ3` is the spherical harmonic of order
`m = k - 3`, in every field in which `sqrtOverPi` scales as a square root does and `expI 0`
is 1. -/
theorem lookupTableQ3_component {K : Type} [Field K] [CharZero K] (sqrtOverPi : ℚ → K)
    (expI : Int → K) (sinT cosT : K)
    (hsqrt : ∀ a r : ℚ, 0 ≤ a → sqrtOverPi (a ^ 2 * r) = (a : K) * sqrtOverPi r)
    (hexp : expI 0 = 1) :
    ∀ k, k < 7 → sph.lookupTableQ3 sqrtOverPi expI sinT cosT k =
      sph.spherical_harmonic sqrtOverPi expI sinT cosT 3 ((k : Int) - ((3 : Nat) : Int)) := by
  intro k hk
  interval_cases k
  · have hs := sqrt_scale sqrtOverPi hsqrt 120 (7 / 2880) 35 (by norm_num) (by norm_num)
    have hd : sph.polyDeriv^[3] (sph.legendre 3) = [15] := by decide!
    show sph.lookupTableQ3 sqrtOverPi expI sinT cosT 0 =
      sph.spherical_harmonic sqrtOverPi expI sinT cosT 3 (-3)
    have hn : ((-3) : Int).natAbs = 3 := rfl
    unfold sph.lookupTableQ3 sph.spherical_harmonic
    rw [hn, hd, hs]
    simp only [sph.polyEval, List.foldr]
    norm_num [Nat.factorial]
    ring
  · have hs := sqrt_scale sqrtOverPi hsqrt 60 (7 / 480) (105 / 2) (by norm_num) (by norm_num)
    have hd : sph.polyDeriv^[2] (sph.legendre 3) = [0, 15] := by decide!
    show sph.lookupTableQ3 sqrtOverPi expI sinT cosT 1 =
      sph.spherical_harmonic sqrtOverPi expI sinT cosT 3 (-2)
    have hn : ((-2) : Int).natAbs = 2 := rfl
    unfold sph.lookupTableQ3 sph.spherical_harmonic
    rw [hn, hd, hs]
    simp only [sph.polyEval, List.foldr]
    norm_num [Nat.factorial]
    ring
  · have hs := sqrt_scale sqrtOverPi hsqrt 12 (7 / 48) 21 (by norm_num) (by norm_num)
    have hd : sph.polyDeriv^[1] (sph.legendre 3) = [-3 / 2, 0, 15 / 2] := by decide!
    show sph.lookupTableQ3 sqrtOverPi expI sinT cosT 2 =
      sph.spherical_harmonic sqrtOverPi expI sinT cosT 3 (-1)
    have hn : ((-1) : Int).natAbs = 1 := rfl
    unfold sph.lookupTableQ3 sph.spherical_harmonic
    rw [hn, hd, hs]
    simp only [sph.polyEval, List.foldr]
    norm_num [Nat.factorial]
    ring
  · have hs := sqrt_scale sqrtOverPi hsqrt 2 (7 / 4) 7 (by norm_num) (by norm_num)
    have hd : sph.polyDeriv^[0] (sph.legendre 3) = [0, -3 / 2, 0, 5 / 2] := by decide!
    show sph.lookupTableQ3 sqrtOverPi expI sinT cosT 3 =
      sph.spherical_harmonic sqrtOverPi expI sinT cosT 3 0
    have hn : (0 : Int).natAbs = 0 := rfl
    unfold sph.lookupTableQ3 sph.spherical_harmonic
    rw [hn, hd, hs, hexp]
    simp only [sph.polyEval, List.foldr]
    norm_num [Nat.factorial]
    ring
  · have hs := sqrt_scale sqrtOverPi hsqrt 12 (7 / 48) 21 (by norm_num) (by norm_num)
    have hd : sph.polyDeriv^[1] (sph.legendre 3) = [-3 / 2, 0, 15 / 2] := by decide!
    show sph.lookupTableQ3 sqrtOverPi expI sinT cosT 4 =
      sph.spherical_harmonic sqrtOverPi expI sinT cosT 3 1
    have hn : (1 : Int).natAbs = 1 := rfl
    unfold sph.lookupTableQ3 sph.spherical_harmonic
    rw [hn, hd, hs]
    simp only [sph.polyEval, List.foldr]
    norm_num [Nat.factorial]
    ring
  · have hs := sqrt_scale sqrtOverPi hsqrt 60 (7 / 480) (105 / 2) (by norm_num) (by norm_num)
    have hd : sph.polyDeriv^[2] (sph.legendre 3) = [0, 15] := by decide!
    show sph.lookupTableQ3 sqrtOverPi expI sinT cosT 5 =
      sph.spherical_harmonic sqrtOverPi expI sinT cosT 3 2
    have hn : (2 : Int).natAbs = 2 := rfl
    unfold sph.lookupTableQ3 sph.spherical_harmonic
    rw [hn, hd, hs]
    simp only [sph.polyEval, List.foldr]
    norm_num [Nat.factorial]
    ring
  · have hs := sqrt_scale sqrtOverPi hsqrt 120 (7 / 2880) 35 (by norm_num) (by norm_num)
    have hd : sph.polyDeriv^[3] (sph.legendre 3) = [15] := by decide!
    show sph.lookupTableQ3 sqrtOverPi expI sinT cosT 6 =
      sph.spherical_harmonic sqrtOverPi expI sinT cosT 3 3
    have hn : (3 : Int).natAbs = 3 := rfl
    unfold sph.lookupTableQ3 sph.spherical_harmonic
    rw [hn, hd, hs]
    simp only [sph.polyEval, List.foldr]
    norm_num [Nat.factorial]
    ring

/-- Each component `k` of the table `sph::lookupTableQ6` is the spherical harmonic of order
`m = k - 6`, in every field in which `sqrtOverPi` scales as a square root does and `expI 0`
is 1. -/
theorem lookupTableQ6_component {K : Type} [Field K] [CharZero K] (sqrtOverPi : ℚ → K)
    (expI : Int → K) (sinT cosT : K)
    (hsqrt : ∀ a r : ℚ, 0 ≤ a → sqrtOverPi (a ^ 2 * r) = (a : K) * sqrtOverPi r)
    (hexp : expI 0 = 1) :
    ∀ k, k < 13 → sph.lookupTableQ6 sqrtOverPi expI sinT cosT k =
      sph.spherical_harmonic sqrtOverPi expI sinT cosT 6 ((k : Int) - ((6 : Nat) : Int)) := by
  intro k hk
  interval_cases k
  · have hs := sqrt_scale sqrtOverPi hsqrt 665280 (13 / 1916006400) 3003 (by norm_num) (by norm_num)
    have hd : sph.polyDeriv^[6] (sph.legendre 6) = [10395] := by decide!
    show sph.lookupTableQ6 sqrtOverPi expI sinT cosT 0 =
      sph.spherical_harmonic sqrtOverPi expI sinT cosT 6 (-6)
    have hn : ((-6) : Int).natAbs = 6 := rfl
    unfold sph.lookupTableQ6 sph.spherical_harmonic
    rw [hn, hd, hs]
    simp only [sph.polyEval, List.foldr]
    norm_num [Nat.factorial]
    ring
  · have hs := sqrt_scale sqrtOverPi hsqrt 110880 (13 / 159667200) 1001 (by norm_num) (by norm_num)
    have hd : sph.polyDeriv^[5] (sph.legendre 6) = [0, 10395] := by decide!
    show sph.lookupTableQ6 sqrtOverPi expI sinT cosT 1 =
      sph.spherical_harmonic sqrtOverPi expI sinT cosT 6 (-5)
    have hn : ((-5) : Int).natAbs = 5 := rfl
    unfold sph.lookupTableQ6 sph.spherical_harmonic
    rw [hn, hd, hs]
    simp only [sph.polyEval, List.foldr]
    norm_num [Nat.factorial]
    ring
  · have hs := sqrt_scale sqrtOverPi hsqrt 5040 (13 / 7257600) (91 / 2) (by norm_num) (by norm_num)
    have hd : sph.polyDeriv^[4] (sph.legendre 6) = [-945 / 2, 0, 10395 / 2] := by decide!
    show sph.lookupTableQ6 sqrtOverPi expI sinT cosT 2 =
      sph.spherical_harmonic sqrtOverPi expI sinT cosT 6 (-4)
    have hn : ((-4) : Int).natAbs = 4 := rfl
    unfold sph.lookupTableQ6 sph.spherical_harmonic
    rw [hn, hd, hs]
    simp only [sph.polyEval, List.foldr]
    norm_num [Nat.factorial]
    ring
  · have hs := sqrt_scale sqrtOverPi hsqrt 5040 (13 / 241920) 1365 (by norm_num) (by norm_num)
    have hd : sph.polyDeriv^[3] (sph.legendre 6) = [0, -945 / 2, 0, 3465 / 2] := by decide!
    show sph.lookupTableQ6 sqrtOverPi expI sinT cosT 3 =
      sph.spherical_harmonic sqrtOverPi expI sinT cosT 6 (-3)
    have hn : ((-3) : Int).natAbs = 3 := rfl
    unfold sph.lookupTableQ6 sph.spherical_harmonic
    rw [hn, hd, hs]
    simp only [sph.polyEval, List.foldr]
    norm_num [Nat.factorial]
    ring
  · have hs := sqrt_scale sqrtOverPi hsqrt 840 (13 / 6720) 1365 (by norm_num) (by norm_num)
    have hd : sph.polyDeriv^[2] (sph.legendre 6) = [105 / 8, 0, -945 / 4, 0, 3465 / 8] := by decide!
    show sph.lookupTableQ6 sqrtOverPi expI sinT cosT 4 =
      sph.spherical_harmonic sqrtOverPi expI sinT cosT 6 (-2)
    have hn : ((-2) : Int).natAbs = 2 := rfl
    unfold sph.lookupTableQ6 sph.spherical_harmonic
    rw [hn, hd, hs]
    simp only [sph.polyEval, List.foldr]
    norm_num [Nat.factorial]
    ring
  · have hs := sqrt_scale sqrtOverPi hsqrt 42 (13 / 168) (273 / 2) (by norm_num) (by norm_num)
    have hd : sph.polyDeriv^[1] (sph.legendre 6) = [0, 105 / 8, 0, -315 / 4, 0, 693 / 8] := by decide!
    show sph.lookupTableQ6 sqrtOverPi expI sinT cosT 5 =
      sph.spherical_harmonic sqrtOverPi expI sinT cosT 6 (-1)
    have hn : ((-1) : Int).natAbs = 1 := rfl
    unfold sph.lookupTableQ6 sph.spherical_harmonic
    rw [hn, hd, hs]
    simp only [sph.polyEval, List.foldr]
    norm_num [Nat.factorial]
    ring
  · have hs := sqrt_scale sqrtOverPi hsqrt 2 (13 / 4) 13 (by norm_num) (by norm_num)
    have hd : sph.polyDeriv^[0] (sph.legendre 6) = [-5 / 16, 0, 105 / 16, 0, -315 / 16, 0, 231 / 16] := by decide!
    show sph.lookupTableQ6 sqrtOverPi expI sinT cosT 6 =
      sph.spherical_harmonic sqrtOverPi expI sinT cosT 6 0
    have hn : (0 : Int).natAbs = 0 := rfl
    unfold sph.lookupTableQ6 sph.spherical_harmonic
    rw [hn, hd, hs, hexp]
    simp only [sph.polyEval, List.foldr]
    norm_num [Nat.factorial]
    ring
  · have hs := sqrt_scale sqrtOverPi hsqrt 42 (13 / 168) (273 / 2) (by norm_num) (by norm_num)
    have hd : sph.polyDeriv^[1] (sph.legendre 6) = [0, 105 / 8, 0, -315 / 4, 0, 693 / 8] := by decide!
    show sph.lookupTableQ6 sqrtOverPi expI sinT cosT 7 =
      sph.spherical_harmonic sqrtOverPi expI sinT cosT 6 1
    have hn : (1 : Int).natAbs = 1 := rfl
    unfold sph.lookupTableQ6 sph.spherical_harmonic
    rw [hn, hd, hs]
    simp only [sph.polyEval, List.foldr]
    norm_num [Nat.factorial]
    ring
  · have hs := sqrt_scale sqrtOverPi hsqrt 840 (13 / 6720) 1365 (by norm_num) (by norm_num)
    have hd : sph.polyDeriv^[2] (sph.legendre 6) = [105 / 8, 0, -945 / 4, 0, 3465 / 8] := by decide!
    show sph.lookupTableQ6 sqrtOverPi expI sinT cosT 8 =
      sph.spherical_harmonic sqrtOverPi expI sinT cosT 6 2
    have hn : (2 : Int).natAbs = 2 := rfl
    unfold sph.lookupTableQ6 sph.spherical_harmonic
    rw [hn, hd, hs]
    simp only [sph.polyEval, List.foldr]
    norm_num [Nat.factorial]
    ring
  · have hs := sqrt_scale sqrtOverPi hsqrt 5040 (13 / 241920) 1365 (by norm_num) (by norm_num)
    have hd : sph.polyDeriv^[3] (sph.legendre 6) = [0, -945 / 2, 0, 3465 / 2] := by decide!
    show sph.lookupTableQ6 sqrtOverPi expI sinT cosT 9 =
      sph.spherical_harmonic sqrtOverPi expI sinT cosT 6 3
    have hn : (3 : Int).natAbs = 3 := rfl
    unfold sph.lookupTableQ6 sph.spherical_harmonic
    rw [hn, hd, hs]
    simp only [sph.polyEval, List.foldr]
    norm_num [Nat.factorial]
    ring
  · have hs := sqrt_scale sqrtOverPi hsqrt 5040 (13 / 7257600) (91 / 2) (by norm_num) (by norm_num)
    have hd : sph.polyDeriv^[4] (sph.legendre 6) = [-945 / 2, 0, 10395 / 2] := by decide!
    show sph.lookupTableQ6 sqrtOverPi expI sinT cosT 10 =
      sph.spherical_harmonic sqrtOverPi expI sinT cosT 6 4
    have hn : (4 : Int).natAbs = 4 := rfl
    unfold sph.lookupTableQ6 sph.spherical_harmonic
    rw [hn, hd, hs]
    simp only [sph.polyEval, List.foldr]
    norm_num [Nat.factorial]
    ring
  · have hs := sqrt_scale sqrtOverPi hsqrt 110880 (13 / 159667200) 1001 (by norm_num) (by norm_num)
    have hd : sph.polyDeriv^[5] (sph.legendre 6) = [0, 10395] := by decide!
    show sph.lookupTableQ6 sqrtOverPi expI sinT cosT 11 =
      sph.spherical_harmonic sqrtOverPi expI sinT cosT 6 5
    have hn : (5 : Int).natAbs = 5 := rfl
    unfold sph.lookupTableQ6 sph.spherical_harmonic
    rw [hn, hd, hs]
    simp only [sph.polyEval, List.foldr]
    norm_num [Nat.factorial]
    ring
  · have hs := sqrt_scale sqrtOverPi hsqrt 665280 (13 / 1916006400) 3003 (by norm_num) (by norm_num)
    have hd : sph.polyDeriv^[6] (sph.legendre 6) = [10395] := by decide!
    show sph.lookupTableQ6 sqrtOverPi expI sinT cosT 12 =
      sph.spherical_harmonic sqrtOverPi expI sinT cosT 6 6
    have hn : (6 : Int).natAbs = 6 := rfl
    unfold sph.lookupTableQ6 sph.spherical_harmonic
    rw [hn, hd, hs]
    simp only [sph.polyEval, List.foldr]
    norm_num [Nat.factorial]
    ring


theorem sqrtOverPi_scale (a r : ℚ) (ha : 0 ≤ a) :
    ((Real.sqrt (((a ^ 2 * r : ℚ) : ℝ) / Real.pi) : ℝ) : ℂ) =
      ((a : ℚ) : ℂ) * ((Real.sqrt ((r : ℝ) / Real.pi) : ℝ) : ℂ) := by
  have ha' : (0 : ℝ) ≤ (a : ℝ) := by exact_mod_cast ha
  have h1 : (((a ^ 2 * r : ℚ) : ℝ) / Real.pi) = (a : ℝ) ^ 2 * ((r : ℝ) / Real.pi) := by
    push_cast
    ring
  rw [h1, Real.sqrt_mul (sq_nonneg _), Real.sqrt_sq ha']
  push_cast
  rfl

/-- C29: order-parameter agreement, in exact arithmetic.  For every pair of angles `theta`,
`phi`, the vector of the closed-form table for `l = 3` (7 components) and the one for `l = 6`
(13 components) are the vectors `spheriHarmo(3, angles)` and `spheriHarmo(6, angles)` of the
generic evaluator: component `k` of a table is the spherical harmonic `Y_l^m(theta, phi)` with
the Condon-Shortley phase for `m = k - l`. -/
theorem table_equals_harmonics (theta phi : ℝ) :
    sph.lookupTableQ3Vec (fun r : ℚ => ((Real.sqrt ((r : ℝ) / Real.pi) : ℝ) : ℂ))
        (fun n : Int => Complex.exp ((n : ℂ) * Complex.I * (phi : ℂ)))
        ((Real.sin theta : ℝ) : ℂ) ((Real.cos theta : ℝ) : ℂ) =
      sph.spheriHarmo (fun r : ℚ => ((Real.sqrt ((r : ℝ) / Real.pi) : ℝ) : ℂ))
        (fun n : Int => Complex.exp ((n : ℂ) * Complex.I * (phi : ℂ)))
        ((Real.sin theta : ℝ) : ℂ) ((Real.cos theta : ℝ) : ℂ) 3 ∧
    sph.lookupTableQ6Vec (fun r : ℚ => ((Real.sqrt ((r : ℝ) / Real.pi) : ℝ) : ℂ))
        (fun n : Int => Complex.exp ((n : ℂ) * Complex.I * (phi : ℂ)))
        ((Real.sin theta : ℝ) : ℂ) ((Real.cos theta : ℝ) : ℂ) =
      sph.spheriHarmo (fun r : ℚ => ((Real.sqrt ((r : ℝ) / Real.pi) : ℝ) : ℂ))
        (fun n : Int => Complex.exp ((n : ℂ) * Complex.I * (phi : ℂ)))
        ((Real.sin theta : ℝ) : ℂ) ((Real.cos theta : ℝ) : ℂ) 6 ∧
    (∀ k, k < 7 →
      sph.lookupTableQ3 (fun r : ℚ => ((Real.sqrt ((r : ℝ) / Real.pi) : ℝ) : ℂ))
          (fun n : Int => Complex.exp ((n : ℂ) * Complex.I * (phi : ℂ)))
          ((Real.sin theta : ℝ) : ℂ) ((Real.cos theta : ℝ) : ℂ) k =
        sph.spherical_harmonic (fun r : ℚ => ((Real.sqrt ((r : ℝ) / Real.pi) : ℝ) : ℂ))
          (fun n : Int => Complex.exp ((n : ℂ) * Complex.I * (phi : ℂ)))
          ((Real.sin theta : ℝ) : ℂ) ((Real.cos theta : ℝ) : ℂ) 3 ((k : Int) - 3)) ∧
    (∀ k, k < 13 →
      sph.lookupTableQ6 (fun r : ℚ => ((Real.sqrt ((r : ℝ) / Real.pi) : ℝ) : ℂ))
          (fun n : Int => Complex.exp ((n : ℂ) * Complex.I * (phi : ℂ)))
          ((Real.sin theta : ℝ) : ℂ) ((Real.cos theta : ℝ) : ℂ) k =
        sph.spherical_harmonic (fun r : ℚ => ((Real.sqrt ((r : ℝ) / Real.pi) : ℝ) : ℂ))
          (fun n : Int => Complex.exp ((n : ℂ) * Complex.I * (phi : ℂ)))
          ((Real.sin theta : ℝ) : ℂ) ((Real.cos theta : ℝ) : ℂ) 6 ((k : Int) - 6)) := by
  have h3 := lookupTableQ3_component
    (fun r : ℚ => ((Real.sqrt ((r : ℝ) / Real.pi) : ℝ) : ℂ))
    (fun n : Int => Complex.exp ((n : ℂ) * Complex.I * (phi : ℂ)))
    ((Real.sin theta : ℝ) : ℂ) ((Real.cos theta : ℝ) : ℂ) sqrtOverPi_scale (by simp)
  have h6 := lookupTableQ6_component
    (fun r : ℚ => ((Real.sqrt ((r : ℝ) / Real.pi) : ℝ) : ℂ))
    (fun n : Int => Complex.exp ((n : ℂ) * Complex.I * (phi : ℂ)))
    ((Real.sin theta : ℝ) : ℂ) ((Real.cos theta : ℝ) : ℂ) sqrtOverPi_scale (by simp)
  refine ⟨?_, ?_, h3, h6⟩
  · unfold sph.lookupTableQ3Vec sph.spheriHarmo
    apply List.map_congr_left
    intro k hk
    exact h3 k (List.mem_range.mp hk)
  · unfold sph.lookupTableQ6Vec sph.spheriHarmo
    apply List.map_congr_left
    intro k hk
    exact h6 k (List.mem_range.mp hk)


/-- Witness of C29 at `theta = pi / 2`, `phi = pi / 4`: component 0 of the table for `l = 3` is
the harmonic of order `-3`. -/
theorem table_equals_harmonics_witness :
    sph.lookupTableQ3 (fun r : ℚ => ((Real.sqrt ((r : ℝ) / Real.pi) : ℝ) : ℂ))
        (fun n : Int => Complex.exp ((n : ℂ) * Complex.I * ((Real.pi / 4 : ℝ) : ℂ)))
        ((Real.sin (Real.pi / 2) : ℝ) : ℂ) ((Real.cos (Real.pi / 2) : ℝ) : ℂ) 0 =
      sph.spherical_harmonic (fun r : ℚ => ((Real.sqrt ((r : ℝ) / Real.pi) : ℝ) : ℂ))
        (fun n : Int => Complex.exp ((n : ℂ) * Complex.I * ((Real.pi / 4 : ℝ) : ℂ)))
        ((Real.sin (Real.pi / 2) : ℝ) : ℂ) ((Real.cos (Real.pi / 2) : ℝ) : ℂ) 3
        (((0 : Nat) : Int) - 3) :=
  (table_equals_harmonics (Real.pi / 2) (Real.pi / 4)).2.2.1 0 (by decide)


/-! ### The empty ice cloud -/

/-- C37, refuted: for every ice cloud with `nop = 0` the two loops of `largestIceCluster` end
with empty `clusterID` and `nCluster`, `max_element` gives the position 0, and the read
`nCluster[0]` is out of range: no value is returned.  A frame in which every particle is tagged
water gives such an ice cloud. -/
theorem largestIceCluster_empty_cloud (fuel : Nat) (periodicDist : PointCloud → Nat → Nat → Dbl)
    (iceCloud : PointCloud) (cutoff : Dbl) (printCluster isSlice : Bool) :
    largestIceCluster.clusters fuel periodicDist { iceCloud with nop := 0 } cutoff =
      some ([], [], []) ∧
    max_element [] = 0 ∧ ([] : List Nat)[0]? = none ∧
    largestIceCluster fuel periodicDist { iceCloud with nop := 0 } cutoff printCluster
      isSlice = none ∧
    ∃ ice, getIceCloud (exampleFrame atom_state_type.water atom_state_type.water
        atom_state_type.water atom_state_type.water atom_state_type.water) exampleEmpty =
      some (exampleFrame atom_state_type.water atom_state_type.water
        atom_state_type.water atom_state_type.water atom_state_type.water, ice) ∧
      ice.nop = 0 ∧
      largestIceCluster fuel periodicDist ice cutoff printCluster isSlice = none :=
  ⟨rfl, rfl, rfl, rfl, _, getIceCloud_eq _ exampleEmpty (by decide), rfl, rfl⟩

/-! ### The particle count of the ice cloud -/

/-- The ice cloud after `getIceCloud`: the particles it held stay where they are, and `nop`
counts the particles added. -/
theorem getIceCloud_count (yCloud iceCloud : PointCloud)
    (hnop : yCloud.nop ≤ yCloud.pts.length) :
    ∃ ice, getIceCloud yCloud iceCloud = some (yCloud, ice) ∧
      ice.pts.length = iceCloud.pts.length + ice.nop ∧
      (∀ k, k < iceCloud.pts.length → ice.pts[k]? = iceCloud.pts[k]?) := by
  refine ⟨_, getIceCloud_eq yCloud iceCloud hnop, ?_, ?_⟩
  · simp only [List.length_append]
  · intro k hk
    exact List.getElem?_append_left hk

/-- C39, a failing input.  `getIceCloud` is called on a frame of one cubic particle, at the
abscissa 0, with an ice cloud that already holds one particle, at the abscissa 5: afterwards
the ice cloud holds 2 particles and its `nop` is 1, and the particle at index 0, the only index
below `nop`, is the one it held before, which is no particle of the frame.  With an ice cloud
that holds no particle, `nop` is the number of particles held. -/
theorem getIceCloud_keeps_old_particles :
    (∃ ice q, getIceCloud (exampleIce [0]) (exampleIce [5]) = some (exampleIce [0], ice) ∧
      ice.nop = 1 ∧ ice.pts.length = 2 ∧ ice.pts[0]? = some q ∧
      (exampleIce [5]).pts[0]? = some q ∧ q ∉ (exampleIce [0]).pts) ∧
    (∀ yCloud iceCloud : PointCloud, yCloud.nop ≤ yCloud.pts.length →
      ∃ ice, getIceCloud yCloud iceCloud = some (yCloud, ice) ∧
        ice.pts.length = iceCloud.pts.length + ice.nop ∧
        (∀ k, k < iceCloud.pts.length → ice.pts[k]? = iceCloud.pts[k]?)) := by
  refine ⟨⟨_, _, getIceCloud_eq _ _ (by decide), by rfl, by rfl, by rfl, by rfl, ?_⟩,
    getIceCloud_count⟩
  decide!

/-! ### The record of `printIceType` -/

theorem printIceType_step_eq (y : PointCloud) (isSlice : Bool) (t : Tally) (i : Nat)
    (p : Point) (hp : y.pts[i]? = some p) :
    printIceType.step y isSlice t i =
      some (if eligible isSlice p = true then Tally.bump t p.iceType else t) := by
  unfold printIceType.step
  rw [hp]
  dsimp only
  by_cases hsl : isSlice = true ∧ p.inSlice = false
  · rw [if_pos hsl]
    have : eligible isSlice p = false := by
      obtain ⟨h1, h2⟩ := hsl
      simp [eligible, h1, h2]
    rw [this]
    rfl
  · rw [if_neg hsl]
    have : eligible isSlice p = true := by
      cases isSlice <;> cases hin : p.inSlice <;> simp_all [eligible]
    rw [this, if_pos rfl]
    cases hT : p.iceType <;> simp [Tally.bump]

/-- The counters of `printIceType` after the first `n` particles count the eligible ones among
them, tag by tag. -/
theorem printIceType_fold (y : PointCloud) (isSlice : Bool) :
    ∀ n, n ≤ y.pts.length →
      ∃ t, (List.range n).foldlM (printIceType.step y isSlice) Tally.zero = some t ∧
        TallyOf isSlice (y.pts.take n) t := by
  intro n
  induction n with
  | zero =>
    intro _
    exact ⟨Tally.zero, rfl, tallyOf_zero _⟩
  | succ n ih =>
    intro hn
    obtain ⟨t, hrun, htal⟩ := ih (by omega)
    obtain ⟨p, hp⟩ := getElem?_of_lt y.pts n (by omega)
    refine ⟨_, (foldlM_range_succ _ n _ _).mpr ⟨t, hrun, printIceType_step_eq y isSlice t n p hp⟩,
      ?_⟩
    rw [take_succ_of_getElem? y.pts n p hp]
    by_cases he : eligible isSlice p = true
    · rw [if_pos he]
      have := tallyOf_bump isSlice (y.pts.take n) t p p.iceType htal he
      exact this
    · rw [if_neg he]
      exact tallyOf_skip isSlice (y.pts.take n) t p htal (by simpa using he)

theorem printIceType_none (y : PointCloud) (isSlice : Bool) (h : y.pts.length < y.nop) :
    printIceType y isSlice = none := by
  unfold printIceType
  have hsplit : List.range y.nop =
      List.range y.pts.length ++ List.range' y.pts.length (y.nop - y.pts.length) := by
    rw [List.range_eq_range', List.range_eq_range']
    have := List.range'_append 0 y.pts.length (y.nop - y.pts.length) 1
    simp only [Nat.zero_add, Nat.one_mul] at this
    rw [this]
    congr 1
    omega
  obtain ⟨t, hrun, _⟩ := printIceType_fold y isSlice y.pts.length le_rfl
  rw [hsplit, List.foldlM_append, hrun]
  have : List.range' y.pts.length (y.nop - y.pts.length) =
      y.pts.length :: List.range' (y.pts.length + 1) (y.nop - y.pts.length - 1) := by
    have e : y.nop - y.pts.length = (y.nop - y.pts.length - 1) + 1 := by omega
    rw [e, List.range'_succ]
    simp
  rw [this]
  simp only [Option.bind_eq_bind, Option.some_bind, List.foldlM_cons]
  have hnone : printIceType.step y isSlice t y.pts.length = none := by
    unfold printIceType.step
    rw [List.getElem?_eq_none (le_refl _)]
  rw [hnone]
  rfl

/-- Every eligible particle holds one of the seven tags. -/
theorem countTag_sum (isSlice : Bool) (l : List Point) :
    countTag isSlice atom_state_type.cubic l + countTag isSlice atom_state_type.hexagonal l +
      countTag isSlice atom_state_type.interfacial l +
      countTag isSlice atom_state_type.clathrate l +
      countTag isSlice atom_state_type.interClathrate l +
      countTag isSlice atom_state_type.water l +
      countTag isSlice atom_state_type.unclassified l = l.countP (eligible isSlice) := by
  induction l with
  | nil => rfl
  | cons p l ih =>
    unfold countTag at *
    simp only [List.countP_cons]
    cases he : eligible isSlice p
    · simp only [Bool.false_and, Bool.false_eq_true, if_false, Nat.add_zero]
      exact ih
    · cases hT : p.iceType <;> simp <;> omega

/-- The sum of the seven counters is the total. -/
theorem tallyOf_sum (isSlice : Bool) (l : List Point) (t : Tally) (h : TallyOf isSlice l t) :
    t.ic + t.ih + t.interIce + t.clath + t.interClath + t.water + t.unknown = t.total := by
  obtain ⟨h0, h1, h2, h3, h4, h5, h6, h7⟩ := h
  rw [h0, h1, h2, h3, h4, h5, h6, h7]
  exact countTag_sum isSlice l

/-! ### Conservation of the counters -/

theorem foldlM_invariant {σ : Type} (step : σ → Nat → Option σ) (P : σ → Prop)
    (hstep : ∀ s i s1, P s → step s i = some s1 → P s1) :
    ∀ (is : List Nat) (s out : σ), P s → is.foldlM step s = some out → P out := by
  intro is
  induction is with
  | nil =>
    intro s out hs h
    simp only [List.foldlM_nil] at h
    injection h with h
    rw [← h]
    exact hs
  | cons i rest ih =>
    intro s out hs h
    rw [List.foldlM_cons] at h
    cases hst : step s i with
    | none =>
      rw [hst] at h
      exact absurd h (by simp)
    | some s1 =>
      rw [hst] at h
      simp only [Option.bind_eq_bind, Option.some_bind] at h
      exact ih s1 out (hstep s i s1 hs hst) h

/-- The tags the CHILL decision tree assigns. -/
theorem chillStepTag_tags (y : PointCloud) (i : Nat) (p : Point) (tag : atom_state_type)
    (h : chillStepTag y i p = some tag) :
    tag = atom_state_type.cubic ∨ tag = atom_state_type.hexagonal ∨
      tag = atom_state_type.interfacial ∨ tag = atom_state_type.water := by
  unfold chillStepTag at h
  cases hc : countBonds p.c_ij (List.range 4) (0, 0, 0) with
  | none =>
    rw [hc] at h
    exact absurd h (by simp)
  | some sen =>
    obtain ⟨s, e, na⟩ := sen
    rw [hc] at h
    dsimp only at h
    split_ifs at h with h1 h2
    · injection h with h
      exact Or.inl h.symm
    · injection h with h
      exact Or.inr (Or.inl h.symm)
    · cases hb : isInterfacial y i s e with
      | none =>
        rw [hb] at h
        exact absurd h (by simp)
      | some b =>
        rw [hb] at h
        cases b
        · injection h with h
          exact Or.inr (Or.inr (Or.inr h.symm))
        · injection h with h
          exact Or.inr (Or.inr (Or.inl h.symm))

/-- The CHILL+ decision tree leaves no particle unclassified. -/
theorem chillPlusStepTag_tags (y : PointCloud) (i : Nat) (p : Point) (tag : atom_state_type)
    (h : chillPlusStepTag y i p = some tag) : tag ≠ atom_state_type.unclassified := by
  unfold chillPlusStepTag at h
  cases hc : countBonds p.c_ij (List.range p.neighList.length) (0, 0, 0) with
  | none =>
    rw [hc] at h
    exact absurd h (by simp)
  | some sen =>
    obtain ⟨s, e, na⟩ := sen
    rw [hc] at h
    dsimp only at h
    intro htag
    subst htag
    revert h
    cases isInterfacial y i s e with
    | none => split_ifs <;> simp
    | some b => cases b <;> split_ifs <;> simp

/-- A property of the counters that every counted tag keeps holds after an ice-type pass. -/
theorem tagStep_fold_counters (tagF : PointCloud → Nat → Point → Option atom_state_type)
    (isSlice : Bool) (P : Tally → Prop) (hP : P Tally.zero)
    (hbump : ∀ (y : PointCloud) (i : Nat) (p : Point) (tag : atom_state_type) (t : Tally),
      tagF y i p = some tag → P t → P (Tally.bump t tag))
    (is : List Nat) (y : PointCloud) (out : PointCloud × Tally)
    (h : is.foldlM (tagStep tagF isSlice) (y, Tally.zero) = some out) : P out.2 := by
  refine foldlM_invariant (tagStep tagF isSlice) (fun st => P st.2) ?_ is (y, Tally.zero) out
    hP h
  intro st i st1 hst hstep
  obtain ⟨p, _, hcase⟩ := tagStep_spec tagF isSlice st st1 i hstep
  rcases hcase with ⟨_, rfl⟩ | ⟨_, tag, htag, rfl⟩
  · exact hst
  · exact hbump st.1 i p tag st.2 htag hst

/-- The bond counters of the ice-type passes: the three counters grow by the number of bonds
counted. -/
theorem countBonds_sum (rs : List Result) (ks : List Nat) :
    ∀ (acc out : Nat × Nat × Nat), countBonds rs ks acc = some out →
      out.1 + out.2.1 + out.2.2 = acc.1 + acc.2.1 + acc.2.2 + ks.length := by
  induction ks with
  | nil =>
    intro acc out h
    obtain ⟨s, e, na⟩ := acc
    simp only [countBonds, Option.some.injEq] at h
    rw [← h]
    rfl
  | cons j rest ih =>
    intro acc out h
    obtain ⟨s, e, na⟩ := acc
    simp only [countBonds] at h
    cases hr : rs[j]? with
    | none =>
      rw [hr] at h
      exact absurd h (by simp)
    | some r =>
      rw [hr] at h
      dsimp only at h
      split_ifs at h
      · have := ih _ out h
        simp only [List.length_cons] at this ⊢
        omega
      · have := ih _ out h
        simp only [List.length_cons] at this ⊢
        omega
      · have := ih _ out h
        simp only [List.length_cons] at this ⊢
        omega

/-- C35: tally conservation.  In the line of `getIceType` cubic + hexagonal + interfacial +
water equals total; in the line of `getIceTypePlus` cubic + hexagonal + interfacial +
clathrate + interClathrate + water equals total; and the loop that counts the bond labels of a
particle, over any list of bond positions, ends with staggered + eclipsed + other equal to the
number of bonds counted: 4 in `getIceType`, the neighbour count in `getIceTypePlus`. -/
theorem tally_conservation (yCloud : PointCloud) (isSlice : Bool)
    (out : PointCloud × List Int) :
    (getIceType yCloud isSlice = some out →
      ∃ ic ih interIce water total : Nat,
        out.2 = [yCloud.currentFrame, (ic : Int), (ih : Int), (interIce : Int), (water : Int),
          (total : Int)] ∧
        ic + ih + interIce + water = total) ∧
    (getIceTypePlus yCloud isSlice = some out →
      ∃ ic ih interIce clath interClath water total : Nat,
        out.2 = [yCloud.currentFrame, (ic : Int), (ih : Int), (interIce : Int), (clath : Int),
          (interClath : Int), (water : Int), (total : Int)] ∧
        ic + ih + interIce + clath + interClath + water = total) ∧
    (∀ (c_ij : List Result) (js : List Nat) (num_staggrd num_eclipsd na : Nat),
      countBonds c_ij js (0, 0, 0) = some (num_staggrd, num_eclipsd, na) →
      num_staggrd + num_eclipsd + na = js.length) ∧
    (∀ (p : Point) (num_staggrd num_eclipsd na : Nat),
      (countBonds p.c_ij (List.range 4) (0, 0, 0) = some (num_staggrd, num_eclipsd, na) →
        num_staggrd + num_eclipsd + na = 4) ∧
      (countBonds p.c_ij (List.range p.neighList.length) (0, 0, 0) =
          some (num_staggrd, num_eclipsd, na) →
        num_staggrd + num_eclipsd + na = p.neighList.length)) := by
  have hcount : ∀ (c_ij : List Result) (js : List Nat) (num_staggrd num_eclipsd na : Nat),
      countBonds c_ij js (0, 0, 0) = some (num_staggrd, num_eclipsd, na) →
      num_staggrd + num_eclipsd + na = js.length := by
    intro c_ij js s e na h
    have := countBonds_sum c_ij js (0, 0, 0) (s, e, na) h
    simpa using this
  refine ⟨?_, ?_, hcount, ?_⟩
  · intro hrun
    obtain ⟨t, hfold, hline⟩ := (getIceType_run yCloud isSlice out).mp hrun
    obtain ⟨hfr, _, htal⟩ :=
      tagStep_fold_tally chillStepTag isSlice yCloud yCloud.nop (out.1, t) hfold
    have hzero : t.clath = 0 ∧ t.interClath = 0 ∧ t.unknown = 0 := by
      refine tagStep_fold_counters chillStepTag isSlice
        (fun t => t.clath = 0 ∧ t.interClath = 0 ∧ t.unknown = 0) ⟨rfl, rfl, rfl⟩ ?_ _ yCloud
        (out.1, t) hfold
      intro y i p tag t0 htag h0
      rcases chillStepTag_tags y i p tag htag with rfl | rfl | rfl | rfl <;> exact h0
    have hsum := tallyOf_sum isSlice _ t htal
    refine ⟨t.ic, t.ih, t.interIce, t.water, t.total, ?_, ?_⟩
    · rw [hline, (noTags_fields out.1 yCloud hfr).2.1]
    · obtain ⟨h1, h2, h3⟩ := hzero
      omega
  · intro hrun
    obtain ⟨t, hfold, hline⟩ := (getIceTypePlus_run yCloud isSlice out).mp hrun
    obtain ⟨hfr, _, htal⟩ :=
      tagStep_fold_tally chillPlusStepTag isSlice yCloud yCloud.nop (out.1, t) hfold
    have hzero : t.unknown = 0 := by
      refine tagStep_fold_counters chillPlusStepTag isSlice (fun t => t.unknown = 0) rfl ?_ _
        yCloud (out.1, t) hfold
      intro y i p tag t0 htag h0
      have hne := chillPlusStepTag_tags y i p tag htag
      cases tag <;> first | exact h0 | exact absurd rfl hne
    have hsum := tallyOf_sum isSlice _ t htal
    refine ⟨t.ic, t.ih, t.interIce, t.clath, t.interClath, t.water, t.total, ?_, ?_⟩
    · rw [hline, (noTags_fields out.1 yCloud hfr).2.1]
    · omega
  · intro p s e na
    constructor
    · intro h
      have := hcount p.c_ij _ s e na h
      simpa using this
    · intro h
      have := hcount p.c_ij _ s e na h
      simpa using this

/-- Witness of C35 on `exampleFrame`: the line of `getIceType` is `0 1 1 2 1 5` and
`1 + 1 + 2 + 1 = 5`. -/
theorem tally_conservation_witness :
    getIceType (exampleFrame atom_state_type.unclassified atom_state_type.unclassified
      atom_state_type.unclassified atom_state_type.unclassified atom_state_type.unclassified)
      false =
      some (exampleFrame atom_state_type.interfacial atom_state_type.interfacial
        atom_state_type.cubic atom_state_type.hexagonal atom_state_type.water,
        [0, 1, 1, 2, 1, 5]) ∧
    ∃ ic ih interIce water total : Nat,
      ([0, 1, 1, 2, 1, 5] : List Int) =
        [(exampleFrame atom_state_type.unclassified atom_state_type.unclassified
          atom_state_type.unclassified atom_state_type.unclassified
          atom_state_type.unclassified).currentFrame, (ic : Int), (ih : Int),
          (interIce : Int), (water : Int), (total : Int)] ∧
      ic + ih + interIce + water = total :=
  ⟨by rfl, (tally_conservation
    (exampleFrame atom_state_type.unclassified atom_state_type.unclassified
      atom_state_type.unclassified atom_state_type.unclassified atom_state_type.unclassified)
    false
    (exampleFrame atom_state_type.interfacial atom_state_type.interfacial
      atom_state_type.cubic atom_state_type.hexagonal atom_state_type.water,
      [0, 1, 1, 2, 1, 5])).1 (by rfl)⟩

/-- C40, refuted as stated: on a frame of five eligible particles that hold no ice type yet,
`printIceType` writes the record `0 0 0 0 0 0 0 5`: the total is 5 and the six per-type counts
sum to 0. -/
theorem printIceType_record_counterexample :
    printIceType (exampleFrame atom_state_type.unclassified atom_state_type.unclassified
      atom_state_type.unclassified atom_state_type.unclassified atom_state_type.unclassified)
      false = some (0, [0, 0, 0, 0, 0, 0, 0, 5]) ∧
    ((0 : Int) + 0 + 0 + 0 + 0 + 0 ≠ 5) ∧
    countTag false atom_state_type.unclassified
      (exampleFrame atom_state_type.unclassified atom_state_type.unclassified
        atom_state_type.unclassified atom_state_type.unclassified
        atom_state_type.unclassified).pts = 5 := by
  refine ⟨by rfl, by decide, by rfl⟩

/-- C40, amended: `printIceType` returns 0 and reports the record (frame, cubic, hexagonal,
interfacial, clathrate, interClathrate, water, total) in which each count is the number of
eligible particles holding that tag and the total is the number of eligible particles; the six
per-type counts and the number of eligible particles that hold the tag unclassified sum to the
total.  Called on the frame `getIceTypePlus` returned, with the same flag, it reports the same
record as `getIceTypePlus` did, and in that record the six per-type counts sum to the total. -/
theorem printIceType_record (yCloud : PointCloud) (isSlice : Bool) :
    (yCloud.nop ≤ yCloud.pts.length → ∃ out, printIceType yCloud isSlice = some out) ∧
    (∀ out, printIceType yCloud isSlice = some out →
      out = (0, [yCloud.currentFrame,
        (countTag isSlice atom_state_type.cubic (yCloud.pts.take yCloud.nop) : Nat),
        (countTag isSlice atom_state_type.hexagonal (yCloud.pts.take yCloud.nop) : Nat),
        (countTag isSlice atom_state_type.interfacial (yCloud.pts.take yCloud.nop) : Nat),
        (countTag isSlice atom_state_type.clathrate (yCloud.pts.take yCloud.nop) : Nat),
        (countTag isSlice atom_state_type.interClathrate (yCloud.pts.take yCloud.nop) : Nat),
        (countTag isSlice atom_state_type.water (yCloud.pts.take yCloud.nop) : Nat),
        ((yCloud.pts.take yCloud.nop).countP (eligible isSlice) : Nat)]) ∧
      countTag isSlice atom_state_type.cubic (yCloud.pts.take yCloud.nop) +
        countTag isSlice atom_state_type.hexagonal (yCloud.pts.take yCloud.nop) +
        countTag isSlice atom_state_type.interfacial (yCloud.pts.take yCloud.nop) +
        countTag isSlice atom_state_type.clathrate (yCloud.pts.take yCloud.nop) +
        countTag isSlice atom_state_type.interClathrate (yCloud.pts.take yCloud.nop) +
        countTag isSlice atom_state_type.water (yCloud.pts.take yCloud.nop) +
        countTag isSlice atom_state_type.unclassified (yCloud.pts.take yCloud.nop) =
          (yCloud.pts.take yCloud.nop).countP (eligible isSlice)) ∧
    (∀ (y0 : PointCloud) (record : List Int),
      getIceTypePlus y0 isSlice = some (yCloud, record) →
      printIceType yCloud isSlice = some (0, record) ∧
      countTag isSlice atom_state_type.unclassified (yCloud.pts.take yCloud.nop) = 0 ∧
      ∃ ic ih interIce clath interClath water total : Nat,
        record = [yCloud.currentFrame, (ic : Int), (ih : Int), (interIce : Int),
          (clath : Int), (interClath : Int), (water : Int), (total : Int)] ∧
        ic + ih + interIce + clath + interClath + water = total) := by
  refine ⟨?_, ?_, ?_⟩
  · intro hle
    obtain ⟨t, hrun, _⟩ := printIceType_fold yCloud isSlice yCloud.nop hle
    unfold printIceType
    rw [hrun]
    exact ⟨_, rfl⟩
  · intro out hout
    have hle : yCloud.nop ≤ yCloud.pts.length := by
      by_contra hlt
      rw [printIceType_none yCloud isSlice (by omega)] at hout
      exact absurd hout (by simp)
    refine ⟨?_, countTag_sum isSlice _⟩
    obtain ⟨t, hrun, htal⟩ := printIceType_fold yCloud isSlice yCloud.nop hle
    unfold printIceType at hout
    rw [hrun] at hout
    injection hout with hout
    obtain ⟨h0, h1, h2, h3, h4, h5, h6, h7⟩ := htal
    rw [← hout, h0, h1, h2, h3, h5, h6, h4]
  · intro y0 record hrun
    obtain ⟨t, hfold, hline⟩ := (getIceTypePlus_run y0 isSlice (yCloud, record)).mp hrun
    dsimp only at hfold hline
    obtain ⟨hfr, hlen, htal⟩ :=
      tagStep_fold_tally chillPlusStepTag isSlice y0 y0.nop (yCloud, t) hfold
    dsimp only at hfr hlen htal
    have hnop : yCloud.nop = y0.nop := (noTags_fields yCloud y0 hfr).1
    rw [← hnop] at hlen htal
    have hzero : t.unknown = 0 := by
      refine tagStep_fold_counters chillPlusStepTag isSlice (fun t => t.unknown = 0) rfl ?_ _
        y0 (yCloud, t) hfold
      intro y i p tag t0 htag h0
      have hne := chillPlusStepTag_tags y i p tag htag
      cases tag <;> first | exact h0 | exact absurd rfl hne
    have hsum := tallyOf_sum isSlice _ t htal
    obtain ⟨t1, hrun1, htal1⟩ := printIceType_fold yCloud isSlice yCloud.nop hlen
    obtain ⟨h0, h1, h2, h3, h4, h5, h6, h7⟩ := htal
    obtain ⟨k0, k1, k2, k3, k4, k5, k6, k7⟩ := htal1
    refine ⟨?_, by rw [← h7]; exact hzero, t.ic, t.ih, t.interIce, t.clath, t.interClath,
      t.water, t.total, hline, by omega⟩
    unfold printIceType
    rw [hrun1, hline]
    dsimp only
    rw [k0, k1, k2, k3, k4, k5, k6, h0, h1, h2, h3, h4, h5, h6]

/-- Witness of C40 on `exampleFrame`: `getIceTypePlus` and `printIceType` after it both write
the record `0 1 1 2 1 0 0 5`. -/
theorem printIceType_record_witness :
    getIceTypePlus (exampleFrame atom_state_type.unclassified atom_state_type.unclassified
      atom_state_type.unclassified atom_state_type.unclassified atom_state_type.unclassified)
      false =
      some (exampleFrame atom_state_type.interfacial atom_state_type.interfacial
        atom_state_type.cubic atom_state_type.hexagonal atom_state_type.clathrate,
        [0, 1, 1, 2, 1, 0, 0, 5]) ∧
    printIceType (exampleFrame atom_state_type.interfacial atom_state_type.interfacial
      atom_state_type.cubic atom_state_type.hexagonal atom_state_type.clathrate) false =
      some (0, [0, 1, 1, 2, 1, 0, 0, 5]) :=
  ⟨by rfl, ((printIceType_record
    (exampleFrame atom_state_type.interfacial atom_state_type.interfacial
      atom_state_type.cubic atom_state_type.hexagonal atom_state_type.clathrate) false).2.2
    (exampleFrame atom_state_type.unclassified atom_state_type.unclassified
      atom_state_type.unclassified atom_state_type.unclassified atom_state_type.unclassified)
    [0, 1, 1, 2, 1, 0, 0, 5] (by rfl)).1⟩

/-! ### The order of the decision rules -/

theorem firstMatch_of_mem (rules : List (Bool × atom_state_type))
    (hex : rules.Pairwise (fun r r1 => ¬ (r.1 = true ∧ r1.1 = true)))
    (t : atom_state_type) (hmem : (true, t) ∈ rules) : firstMatch rules = t := by
  induction rules with
  | nil => exact absurd hmem (List.not_mem_nil _)
  | cons r rest ih =>
    obtain ⟨c, t1⟩ := r
    rw [List.pairwise_cons] at hex
    cases c with
    | true =>
      simp only [firstMatch, if_true]
      rcases List.mem_cons.mp hmem with h | h
      · injection h with _ h2
        exact h2.symm
      · exact absurd ⟨rfl, rfl⟩ (hex.1 _ h)
    | false =>
      simp only [firstMatch, Bool.false_eq_true, if_false]
      rcases List.mem_cons.mp hmem with h | h
      · injection h with h1 _
        exact absurd h1 (by simp)
      · exact ih hex.2 h

theorem firstMatch_of_none (rules : List (Bool × atom_state_type))
    (h : ∀ r ∈ rules, r.1 = false) : firstMatch rules = atom_state_type.water := by
  induction rules with
  | nil => rfl
  | cons r rest ih =>
    obtain ⟨c, t1⟩ := r
    have hc : c = false := h (c, t1) (List.mem_cons_self _ _)
    subst hc
    simp only [firstMatch, Bool.false_eq_true, if_false]
    exact ih (fun r hr => h r (List.mem_cons_of_mem _ hr))

/-- Rules of which no two hold together give the same tag in every order. -/
theorem firstMatch_perm (rules rules1 : List (Bool × atom_state_type))
    (hex : rules.Pairwise (fun r r1 => ¬ (r.1 = true ∧ r1.1 = true)))
    (hperm : rules1.Perm rules) : firstMatch rules1 = firstMatch rules := by
  have hex1 : rules1.Pairwise (fun r r1 => ¬ (r.1 = true ∧ r1.1 = true)) :=
    (List.Perm.pairwise_iff (fun {a b} hab hba => hab ⟨hba.2, hba.1⟩) hperm).mpr hex
  by_cases hone : ∃ r ∈ rules, r.1 = true
  · obtain ⟨⟨c, t⟩, hr, hc⟩ := hone
    have hc1 : c = true := hc
    subst hc1
    rw [firstMatch_of_mem rules hex t hr,
      firstMatch_of_mem rules1 hex1 t (hperm.mem_iff.mpr hr)]
  · have hall : ∀ r ∈ rules, r.1 = false := by
      intro r hr
      cases hrc : r.1 with
      | false => rfl
      | true => exact absurd ⟨r, hr, hrc⟩ hone
    rw [firstMatch_of_none rules hall,
      firstMatch_of_none rules1 (fun r hr => hall r (hperm.mem_iff.mp hr))]

/-- C34: the decision rules are mutually exclusive.  For a particle whose counted bonds are 4
in number (staggered + eclipsed + other = 4), `b` being the value of the interfacial test, no
two of the rules cubic, hexagonal, interfacial of CHILL hold together, and no two of the rules
cubic, hexagonal, interfacial, clathrate, interClathrate of CHILL+; evaluated in any order, the
rules give the tag of the decision tree, which is the tag `getIceType` and, for a particle with
4 neighbours, `getIceTypePlus` assign. -/
theorem rules_mutually_exclusive (yCloud : PointCloud) (iatom : Nat) (p : Point)
    (hp : yCloud.pts[iatom]? = some p) (num_staggrd num_eclipsd na : Nat)
    (hsum : num_staggrd + num_eclipsd + na = 4) (b : Bool)
    (hb : isInterfacial yCloud iatom num_staggrd num_eclipsd = some b) :
    (chillRules num_staggrd num_eclipsd b).Pairwise
      (fun r r1 => ¬ (r.1 = true ∧ r1.1 = true)) ∧
    (chillPlusRules num_staggrd num_eclipsd b).Pairwise
      (fun r r1 => ¬ (r.1 = true ∧ r1.1 = true)) ∧
    (∀ rules : List (Bool × atom_state_type),
      rules.Perm (chillRules num_staggrd num_eclipsd b) →
      firstMatch rules = chillTag num_staggrd num_eclipsd (some b) ∧
      (countBonds p.c_ij (List.range 4) (0, 0, 0) = some (num_staggrd, num_eclipsd, na) →
        chillStepTag yCloud iatom p = some (firstMatch rules))) ∧
    (∀ rules : List (Bool × atom_state_type),
      rules.Perm (chillPlusRules num_staggrd num_eclipsd b) →
      firstMatch rules = chillPlusTag 4 num_staggrd num_eclipsd (some b) ∧
      (p.neighList.length = 4 →
        countBonds p.c_ij (List.range p.neighList.length) (0, 0, 0) =
          some (num_staggrd, num_eclipsd, na) →
        chillPlusStepTag yCloud iatom p = some (firstMatch rules))) := by
  have hint : b = true → num_staggrd = 2 ∨ (num_staggrd = 3 ∧ num_eclipsd = 0) := by
    intro hbt
    rcases (isInterfacial_some_iff yCloud iatom num_staggrd num_eclipsd p hp b hb).mp hbt with
      h | h
    · exact Or.inl h.1
    · exact Or.inr ⟨h.1, h.2.1⟩
  have hex : (chillRules num_staggrd num_eclipsd b).Pairwise
      (fun r r1 => ¬ (r.1 = true ∧ r1.1 = true)) := by
    simp only [chillRules, List.pairwise_cons, List.mem_cons, List.mem_singleton,
      List.not_mem_nil, forall_eq_or_imp, forall_eq, decide_eq_true_eq, IsEmpty.forall_iff,
      implies_true, List.Pairwise.nil, and_true, not_and]
    refine ⟨⟨by omega, ?_⟩, ?_⟩
    · intro h4 hbt
      have := hint hbt
      omega
    · intro h3 hbt
      have := hint hbt
      omega
  have hexP : (chillPlusRules num_staggrd num_eclipsd b).Pairwise
      (fun r r1 => ¬ (r.1 = true ∧ r1.1 = true)) := by
    simp only [chillPlusRules, List.pairwise_cons, List.mem_cons, List.mem_singleton,
      List.not_mem_nil, forall_eq_or_imp, forall_eq, decide_eq_true_eq, IsEmpty.forall_iff,
      implies_true, List.Pairwise.nil, and_true, not_and]
    refine ⟨⟨by omega, ?_, by omega, by omega⟩, ⟨?_, by omega, by omega⟩, ⟨?_, ?_⟩, by omega⟩
    · intro h4 hbt
      have := hint hbt
      omega
    · intro h3 hbt
      have := hint hbt
      omega
    · intro hbt
      have := hint hbt
      omega
    · intro hbt
      have := hint hbt
      omega
  have htag : firstMatch (chillRules num_staggrd num_eclipsd b) =
      chillTag num_staggrd num_eclipsd (some b) := by
    cases b <;> simp [firstMatch, chillRules, chillTag]
  have htagP : firstMatch (chillPlusRules num_staggrd num_eclipsd b) =
      chillPlusTag 4 num_staggrd num_eclipsd (some b) := by
    cases b <;> simp [firstMatch, chillPlusRules, chillPlusTag]
  refine ⟨hex, hexP, ?_, ?_⟩
  · intro rules hperm
    have h1 := firstMatch_perm _ rules hex hperm
    refine ⟨by rw [h1, htag], ?_⟩
    intro hc
    rw [h1, htag]
    unfold chillStepTag chillTag
    rw [hc]
    dsimp only
    rw [hb]
    cases b <;> dsimp only <;> split_ifs <;> simp_all
  · intro rules hperm
    have h1 := firstMatch_perm _ rules hexP hperm
    refine ⟨by rw [h1, htagP], ?_⟩
    intro hn hc
    rw [h1, htagP]
    unfold chillPlusStepTag chillPlusTag
    rw [hc]
    dsimp only
    rw [hb, if_pos hn]
    cases b <;> dsimp only <;> split_ifs <;> simp_all

/-- Witness of C34 on `exampleFrame`: particle 0 has 2 staggered bonds, no eclipsed bond and a
true interfacial test; the CHILL+ rules taken in the reverse order give the tag of the tree,
interfacial, which is the tag the step of `getIceTypePlus` assigns. -/
theorem rules_mutually_exclusive_witness :
    firstMatch (chillPlusRules 2 0 true).reverse = chillPlusTag 4 2 0 (some true) ∧
    chillPlusTag 4 2 0 (some true) = atom_state_type.interfacial ∧
    chillPlusStepTag
      (exampleFrame atom_state_type.unclassified atom_state_type.unclassified
        atom_state_type.unclassified atom_state_type.unclassified atom_state_type.unclassified)
      0 (examplePoint [1, 2, 3, 4] [bond_type.staggered, bond_type.staggered,
        bond_type.out_of_range, bond_type.out_of_range] atom_state_type.unclassified) =
      some (firstMatch (chillPlusRules 2 0 true).reverse) :=
  have h := (rules_mutually_exclusive
    (exampleFrame atom_state_type.unclassified atom_state_type.unclassified
      atom_state_type.unclassified atom_state_type.unclassified atom_state_type.unclassified)
    0 (examplePoint [1, 2, 3, 4] [bond_type.staggered, bond_type.staggered,
      bond_type.out_of_range, bond_type.out_of_range] atom_state_type.unclassified)
    (by rfl) 2 0 2 (by rfl) true (by rfl)).2.2.2 (chillPlusRules 2 0 true).reverse
    (List.reverse_perm _)
  ⟨h.1, by rfl, h.2 (by rfl) (by rfl)⟩

/-! ### The cutoff -/

theorem Dbl_le_trans (a b d : Dbl) (h1 : a ≤ b) (h2 : b ≤ d) : a ≤ d := by
  cases a with
  | nan => exact absurd h1 (Dbl_nan_le _)
  | val x =>
    cases b with
    | nan => exact absurd h1 (Dbl_le_nan _)
    | val y =>
      cases d with
      | nan => exact absurd h2 (Dbl_le_nan _)
      | val z =>
        rw [Dbl_le_val] at h1 h2 ⊢
        exact le_trans h1 h2

/-- Particles connected under a cutoff are connected under every larger cutoff. -/
theorem connected_mono (pd : PointCloud → Nat → Nat → Dbl) (ice : PointCloud)
    (c1 c2 : Dbl) (h12 : c1 ≤ c2) (a b : Nat) (h : connected pd ice c1 a b) :
    connected pd ice c2 a b := by
  refine Relation.ReflTransGen.mono ?_ h
  intro x y hxy
  exact ⟨hxy.1, hxy.2.1, Dbl_le_trans _ _ _ hxy.2.2 h12⟩

/-- The result of `largestIceCluster.body` on the linked list `0 .. nop - 1` is monotone in the
cutoff.  For a non-empty ice cloud with a symmetric distance and cutoffs `c1 <= c2`, it returns
a value for each
cutoff (given `nop` iterations for each do-while), and the one for `c1` is at most the one for
`c2`. -/
theorem body_cutoff_monotone (fuel : Nat)
    (periodicDist : PointCloud → Nat → Nat → Dbl) (iceCloud : PointCloud) (c1 c2 : Dbl)
    (printCluster isSlice : Bool) (hN : 0 < iceCloud.nop) (hfuel : iceCloud.nop ≤ fuel)
    (hsym : ∀ a b, a < iceCloud.nop → b < iceCloud.nop →
      periodicDist iceCloud a b = periodicDist iceCloud b a)
    (hprint : printCluster = true →
      iceCloud.nop ≤ iceCloud.pts.length ∧ iceCloud.boxLow.length ≤ iceCloud.box.length)
    (h12 : c1 ≤ c2) :
    ∃ n1 n2 dump1 dump2,
      largestIceCluster.body fuel periodicDist iceCloud c1 printCluster isSlice
          (List.range iceCloud.nop) =
        some (n1, dump1) ∧
      largestIceCluster.body fuel periodicDist iceCloud c2 printCluster isSlice
          (List.range iceCloud.nop) =
        some (n2, dump2) ∧
      n1 ≤ n2 := by
  obtain ⟨n1, dump1, hrun1, ⟨i, hi, r1, hnd1, hmem1, hlen1⟩, _⟩ :=
    body_core fuel periodicDist iceCloud c1 printCluster isSlice hN hfuel hsym
      hprint
  obtain ⟨n2, dump2, hrun2, _, hmax2⟩ :=
    body_core fuel periodicDist iceCloud c2 printCluster isSlice hN hfuel hsym
      hprint
  obtain ⟨r2, hnd2, hmem2, hlen2⟩ := hmax2 i hi
  refine ⟨n1, n2, dump1, dump2, hrun1, hrun2, ?_⟩
  have hsub : r1 ⊆ r2 := by
    intro k hk
    exact (hmem2 k).mpr (connected_mono periodicDist iceCloud c1 c2 h12 i k ((hmem1 k).mp hk))
  have := List.Subperm.length_le (List.subperm_of_subset hnd1 hsub)
  omega

/-- Example of `body_cutoff_monotone`: four particles on a line at the abscissas 0, 1, 5, 2;
with the cutoff 1 the largest cluster has 3 particles, with the cutoff 3 it has 4. -/
theorem body_cutoff_monotone_example :
    largestIceCluster.body 4 exampleDist (exampleIce [0, 1, 5, 2]) (Dbl.val 1) false false
        (List.range (exampleIce [0, 1, 5, 2]).nop) =
      some (3, none) ∧
    largestIceCluster.body 4 exampleDist (exampleIce [0, 1, 5, 2]) (Dbl.val 3) false false
        (List.range (exampleIce [0, 1, 5, 2]).nop) =
      some (4, none) ∧
    ∃ n1 n2 dump1 dump2,
      largestIceCluster.body 4 exampleDist (exampleIce [0, 1, 5, 2]) (Dbl.val 1) false false
          (List.range (exampleIce [0, 1, 5, 2]).nop) =
        some (n1, dump1) ∧
      largestIceCluster.body 4 exampleDist (exampleIce [0, 1, 5, 2]) (Dbl.val 3) false false
          (List.range (exampleIce [0, 1, 5, 2]).nop) =
        some (n2, dump2) ∧
      n1 ≤ n2 :=
  ⟨by decide!, by decide!,
    body_cutoff_monotone 4 exampleDist (exampleIce [0, 1, 5, 2]) (Dbl.val 1)
      (Dbl.val 3) false false (by decide) (by decide)
      (fun a b _ _ => exampleDist_symm _ a b) (by intro h; exact absurd h (by decide))
      (by rw [Dbl_le_val]; norm_num)⟩

/-! ### The construction loop for an arbitrary distance -/

theorem nodup_length_le (r : List Nat) (n : Nat) (hnd : r.Nodup) (h : ∀ x ∈ r, x < n) :
    r.length ≤ n := by
  have hsub : r ⊆ List.range n := fun x hx => List.mem_range.mpr (h x hx)
  have := List.Subperm.length_le (List.subperm_of_subset hnd hsub)
  simpa using this

theorem walkInv_head_mem (L0 : List Nat) (i : Nat) (L pre : List Nat) (j : Nat)
    (post : List Nat) (hR : WalkInv L0 i L pre j post) : i ∈ pre ++ [j] := by
  have hhead := hR.2.2.1
  cases pre with
  | nil =>
    simp only [List.nil_append, List.head?_cons, Option.some.injEq] at hhead
    simp [hhead]
  | cons a pre' =>
    simp only [List.cons_append, List.head?_cons, Option.some.injEq] at hhead
    simp [hhead]

/-- The loop over `k` returns for every distance, and the particles it adds to the ring of `i`
come right after `j`. -/
theorem scan_total (pd : PointCloud → Nat → Nat → Dbl) (ice : PointCloud) (cutoff : Dbl)
    (L0 : List Nat) (i : Nat) (pre : List Nat) (j : Nat) (ks : List Nat) :
    ∀ (L post : List Nat), (∀ k ∈ ks, i < k ∧ k < L0.length) →
      WalkInv L0 i L pre j post →
      ∃ L' post', largestIceCluster.scan pd ice cutoff j ks L = some L' ∧
        WalkInv L0 i L' pre j post' := by
  induction ks with
  | nil =>
    intro L post _ hR
    exact ⟨L, post, rfl, hR⟩
  | cons k ks ih =>
    intro L post hks hR
    have him := walkInv_head_mem L0 i L pre j post hR
    obtain ⟨hlen, hring, hhead, hfix0, hframe⟩ := hR
    have hk := hks k (List.mem_cons_self _ _)
    have hks' : ∀ k' ∈ ks, i < k' ∧ k' < L0.length :=
      fun k' hk' => hks k' (List.mem_cons_of_mem _ hk')
    have hiring : i ∈ pre ++ j :: post := by
      simp only [List.mem_append, List.mem_singleton, List.mem_cons] at him ⊢
      tauto
    have hjring : j ∈ pre ++ j :: post := by simp
    obtain ⟨nk, hnk⟩ := getElem?_of_lt L k (by rw [hlen]; exact hk.2)
    obtain ⟨nj, hnj⟩ := getElem?_of_lt L j (isRing_lt L _ hring j hjring)
    simp only [largestIceCluster.scan, hnk]
    by_cases hfix : nk = k
    · subst hfix
      rw [if_pos rfl]
      by_cases hd : pd ice j nk ≤ cutoff
      · rw [if_pos hd, iter_swap_eq L j nk nj nk hnj hnk]
        simp only
        have hknot : nk ∉ pre ++ j :: post := by
          intro hmem
          have := isRing_fixed L _ nk hring hmem hnk
          rw [this] at hiring
          have := List.mem_singleton.mp hiring
          omega
        apply ih ((L.set j nk).set nk nj) (nk :: post) hks'
        refine ⟨by simp [hlen], isRing_splice L pre post j nk nj hring hknot hnj hnk, hhead,
          ?_, ?_⟩
        · intro x hx
          simp only [List.mem_append, List.mem_cons] at hx
          rcases hx with h | h | h | h
          · exact hfix0 x (by simp [h])
          · exact hfix0 x (by simp [h])
          · rw [h, ← hframe nk hknot]
            exact hnk
          · exact hfix0 x (by simp [h])
        · intro x hx
          simp only [List.mem_append, List.mem_cons, not_or] at hx
          rw [List.getElem?_set_ne (Ne.symm hx.2.2.1), List.getElem?_set_ne (Ne.symm hx.2.1)]
          apply hframe
          simp only [List.mem_append, List.mem_cons, not_or]
          exact ⟨hx.1, hx.2.1, hx.2.2.2⟩
      · rw [if_neg hd]
        exact ih L post hks' ⟨hlen, hring, hhead, hfix0, hframe⟩
    · rw [if_neg hfix]
      exact ih L post hks' ⟨hlen, hring, hhead, hfix0, hframe⟩

/-- The do-while returns for every distance: each iteration moves `j` one entry further along
the ring of `i`, whose entries are distinct indices below `nop`, so that `j` is back at `i`
after at most `nop` iterations. -/
theorem ring_total (pd : PointCloud → Nat → Nat → Dbl) (ice : PointCloud) (cutoff : Dbl)
    (L0 : List Nat) (hlen0 : L0.length = ice.nop) (i : Nat) (fuel : Nat) :
    ∀ (L pre : List Nat) (j : Nat) (post : List Nat), ice.nop ≤ pre.length + fuel →
      WalkInv L0 i L pre j post →
      ∃ L' r, largestIceCluster.ring pd ice cutoff i fuel j L = some L' ∧
        L'.length = L0.length ∧ IsRing L' r ∧ i ∈ r ∧ (∀ x ∈ r, L0[x]? = some x) ∧
        (∀ x, x ∉ r → L'[x]? = L0[x]?) := by
  induction fuel with
  | zero =>
    intro L pre j post hfuel hR
    exfalso
    have := nodup_length_le _ ice.nop hR.2.1.1 (fun x hx => by
      have := isRing_lt L _ hR.2.1 x hx
      rw [hR.1, hlen0] at this
      exact this)
    simp only [List.length_append, List.length_cons] at this
    omega
  | succ fuel ih =>
    intro L pre j post hfuel hR
    have hks : ∀ k ∈ List.range' (i + 1) (ice.nop - (i + 1)), i < k ∧ k < L0.length := by
      intro k hk
      obtain ⟨t, ht, rfl⟩ := List.mem_range'.mp hk
      omega
    obtain ⟨L1, post1, hscan, hR1⟩ := scan_total pd ice cutoff L0 i pre j _ L post hks hR
    have him := walkInv_head_mem L0 i L1 pre j post1 hR1
    obtain ⟨hlen, hring, hhead, hfix0, hframe⟩ := hR1
    have hnext := isRing_next L1 pre post1 i j hring hhead
    simp only [largestIceCluster.ring, hscan]
    cases post1 with
    | nil =>
      simp only [List.nil_append, List.head?_cons] at hnext
      simp only [hnext, ne_eq, not_true_eq_false, if_false]
      exact ⟨L1, pre ++ [j], rfl, hlen, hring, him, hfix0, hframe⟩
    | cons j1 post2 =>
      simp only [List.cons_append, List.head?_cons] at hnext
      have hj1 : j1 ≠ i := by
        intro heq
        have hnd := hring.1
        have e : pre ++ j :: j1 :: post2 = (pre ++ [j]) ++ j1 :: post2 := by simp
        rw [e] at hnd
        have := (List.nodup_append.mp hnd).2.2
        exact this him (by rw [heq]; exact List.mem_cons_self _ _)
      simp only [hnext, ne_eq, hj1, not_false_eq_true, if_true]
      have hR2 : WalkInv L0 i L1 (pre ++ [j]) j1 post2 := by
        have e : (pre ++ [j]) ++ j1 :: post2 = pre ++ j :: j1 :: post2 := by simp
        refine ⟨hlen, by rw [e]; exact hring, ?_, by rw [e]; exact hfix0,
          by rw [e]; exact hframe⟩
        cases pre with
        | nil => simpa using hhead
        | cons a pre' => simpa using hhead
      exact ih L1 (pre ++ [j]) j1 post2
        (by simp only [List.length_append, List.length_singleton]; omega) hR2

/-- One iteration of the construction loop returns for every distance and leaves every index
on a ring. -/
theorem construct_total (pd : PointCloud → Nat → Nat → Dbl) (ice : PointCloud) (cutoff : Dbl)
    (fuel : Nat) (hfuel : ice.nop ≤ fuel) (L : List Nat) (i : Nat) (hi : i < ice.nop)
    (hlen : L.length = ice.nop) (hR : AllRings L) :
    ∃ L', largestIceCluster.construct pd ice cutoff fuel L i = some L' ∧
      L'.length = ice.nop ∧ AllRings L' := by
  obtain ⟨Li, hLi⟩ := getElem?_of_lt L i (by rw [hlen]; exact hi)
  simp only [largestIceCluster.construct, hLi]
  by_cases hfix : Li = i
  · subst hfix
    simp only [ne_eq, not_true_eq_false, if_false]
    have hR0 : WalkInv L Li L [] Li [] :=
      ⟨rfl, isRing_singleton L Li hLi, rfl,
        fun x hx => by
          have : x = Li := by simpa using hx
          rw [this]
          exact hLi,
        fun _ _ => rfl⟩
    obtain ⟨L', r, hrun, hlen', hring, hir, hfix0, hframe⟩ :=
      ring_total pd ice cutoff L hlen Li fuel L [] Li [] (by simpa using hfuel) hR0
    refine ⟨L', hrun, by rw [hlen', hlen], ?_⟩
    intro x hx
    by_cases hxr : x ∈ r
    · exact ⟨r, hxr, hring⟩
    · obtain ⟨r0, hxr0, hring0⟩ := hR x (by rw [← hlen']; exact hx)
      refine ⟨r0, hxr0, isRing_congr L L' r0 hring0 ?_⟩
      intro z hz
      apply hframe
      intro hzr
      have := isRing_fixed L r0 z hring0 hz (hfix0 z hzr)
      rw [this] at hxr0
      rw [List.mem_singleton.mp hxr0] at hxr
      exact hxr hzr
  · simp only [ne_eq, hfix, not_false_eq_true, if_true]
    exact ⟨L, rfl, hlen, hR⟩

/-- The construction loop over the indices below `n` returns for every distance. -/
theorem construct_fold_total (pd : PointCloud → Nat → Nat → Dbl) (ice : PointCloud)
    (cutoff : Dbl) (fuel : Nat) (hfuel : ice.nop ≤ fuel) (n : Nat) (hn : n ≤ ice.nop) :
    ∃ L, (List.range n).foldlM (largestIceCluster.construct pd ice cutoff fuel)
        (List.range ice.nop) = some L ∧ L.length = ice.nop ∧ AllRings L := by
  induction n with
  | zero =>
    refine ⟨List.range ice.nop, rfl, by simp, ?_⟩
    intro x hx
    rw [List.length_range] at hx
    exact ⟨[x], List.mem_singleton_self x, isRing_singleton _ x (List.getElem?_range hx)⟩
  | succ n ih =>
    obtain ⟨L, hrun, hlen, hR⟩ := ih (by omega)
    obtain ⟨L', hstep, hlen', hR'⟩ :=
      construct_total pd ice cutoff fuel hfuel L n (by omega) hlen hR
    refine ⟨L', ?_, hlen', hR'⟩
    rw [List.range_succ, List.foldlM_append, hrun]
    simp [hstep]

/-! ### The measuring loop for an arbitrary linked list of rings -/

theorem pairwise_getElem? {α : Type} (l : List α) (R : α → α → Prop) (h : l.Pairwise R)
    (i j : Nat) (a b : α) (hi : l[i]? = some a) (hj : l[j]? = some b) (hij : i < j) :
    R a b := by
  rw [List.pairwise_iff_getElem] at h
  obtain ⟨h1, e1⟩ := List.getElem?_eq_some.mp hi
  obtain ⟨h2, e2⟩ := List.getElem?_eq_some.mp hj
  have := h i j h1 h2 hij
  rw [e1, e2] at this
  exact this

/-- Two rings of `L` through the same entry have the same length. -/
theorem isRing_length_eq (L : List Nat) (r r1 : List Nat) (h : IsRing L r) (h1 : IsRing L r1)
    (x : Nat) (hx : x ∈ r) (hx1 : x ∈ r1) : r.length = r1.length := by
  have hmem := isRing_unique L r r1 h h1 x hx hx1
  exact List.Perm.length_eq ((List.perm_ext_iff_of_nodup h.1 h1.1).mpr hmem)

/-- The measuring loop over the indices below `n`, for a linked list each of whose indices
lies on a ring: it returns, and it records one ring after the other.  The list `rs` holds, for
each recorded cluster, its start index and the other entries of its ring, in the order in which
`L` leads through them: the recorded rings are disjoint, the flagged indices are their entries,
every index below `n` is among them, and each start index is the smallest entry of its ring. -/
theorem measure_rings (L : List Nat) (nop : Nat) (hlen : L.length = nop) (hR : AllRings L)
    (n : Nat) (hn : n ≤ nop) :
    ∃ (flag clusterID nCluster : List Nat) (rs : List (Nat × List Nat)),
      (List.range n).foldlM (largestIceCluster.measure L nop)
        (List.replicate nop 0, [], []) = some (flag, clusterID, nCluster) ∧
      flag.length = nop ∧
      clusterID = rs.map (fun p => p.1) ∧
      nCluster = rs.map (fun p => p.2.length + 1) ∧
      (∀ p ∈ rs, IsRing L (p.1 :: p.2)) ∧
      (rs.map (fun p => p.1 :: p.2)).flatten.Nodup ∧
      (∀ z, flag[z]? = some 1 ↔ z ∈ (rs.map (fun p => p.1 :: p.2)).flatten) ∧
      (∀ z, z < n → z ∈ (rs.map (fun p => p.1 :: p.2)).flatten) ∧
      (∀ p ∈ rs, p.1 < n ∧ ∀ z ∈ p.2, p.1 ≤ z) := by
  induction n with
  | zero =>
    refine ⟨List.replicate nop 0, [], [], [], rfl, by simp, rfl, rfl, by simp, by simp, ?_,
      by simp, by simp⟩
    intro z
    rw [List.getElem?_replicate]
    by_cases hz : z < nop <;> simp [hz]
  | succ n ih =>
    obtain ⟨flag, clusterID, nCluster, rs, hrun, hflen, hcid, hnc, hrings, hnd, hflag, hbelow,
      hmin⟩ := ih (by omega)
    obtain ⟨f, hf⟩ := getElem?_of_lt flag n (by omega)
    by_cases hf1 : f = 1
    · subst hf1
      refine ⟨flag, clusterID, nCluster, rs, ?_, hflen, hcid, hnc, hrings, hnd, hflag, ?_, ?_⟩
      · rw [List.range_succ, List.foldlM_append, hrun]
        simp [largestIceCluster.measure, hf]
      · intro z hz
        by_cases hzn : z = n
        · rw [hzn]
          exact (hflag n).mp hf
        · exact hbelow z (by omega)
      · intro p hp
        exact ⟨by have := (hmin p hp).1; omega, (hmin p hp).2⟩
    · have hnot : n ∉ (rs.map (fun p => p.1 :: p.2)).flatten := by
        intro hmem
        have := (hflag n).mpr hmem
        rw [hf] at this
        exact hf1 (Option.some.inj this)
      obtain ⟨r, hnr, hring0⟩ := hR n (by omega)
      obtain ⟨rest, hring, hmem, hrlen⟩ := isRing_from L r n hring0 hnr
      have hlt : ∀ y ∈ n :: rest, y < nop := by
        intro y hy
        have := isRing_lt L _ hring y hy
        omega
      have hdisj : ∀ z, z ∈ (rs.map (fun p => p.1 :: p.2)).flatten → z ∉ n :: rest := by
        intro z hz hzr
        obtain ⟨l, hl, hzl⟩ := List.mem_flatten.mp hz
        obtain ⟨p, hp, rfl⟩ := List.mem_map.mp hl
        have hsame := isRing_unique L _ _ (hrings p hp) hring z hzl hzr
        apply hnot
        exact List.mem_flatten.mpr ⟨_, hl, (hsame n).mpr (List.mem_cons_self _ _)⟩
      obtain ⟨flag', hwalk, hflen', hflag'⟩ := walk_spec L n rest n 0 nop flag
        (isRing_cons L n rest hring)
        (fun y hy heq => by
          have := (List.nodup_cons.mp hring.1).1
          exact this (heq ▸ hy))
        (fun y hy => by
          rw [hflen]
          apply hlt
          simp only [List.mem_append, List.mem_singleton, List.mem_cons] at hy ⊢
          tauto)
        (by
          have := nodup_length_le _ nop hring.1 hlt
          simpa using this)
      have hmemr : ∀ z, z ∈ rest ++ [n] ↔ z ∈ n :: rest := by
        intro z
        simp only [List.mem_append, List.mem_singleton, List.mem_cons]
        tauto
      refine ⟨flag', clusterID ++ [n], nCluster ++ [rest.length + 1], rs ++ [(n, rest)], ?_,
        by rw [hflen', hflen], by simp [hcid], by simp [hnc], ?_, ?_, ?_, ?_, ?_⟩
      · rw [List.range_succ, List.foldlM_append, hrun]
        simp [largestIceCluster.measure, hf, hf1, hwalk]
      · intro p hp
        rcases List.mem_append.mp hp with h | h
        · exact hrings p h
        · rw [List.mem_singleton.mp h]
          exact hring
      · rw [List.map_append, List.flatten_append]
        simp only [List.map_cons, List.map_nil, List.flatten_cons, List.flatten_nil,
          List.append_nil]
        rw [List.nodup_append]
        exact ⟨hnd, hring.1, fun z hz hzr => hdisj z hz hzr⟩
      · intro z
        rw [hflag' z, List.map_append, List.flatten_append]
        simp only [List.map_cons, List.map_nil, List.flatten_cons, List.flatten_nil,
          List.append_nil]
        have hsplit : z ∈ (rs.map (fun p => p.1 :: p.2)).flatten ++ n :: rest ↔
            z ∈ (rs.map (fun p => p.1 :: p.2)).flatten ∨ z ∈ n :: rest := List.mem_append
        rw [hsplit]
        by_cases hz : z ∈ rest ++ [n]
        · rw [if_pos hz]
          simp only [true_iff]
          exact Or.inr ((hmemr z).mp hz)
        · rw [if_neg hz, hflag z]
          constructor
          · exact fun h => Or.inl h
          · rintro (h | h)
            · exact h
            · exact absurd ((hmemr z).mpr h) hz
      · intro z hz
        rw [List.map_append, List.flatten_append]
        simp only [List.map_cons, List.map_nil, List.flatten_cons, List.flatten_nil,
          List.append_nil]
        rw [List.mem_append]
        by_cases hzn : z = n
        · right
          rw [hzn]
          exact List.mem_cons_self _ _
        · left
          exact hbelow z (by omega)
      · intro p hp
        rcases List.mem_append.mp hp with h | h
        · exact ⟨by have := (hmin p h).1; omega, (hmin p h).2⟩
        · rw [List.mem_singleton.mp h]
          refine ⟨Nat.lt_succ_self n, ?_⟩
          intro z hz
          by_contra hlt'
          exact hdisj z (hbelow z (by omega)) (List.mem_cons_of_mem _ hz)

/-! ### The two loops of `largestIceCluster` for an arbitrary distance -/

/-- The two loops of `largestIceCluster`, started on the linked list `0 .. nop - 1`, return for
every ice cloud, distance and cutoff: the linked list then has every index on a ring, and the
recorded clusters are the rings `rs`, one entry for each ring, given by its smallest index and
the other indices in the order in which the linked list leads through them. -/
theorem loops_rings (fuel : Nat) (pd : PointCloud → Nat → Nat → Dbl) (ice : PointCloud)
    (cutoff : Dbl) (hfuel : ice.nop ≤ fuel) :
    ∃ (L clusterID nCluster : List Nat) (rs : List (Nat × List Nat)),
      (List.range (ice.nop - 1)).foldlM (largestIceCluster.construct pd ice cutoff fuel)
        (List.range ice.nop) = some L ∧
      largestIceCluster.loops fuel pd ice cutoff
          (List.range ice.nop) = some (L, clusterID, nCluster) ∧
      L.length = ice.nop ∧ AllRings L ∧
      clusterID = rs.map (fun p => p.1) ∧
      nCluster = rs.map (fun p => p.2.length + 1) ∧
      (∀ p ∈ rs, IsRing L (p.1 :: p.2)) ∧
      (rs.map (fun p => p.1 :: p.2)).flatten.Nodup ∧
      (∀ z, z < ice.nop → z ∈ (rs.map (fun p => p.1 :: p.2)).flatten) ∧
      (∀ p ∈ rs, p.1 < ice.nop ∧ ∀ z ∈ p.2, p.1 ≤ z) := by
  obtain ⟨L, hL, hlen, hR⟩ :=
    construct_fold_total pd ice cutoff fuel hfuel (ice.nop - 1) (by omega)
  obtain ⟨flag, clusterID, nCluster, rs, hM, _, hcid, hnc, hrings, hnd, _, hbelow, hmin⟩ :=
    measure_rings L ice.nop hlen hR ice.nop le_rfl
  refine ⟨L, clusterID, nCluster, rs, hL, ?_, hlen, hR, hcid, hnc, hrings, hnd, hbelow, hmin⟩
  simp only [largestIceCluster.loops, hL, hM]

/-- The recorded rings hold each index below `nop` once: their lengths sum to `nop`. -/
theorem rings_sum (L : List Nat) (nop : Nat) (hlen : L.length = nop)
    (rs : List (Nat × List Nat)) (hrings : ∀ p ∈ rs, IsRing L (p.1 :: p.2))
    (hnd : (rs.map (fun p => p.1 :: p.2)).flatten.Nodup)
    (hbelow : ∀ z, z < nop → z ∈ (rs.map (fun p => p.1 :: p.2)).flatten) :
    (rs.map (fun p => p.2.length + 1)).sum = nop := by
  have hlt : ∀ z ∈ (rs.map (fun p => p.1 :: p.2)).flatten, z < nop := by
    intro z hz
    obtain ⟨l, hl, hzl⟩ := List.mem_flatten.mp hz
    obtain ⟨p, hp, rfl⟩ := List.mem_map.mp hl
    have := isRing_lt L _ (hrings p hp) z hzl
    omega
  have h1 := nodup_length_le _ nop hnd hlt
  have h2 : nop ≤ ((rs.map (fun p => p.1 :: p.2)).flatten).length := by
    have hsub : List.range nop ⊆ (rs.map (fun p => p.1 :: p.2)).flatten :=
      fun z hz => hbelow z (List.mem_range.mp hz)
    have := List.Subperm.length_le (List.subperm_of_subset (List.nodup_range nop) hsub)
    simpa using this
  have h3 : ((rs.map (fun p => p.1 :: p.2)).flatten).length =
      (rs.map (fun p => p.2.length + 1)).sum := by
    rw [List.length_flatten, List.map_map]
    rfl
  omega

theorem getElem?_map_some {α β : Type} (f : α → β) (l : List α) (k : Nat) (b : β)
    (h : (l.map f)[k]? = some b) : ∃ a, l[k]? = some a ∧ f a = b := by
  rw [List.getElem?_map] at h
  cases ha : l[k]? with
  | none =>
    rw [ha] at h
    exact absurd h (by simp)
  | some a =>
    rw [ha] at h
    exact ⟨a, rfl, Option.some.inj h⟩

/-- Each cluster is counted exactly once.  For every ice cloud, distance and cutoff the two
loops of `largestIceCluster`, started on the linked list `0 .. nop - 1`, return
(given `nop` iterations for each do-while) a linked
list `L` each of whose indices lies on a cycle, and the lists `clusterID` and `nCluster` of the
measuring pass, which have the same length and are such that: two start indices recorded at
different positions lie on no common cycle; each start index is the smallest index of its
cycle; every cycle holds a recorded start index; the size recorded with a start index is the
length of its cycle; and the recorded sizes sum to `nop`. -/
theorem loops_counted_once (fuel : Nat) (periodicDist : PointCloud → Nat → Nat → Dbl)
    (iceCloud : PointCloud) (cutoff : Dbl) (hfuel : iceCloud.nop ≤ fuel) :
    ∃ L clusterID nCluster : List Nat,
      largestIceCluster.loops fuel periodicDist iceCloud cutoff (List.range iceCloud.nop) =
        some (L, clusterID, nCluster) ∧
      L.length = iceCloud.nop ∧
      (∀ x, x < iceCloud.nop → ∃ r, x ∈ r ∧ IsRing L r) ∧
      clusterID.length = nCluster.length ∧
      (∀ (k k1 s s1 : Nat), k ≠ k1 → clusterID[k]? = some s → clusterID[k1]? = some s1 →
        ∀ r, IsRing L r → s ∈ r → s1 ∉ r) ∧
      (∀ s ∈ clusterID, s < iceCloud.nop ∧ ∀ r, IsRing L r → s ∈ r → ∀ z ∈ r, s ≤ z) ∧
      (∀ r, IsRing L r → r ≠ [] → ∃ s ∈ clusterID, s ∈ r) ∧
      (∀ (k s : Nat), clusterID[k]? = some s → ∀ r, IsRing L r → s ∈ r →
        nCluster[k]? = some r.length) ∧
      nCluster.sum = iceCloud.nop := by
  obtain ⟨L, clusterID, nCluster, rs, _, hrun, hlen, hR, hcid, hnc, hrings, hnd, hbelow,
    hmin⟩ := loops_rings fuel periodicDist iceCloud cutoff hfuel
  have hpair := (List.nodup_flatten.mp hnd).2
  have hentry : ∀ (k s : Nat), clusterID[k]? = some s →
      ∃ p, rs[k]? = some p ∧ p.1 = s ∧ p ∈ rs ∧
        (rs.map (fun p => p.1 :: p.2))[k]? = some (p.1 :: p.2) := by
    intro k s hk
    rw [hcid] at hk
    obtain ⟨p, hp, hps⟩ := getElem?_map_some _ rs k s hk
    exact ⟨p, hp, hps, List.getElem?_mem hp, by rw [List.getElem?_map, hp]; rfl⟩
  have hdiff : ∀ (k k1 s s1 : Nat), k < k1 → clusterID[k]? = some s →
      clusterID[k1]? = some s1 → ∀ r, IsRing L r → s ∈ r → s1 ∉ r := by
    intro k k1 s s1 hlt hk hk1 r hr hs hs1
    obtain ⟨p, _, hps, hp, hpk⟩ := hentry k s hk
    obtain ⟨p1, _, hps1, hp1, hpk1⟩ := hentry k1 s1 hk1
    have hd := pairwise_getElem? _ _ hpair k k1 _ _ hpk hpk1 hlt
    have hsame := isRing_unique L r _ hr (hrings p hp) s hs (by rw [← hps]; simp)
    exact hd ((hsame s1).mp hs1) (by rw [← hps1]; simp)
  refine ⟨L, clusterID, nCluster, hrun, hlen, fun x hx => hR x (by omega), ?_, ?_, ?_, ?_, ?_,
    ?_⟩
  · rw [hcid, hnc, List.length_map, List.length_map]
  · intro k k1 s s1 hne hk hk1 r hr hs hs1
    rcases Nat.lt_or_gt_of_ne hne with h | h
    · exact hdiff k k1 s s1 h hk hk1 r hr hs hs1
    · exact hdiff k1 k s1 s h hk1 hk r hr hs1 hs
  · intro s hs
    obtain ⟨k, hk⟩ := List.mem_iff_getElem?.mp hs
    obtain ⟨p, _, hps, hp, _⟩ := hentry k s hk
    refine ⟨by rw [← hps]; exact (hmin p hp).1, ?_⟩
    intro r hr hsr z hz
    have hsame := isRing_unique L r _ hr (hrings p hp) s hsr (by rw [← hps]; simp)
    rcases List.mem_cons.mp ((hsame z).mp hz) with h | h
    · rw [h, hps]
    · rw [← hps]
      exact (hmin p hp).2 z h
  · intro r hr hne
    obtain ⟨x, hx⟩ := List.exists_mem_of_ne_nil r hne
    have hxlt : x < iceCloud.nop := by
      have := isRing_lt L r hr x hx
      omega
    obtain ⟨l, hl, hxl⟩ := List.mem_flatten.mp (hbelow x hxlt)
    obtain ⟨p, hp, rfl⟩ := List.mem_map.mp hl
    have hsame := isRing_unique L r _ hr (hrings p hp) x hx hxl
    refine ⟨p.1, ?_, (hsame p.1).mpr (List.mem_cons_self _ _)⟩
    rw [hcid]
    exact List.mem_map.mpr ⟨p, hp, rfl⟩
  · intro k s hk r hr hsr
    obtain ⟨p, hpk, hps, hp, _⟩ := hentry k s hk
    rw [hnc, List.getElem?_map, hpk]
    have := isRing_length_eq L r _ hr (hrings p hp) s hsr (by rw [← hps]; simp)
    rw [this]
    rfl
  · rw [hnc]
    exact rings_sum L iceCloud.nop hlen rs hrings hnd hbelow

/-- Example of `loops_counted_once`: four particles on a line at the abscissas 0, 1, 5, 2 with
cutoff 1; the linked list is `[1, 3, 2, 0]`, the start indices are 0 and 2, and the sizes 3 and
1 sum to 4. -/
theorem loops_counted_once_example :
    largestIceCluster.loops 4 exampleDist (exampleIce [0, 1, 5, 2]) (Dbl.val 1)
        (List.range (exampleIce [0, 1, 5, 2]).nop) =
      some ([1, 3, 2, 0], [0, 2], [3, 1]) ∧
    ∃ L clusterID nCluster : List Nat,
      largestIceCluster.loops 4 exampleDist (exampleIce [0, 1, 5, 2]) (Dbl.val 1)
          (List.range (exampleIce [0, 1, 5, 2]).nop) =
        some (L, clusterID, nCluster) ∧
      L.length = (exampleIce [0, 1, 5, 2]).nop ∧
      (∀ x, x < (exampleIce [0, 1, 5, 2]).nop → ∃ r, x ∈ r ∧ IsRing L r) ∧
      clusterID.length = nCluster.length ∧
      (∀ (k k1 s s1 : Nat), k ≠ k1 → clusterID[k]? = some s → clusterID[k1]? = some s1 →
        ∀ r, IsRing L r → s ∈ r → s1 ∉ r) ∧
      (∀ s ∈ clusterID, s < (exampleIce [0, 1, 5, 2]).nop ∧
        ∀ r, IsRing L r → s ∈ r → ∀ z ∈ r, s ≤ z) ∧
      (∀ r, IsRing L r → r ≠ [] → ∃ s ∈ clusterID, s ∈ r) ∧
      (∀ (k s : Nat), clusterID[k]? = some s → ∀ r, IsRing L r → s ∈ r →
        nCluster[k]? = some r.length) ∧
      nCluster.sum = (exampleIce [0, 1, 5, 2]).nop :=
  ⟨by decide!,
    loops_counted_once 4 exampleDist (exampleIce [0, 1, 5, 2]) (Dbl.val 1) (by decide)⟩

/-! ### The value returned and the members emitted, for an arbitrary distance -/

/-- For a non-empty ice cloud `largestIceCluster.body` returns on the linked list `0 .. nop -
1`, whatever the distance: the value is the length `n` of the ring recorded at the position
`max_element nCluster`, whose start index is `s` and whose other entries are `rest`; when
`printCluster` is set and the particle and box vectors are long enough, the members emitted are
the particles `rest ++ [s]`, in this order. -/
theorem body_report (fuel : Nat) (pd : PointCloud → Nat → Nat → Dbl)
    (ice : PointCloud) (cutoff : Dbl) (isSlice : Bool) (hN : 0 < ice.nop)
    (hfuel : ice.nop ≤ fuel) :
    ∃ (L clusterID nCluster : List Nat) (s n : Nat) (rest : List Nat),
      (List.range (ice.nop - 1)).foldlM (largestIceCluster.construct pd ice cutoff fuel)
        (List.range ice.nop) = some L ∧
      largestIceCluster.loops fuel pd ice cutoff
          (List.range ice.nop) = some (L, clusterID, nCluster) ∧
      clusterID[max_element nCluster]? = some s ∧ nCluster[max_element nCluster]? = some n ∧
      IsRing L (s :: rest) ∧ rest.length + 1 = n ∧ s < ice.nop ∧ (∀ z ∈ rest, s ≤ z) ∧
      n ≤ ice.nop ∧
      largestIceCluster.body fuel pd ice cutoff false isSlice
          (List.range ice.nop) = some (n, none) ∧
      (ice.nop ≤ ice.pts.length → ice.boxLow.length ≤ ice.box.length →
        ∃ (b : List (Dbl × Dbl)) (ps : List Point),
          (rest ++ [s]).map (fun y => ice.pts[y]?) = ps.map some ∧
          largestIceCluster.body fuel pd ice cutoff true isSlice (List.range ice.nop) =
            some (n, some ⟨ice.currentFrame, n, b,
              ps.map (fun p => (p.atomID, p.molID, p.iceType, p.x, p.y, p.z))⟩)) := by
  obtain ⟨L, clusterID, nCluster, rs, hL, hrun, hlen, hR, hcid, hnc, hrings, hnd, hbelow,
    hmin⟩ := loops_rings fuel pd ice cutoff hfuel
  have hne : nCluster ≠ [] := by
    obtain ⟨l, hl, _⟩ := List.mem_flatten.mp (hbelow 0 hN)
    obtain ⟨p, hp, _⟩ := List.mem_map.mp hl
    rw [hnc]
    intro h
    rw [List.map_eq_nil_iff] at h
    rw [h] at hp
    exact absurd hp (List.not_mem_nil _)
  obtain ⟨n, hn, _⟩ := max_element_spec nCluster hne
  have hn' : (rs.map (fun p => p.2.length + 1))[max_element nCluster]? = some n := by
    rw [← hnc]
    exact hn
  obtain ⟨p, hp, hpn⟩ := getElem?_map_some _ rs _ n hn'
  have hpm : p ∈ rs := List.getElem?_mem hp
  have hcidx : clusterID[max_element nCluster]? = some p.1 := by
    rw [hcid, List.getElem?_map, hp]
    rfl
  have hring := hrings p hpm
  have hlt : ∀ y ∈ p.1 :: p.2, y < ice.nop := by
    intro y hy
    have := isRing_lt L _ hring y hy
    omega
  have hnle : n ≤ ice.nop := by
    have := nodup_length_le _ ice.nop hring.1 hlt
    simp only [List.length_cons] at this
    omega
  refine ⟨L, clusterID, nCluster, p.1, n, p.2, hL, hrun, hcidx, hn, hring, hpn, (hmin p hpm).1,
    (hmin p hpm).2, hnle, ?_, ?_⟩
  · simp [largestIceCluster.body, hrun, hn]
  · intro hpts hbox
    obtain ⟨b, hb⟩ := bounds_total ice (List.range ice.boxLow.length) (by
      intro k hk
      have := List.mem_range.mp hk
      omega)
    obtain ⟨ps, hps, hmem⟩ := members_ring ice L p.1 p.2 p.1 (isRing_cons L p.1 p.2 hring)
      (fun y hy => by
        have : y ∈ p.1 :: p.2 := by
          simp only [List.mem_append, List.mem_singleton, List.mem_cons] at hy ⊢
          tauto
        have := hlt y this
        omega)
    refine ⟨b, ps, hps, ?_⟩
    rw [hpn] at hmem
    simp [largestIceCluster.body, hrun, hn, hb, hcidx, hmem]


/-! ### The iteration bound of the do-while -/

/-- A do-while that returns within a number of iterations returns the same list when more
iterations are allowed. -/
theorem ring_fuel_mono (pd : PointCloud → Nat → Nat → Dbl) (ice : PointCloud) (cutoff : Dbl)
    (i : Nat) (fuel : Nat) :
    ∀ (j : Nat) (L L1 : List Nat),
      largestIceCluster.ring pd ice cutoff i fuel j L = some L1 →
      largestIceCluster.ring pd ice cutoff i (fuel + 1) j L = some L1 := by
  induction fuel with
  | zero =>
    intro j L L1 h
    simp [largestIceCluster.ring] at h
  | succ fuel ih =>
    intro j L L1 h
    rw [largestIceCluster.ring] at h ⊢
    cases hs : largestIceCluster.scan pd ice cutoff j
        (List.range' (i + 1) (ice.nop - (i + 1))) L with
    | none =>
      rw [hs] at h
      exact absurd h (by simp)
    | some L2 =>
      rw [hs] at h
      dsimp only at h ⊢
      cases hj : L2[j]? with
      | none =>
        rw [hj] at h
        exact absurd h (by simp)
      | some j1 =>
        rw [hj] at h
        dsimp only at h ⊢
        by_cases hji : j1 ≠ i
        · rw [if_pos hji] at h ⊢
          exact ih j1 L2 L1 h
        · rw [if_neg hji] at h ⊢
          exact h

theorem ring_fuel_le (pd : PointCloud → Nat → Nat → Dbl) (ice : PointCloud) (cutoff : Dbl)
    (i : Nat) (fuel fuel1 : Nat) (hle : fuel ≤ fuel1) (j : Nat) (L L1 : List Nat)
    (h : largestIceCluster.ring pd ice cutoff i fuel j L = some L1) :
    largestIceCluster.ring pd ice cutoff i fuel1 j L = some L1 := by
  induction fuel1 with
  | zero =>
    have : fuel = 0 := by omega
    rw [← this]
    exact h
  | succ f ih =>
    by_cases hf : fuel = f + 1
    · rw [← hf]
      exact h
    · exact ring_fuel_mono pd ice cutoff i f j L L1 (ih (by omega))

theorem construct_fuel_le (pd : PointCloud → Nat → Nat → Dbl) (ice : PointCloud)
    (cutoff : Dbl) (fuel fuel1 : Nat) (hle : fuel ≤ fuel1) (is : List Nat) :
    ∀ (L L1 : List Nat),
      is.foldlM (largestIceCluster.construct pd ice cutoff fuel) L = some L1 →
      is.foldlM (largestIceCluster.construct pd ice cutoff fuel1) L = some L1 := by
  induction is with
  | nil =>
    intro L L1 h
    exact h
  | cons i rest ih =>
    intro L L1 h
    rw [List.foldlM_cons] at h ⊢
    cases hc : largestIceCluster.construct pd ice cutoff fuel L i with
    | none =>
      rw [hc] at h
      exact absurd h (by simp)
    | some L2 =>
      rw [hc] at h
      have hc1 : largestIceCluster.construct pd ice cutoff fuel1 L i = some L2 := by
        unfold largestIceCluster.construct at hc ⊢
        cases hLi : L[i]? with
        | none =>
          rw [hLi] at hc
          exact absurd hc (by simp)
        | some Li =>
          rw [hLi] at hc
          dsimp only at hc ⊢
          by_cases hne : Li ≠ i
          · rw [if_pos hne] at hc ⊢
            exact hc
          · rw [if_neg hne] at hc ⊢
            exact ring_fuel_le pd ice cutoff i fuel fuel1 hle i L L2 hc
      rw [hc1]
      simp only [Option.bind_eq_bind, Option.some_bind] at h ⊢
      exact ih L2 L1 h

/-- With at least `nop` iterations allowed for each do-while, the result of
`largestIceCluster.body` on the linked list `0 .. nop - 1` does not depend on the number
allowed. -/
theorem body_fuel (pd : PointCloud → Nat → Nat → Dbl) (ice : PointCloud)
    (cutoff : Dbl) (printCluster isSlice : Bool) (fuel fuel1 : Nat) (h : ice.nop ≤ fuel)
    (h1 : ice.nop ≤ fuel1) :
    largestIceCluster.body fuel1 pd ice cutoff printCluster isSlice (List.range ice.nop) =
      largestIceCluster.body fuel pd ice cutoff printCluster isSlice (List.range ice.nop) := by
  obtain ⟨L, hL, _, _⟩ := construct_fold_total pd ice cutoff ice.nop le_rfl (ice.nop - 1)
    (by omega)
  have e : ∀ f, ice.nop ≤ f → largestIceCluster.loops f pd ice cutoff (List.range ice.nop) =
      largestIceCluster.loops ice.nop pd ice cutoff (List.range ice.nop) := by
    intro f hf
    unfold largestIceCluster.loops
    rw [hL, construct_fuel_le pd ice cutoff ice.nop f hf _ _ L hL]
  unfold largestIceCluster.body
  rw [e fuel h, e fuel1 h1]

/-- The cluster search on the linked list `0 .. nop - 1` runs to completion.  For every ice
cloud, every distance function and every cutoff, with `nop` iterations allowed for each
do-while: the construction loop reaches each of its iterations, and the do-while it enters there
(when `L[i] = i`) returns; both loops return; and for a non-empty ice cloud
`largestIceCluster.body` returns a value, which lies between 1 and `nop` (with `printCluster`
set, when the particle vector holds `nop` particles and the box vectors have the same length).
-/
theorem body_terminates (fuel : Nat)
    (periodicDist : PointCloud → Nat → Nat → Dbl) (iceCloud : PointCloud) (cutoff : Dbl)
    (printCluster isSlice : Bool) (hfuel : iceCloud.nop ≤ fuel) :
    (∀ i, i < iceCloud.nop →
      ∃ L, (List.range i).foldlM
          (largestIceCluster.construct periodicDist iceCloud cutoff fuel)
          (List.range iceCloud.nop) = some L ∧
        (L[i]? = some i →
          ∃ L1, largestIceCluster.ring periodicDist iceCloud cutoff i fuel i L = some L1)) ∧
    (∃ L clusterID nCluster,
      largestIceCluster.loops fuel periodicDist iceCloud cutoff (List.range iceCloud.nop) =
        some (L, clusterID, nCluster)) ∧
    (0 < iceCloud.nop →
      (printCluster = true →
        iceCloud.nop ≤ iceCloud.pts.length ∧ iceCloud.boxLow.length ≤ iceCloud.box.length) →
      ∃ n dump,
        largestIceCluster.body fuel periodicDist iceCloud cutoff printCluster isSlice
            (List.range iceCloud.nop) =
          some (n, dump) ∧ 1 ≤ n ∧ n ≤ iceCloud.nop) ∧
    (∀ fuel1, iceCloud.nop ≤ fuel1 →
      largestIceCluster.body fuel1 periodicDist iceCloud cutoff printCluster isSlice
          (List.range iceCloud.nop) =
        largestIceCluster.body fuel periodicDist iceCloud cutoff printCluster isSlice
            (List.range iceCloud.nop)) := by
  refine ⟨?_, ?_, ?_, fun fuel1 h1 =>
    body_fuel periodicDist iceCloud cutoff printCluster isSlice fuel fuel1 hfuel
      h1⟩
  · intro i hi
    obtain ⟨L, hL, hlen, hR⟩ :=
      construct_fold_total periodicDist iceCloud cutoff fuel hfuel i (by omega)
    refine ⟨L, hL, ?_⟩
    intro hLi
    have hR0 : WalkInv L i L [] i [] :=
      ⟨rfl, isRing_singleton L i hLi, rfl,
        fun x hx => by
          have : x = i := by simpa using hx
          rw [this]
          exact hLi,
        fun _ _ => rfl⟩
    obtain ⟨L1, _, hrun, _⟩ :=
      ring_total periodicDist iceCloud cutoff L hlen i fuel L [] i [] (by simpa using hfuel)
        hR0
    exact ⟨L1, hrun⟩
  · obtain ⟨L, clusterID, nCluster, _, _, hrun, _⟩ :=
      loops_rings fuel periodicDist iceCloud cutoff hfuel
    exact ⟨L, clusterID, nCluster, hrun⟩
  · intro hN hprint
    obtain ⟨L, clusterID, nCluster, s, n, rest, _, _, _, _, _, hlen, _, _, hnle, hret, hdump⟩ :=
      body_report fuel periodicDist iceCloud cutoff isSlice hN hfuel
    cases printCluster with
    | false => exact ⟨n, none, hret, by omega, hnle⟩
    | true =>
      obtain ⟨hpts, hbox⟩ := hprint rfl
      obtain ⟨b, ps, _, hrun⟩ := hdump hpts hbox
      exact ⟨n, _, hrun, by omega, hnle⟩

/-- Example of `body_terminates`: four particles on a line at the abscissas 0, 1, 5, 2 with
cutoff 1 and the distance `exampleOneWay`, which is not symmetric: the value returned is 3. -/
theorem body_terminates_example :
    exampleOneWay (exampleIce [0, 1, 5, 2]) 0 1 ≠ exampleOneWay (exampleIce [0, 1, 5, 2]) 1 0 ∧
    largestIceCluster.body 4 exampleOneWay (exampleIce [0, 1, 5, 2]) (Dbl.val 1) false false
        (List.range (exampleIce [0, 1, 5, 2]).nop) =
      some (3, none) ∧
    ∃ n dump,
      largestIceCluster.body 4 exampleOneWay (exampleIce [0, 1, 5, 2]) (Dbl.val 1) true false
          (List.range (exampleIce [0, 1, 5, 2]).nop) =
        some (n, dump) ∧ 1 ≤ n ∧ n ≤ (exampleIce [0, 1, 5, 2]).nop :=
  ⟨by decide!, by decide!,
    (body_terminates 4 exampleOneWay (exampleIce [0, 1, 5, 2]) (Dbl.val 1) true
      false (by decide)).2.2.1 (by decide) (fun _ => by decide)⟩

/-! ### The members of the largest cluster -/

/-- The member records of the largest cluster, on the linked list `0 .. nop - 1`.  For a
non-empty ice cloud whose particle vector holds at least `nop` particles and whose box vector
is as long as the vector of its lower bounds, `largestIceCluster.body` with `printCluster` set
returns (given `nop` iterations for
each do-while) the size `n` recorded at the position `max_element nCluster` and emits a frame
whose NUMBER OF ATOMS is `n` and whose member records are those of the particles
`rest ++ [s]`, in this order, where `s` is the start index recorded at that position, the
smallest index of its ring, and `s :: rest` is the ring of `s`, in the order in which the
linked list leads through it: the walk starts at `s`, emits the particle the list leads to,
and ends with `s`.  The number of records is `n`; the particles emitted are distinct; a
particle is emitted exactly when it lies on the ring of `s`; and for a symmetric distance
exactly when it is connected to `s`. -/
theorem body_members (fuel : Nat) (periodicDist : PointCloud → Nat → Nat → Dbl)
    (iceCloud : PointCloud) (cutoff : Dbl) (isSlice : Bool) (hN : 0 < iceCloud.nop)
    (hfuel : iceCloud.nop ≤ fuel) (hpts : iceCloud.nop ≤ iceCloud.pts.length)
    (hbox : iceCloud.boxLow.length ≤ iceCloud.box.length) :
    ∃ (L clusterID nCluster : List Nat) (s n : Nat) (rest : List Nat)
      (b : List (Dbl × Dbl)) (ps : List Point),
      largestIceCluster.loops fuel periodicDist iceCloud cutoff (List.range iceCloud.nop) =
        some (L, clusterID, nCluster) ∧
      clusterID[max_element nCluster]? = some s ∧ nCluster[max_element nCluster]? = some n ∧
      IsRing L (s :: rest) ∧ (∀ z ∈ rest, s ≤ z) ∧
      (rest ++ [s]).map (fun y => iceCloud.pts[y]?) = ps.map some ∧
      largestIceCluster.body fuel periodicDist iceCloud cutoff true isSlice
          (List.range iceCloud.nop) =
        some (n, some ⟨iceCloud.currentFrame, n, b,
          ps.map (fun p => (p.atomID, p.molID, p.iceType, p.x, p.y, p.z))⟩) ∧
      (ps.map (fun p => (p.atomID, p.molID, p.iceType, p.x, p.y, p.z))).length = n ∧
      (rest ++ [s]).length = n ∧ (rest ++ [s]).Nodup ∧
      (∀ k, k ∈ rest ++ [s] ↔ ∃ r, IsRing L r ∧ s ∈ r ∧ k ∈ r) ∧
      ((∀ a b, a < iceCloud.nop → b < iceCloud.nop →
          periodicDist iceCloud a b = periodicDist iceCloud b a) →
        ∀ k, k ∈ rest ++ [s] ↔ connected periodicDist iceCloud cutoff s k) := by
  obtain ⟨L, clusterID, nCluster, s, n, rest, hL, hrun, hcid, hn, hring, hlen, hs, hmin, _, _,
    hdump⟩ := body_report fuel periodicDist iceCloud cutoff isSlice hN hfuel
  obtain ⟨b, ps, hps, hret⟩ := hdump hpts hbox
  have hmemr : ∀ z, z ∈ rest ++ [s] ↔ z ∈ s :: rest := by
    intro z
    simp only [List.mem_append, List.mem_singleton, List.mem_cons]
    tauto
  have hpslen : ps.length = rest.length + 1 := by
    have := congrArg List.length hps
    simp only [List.length_map, List.length_append, List.length_singleton] at this
    exact this.symm
  refine ⟨L, clusterID, nCluster, s, n, rest, b, ps, hrun, hcid, hn, hring, hmin, hps, hret,
    by rw [List.length_map, hpslen, hlen], by simp [hlen], ?_, ?_, ?_⟩
  · have := hring.1
    rw [List.nodup_cons] at this
    rw [List.nodup_append]
    refine ⟨this.2, List.nodup_singleton _, ?_⟩
    intro a ha1 ha2
    rw [List.mem_singleton.mp ha2] at ha1
    exact this.1 ha1
  · intro k
    rw [hmemr]
    constructor
    · intro hk
      exact ⟨s :: rest, hring, List.mem_cons_self _ _, hk⟩
    · rintro ⟨r, hr, hsr, hkr⟩
      exact (isRing_unique L r _ hr hring s hsr (List.mem_cons_self _ _) k).mp hkr
  · intro hsym k
    obtain ⟨L1, hL1, _, hfinal⟩ := construct_final periodicDist iceCloud cutoff hsym fuel hfuel
    rw [hL] at hL1
    injection hL1 with hL1
    subst hL1
    obtain ⟨r, hsr, hcl⟩ := hfinal s hs
    rw [hmemr, ← hcl.2 s hsr k]
    exact isRing_unique L _ r hring hcl.1 s (List.mem_cons_self _ _) hsr k

/-- Example of `body_members`: four particles on a line at the abscissas 0, 1, 5, 2 with cutoff
1; the largest cluster has the start index 0 and the ring 0, 1, 3, and the three records emitted
are those of the particles 1, 3, 0. -/
theorem body_members_example :
    largestIceCluster.body 4 exampleDist (exampleIce [0, 1, 5, 2]) (Dbl.val 1) true false
        (List.range (exampleIce [0, 1, 5, 2]).nop) =
      some (3, some ⟨0, 3, [],
        [(0, 0, atom_state_type.cubic, Dbl.val 1, Dbl.val 0, Dbl.val 0),
          (0, 0, atom_state_type.cubic, Dbl.val 2, Dbl.val 0, Dbl.val 0),
          (0, 0, atom_state_type.cubic, Dbl.val 0, Dbl.val 0, Dbl.val 0)]⟩) ∧
    ∃ (L clusterID nCluster : List Nat) (s n : Nat) (rest : List Nat)
      (b : List (Dbl × Dbl)) (ps : List Point),
      largestIceCluster.loops 4 exampleDist (exampleIce [0, 1, 5, 2]) (Dbl.val 1)
          (List.range (exampleIce [0, 1, 5, 2]).nop) =
        some (L, clusterID, nCluster) ∧
      clusterID[max_element nCluster]? = some s ∧ nCluster[max_element nCluster]? = some n ∧
      IsRing L (s :: rest) ∧ (∀ z ∈ rest, s ≤ z) ∧
      (rest ++ [s]).map (fun y => (exampleIce [0, 1, 5, 2]).pts[y]?) = ps.map some ∧
      largestIceCluster.body 4 exampleDist (exampleIce [0, 1, 5, 2]) (Dbl.val 1) true false
          (List.range (exampleIce [0, 1, 5, 2]).nop) =
        some (n, some ⟨(exampleIce [0, 1, 5, 2]).currentFrame, n, b,
          ps.map (fun p => (p.atomID, p.molID, p.iceType, p.x, p.y, p.z))⟩) ∧
      (ps.map (fun p => (p.atomID, p.molID, p.iceType, p.x, p.y, p.z))).length = n ∧
      (rest ++ [s]).length = n ∧ (rest ++ [s]).Nodup ∧
      (∀ k, k ∈ rest ++ [s] ↔ ∃ r, IsRing L r ∧ s ∈ r ∧ k ∈ r) ∧
      ((∀ a b, a < (exampleIce [0, 1, 5, 2]).nop → b < (exampleIce [0, 1, 5, 2]).nop →
          exampleDist (exampleIce [0, 1, 5, 2]) a b =
            exampleDist (exampleIce [0, 1, 5, 2]) b a) →
        ∀ k, k ∈ rest ++ [s] ↔
          connected exampleDist (exampleIce [0, 1, 5, 2]) (Dbl.val 1) s k) :=
  ⟨by decide!,
    body_members 4 exampleDist (exampleIce [0, 1, 5, 2]) (Dbl.val 1) false
      (by decide) (by decide) (by decide) (by decide)⟩

/-! ### The correlation value in exact arithmetic -/

/-- One step of the Cauchy-Schwarz inequality, term by term. -/
theorem cauchy_step {K : Type} [LinearOrderedField K] (S t A B a b : K) (hS : S ^ 2 ≤ A * B)
    (ht : t ^ 2 ≤ a * b) (hA : 0 ≤ A) (hB : 0 ≤ B) (ha : 0 ≤ a) (hb : 0 ≤ b) :
    (S + t) ^ 2 ≤ (A + a) * (B + b) := by
  have h1 : S ^ 2 * t ^ 2 ≤ (A * B) * (a * b) :=
    mul_le_mul hS ht (sq_nonneg t) (mul_nonneg hA hB)
  have h2 : (2 * S * t) ^ 2 ≤ (A * b + a * B) ^ 2 := by
    nlinarith [sq_nonneg (A * b - a * B)]
  have h3 : 2 * S * t ≤ A * b + a * B :=
    (abs_le_of_sq_le_sq' h2 (add_nonneg (mul_nonneg hA hb) (mul_nonneg ha hB))).2
  nlinarith

theorem cauchy_term {K : Type} [LinearOrderedField K] (x y u v : K) :
    (x * u + y * v) ^ 2 ≤ (x * x + y * y) * (u * u + v * v) := by
  nlinarith [sq_nonneg (x * v - y * u)]

/-- The Cauchy-Schwarz inequality for the sums of the loop over the components. -/
theorem cauchy_list {K : Type} [LinearOrderedField K] (f g : Nat → CplxOver K)
    (ms : List Nat) :
    ((ms.map (fun m => (f m).re * (g m).re + (f m).im * (g m).im)).sum) ^ 2 ≤
        (ms.map (fun m => (f m).re * (f m).re + (f m).im * (f m).im)).sum *
          (ms.map (fun m => (g m).re * (g m).re + (g m).im * (g m).im)).sum ∧
      0 ≤ (ms.map (fun m => (f m).re * (f m).re + (f m).im * (f m).im)).sum ∧
      0 ≤ (ms.map (fun m => (g m).re * (g m).re + (g m).im * (g m).im)).sum := by
  induction ms with
  | nil => simp
  | cons m rest ih =>
    obtain ⟨h1, h2, h3⟩ := ih
    simp only [List.map_cons, List.sum_cons]
    have ha : 0 ≤ (f m).re * (f m).re + (f m).im * (f m).im :=
      add_nonneg (mul_self_nonneg _) (mul_self_nonneg _)
    have hb : 0 ≤ (g m).re * (g m).re + (g m).im * (g m).im :=
      add_nonneg (mul_self_nonneg _) (mul_self_nonneg _)
    refine ⟨?_, add_nonneg ha h2, add_nonneg hb h3⟩
    have := cauchy_step _ _ _ _ _ _ h1 (cauchy_term (f m).re (f m).im (g m).re (g m).im) h2 h3
      ha hb
    rw [add_comm ((f m).re * (g m).re + (f m).im * (g m).im),
      add_comm ((f m).re * (f m).re + (f m).im * (f m).im),
      add_comm ((g m).re * (g m).re + (g m).im * (g m).im)]
    exact this

/-- The squared norm of a vector with a non-zero component is positive. -/
theorem sqnorm_pos {K : Type} [LinearOrderedField K] (f : Nat → CplxOver K) (ms : List Nat)
    (m : Nat) (hm : m ∈ ms) (hnz : (f m).re ≠ 0 ∨ (f m).im ≠ 0) :
    0 < (ms.map (fun m => (f m).re * (f m).re + (f m).im * (f m).im)).sum := by
  induction ms with
  | nil => exact absurd hm (List.not_mem_nil _)
  | cons k rest ih =>
    simp only [List.map_cons, List.sum_cons]
    have hk : 0 ≤ (f k).re * (f k).re + (f k).im * (f k).im :=
      add_nonneg (mul_self_nonneg _) (mul_self_nonneg _)
    have hrest := (cauchy_list f f rest).2.1
    rcases List.mem_cons.mp hm with h | h
    · subst h
      have : 0 < (f m).re * (f m).re + (f m).im * (f m).im := by
        rcases hnz with h1 | h1
        · have := mul_self_pos.mpr h1
          have := mul_self_nonneg (f m).im
          linarith
        · have := mul_self_pos.mpr h1
          have := mul_self_nonneg (f m).re
          linarith
      linarith
    · have := ih h
      linarith

/-- The sums of the loop over the components. -/
theorem sumsOver_spec {K : Type} [Field K] (qI qJ : List (CplxOver K))
    (f g : Nat → CplxOver K) (ms : List Nat) :
    ∀ (acc : CplxOver K × CplxOver K × CplxOver K),
      (∀ m ∈ ms, qI[m]? = some (f m)) → (∀ m ∈ ms, qJ[m]? = some (g m)) →
      getCorrel.sumsOver qI qJ ms acc = some
        (⟨acc.1.re + (ms.map (fun m => (f m).re * (g m).re + (f m).im * (g m).im)).sum,
            acc.1.im + (ms.map (fun m => (f m).im * (g m).re - (f m).re * (g m).im)).sum⟩,
          ⟨acc.2.1.re + (ms.map (fun m => (f m).re * (f m).re + (f m).im * (f m).im)).sum,
            acc.2.1.im⟩,
          ⟨acc.2.2.re + (ms.map (fun m => (g m).re * (g m).re + (g m).im * (g m).im)).sum,
            acc.2.2.im⟩) := by
  induction ms with
  | nil =>
    intro acc _ _
    obtain ⟨⟨a1, a2⟩, ⟨b1, b2⟩, ⟨c1, c2⟩⟩ := acc
    simp [getCorrel.sumsOver]
  | cons m rest ih =>
    intro acc hf hg
    obtain ⟨⟨a1, a2⟩, ⟨b1, b2⟩, ⟨c1, c2⟩⟩ := acc
    rw [getCorrel.sumsOver, hf m (List.mem_cons_self _ _), hg m (List.mem_cons_self _ _)]
    dsimp only
    rw [ih _ (fun k hk => hf k (List.mem_cons_of_mem _ hk))
      (fun k hk => hg k (List.mem_cons_of_mem _ hk))]
    simp only [CplxOver.add, CplxOver.mul, CplxOver.conj, List.map_cons, List.sum_cons,
      Option.some.injEq, Prod.mk.injEq, CplxOver.mk.injEq]
    refine ⟨⟨by ring, by ring⟩, ⟨by ring, by ring⟩, ⟨by ring, by ring⟩⟩

/-- The value `cij_real` for two vectors with `2 l + 1` components, both non-zero: the sums of
the loop are the real numbers `nI > 0` and `nJ > 0` and a product `dot` whose real part has a
square of at most `nI * nJ`; the value is the real part of the quotient of `dot` by the square
root of `nI * nJ`. -/
theorem cij_realOver_sums {K : Type} [LinearOrderedField K] [DecidableEq K]
    (csqrt : CplxOver K → CplxOver K) (l : Nat) (qI qJ : List (CplxOver K))
    (hI : 2 * l + 1 ≤ qI.length) (hJ : 2 * l + 1 ≤ qJ.length)
    (hnzI : ∃ m a, m < 2 * l + 1 ∧ qI[m]? = some a ∧ (a.re ≠ 0 ∨ a.im ≠ 0))
    (hnzJ : ∃ m a, m < 2 * l + 1 ∧ qJ[m]? = some a ∧ (a.re ≠ 0 ∨ a.im ≠ 0)) :
    ∃ (dot : CplxOver K) (nI nJ : K),
      0 < nI ∧ 0 < nJ ∧ dot.re ^ 2 ≤ nI * nJ ∧ (qI = qJ → dot.re = nI ∧ nJ = nI) ∧
      getCorrel.cij_realOver csqrt l qI qJ =
        some (CplxOver.divRe dot (csqrt ⟨nI * nJ, 0⟩)) := by
  have hf : ∀ m ∈ List.range (2 * l + 1), qI[m]? = some ((qI[m]?).getD ⟨0, 0⟩) := by
    intro m hm
    obtain ⟨a, ha⟩ := getElem?_of_lt qI m (by have := List.mem_range.mp hm; omega)
    rw [ha]
    rfl
  have hg : ∀ m ∈ List.range (2 * l + 1), qJ[m]? = some ((qJ[m]?).getD ⟨0, 0⟩) := by
    intro m hm
    obtain ⟨a, ha⟩ := getElem?_of_lt qJ m (by have := List.mem_range.mp hm; omega)
    rw [ha]
    rfl
  have hsum := sumsOver_spec qI qJ (fun m => (qI[m]?).getD ⟨0, 0⟩)
    (fun m => (qJ[m]?).getD ⟨0, 0⟩) (List.range (2 * l + 1)) (⟨0, 0⟩, ⟨0, 0⟩, ⟨0, 0⟩) hf hg
  dsimp only at hsum
  simp only [zero_add] at hsum
  obtain ⟨hcs, _, _⟩ := cauchy_list (fun m => (qI[m]?).getD ⟨0, 0⟩)
    (fun m => (qJ[m]?).getD ⟨0, 0⟩) (List.range (2 * l + 1))
  have hposI : 0 < ((List.range (2 * l + 1)).map (fun m =>
      ((qI[m]?).getD ⟨0, 0⟩).re * ((qI[m]?).getD ⟨0, 0⟩).re +
        ((qI[m]?).getD ⟨0, 0⟩).im * ((qI[m]?).getD ⟨0, 0⟩).im)).sum := by
    obtain ⟨m, a, hm, ha, hnz⟩ := hnzI
    apply sqnorm_pos (fun m => (qI[m]?).getD ⟨0, 0⟩) _ m (List.mem_range.mpr hm)
    show ((qI[m]?).getD ⟨0, 0⟩).re ≠ 0 ∨ ((qI[m]?).getD ⟨0, 0⟩).im ≠ 0
    rw [ha]
    exact hnz
  have hposJ : 0 < ((List.range (2 * l + 1)).map (fun m =>
      ((qJ[m]?).getD ⟨0, 0⟩).re * ((qJ[m]?).getD ⟨0, 0⟩).re +
        ((qJ[m]?).getD ⟨0, 0⟩).im * ((qJ[m]?).getD ⟨0, 0⟩).im)).sum := by
    obtain ⟨m, a, hm, ha, hnz⟩ := hnzJ
    apply sqnorm_pos (fun m => (qJ[m]?).getD ⟨0, 0⟩) _ m (List.mem_range.mpr hm)
    show ((qJ[m]?).getD ⟨0, 0⟩).re ≠ 0 ∨ ((qJ[m]?).getD ⟨0, 0⟩).im ≠ 0
    rw [ha]
    exact hnz
  refine ⟨⟨((List.range (2 * l + 1)).map (fun m =>
      ((qI[m]?).getD ⟨0, 0⟩).re * ((qJ[m]?).getD ⟨0, 0⟩).re +
        ((qI[m]?).getD ⟨0, 0⟩).im * ((qJ[m]?).getD ⟨0, 0⟩).im)).sum,
      ((List.range (2 * l + 1)).map (fun m =>
      ((qI[m]?).getD ⟨0, 0⟩).im * ((qJ[m]?).getD ⟨0, 0⟩).re -
        ((qI[m]?).getD ⟨0, 0⟩).re * ((qJ[m]?).getD ⟨0, 0⟩).im)).sum⟩, _, _, hposI, hposJ, hcs,
    ?_, ?_⟩
  · intro heq
    subst heq
    exact ⟨rfl, rfl⟩
  · unfold getCorrel.cij_realOver
    rw [hsum]
    dsimp only
    have e : ∀ x y : K, CplxOver.mul (⟨x, 0⟩ : CplxOver K) ⟨y, 0⟩ = ⟨x * y, 0⟩ := by
      intro x y
      simp [CplxOver.mul]
    rw [e]

/-- The real part of the quotient by an exact square root. -/
theorem divRe_bound {K : Type} [LinearOrderedField K] [DecidableEq K] (dot : CplxOver K)
    (nI nJ s : K) (hI : 0 < nI) (hJ : 0 < nJ) (hcs : dot.re ^ 2 ≤ nI * nJ) (hs : 0 ≤ s)
    (hss : s * s = nI * nJ) :
    ∃ c, CplxOver.divRe dot ⟨s, 0⟩ = some c ∧ -1 ≤ c ∧ c ≤ 1 ∧
      (dot.re = nI ∧ nJ = nI → c = 1) := by
  have hpos : 0 < s * s := by
    rw [hss]
    exact mul_pos hI hJ
  have hs0 : 0 < s := by
    rcases lt_or_eq_of_le hs with h | h
    · exact h
    · rw [← h] at hpos
      simp at hpos
  have hne : s * s + 0 * 0 ≠ 0 := by
    rw [mul_zero, add_zero]
    exact ne_of_gt hpos
  have hval : CplxOver.divRe dot ⟨s, 0⟩ = some (dot.re / s) := by
    unfold CplxOver.divRe
    dsimp only
    rw [if_neg hne]
    congr 1
    simp only [mul_zero, add_zero]
    field_simp
    ring
  have hsq : dot.re ^ 2 ≤ s ^ 2 := by
    rw [pow_two s, hss]
    exact hcs
  obtain ⟨h1, h2⟩ := abs_le_of_sq_le_sq' hsq hs
  refine ⟨dot.re / s, hval, ?_, ?_, ?_⟩
  · rw [le_div_iff₀ hs0]
    linarith
  · rw [div_le_one hs0]
    exact h2
  · rintro ⟨hd, hn⟩
    rw [hn] at hss
    have : s = nI := by
      have h3 : (s - nI) * (s + nI) = 0 := by ring_nf; rw [pow_two, hss]; ring
      rcases mul_eq_zero.mp h3 with h | h
      · linarith
      · linarith
    rw [hd, this]
    exact div_self (ne_of_gt hI)

/-- The sum of the correlation values of a particle: with every value in `[-1, 1]`, the sum
lies within the neighbour count of its start value. -/
theorem q_valueOver_bound {K : Type} [LinearOrderedField K] [DecidableEq K]
    (csqrt : CplxOver K → CplxOver K) (ptq : List (List (CplxOver K))) (iatom : Nat)
    (qI : List (CplxOver K)) (hI : ptq[iatom]? = some qI) :
    ∀ (nl : List Nat) (q0 : K),
      (∀ jatom ∈ nl, ∃ qJ c, ptq[jatom]? = some qJ ∧
        getCorrel.cij_realOver csqrt 6 qI qJ = some (some c) ∧ -1 ≤ c ∧ c ≤ 1) →
      ∃ q, getq6.q_valueOver csqrt ptq iatom nl (some q0) = some (some q) ∧
        q0 - (nl.length : K) ≤ q ∧ q ≤ q0 + (nl.length : K) := by
  intro nl
  induction nl with
  | nil =>
    intro q0 _
    exact ⟨q0, rfl, by simp, by simp⟩
  | cons jatom rest ih =>
    intro q0 h
    obtain ⟨qJ, c, hJ, hc, h1, h2⟩ := h jatom (List.mem_cons_self _ _)
    obtain ⟨q, hq, h3, h4⟩ := ih (q0 + c) (fun k hk => h k (List.mem_cons_of_mem _ hk))
    refine ⟨q, ?_, ?_, ?_⟩
    · rw [getq6.q_valueOver, hI, hJ]
      dsimp only
      rw [hc]
      exact hq
    · simp only [List.length_cons, Nat.cast_add, Nat.cast_one]
      linarith
    · simp only [List.length_cons, Nat.cast_add, Nat.cast_one]
      linarith

/-- The averaged value of a particle with at least one neighbour. -/
theorem resultOver_bound {K : Type} [LinearOrderedField K] [DecidableEq K]
    (csqrt : CplxOver K → CplxOver K) (ptq : List (List (CplxOver K))) (iatom : Nat)
    (qI : List (CplxOver K)) (hI : ptq[iatom]? = some qI) (nl : List Nat) (hnl : nl ≠ [])
    (h : ∀ jatom ∈ nl, ∃ qJ c, ptq[jatom]? = some qJ ∧
      getCorrel.cij_realOver csqrt 6 qI qJ = some (some c) ∧ -1 ≤ c ∧ c ≤ 1) :
    ∃ q, getq6.resultOver csqrt ptq iatom nl = some (some q) ∧ -1 ≤ q ∧ q ≤ 1 := by
  obtain ⟨q, hq, h1, h2⟩ := q_valueOver_bound csqrt ptq iatom qI hI nl 0 h
  have hlen : 0 < nl.length := List.length_pos.mpr hnl
  have hpos : (0 : K) < (nl.length : K) := Nat.cast_pos.mpr hlen
  refine ⟨q / (nl.length : K), ?_, ?_, ?_⟩
  · unfold getq6.resultOver
    rw [hq]
    dsimp only
    rw [if_neg (ne_of_gt hpos)]
  · rw [le_div_iff₀ hpos]
    linarith
  · rw [div_le_one hpos]
    linarith

/-! ### The rational model is the case `K = ℚ` -/

theorem divRe_over (a b : Cplx) :
    Cplx.divRe a b = Dbl.ofOption (CplxOver.divRe a.over b.over) := by
  unfold Cplx.divRe CplxOver.divRe Cplx.over
  dsimp only
  split_ifs <;> rfl

theorem sums_over (qI qJ : List Cplx) (ms : List Nat) :
    ∀ acc : Cplx × Cplx × Cplx,
      getCorrel.sumsOver (qI.map Cplx.over) (qJ.map Cplx.over) ms
          (acc.1.over, acc.2.1.over, acc.2.2.over) =
        (getCorrel.sums qI qJ ms acc).map (fun r => (r.1.over, r.2.1.over, r.2.2.over)) := by
  induction ms with
  | nil =>
    intro acc
    rfl
  | cons m rest ih =>
    intro acc
    obtain ⟨d, nI, nJ⟩ := acc
    rw [getCorrel.sumsOver, getCorrel.sums, List.getElem?_map, List.getElem?_map]
    cases qI[m]? with
    | none => rfl
    | some a =>
      cases qJ[m]? with
      | none => rfl
      | some b =>
        exact ih (Cplx.add d (Cplx.mul a (Cplx.conj b)), Cplx.add nI (Cplx.mul a (Cplx.conj a)),
          Cplx.add nJ (Cplx.mul b (Cplx.conj b)))

/-- The value `cij_real` of the rational model is the value over the field `ℚ`, for `l = 3` in
`getCorrel` and `getCorrelPlus` and for `l = 6` in `getq6`. -/
theorem cij_real_over (csqrt : Cplx → Cplx) (ptq : List (List Cplx)) (iatom jatom : Nat)
    (qI qJ : List Cplx) (hI : ptq[iatom]? = some qI) (hJ : ptq[jatom]? = some qJ) :
    getCorrel.cij_real csqrt ptq iatom jatom =
        (getCorrel.cij_realOver (fun z => (csqrt ⟨z.re, z.im⟩).over) 3 (qI.map Cplx.over)
          (qJ.map Cplx.over)).map Dbl.ofOption ∧
      getq6.cij_real csqrt ptq iatom jatom =
        (getCorrel.cij_realOver (fun z => (csqrt ⟨z.re, z.im⟩).over) 6 (qI.map Cplx.over)
          (qJ.map Cplx.over)).map Dbl.ofOption := by
  constructor
  · unfold getCorrel.cij_real getCorrel.cij_realOver
    rw [hI, hJ]
    dsimp only
    have := sums_over qI qJ (List.range (2 * 3 + 1)) (⟨0, 0⟩, ⟨0, 0⟩, ⟨0, 0⟩)
    have e : (⟨0, 0⟩ : CplxOver ℚ) = (⟨0, 0⟩ : Cplx).over := rfl
    rw [e, this]
    cases getCorrel.sums qI qJ (List.range (2 * 3 + 1)) (⟨0, 0⟩, ⟨0, 0⟩, ⟨0, 0⟩) with
    | none => rfl
    | some r =>
      obtain ⟨d, nI, nJ⟩ := r
      simp only [Option.map_some']
      rw [divRe_over]
      rfl
  · unfold getq6.cij_real getCorrel.cij_realOver
    rw [hI, hJ]
    dsimp only
    have := sums_over qI qJ (List.range (2 * 6 + 1)) (⟨0, 0⟩, ⟨0, 0⟩, ⟨0, 0⟩)
    have e : (⟨0, 0⟩ : CplxOver ℚ) = (⟨0, 0⟩ : Cplx).over := rfl
    rw [e, this]
    cases getCorrel.sums qI qJ (List.range (2 * 6 + 1)) (⟨0, 0⟩, ⟨0, 0⟩, ⟨0, 0⟩) with
    | none => rfl
    | some r =>
      obtain ⟨d, nI, nJ⟩ := r
      simp only [Option.map_some']
      rw [divRe_over]
      rfl

/-- C36: the correlation value lies in `[-1, 1]`.  In exact arithmetic, that is over the real
numbers with `std::sqrt` giving the real square root of a non-negative real number, and for
every `l` (3 in `getCorrel` and `getCorrelPlus`, 6 in `getq6`): for two vectors with `2 l + 1`
components, both non-zero, the value `cij_real` is a number of `[-1, 1]`; the value of a vector
with itself is 1; and for a particle with at least one neighbour, the vectors of the particle
and of its neighbours being non-zero, the averaged q6 value is a number of `[-1, 1]`.  The
value of the rational model `getCorrel.cij_real`, `getq6.cij_real` is the same computation over
the rational numbers. -/
theorem correlation_in_unit_interval (csqrt : CplxOver ℝ → CplxOver ℝ)
    (hsqrt : ∀ x : ℝ, 0 ≤ x → csqrt ⟨x, 0⟩ = ⟨Real.sqrt x, 0⟩) (l : Nat) :
    (∀ qI qJ : List (CplxOver ℝ), 2 * l + 1 ≤ qI.length → 2 * l + 1 ≤ qJ.length →
      (∃ m a, m < 2 * l + 1 ∧ qI[m]? = some a ∧ (a.re ≠ 0 ∨ a.im ≠ 0)) →
      (∃ m a, m < 2 * l + 1 ∧ qJ[m]? = some a ∧ (a.re ≠ 0 ∨ a.im ≠ 0)) →
      ∃ c, getCorrel.cij_realOver csqrt l qI qJ = some (some c) ∧ -1 ≤ c ∧ c ≤ 1) ∧
    (∀ qI : List (CplxOver ℝ), 2 * l + 1 ≤ qI.length →
      (∃ m a, m < 2 * l + 1 ∧ qI[m]? = some a ∧ (a.re ≠ 0 ∨ a.im ≠ 0)) →
      getCorrel.cij_realOver csqrt l qI qI = some (some 1)) ∧
    (∀ (ptq : List (List (CplxOver ℝ))) (iatom : Nat) (neighList : List Nat),
      neighList ≠ [] →
      (∀ k ∈ iatom :: neighList, ∃ q, ptq[k]? = some q ∧ 2 * 6 + 1 ≤ q.length ∧
        ∃ m a, m < 2 * 6 + 1 ∧ q[m]? = some a ∧ (a.re ≠ 0 ∨ a.im ≠ 0)) →
      ∃ q, getq6.resultOver csqrt ptq iatom neighList = some (some q) ∧ -1 ≤ q ∧ q ≤ 1) ∧
    (∀ (csqrtQ : Cplx → Cplx) (ptq : List (List Cplx)) (iatom jatom : Nat)
      (qI qJ : List Cplx), ptq[iatom]? = some qI → ptq[jatom]? = some qJ →
      getCorrel.cij_real csqrtQ ptq iatom jatom =
          (getCorrel.cij_realOver (fun z => (csqrtQ ⟨z.re, z.im⟩).over) 3 (qI.map Cplx.over)
            (qJ.map Cplx.over)).map Dbl.ofOption ∧
        getq6.cij_real csqrtQ ptq iatom jatom =
          (getCorrel.cij_realOver (fun z => (csqrtQ ⟨z.re, z.im⟩).over) 6 (qI.map Cplx.over)
            (qJ.map Cplx.over)).map Dbl.ofOption) := by
  have key : ∀ (l : Nat) (qI qJ : List (CplxOver ℝ)), 2 * l + 1 ≤ qI.length →
      2 * l + 1 ≤ qJ.length →
      (∃ m a, m < 2 * l + 1 ∧ qI[m]? = some a ∧ (a.re ≠ 0 ∨ a.im ≠ 0)) →
      (∃ m a, m < 2 * l + 1 ∧ qJ[m]? = some a ∧ (a.re ≠ 0 ∨ a.im ≠ 0)) →
      ∃ c, getCorrel.cij_realOver csqrt l qI qJ = some (some c) ∧ -1 ≤ c ∧ c ≤ 1 ∧
        (qI = qJ → c = 1) := by
    intro l qI qJ hI hJ hnzI hnzJ
    obtain ⟨dot, nI, nJ, hpI, hpJ, hcs, hself, hval⟩ :=
      cij_realOver_sums csqrt l qI qJ hI hJ hnzI hnzJ
    have hnn : 0 ≤ nI * nJ := le_of_lt (mul_pos hpI hpJ)
    obtain ⟨c, hc, h1, h2, h3⟩ := divRe_bound dot nI nJ (Real.sqrt (nI * nJ)) hpI hpJ hcs
      (Real.sqrt_nonneg _) (Real.mul_self_sqrt hnn)
    refine ⟨c, ?_, h1, h2, fun heq => h3 (hself heq)⟩
    rw [hval, hsqrt _ hnn, hc]
  refine ⟨?_, ?_, ?_, ?_⟩
  · intro qI qJ hI hJ hnzI hnzJ
    obtain ⟨c, hc, h1, h2, _⟩ := key l qI qJ hI hJ hnzI hnzJ
    exact ⟨c, hc, h1, h2⟩
  · intro qI hI hnzI
    obtain ⟨c, hc, _, _, h3⟩ := key l qI qI hI hI hnzI hnzI
    rw [hc, h3 rfl]
  · intro ptq iatom neighList hnl hvec
    obtain ⟨qI, hqI, hlenI, hnzI⟩ := hvec iatom (List.mem_cons_self _ _)
    apply resultOver_bound csqrt ptq iatom qI hqI neighList hnl
    intro jatom hj
    obtain ⟨qJ, hqJ, hlenJ, hnzJ⟩ := hvec jatom (List.mem_cons_of_mem _ hj)
    obtain ⟨c, hc, h1, h2, _⟩ := key 6 qI qJ hlenI hlenJ hnzI hnzJ
    exact ⟨qJ, c, hqJ, hc, h1, h2⟩
  · intro csqrtQ ptq iatom jatom qI qJ hI hJ
    exact cij_real_over csqrtQ ptq iatom jatom qI qJ hI hJ

/-- Witness of C36: over the real numbers, the vector with the components `1 + i, 0, .., 0` and
the vector with the components `1, 1, 0, .., 0` have a correlation value in `[-1, 1]`; in the
rational model, where the square root of 4 is exact, the value is `1/2`. -/
theorem correlation_in_unit_interval_witness :
    getCorrel.cij_real exampleSqrt examplePtq 0 1 = some (Dbl.val (1 / 2)) ∧
    ∃ c, getCorrel.cij_realOver (fun z : CplxOver ℝ => ⟨Real.sqrt z.re, 0⟩) 3
        [⟨1, 1⟩, ⟨0, 0⟩, ⟨0, 0⟩, ⟨0, 0⟩, ⟨0, 0⟩, ⟨0, 0⟩, ⟨0, 0⟩]
        [⟨1, 0⟩, ⟨1, 0⟩, ⟨0, 0⟩, ⟨0, 0⟩, ⟨0, 0⟩, ⟨0, 0⟩, ⟨0, 0⟩] = some (some c) ∧
      -1 ≤ c ∧ c ≤ 1 :=
  ⟨by decide!,
    (correlation_in_unit_interval (fun z : CplxOver ℝ => ⟨Real.sqrt z.re, 0⟩)
      (fun _ _ => rfl) 3).1 _ _ (by decide) (by decide)
      ⟨0, ⟨1, 1⟩, by decide, rfl, Or.inl one_ne_zero⟩
      ⟨0, ⟨1, 0⟩, by decide, rfl, Or.inl one_ne_zero⟩⟩

/-! ### The linked list of `largestIceCluster` has no entry -/

theorem init_foldl (is : List Nat) (L : List Nat) (h : ∀ i ∈ is, i < L.length) :
    largestIceCluster.init is L = some (is.foldl (fun M i => M.set i i) L) := by
  induction is generalizing L with
  | nil => rfl
  | cons i rest ih =>
    have hi : i < L.length := h i (List.mem_cons_self _ _)
    simp only [largestIceCluster.init, hi, if_true, List.foldl_cons]
    exact ih _ (fun k hk => by rw [List.length_set]; exact h k (List.mem_cons_of_mem _ hk))

theorem foldl_set_range (L : List Nat) (k : Nat) :
    ((List.range k).foldl (fun M i => M.set i i) L).length = L.length ∧
    ∀ i, i < L.length →
      ((List.range k).foldl (fun M i => M.set i i) L)[i]? = if i < k then some i else L[i]? := by
  induction k with
  | zero => simp
  | succ k ih =>
    obtain ⟨h1, h2⟩ := ih
    rw [List.range_succ, List.foldl_append]
    simp only [List.foldl_cons, List.foldl_nil, List.length_set]
    refine ⟨h1, fun i hi => ?_⟩
    by_cases hik : i = k
    · subst hik
      rw [List.getElem?_set_self (by rw [h1]; exact hi), if_pos (by omega)]
    · rw [List.getElem?_set_ne (fun h => hik h.symm), h2 i hi]
      by_cases hlt : i < k
      · rw [if_pos hlt, if_pos (by omega)]
      · rw [if_neg hlt, if_neg (by omega)]

/-- In a vector that has its `nop` entries the initialisation loop leaves the linked list
`0 .. nop - 1`. -/
theorem init_sized (L : List Nat) :
    largestIceCluster.init (List.range L.length) L = some (List.range L.length) := by
  rw [init_foldl _ _ (fun i hi => List.mem_range.mp hi)]
  obtain ⟨h1, h2⟩ := foldl_set_range L L.length
  congr 1
  apply List.ext_getElem?
  intro i
  by_cases hi : i < L.length
  · rw [h2 i hi, if_pos hi, List.getElem?_range hi]
  · rw [List.getElem?_eq_none (by omega), List.getElem?_eq_none (by simp; omega)]

/-- In the vector without entries the first write of the initialisation loop is out of
range. -/
theorem init_unsized (n : Nat) (h : 0 < n) : largestIceCluster.init (List.range n) [] = none := by
  cases n with
  | zero => omega
  | succ k =>
    rw [List.range_succ_eq_map]
    rfl

/-- The two loops are not reached for a non-empty ice cloud. -/
theorem clusters_unsized (fuel : Nat) (periodicDist : PointCloud → Nat → Nat → Dbl)
    (iceCloud : PointCloud) (cutoff : Dbl) (h : 0 < iceCloud.nop) :
    largestIceCluster.clusters fuel periodicDist iceCloud cutoff = none := by
  simp only [largestIceCluster.clusters, init_unsized _ h]

/-- The function returns no value, whatever its arguments: for a non-empty ice cloud the
initialisation loop writes out of range, for an empty one line 925 reads `nCluster[0]`. -/
theorem largestIceCluster_unsized (fuel : Nat) (periodicDist : PointCloud → Nat → Nat → Dbl)
    (iceCloud : PointCloud) (cutoff : Dbl) (printCluster isSlice : Bool) :
    largestIceCluster fuel periodicDist iceCloud cutoff printCluster isSlice = none := by
  by_cases h : 0 < iceCloud.nop
  · simp only [largestIceCluster, init_unsized _ h]
  · have h0 : iceCloud.nop = 0 := by omega
    simp [largestIceCluster, largestIceCluster.init, largestIceCluster.body,
      largestIceCluster.loops, h0, max_element]

/-- C1, refuted: `largestIceCluster` does not return the size of the largest connected
component.  Four particles on a line at the abscissas 0, 1, 5, 2, with the distance between the
abscissas, which is symmetric, and the cutoff 1: the largest component holds the 3 particles 0,
1 and 3, and 3 is what the rest of the function returns on the linked list `0, 1, 2, 3`; but the
vector `linkedListCluster` has no entry (`reserve`, line 869) when the initialisation loop
writes `linkedListCluster[0]` (line 873), and the function returns no value.  It is so for every
non-empty ice cloud. -/
theorem largestIceCluster_no_component_size :
    (∀ a b, exampleDist (exampleIce [0, 1, 5, 2]) a b =
      exampleDist (exampleIce [0, 1, 5, 2]) b a) ∧
    0 < (exampleIce [0, 1, 5, 2]).nop ∧
    largestIceCluster.body 4 exampleDist (exampleIce [0, 1, 5, 2]) (Dbl.val 1) false false
      [0, 1, 2, 3] = some (3, none) ∧
    largestIceCluster.init (List.range (exampleIce [0, 1, 5, 2]).nop) [] = none ∧
    largestIceCluster 4 exampleDist (exampleIce [0, 1, 5, 2]) (Dbl.val 1) false false = none ∧
    ∀ (fuel : Nat) (periodicDist : PointCloud → Nat → Nat → Dbl) (iceCloud : PointCloud)
      (cutoff : Dbl) (printCluster isSlice : Bool), 0 < iceCloud.nop →
      largestIceCluster.init (List.range iceCloud.nop) [] = none ∧
      largestIceCluster fuel periodicDist iceCloud cutoff printCluster isSlice = none :=
  ⟨fun a b => exampleDist_symm _ a b, by decide, by decide!, rfl, rfl,
    fun fuel periodicDist iceCloud cutoff printCluster isSlice h =>
      ⟨init_unsized _ h, largestIceCluster_unsized fuel periodicDist iceCloud cutoff
        printCluster isSlice⟩⟩

/-- C2, refuted: `largestIceCluster` does not return the number of particles of a chain.  Three
particles at the abscissas 1, 0, 2 form one chain with the cutoff 1 (particle 1, then 0, then
2), and a single particle is a chain of one: the function returns no value for either, the
vector `linkedListCluster` having no entry when the initialisation loop writes it (lines 869,
873).  With two more particles at the abscissas 10 and 11, a second and shorter chain, it
returns no value either. -/
theorem largestIceCluster_no_chain_size :
    exampleDist (exampleIce [1, 0, 2]) 1 0 ≤ Dbl.val 1 ∧
    exampleDist (exampleIce [1, 0, 2]) 0 2 ≤ Dbl.val 1 ∧
    largestIceCluster.body 3 exampleDist (exampleIce [1, 0, 2]) (Dbl.val 1) false false
      [0, 1, 2] = some (3, none) ∧
    largestIceCluster 3 exampleDist (exampleIce [1, 0, 2]) (Dbl.val 1) false false = none ∧
    largestIceCluster 1 exampleDist (exampleIce [0]) (Dbl.val 1) false false = none ∧
    largestIceCluster 5 exampleDist (exampleIce [1, 0, 2, 10, 11]) (Dbl.val 1) false false =
      none :=
  ⟨by decide!, by decide!, by decide!, rfl, rfl, rfl⟩

/-- C26, refuted: `largestIceCluster` reports no cluster, so none chosen by a tie-break.  Four
particles on a line at the abscissas 0, 1, 5, 6 with cutoff 1 form two clusters of 2 particles,
which the two loops record with the start indices 0 and 2 when run on the linked list `0, 1, 2,
3`; the function does not reach these loops, the vector `linkedListCluster` having no entry when
the initialisation loop writes it (lines 869, 873): no start index is recorded, no value
returned and no member emitted. -/
theorem largestIceCluster_no_tie_break :
    largestIceCluster.loops 4 exampleDist (exampleIce [0, 1, 5, 6]) (Dbl.val 1) [0, 1, 2, 3] =
      some ([1, 0, 3, 2], [0, 2], [2, 2]) ∧
    largestIceCluster.clusters 4 exampleDist (exampleIce [0, 1, 5, 6]) (Dbl.val 1) = none ∧
    largestIceCluster 4 exampleDist (exampleIce [0, 1, 5, 6]) (Dbl.val 1) false false = none ∧
    largestIceCluster 4 exampleDist (exampleIce [0, 1, 5, 6]) (Dbl.val 1) true false = none :=
  ⟨by decide!, rfl, rfl, rfl⟩

/-- C30, refuted: the linked list of `largestIceCluster` is not a permutation of `0 .. N - 1`.
For every non-empty ice cloud the vector `linkedListCluster` has no entry (it is declared empty,
and line 869 reserves storage without changing its size), the list without entries is no
permutation of `0 .. N - 1`, the first write of the initialisation loop (line 873) is out of
range, and the construction loop is not reached. -/
theorem linked_list_not_permutation :
    largestIceCluster.init (List.range (exampleIce [0, 1, 5, 2]).nop) [] = none ∧
    largestIceCluster.clusters 4 exampleDist (exampleIce [0, 1, 5, 2]) (Dbl.val 1) = none ∧
    ∀ (fuel : Nat) (periodicDist : PointCloud → Nat → Nat → Dbl) (iceCloud : PointCloud)
      (cutoff : Dbl), 0 < iceCloud.nop →
      ¬ ([] : List Nat).Perm (List.range iceCloud.nop) ∧
      largestIceCluster.init (List.range iceCloud.nop) [] = none ∧
      largestIceCluster.clusters fuel periodicDist iceCloud cutoff = none := by
  refine ⟨rfl, rfl, fun fuel periodicDist iceCloud cutoff h => ⟨?_, init_unsized _ h,
    clusters_unsized fuel periodicDist iceCloud cutoff h⟩⟩
  intro hperm
  have hlen := hperm.length_eq
  simp only [List.length_nil, List.length_range] at hlen
  omega

/-- C31, refuted: the size-measuring pass of `largestIceCluster` counts no cluster.  Four
particles on a line at the abscissas 0, 1, 5, 2 with cutoff 1: on the linked list `0, 1, 2, 3`
the two loops record the start indices 0 and 2 with the sizes 3 and 1; in the function the
vector `linkedListCluster` has no entry when the initialisation loop writes it (lines 869, 873),
and the measuring pass is not reached.  It is so for every non-empty ice cloud. -/
theorem clusters_not_measured :
    largestIceCluster.loops 4 exampleDist (exampleIce [0, 1, 5, 2]) (Dbl.val 1) [0, 1, 2, 3] =
      some ([1, 3, 2, 0], [0, 2], [3, 1]) ∧
    largestIceCluster.clusters 4 exampleDist (exampleIce [0, 1, 5, 2]) (Dbl.val 1) = none ∧
    ∀ (fuel : Nat) (periodicDist : PointCloud → Nat → Nat → Dbl) (iceCloud : PointCloud)
      (cutoff : Dbl), 0 < iceCloud.nop →
      largestIceCluster.clusters fuel periodicDist iceCloud cutoff = none :=
  ⟨by decide!, rfl, clusters_unsized⟩

/-- C32, refuted: `largestIceCluster` is not a total function of its input: it returns no value
for any ice cloud, distance function, cutoff and flags, however many iterations the do-while is
allowed.  For a non-empty ice cloud the initialisation loop writes `linkedListCluster[0]` in a
vector that has no entry (lines 869, 873), before the construction loop is reached; for an empty
one the loops do not run and line 925 reads `nCluster[0]` in an empty vector. -/
theorem largestIceCluster_not_total :
    (∀ (fuel : Nat) (periodicDist : PointCloud → Nat → Nat → Dbl) (iceCloud : PointCloud)
      (cutoff : Dbl) (printCluster isSlice : Bool),
      largestIceCluster fuel periodicDist iceCloud cutoff printCluster isSlice = none) ∧
    (∀ (fuel : Nat) (periodicDist : PointCloud → Nat → Nat → Dbl) (iceCloud : PointCloud)
      (cutoff : Dbl), 0 < iceCloud.nop →
      largestIceCluster.init (List.range iceCloud.nop) [] = none ∧
      largestIceCluster.clusters fuel periodicDist iceCloud cutoff = none) ∧
    largestIceCluster 4 exampleOneWay (exampleIce [0, 1, 5, 2]) (Dbl.val 1) false false =
      none ∧
    largestIceCluster 0 exampleDist exampleEmpty (Dbl.val 1) false false = none :=
  ⟨largestIceCluster_unsized,
    fun fuel periodicDist iceCloud cutoff h =>
      ⟨init_unsized _ h, clusters_unsized fuel periodicDist iceCloud cutoff h⟩,
    rfl, rfl⟩

/-- C33, refuted: `largestIceCluster` emits no member record.  Four particles on a line at the
abscissas 0, 1, 5, 2 with cutoff 1 and `printCluster` set: the largest cluster holds the
particles 0, 1 and 3, but the function returns no value and no frame, the vector
`linkedListCluster` having no entry when the initialisation loop writes it (lines 869, 873).  It
is so for every non-empty ice cloud. -/
theorem largestIceCluster_no_member_records :
    largestIceCluster.loops 4 exampleDist (exampleIce [0, 1, 5, 2]) (Dbl.val 1) [0, 1, 2, 3] =
      some ([1, 3, 2, 0], [0, 2], [3, 1]) ∧
    largestIceCluster 4 exampleDist (exampleIce [0, 1, 5, 2]) (Dbl.val 1) true false = none ∧
    ∀ (fuel : Nat) (periodicDist : PointCloud → Nat → Nat → Dbl) (iceCloud : PointCloud)
      (cutoff : Dbl) (isSlice : Bool), 0 < iceCloud.nop →
      ∀ (n : Nat) (dump : ClusterDump),
        largestIceCluster fuel periodicDist iceCloud cutoff true isSlice ≠
          some (n, some dump) := by
  refine ⟨by decide!, rfl, fun fuel periodicDist iceCloud cutoff isSlice _ n dump => ?_⟩
  rw [largestIceCluster_unsized]
  exact fun h => Option.noConfusion h

/-- C38, refuted: `largestIceCluster` returns no values to compare.  Four particles on a line at the
abscissas 0, 1, 5, 2 with the distance between the abscissas, which is symmetric, and the
cutoffs `1 <= 3`: on the linked list `0, 1, 2, 3` the rest of the function returns 3 and 4, but
the function returns no value for either cutoff, the vector `linkedListCluster` having no entry
when the initialisation loop writes it (lines 869, 873). -/
theorem largestIceCluster_no_cutoff_comparison :
    Dbl.val 1 ≤ Dbl.val 3 ∧
    largestIceCluster.body 4 exampleDist (exampleIce [0, 1, 5, 2]) (Dbl.val 1) false false
      [0, 1, 2, 3] = some (3, none) ∧
    largestIceCluster.body 4 exampleDist (exampleIce [0, 1, 5, 2]) (Dbl.val 3) false false
      [0, 1, 2, 3] = some (4, none) ∧
    largestIceCluster 4 exampleDist (exampleIce [0, 1, 5, 2]) (Dbl.val 1) false false = none ∧
    largestIceCluster 4 exampleDist (exampleIce [0, 1, 5, 2]) (Dbl.val 3) false false = none ∧
    ¬ ∃ n1 n2 dump1 dump2,
      largestIceCluster 4 exampleDist (exampleIce [0, 1, 5, 2]) (Dbl.val 1) false false =
        some (n1, dump1) ∧
      largestIceCluster 4 exampleDist (exampleIce [0, 1, 5, 2]) (Dbl.val 3) false false =
        some (n2, dump2) ∧ n1 ≤ n2 := by
  refine ⟨by decide!, by decide!, by decide!, rfl, rfl, ?_⟩
  rintro ⟨n1, n2, dump1, dump2, h1, _, _⟩
  rw [largestIceCluster_unsized] at h1
  exact Option.noConfusion h1

/-! ### Bond results stored by an earlier pass -/

/-- C11, as stated, fails on `exampleFresh`, whose five particles have 4 neighbours each.  A
pass of `getCorrelPlus` in which every correlation value is `-0.9` stores 4 results per
particle, staggered.  A second pass of `getCorrelPlus`, in which every correlation value is `0`,
inside `[-0.35, 0.25]`, labels its 4 bonds eclipsed and pushes them behind the 4 results the
particle holds (line 553); `getIceTypePlus` counts the first 4 results and tags every particle
cubic, not clathrate. -/
theorem clathrate_coordination_counterexample :
    getCorrelPlus (fun _ _ => Dbl.val (-0.9)) exampleFresh false =
      some (exampleStale (List.replicate 4 ⟨bond_type.staggered, Dbl.val (-0.9)⟩)
        atom_state_type.unclassified) ∧
    (Dbl.val (-0.35) ≤ Dbl.val 0 ∧ Dbl.val 0 ≤ Dbl.val 0.25) ∧
    getCorrelPlus (fun _ _ => Dbl.val 0)
        (exampleStale (List.replicate 4 ⟨bond_type.staggered, Dbl.val (-0.9)⟩)
          atom_state_type.unclassified) false =
      some (exampleStale (List.replicate 4 ⟨bond_type.staggered, Dbl.val (-0.9)⟩ ++
        List.replicate 4 (getCorrelPlus.temp_cij (Dbl.val 0))) atom_state_type.unclassified) ∧
    (getCorrelPlus.temp_cij (Dbl.val 0)).classifier = bond_type.eclipsed ∧
    getIceTypePlus (exampleStale (List.replicate 4 ⟨bond_type.staggered, Dbl.val (-0.9)⟩ ++
        List.replicate 4 (getCorrelPlus.temp_cij (Dbl.val 0))) atom_state_type.unclassified)
        false =
      some (exampleStale (List.replicate 4 ⟨bond_type.staggered, Dbl.val (-0.9)⟩ ++
        List.replicate 4 (getCorrelPlus.temp_cij (Dbl.val 0))) atom_state_type.cubic,
        [0, 5, 0, 0, 0, 0, 0, 5]) ∧
    ∃ q, (exampleStale (List.replicate 4 ⟨bond_type.staggered, Dbl.val (-0.9)⟩ ++
        List.replicate 4 (getCorrelPlus.temp_cij (Dbl.val 0)))
        atom_state_type.cubic).pts[0]? = some q ∧
      q.neighList.length = 4 ∧ q.iceType = atom_state_type.cubic ∧
      q.iceType ≠ atom_state_type.clathrate :=
  ⟨by decide!, by decide!, by decide!, by decide!, by decide!,
    _, rfl, rfl, rfl, by decide⟩

end chill
